import Mathlib

/-! The import orchestrator and the conflict classifier of lagoon-cli.

A shallow embedding of

* `src/internal/lagoon/import.go`  : `ErrExist`, the `Importer` interface, `Import`;
* `src/pkg/lagoon/client/mutation.go` : `duplicate`, `wrapErr`, the methods of `Client`.

The remote client is an arbitrary deterministic behaviour: a function from the
history of calls already answered and the call being made to a response.  A run
of `Import` produces the value it returns together with the trace of every
client call it issued (each with the response it got) and the lines it logged.
-/

namespace Lagoon

/-! ## Go errors -/

/-- Go error values.  `errorString addr s` is a `*errors.errorString`, the
result of `errors.New` (or of `fmt.Errorf` without `%w`); `addr` stands for the
pointer, which is what `==` compares.  `wrapError msg err` is a
`*fmt.wrapError`, the result of `fmt.Errorf` with one `%w` verb: `msg` is the
formatted text and `err` the operand of `%w`, returned by `Unwrap`.
`other comparable id s` is an error value of any other dynamic type, with the
message `s` and neither an `Unwrap` nor an `Is` method: `comparable` tells
whether its dynamic type is comparable (an error type built on a slice is
not), `id` tells two such values apart.

A term stands for one value: `==` on two values is equality of terms.  For
pointers this is exact as long as the two values compared are the same value or
differ in content, which is so throughout: an error is compared with the
sentinel `ErrExist`, or with an error that it wraps. -/
inductive GoError where
  | errorString (addr : Nat) (s : String)
  | wrapError (msg : String) (err : GoError)
  | other (comparable : Bool) (id : Nat) (s : String)
deriving DecidableEq, Repr

namespace GoError

/-- The `Error()` method. -/
def Error : GoError → String
  | errorString _ s => s
  | wrapError msg _ => msg
  | other _ _ s => s

/-- The `Unwrap()` step of package `errors`: `nil` for a value without the method. -/
def Unwrap : GoError → Option GoError
  | errorString _ _ => none
  | wrapError _ err => some err
  | other _ _ _ => none

/-- Whether the dynamic type of the value is comparable
(`reflectlite.TypeOf(target).Comparable()`): pointers are. -/
def comparable : GoError → Bool
  | errorString _ _ => true
  | wrapError _ _ => true
  | other c _ _ => c

/-- The call `errors.Is(err, target)` for a non-nil `err`: walk the `Unwrap`
chain, comparing every element with `target`; nothing is compared with a
target whose dynamic type is not comparable. -/
def Is : GoError → GoError → Bool
  | errorString addr s, target => target.comparable && decide (errorString addr s = target)
  | wrapError msg err, target =>
    (target.comparable && decide (wrapError msg err = target)) || Is err target
  | other c id s, target => target.comparable && decide (other c id s = target)

end GoError

/-- The call `errors.Is(err, target)` on a possibly nil `err`. -/
def errorsIs (err : Option GoError) (target : GoError) : Bool :=
  match err with
  | none => false
  | some e => e.Is target

/-- The variable `ErrExist` (import.go:18): `errors.New("object already exists")`. -/
def ErrExist : GoError := GoError.errorString 0 "object already exists"

/-- The call `fmt.Errorf(ctx + ": %w", err)`: the message is the context
followed by `": "` and the message of `err`, and `err` is wrapped. -/
def Errorf (ctx : String) (err : GoError) : GoError :=
  GoError.wrapError (ctx ++ ": " ++ err.Error) err

/-- The verb `%v` applied to a `[]string`. -/
def fmtStrings (xs : List String) : String :=
  "[" ++ " ".intercalate xs ++ "]"

/-! ## The schema types, as far as `Import` uses them

Package `schema` is not among the sources; every structure below has the fields
that `Import` reads or writes, under their Go names, and one or two further
attributes standing for the remaining payload.  Promoted fields are resolved as
`Import` uses them: `p.Name` and `p.Openshift` are fields of `p.AddProjectInput`,
`group.Name` of `group.AddGroupInput`, `user.Email` of `user.AddUserInput`,
`env.Name` and `env.ProjectID` of `env.Environment.AddEnvironmentInput`.
Values of type `uint` are natural numbers: `Import` does no arithmetic on them. -/

structure AddBillingGroupInput where
  Name : String
  Currency : String
deriving DecidableEq, Repr

structure AddGroupInput where
  Name : String
deriving DecidableEq, Repr

structure AddUserInput where
  Email : String
  Comment : String
deriving DecidableEq, Repr

structure SSHKey where
  Name : String
  KeyValue : String
deriving DecidableEq, Repr

structure AddSSHKeyInput where
  SSHKey : SSHKey
  UserEmail : String
deriving DecidableEq, Repr

structure UserGroupRoleInput where
  UserEmail : String
  GroupName : String
  GroupRole : String
deriving DecidableEq, Repr

structure AddNotificationSlackInput where
  Name : String
  Webhook : String
  Channel : String
deriving DecidableEq, Repr

structure AddNotificationRocketChatInput where
  Name : String
  Webhook : String
  Channel : String
deriving DecidableEq, Repr

structure AddProjectInput where
  Name : String
  GitURL : String
  Openshift : Nat
deriving DecidableEq, Repr

structure EnvKeyValue where
  Scope : String
  Name : String
  Value : String
deriving DecidableEq, Repr

/-- The constants `api.ProjectVar` and `api.EnvironmentVar`. -/
inductive EnvVariableType where
  | ProjectVar
  | EnvironmentVar
deriving DecidableEq, Repr

structure EnvVariableInput where
  EnvKeyValue : EnvKeyValue
  Type_ : EnvVariableType
  TypeID : Nat
deriving DecidableEq, Repr

structure AddEnvironmentInput where
  Name : String
  ProjectID : Nat
  DeployBaseRef : String
deriving DecidableEq, Repr

structure GroupInput where
  Name : String
deriving DecidableEq, Repr

structure ProjectInput where
  Name : String
deriving DecidableEq, Repr

structure ProjectGroupsInput where
  Project : ProjectInput
  Groups : List GroupInput
deriving DecidableEq, Repr

structure ProjectBillingGroupInput where
  Group : GroupInput
  Project : ProjectInput
deriving DecidableEq, Repr

/-- The constants `api.SlackNotification` and `api.RocketChatNotification`. -/
inductive NotificationType where
  | SlackNotification
  | RocketChatNotification
deriving DecidableEq, Repr

structure AddNotificationToProjectInput where
  Project : String
  NotificationType : NotificationType
  NotificationName : String
deriving DecidableEq, Repr

/-- An element of `group.Users` and of `p.Users`. -/
structure UserRoleConfig where
  Email : String
  Role : String
deriving DecidableEq, Repr

structure GroupConfig where
  AddGroupInput : AddGroupInput
  Users : List UserRoleConfig
deriving DecidableEq, Repr

structure UserConfig where
  AddUserInput : AddUserInput
  SSHKeys : List SSHKey
deriving DecidableEq, Repr

structure NotificationsConfig where
  Slack : List AddNotificationSlackInput
  RocketChat : List AddNotificationRocketChatInput
deriving DecidableEq, Repr

structure ProjectNotificationsConfig where
  Slack : List String
  RocketChat : List String
deriving DecidableEq, Repr

structure Environment where
  AddEnvironmentInput : AddEnvironmentInput
  EnvVariables : List EnvKeyValue
deriving DecidableEq, Repr

structure EnvironmentConfig where
  Environment : Environment
deriving DecidableEq, Repr

structure ProjectConfig where
  AddProjectInput : AddProjectInput
  EnvVariables : List EnvKeyValue
  Environments : List EnvironmentConfig
  Groups : List String
  BillingGroups : List String
  Users : List UserRoleConfig
  Notifications : Option ProjectNotificationsConfig
deriving DecidableEq, Repr

/-- The parsed configuration `schema.Config`; a nil `Notifications` pointer is `none`. -/
structure Config where
  BillingGroups : List AddBillingGroupInput
  Groups : List GroupConfig
  Users : List UserConfig
  Notifications : Option NotificationsConfig
  Projects : List ProjectConfig
deriving DecidableEq, Repr

/-! ## The client -/

/-- One call on the `Importer` interface, with its input (the context and the
output pointer apart). -/
inductive Call where
  | AddGroup (inp : AddGroupInput)
  | AddUser (inp : AddUserInput)
  | AddSSHKey (inp : AddSSHKeyInput)
  | AddUserToGroup (inp : UserGroupRoleInput)
  | AddNotificationSlack (inp : AddNotificationSlackInput)
  | AddNotificationRocketChat (inp : AddNotificationRocketChatInput)
  | AddProject (inp : AddProjectInput)
  | AddEnvVariable (inp : EnvVariableInput)
  | ProjectByName (name : String)
  | AddOrUpdateEnvironment (inp : AddEnvironmentInput)
  | EnvironmentByName (name : String) (project : Nat)
  | AddGroupsToProject (inp : ProjectGroupsInput)
  | AddNotificationToProject (inp : AddNotificationToProjectInput)
  | AddBillingGroup (inp : AddBillingGroupInput)
  | AddProjectToBillingGroup (inp : ProjectBillingGroupInput)
deriving DecidableEq, Repr

/-- What a call answers: the error it returns (`none` is nil) and what it does
to the `ID` of the output record it was handed (`some n` writes `n`, `none`
leaves the record as it is).  `Import` reads no other field of an output
record, and hands a nil output pointer to every operation whose output it does
not read. -/
structure Response where
  err : Option GoError
  out : Option Nat
deriving DecidableEq, Repr

/-- A call together with the response it got. -/
structure Event where
  call : Call
  resp : Response
deriving DecidableEq, Repr

/-- A value of the interface `Importer`: a deterministic client.  Its answer
may depend on everything that happened before (`history`, oldest first). -/
structure Importer where
  respond : (history : List Event) → Call → Response

/-! ## The run state -/

/-- The state of a run of `Import`: the client calls issued so far (oldest
first), the lines written to the logger `l`, and the `ID` of the local variable
`newProj` (import.go:145; the zero value until a client call writes it). -/
structure St where
  trace : List Event
  log : List String
  newProj : Nat
deriving DecidableEq, Repr

/-- A block of statements of `Import`: from a state to `some err` when the
block executes `return err`, `none` when control leaves it at its end, and the
state reached. -/
abbrev Block := St → Option GoError × St

/-- The call `l.Printf(...)` on the logger of import.go:65, whose line starts
with `"import: "`. -/
def St.printf (s : St) (line : String) : St :=
  { s with log := s.log ++ ["import: " ++ line] }

/-- Issue a client call with a nil output pointer. -/
def St.invoke (s : St) (i : Importer) (c : Call) : Response × St :=
  let r := i.respond s.trace c
  (r, { s with trace := s.trace ++ [⟨c, r⟩] })

/-- Issue a client call with the output pointer `&newProj`. -/
def St.invokeProj (s : St) (i : Importer) (c : Call) : Response × St :=
  let r := i.respond s.trace c
  (r, { s with trace := s.trace ++ [⟨c, r⟩], newProj := r.out.getD s.newProj })

/-- Sequential composition: a `return` in the first block ends the run. -/
def andThen (b₁ b₂ : Block) : Block := fun s =>
  match b₁ s with
  | (some e, s₁) => (some e, s₁)
  | (none, s₁) => b₂ s₁

/-- A `for _, x := range xs` loop. -/
def forEach {α : Type} (xs : List α) (body : α → Block) : Block :=
  match xs with
  | [] => fun s => (none, s)
  | x :: rest => andThen (body x) (forEach rest body)

/-- The statement pattern every phase of `Import` repeats (for instance
import.go:68-73): call the operation with a nil output pointer; on an error
return it wrapped with the phase's context if `keepGoing` is false, log it under
the same context otherwise. -/
def attempt (i : Importer) (keepGoing : Bool) (c : Call) (ctx : String) : Block := fun s =>
  let (r, s₁) := s.invoke i c
  match r.err with
  | none => (none, s₁)
  | some err =>
    if !keepGoing then (some (Errorf ctx err), s₁)
    else (none, s₁.printf (ctx ++ ": " ++ err.Error))

/-- The empty block. -/
def skip : Block := fun s => (none, s)

/-- Blocks executed one after the other. -/
def seq : List Block → Block
  | [] => skip
  | b :: rest => andThen b (seq rest)

/-! ## `Import` (import.go:51-309) -/

/-- The loop over `env.EnvVariables` (import.go:207-219), with the `ID` of
`newEnv` that it reads. -/
def addEnvironmentEnvVars (i : Importer) (keepGoing : Bool) (env : EnvironmentConfig)
    (newEnv : Nat) : Block :=
  forEach env.Environment.EnvVariables (fun ev =>
    attempt i keepGoing
      (Call.AddEnvVariable ⟨ev, EnvVariableType.EnvironmentVar, newEnv⟩)
      "couldn't add Environment EnvVariable")

/-- The body of the loop over `p.Environments` (import.go:183-219).  `newEnv`
is a fresh record in every iteration; the project ID is injected into the
creation input before the call. -/
def importEnvironment (i : Importer) (keepGoing : Bool) (p : ProjectConfig)
    (env : EnvironmentConfig) : Block := fun s =>
  let inp : AddEnvironmentInput :=
    { env.Environment.AddEnvironmentInput with ProjectID := s.newProj }
  let (r, s₁) := s.invoke i (Call.AddOrUpdateEnvironment inp)
  let newEnv : Nat := r.out.getD 0
  match r.err with
  | none => addEnvironmentEnvVars i keepGoing env newEnv s₁
  | some err =>
    if err.Is ErrExist then
      -- this environment exists already
      if !keepGoing then (some (Errorf "environment exists" err), s₁)
      else
        let s₂ := s₁.printf ("environment \"" ++ inp.Name ++ "\" (project \""
          ++ p.AddProjectInput.Name ++ "\") exists, query by name for ID")
        let (r₂, s₃) := s₂.invoke i (Call.EnvironmentByName inp.Name inp.ProjectID)
        match r₂.err with
        | some err₂ => (some (Errorf "couldn't get environment by name" err₂), s₃)
        | none => addEnvironmentEnvVars i keepGoing env (r₂.out.getD newEnv) s₃
    else
      if !keepGoing then (some (Errorf "couldn't add Environment" err), s₁)
      else (none, s₁.printf ("couldn't add Environment: " ++ err.Error))

/-- The loop over `p.EnvVariables` (import.go:167-180); `newProj.ID` is read
from the state at every call. -/
def addProjectEnvVars (i : Importer) (keepGoing : Bool) (p : ProjectConfig) : Block :=
  forEach p.EnvVariables (fun ev s =>
    attempt i keepGoing
      (Call.AddEnvVariable ⟨ev, EnvVariableType.ProjectVar, s.newProj⟩)
      "couldn't add Project EnvVariable" s)

/-- The steps of the project loop's body that follow the environments
(import.go:221-305): the groups, the check of the billing groups, the billing
group, the users and the notifications of the project. -/
def addProjectAssociations (i : Importer) (keepGoing : Bool) (p : ProjectConfig) : Block :=
  seq [
    -- add groups to project
    if p.Groups.length > 0 then
      attempt i keepGoing
        (Call.AddGroupsToProject ⟨⟨p.AddProjectInput.Name⟩, p.Groups.map GroupInput.mk⟩)
        ("couldn't add Groups to Project \"" ++ p.AddProjectInput.Name ++ "\"")
    else skip,
    if p.BillingGroups.length > 1 then
      fun s => (some (GoError.errorString 1
        ("project can only have one billing group: " ++ fmtStrings p.BillingGroups)), s)
    else skip,
    -- add project to billing group
    forEach p.BillingGroups (fun bgName =>
      attempt i keepGoing
        (Call.AddProjectToBillingGroup ⟨⟨bgName⟩, ⟨p.AddProjectInput.Name⟩⟩)
        ("couldn't add Project \"" ++ p.AddProjectInput.Name ++ "\" to Billing Group \""
          ++ bgName ++ "\"")),
    -- add project users
    forEach p.Users (fun u =>
      attempt i keepGoing
        (Call.AddUserToGroup ⟨u.Email, "project-" ++ p.AddProjectInput.Name, u.Role⟩)
        "couldn't add user to project group"),
    -- add project notifications
    match p.Notifications with
    | none => skip
    | some ns =>
      seq [
        forEach ns.Slack (fun n =>
          attempt i keepGoing
            (Call.AddNotificationToProject
              ⟨p.AddProjectInput.Name, NotificationType.SlackNotification, n⟩)
            "couldn't add Slack Notification to project"),
        forEach ns.RocketChat (fun n =>
          attempt i keepGoing
            (Call.AddNotificationToProject
              ⟨p.AddProjectInput.Name, NotificationType.RocketChatNotification, n⟩)
            "couldn't add RocketChat Notification to project")]]

/-- The part of the project loop's body that follows the creation of the
project (import.go:167-305): `p` is the loop variable after the assignment of
import.go:147. -/
def importProjectSteps (i : Importer) (keepGoing : Bool) (p : ProjectConfig) : Block :=
  seq [
    -- add project env-vars
    addProjectEnvVars i keepGoing p,
    -- add project environments
    forEach p.Environments (importEnvironment i keepGoing p),
    addProjectAssociations i keepGoing p]

/-- The loop variable `p` after the assignment `p.Openshift = openshiftID` of
import.go:147. -/
def ProjectConfig.withOpenshift (p : ProjectConfig) (openshiftID : Nat) : ProjectConfig :=
  { p with AddProjectInput := { p.AddProjectInput with Openshift := openshiftID } }

/-- The body of the loop over `config.Projects` (import.go:147-305).  The
`continue` of import.go:164 leaves the body with nothing returned. -/
def importProject (i : Importer) (keepGoing : Bool) (openshiftID : Nat)
    (p₀ : ProjectConfig) : Block := fun s =>
  let p : ProjectConfig := p₀.withOpenshift openshiftID
  let (r, s₁) := s.invokeProj i (Call.AddProject p.AddProjectInput)
  match r.err with
  | none => importProjectSteps i keepGoing p s₁
  | some err =>
    if err.Is ErrExist then
      -- this project exists already
      if !keepGoing then (some (Errorf "project exists" err), s₁)
      else
        let (r₂, s₂) := s₁.invokeProj i (Call.ProjectByName p.AddProjectInput.Name)
        match r₂.err with
        | some err₂ =>
          (some (Errorf ("couldn't get project \"" ++ p.AddProjectInput.Name
            ++ "\" by name") err₂), s₂)
        | none =>
          importProjectSteps i keepGoing p
            (s₂.printf ("project \"" ++ p.AddProjectInput.Name ++ "\" exists, using ID "
              ++ toString s₂.newProj))
    else
      if !keepGoing then (some (Errorf "couldn't add Project" err), s₁)
      else (none, s₁.printf ("couldn't add Project: " ++ err.Error))

/-- The phases of `Import` that precede the projects (import.go:66-143). -/
def importGlobals (i : Importer) (keepGoing : Bool) (config : Config) : Block :=
  seq [
    -- add billing groups
    forEach config.BillingGroups (fun bg =>
      attempt i keepGoing (Call.AddBillingGroup bg) "couldn't add billing group"),
    -- add groups
    forEach config.Groups (fun group =>
      attempt i keepGoing (Call.AddGroup group.AddGroupInput) "couldn't add group"),
    -- add users
    forEach config.Users (fun user =>
      attempt i keepGoing (Call.AddUser user.AddUserInput) "couldn't add user"),
    -- add ssh-keys to users
    forEach config.Users (fun user =>
      forEach user.SSHKeys (fun sshKey =>
        attempt i keepGoing (Call.AddSSHKey ⟨sshKey, user.AddUserInput.Email⟩)
          "couldn't add SSH key")),
    -- add users to groups
    forEach config.Groups (fun group =>
      forEach group.Users (fun userRole =>
        attempt i keepGoing
          (Call.AddUserToGroup ⟨userRole.Email, group.AddGroupInput.Name, userRole.Role⟩)
          "couldn't add user to group")),
    match config.Notifications with
    | none => skip
    | some ns =>
      seq [
        -- add Slack notifications
        forEach ns.Slack (fun n =>
          attempt i keepGoing (Call.AddNotificationSlack n)
            "couldn't add Slack notification"),
        -- add RocketChat notifications
        forEach ns.RocketChat (fun n =>
          attempt i keepGoing (Call.AddNotificationRocketChat n)
            "couldn't add RocketChat notification")]]

/-- The state in which `Import` starts: nothing called, nothing logged,
`newProj` the zero value. -/
def St.init : St := ⟨[], [], 0⟩

/-- The function `Import` (import.go:51-309) on a configuration that was read
and parsed (import.go:54-62 are the reading and the parsing; their failure
returns before any phase).  The result is the error returned (`none` for nil)
and the final state, which holds the trace of the client calls. -/
def Import (i : Importer) (config : Config) (keepGoing : Bool) (openshiftID : Nat) :
    Option GoError × St :=
  seq [
    importGlobals i keepGoing config,
    -- add projects
    forEach config.Projects (importProject i keepGoing openshiftID)] St.init

/-! ## The conflict classifier (mutation.go:12-21) -/

/-- The regular expression `duplicate` (mutation.go:12): a text matches
`^graphql: Duplicate entry ` when it starts with the literal after the anchor. -/
def duplicate (text : String) : Bool :=
  "graphql: Duplicate entry ".data.isPrefixOf text.data

/-- Modelled from the spec: the variable `lagoon.ErrExist` of package
`pkg/lagoon` that mutation.go:18 refers to; its declaration is not among the
sources.  The spec knows one conflict marker, so it is taken to be declared as
`ErrExist` of import.go:18 is. -/
def lagoonErrExist : GoError := ErrExist

/-- The function `wrapErr` (mutation.go:16-21).  The format
`"couldn't create object: %w: %v"` wraps `lagoon.ErrExist` (the operand of
`%w`) and prints the response error (the operand of `%v`) into the message. -/
def wrapErr (err : Option GoError) : Option GoError :=
  match err with
  | some e =>
    if duplicate e.Error then
      some (GoError.wrapError
        ("couldn't create object: " ++ lagoonErrExist.Error ++ ": " ++ e.Error)
        lagoonErrExist)
    else some e
  | none => none

/-! ## Reading a trace -/

/-- Is the call an `AddProject`? -/
def Call.isAddProject : Call → Bool
  | Call.AddProject _ => true
  | _ => false

/-- Is the call a `ProjectByName`? -/
def Call.isProjectByName : Call → Bool
  | Call.ProjectByName _ => true
  | _ => false

/-- Is the call an `AddOrUpdateEnvironment`? -/
def Call.isAddOrUpdateEnvironment : Call → Bool
  | Call.AddOrUpdateEnvironment _ => true
  | _ => false

/-- Is the call an `EnvironmentByName`? -/
def Call.isEnvironmentByName : Call → Bool
  | Call.EnvironmentByName _ _ => true
  | _ => false

/-- Is the call one of the two lookups? -/
def Call.isLookup (c : Call) : Bool :=
  c.isProjectByName || c.isEnvironmentByName

/-- Did the call fail with an error that wraps `ErrExist`? -/
def Event.conflict (ev : Event) : Bool := errorsIs ev.resp.err ErrExist

/-- Cut a trace before every event that starts a segment: the events before
the first start, and the segments, each beginning with its start event. -/
def segments (isStart : Event → Bool) : List Event → List Event × List (List Event)
  | [] => ([], [])
  | ev :: rest =>
    let r := segments isStart rest
    if isStart ev then ([], (ev :: r.1) :: r.2) else (ev :: r.1, r.2)

/-- The calls of a run made on behalf of each project, in the order of the
projects processed: the body of the project loop starts with the one and only
`AddProject` call of its project, so the calls for a project are those from its
`AddProject` call up to the next `AddProject` call. -/
def projectSegments (trace : List Event) : List (List Event) :=
  (segments (fun ev => ev.call.isAddProject) trace).2

/-- The calls of a run that precede the first `AddProject` call. -/
def globalSegment (trace : List Event) : List Event :=
  (segments (fun ev => ev.call.isAddProject) trace).1

/-- The calls that associate a project with groups, a billing group, users and
notifications (the steps after the environments). -/
def Call.isAssociation : Call → Bool
  | Call.AddGroupsToProject _ => true
  | Call.AddProjectToBillingGroup _ => true
  | Call.AddUserToGroup _ => true
  | Call.AddNotificationToProject _ => true
  | _ => false

/-- The calls within a project's segment made for each environment: the calls
up to the first one that associates the project (these follow the
environments, import.go:221-305), cut before every `AddOrUpdateEnvironment`. -/
def environmentSegments (seg : List Event) : List (List Event) :=
  (segments (fun ev => ev.call.isAddOrUpdateEnvironment)
    (seg.takeWhile (fun ev => !ev.call.isAssociation))).2

/-- The identifier of the project of a segment is resolved to `n`: its
`AddProject` call succeeded and yielded `n`, or it failed with a conflict and
the `ProjectByName` call that follows succeeded and yielded `n`. -/
def ResolvesTo (seg : List Event) (n : Nat) : Prop :=
  (∃ ev rest, seg = ev :: rest ∧ ev.resp.err = none ∧ ev.resp.out = some n) ∨
  (∃ ev ev₂ rest, seg = ev :: ev₂ :: rest ∧ ev.conflict = true ∧
    ev₂.call.isProjectByName = true ∧ ev₂.resp.err = none ∧ ev₂.resp.out = some n)

/-! ## Properties of blocks -/

/-- Started in `s`, the block `b` issues calls that all satisfy `P` (which may
mention the value of `newProj.ID` at the start), leaves `newProj` as it was,
and what it returns satisfies `E`. -/
def SatAt (P : Nat → Event → Prop) (E : Option GoError → Prop) (b : Block) (s : St) : Prop :=
  ∃ evs, (b s).2.trace = s.trace ++ evs ∧ (b s).2.newProj = s.newProj ∧
    (∀ ev ∈ evs, P s.newProj ev) ∧ E (b s).1

/-- The block satisfies `SatAt` from every state. -/
def Sat (P : Nat → Event → Prop) (E : Option GoError → Prop) (b : Block) : Prop :=
  ∀ s, SatAt P E b s

/-- The block stops at the first failing call: from every state, either every
call it issues succeeds, or it returns an error and the last call it issued is
the only one that failed. -/
def StopsAtFailure (b : Block) : Prop :=
  ∀ s, ∃ evs, (b s).2.trace = s.trace ++ evs ∧
    ((∀ ev ∈ evs, ev.resp.err = none) ∨
      ((b s).1.isSome = true ∧ ∃ init last, evs = init ++ [last] ∧
        (∀ ev ∈ init, ev.resp.err = none) ∧ last.resp.err.isSome = true))

/-! ## The reference sequence of a fully successful run -/

/-- The call with the resolved identifier it carries (the `TypeID` of an
`AddEnvVariable`, the `ProjectID` of an `AddOrUpdateEnvironment`) set to zero:
what is called and for which entity, whatever identifier the client assigned. -/
def Call.eraseID : Call → Call
  | Call.AddEnvVariable inp => Call.AddEnvVariable { inp with TypeID := 0 }
  | Call.AddOrUpdateEnvironment inp => Call.AddOrUpdateEnvironment { inp with ProjectID := 0 }
  | c => c

/-- The calls expected for one environment: its creation, then one
`AddEnvVariable` per environment variable. -/
def environmentReference (env : EnvironmentConfig) : List Call :=
  Call.AddOrUpdateEnvironment { env.Environment.AddEnvironmentInput with ProjectID := 0 } ::
    env.Environment.EnvVariables.map (fun ev =>
      Call.AddEnvVariable ⟨ev, EnvVariableType.EnvironmentVar, 0⟩)

/-- The calls expected for one project, in the order of the spec's step 7. -/
def projectReference (openshiftID : Nat) (p : ProjectConfig) : List Call :=
  [Call.AddProject { p.AddProjectInput with Openshift := openshiftID }] ++
  p.EnvVariables.map (fun ev => Call.AddEnvVariable ⟨ev, EnvVariableType.ProjectVar, 0⟩) ++
  p.Environments.flatMap environmentReference ++
  (if p.Groups = [] then []
    else [Call.AddGroupsToProject ⟨⟨p.AddProjectInput.Name⟩, p.Groups.map GroupInput.mk⟩]) ++
  p.BillingGroups.map (fun bgName =>
    Call.AddProjectToBillingGroup ⟨⟨bgName⟩, ⟨p.AddProjectInput.Name⟩⟩) ++
  p.Users.map (fun u =>
    Call.AddUserToGroup ⟨u.Email, "project-" ++ p.AddProjectInput.Name, u.Role⟩) ++
  (match p.Notifications with
    | none => []
    | some ns =>
      ns.Slack.map (fun n => Call.AddNotificationToProject
        ⟨p.AddProjectInput.Name, NotificationType.SlackNotification, n⟩) ++
      ns.RocketChat.map (fun n => Call.AddNotificationToProject
        ⟨p.AddProjectInput.Name, NotificationType.RocketChatNotification, n⟩))

/-- The calls expected before the projects, in the order of the spec's phases 1 to 6. -/
def globalsReference (config : Config) : List Call :=
  config.BillingGroups.map Call.AddBillingGroup ++
  config.Groups.map (fun group => Call.AddGroup group.AddGroupInput) ++
  config.Users.map (fun user => Call.AddUser user.AddUserInput) ++
  config.Users.flatMap (fun user =>
    user.SSHKeys.map (fun sshKey => Call.AddSSHKey ⟨sshKey, user.AddUserInput.Email⟩)) ++
  config.Groups.flatMap (fun group =>
    group.Users.map (fun userRole =>
      Call.AddUserToGroup ⟨userRole.Email, group.AddGroupInput.Name, userRole.Role⟩)) ++
  (match config.Notifications with
    | none => []
    | some ns =>
      ns.Slack.map Call.AddNotificationSlack ++
      ns.RocketChat.map Call.AddNotificationRocketChat)

/-- The reference sequence of a run on which nothing fails: one call per
entity of the configuration, phase after phase, identifiers erased. -/
def reference (config : Config) (openshiftID : Nat) : List Call :=
  globalsReference config ++ config.Projects.flatMap (projectReference openshiftID)

/-- The calls of a list of events, identifiers erased. -/
def erasedCalls (evs : List Event) : List Call :=
  evs.map (fun ev => ev.call.eraseID)

/-- Under a client that never fails: from `s` the block returns nothing and
issues the calls `ref` (identifiers erased). -/
def ProducesAt (ref : List Call) (b : Block) (s : St) : Prop :=
  (b s).1 = none ∧ erasedCalls (b s).2.trace = erasedCalls s.trace ++ ref

/-- The block satisfies `ProducesAt` from every state. -/
def Produces (ref : List Call) (b : Block) : Prop :=
  ∀ s, ProducesAt ref b s

/-! ## Runs of a loop, segment by segment -/

/-- How the iterations of a loop account for a list of segments: `Q x seg r`
relates an element, the calls its iteration issued and what the iteration
returned.  Every iteration but the last returned nothing; the loop returns
what the last iteration returned. -/
inductive RunsOf {α : Type} (Q : α → List Event → Option GoError → Prop) :
    List α → List (List Event) → Option GoError → Prop where
  | done : RunsOf Q [] [] none
  | stop (x : α) (xs : List α) (seg : List Event) (e : GoError) :
      Q x seg (some e) → RunsOf Q (x :: xs) [seg] (some e)
  | next (x : α) (xs : List α) (seg : List Event) (segs : List (List Event))
      (res : Option GoError) :
      Q x seg none → RunsOf Q xs segs res → RunsOf Q (x :: xs) (seg :: segs) res

/-- A segment: a start event followed by events none of which is a start. -/
def IsSegment (isStart : Event → Bool) (seg : List Event) : Prop :=
  ∃ ev rest, seg = ev :: rest ∧ isStart ev = true ∧ ∀ ev' ∈ rest, isStart ev' = false

/-! ## What a run of a loop body looks like -/

/-- The response of the event is an answer of the client to its call. -/
def FromClient (i : Importer) (ev : Event) : Prop :=
  ∃ history, ev.resp = i.respond history ev.call

/-- The calls `evs` and the result `res` are those of the loop over the
environment's variables, run with `newEnv.ID = m`. -/
def VarsRun (i : Importer) (keepGoing : Bool) (env : EnvironmentConfig) (m : Nat)
    (evs : List Event) (res : Option GoError) : Prop :=
  ∃ s, (addEnvironmentEnvVars i keepGoing env m s).2.trace = s.trace ++ evs ∧
    res = (addEnvironmentEnvVars i keepGoing env m s).1

/-- The calls `seg` and the result `res` of one iteration of the loop over the
environments, by the outcome of `AddOrUpdateEnvironment`; `n` is `newProj.ID`. -/
def EnvRun (i : Importer) (keepGoing : Bool) (n : Nat) (env : EnvironmentConfig)
    (seg : List Event) (res : Option GoError) : Prop :=
  ∃ r₁ rest,
    seg = ⟨Call.AddOrUpdateEnvironment
      { env.Environment.AddEnvironmentInput with ProjectID := n }, r₁⟩ :: rest ∧
    (∃ history, r₁ = i.respond history (Call.AddOrUpdateEnvironment
      { env.Environment.AddEnvironmentInput with ProjectID := n })) ∧
    ((r₁.err = none ∧ VarsRun i keepGoing env (r₁.out.getD 0) rest res) ∨
     (∃ err, r₁.err = some err ∧ err.Is ErrExist = true ∧ keepGoing = false ∧ rest = [] ∧
        res = some (Errorf "environment exists" err)) ∨
     (∃ err r₂ rest₂, r₁.err = some err ∧ err.Is ErrExist = true ∧ keepGoing = true ∧
        rest = ⟨Call.EnvironmentByName env.Environment.AddEnvironmentInput.Name n, r₂⟩ :: rest₂ ∧
        (∃ history, r₂ = i.respond history
          (Call.EnvironmentByName env.Environment.AddEnvironmentInput.Name n)) ∧
        ((∃ err₂, r₂.err = some err₂ ∧ rest₂ = [] ∧
            res = some (Errorf "couldn't get environment by name" err₂)) ∨
         (r₂.err = none ∧
            VarsRun i keepGoing env (r₂.out.getD (r₁.out.getD 0)) rest₂ res))) ∨
     (∃ err, r₁.err = some err ∧ err.Is ErrExist = false ∧ rest = [] ∧
        res = if keepGoing = true then none else some (Errorf "couldn't add Environment" err)))

/-- The calls `evs` and the result `res` are those of the steps that follow the
creation of the project, run with `newProj.ID = n`. -/
def StepsRun (i : Importer) (keepGoing : Bool) (p : ProjectConfig) (n : Nat)
    (evs : List Event) (res : Option GoError) : Prop :=
  ∃ s, s.newProj = n ∧ (importProjectSteps i keepGoing p s).2.trace = s.trace ++ evs ∧
    res = (importProjectSteps i keepGoing p s).1

/-- The calls `seg` and the result `res` of one iteration of the loop over the
projects, by the outcome of `AddProject`.  The identifier `n` that the steps
use is the one the deciding call wrote, if it wrote one. -/
def ProjectRun (i : Importer) (keepGoing : Bool) (openshiftID : Nat) (p : ProjectConfig)
    (seg : List Event) (res : Option GoError) : Prop :=
  ∃ r₁ rest,
    seg = ⟨Call.AddProject (p.withOpenshift openshiftID).AddProjectInput, r₁⟩ :: rest ∧
    (∃ history, r₁ = i.respond history
      (Call.AddProject (p.withOpenshift openshiftID).AddProjectInput)) ∧
    ((r₁.err = none ∧ ∃ n, (∀ m, r₁.out = some m → n = m) ∧
        StepsRun i keepGoing (p.withOpenshift openshiftID) n rest res) ∨
     (∃ err, r₁.err = some err ∧ err.Is ErrExist = true ∧ keepGoing = false ∧ rest = [] ∧
        res = some (Errorf "project exists" err)) ∨
     (∃ err r₂ rest₂, r₁.err = some err ∧ err.Is ErrExist = true ∧ keepGoing = true ∧
        rest = ⟨Call.ProjectByName p.AddProjectInput.Name, r₂⟩ :: rest₂ ∧
        (∃ history, r₂ = i.respond history (Call.ProjectByName p.AddProjectInput.Name)) ∧
        ((∃ err₂, r₂.err = some err₂ ∧ rest₂ = [] ∧
            res = some (Errorf ("couldn't get project \"" ++ p.AddProjectInput.Name
              ++ "\" by name") err₂)) ∨
         (r₂.err = none ∧ ∃ n, (∀ m, r₂.out = some m → n = m) ∧
            StepsRun i keepGoing (p.withOpenshift openshiftID) n rest₂ res))) ∨
     (∃ err, r₁.err = some err ∧ err.Is ErrExist = false ∧ rest = [] ∧
        res = if keepGoing = true then none else some (Errorf "couldn't add Project" err)))

/-- The calls that the steps following the creation of a project may issue,
with the identifier they must carry when `newProj.ID = n`: a project-level
variable and an environment carry `n`, and an environment is looked up under `n`. -/
def stepCall (n : Nat) : Call → Bool
  | Call.AddEnvVariable inp =>
    decide (inp.Type_ = EnvVariableType.EnvironmentVar) || decide (inp.TypeID = n)
  | Call.AddOrUpdateEnvironment inp => decide (inp.ProjectID = n)
  | Call.EnvironmentByName _ project => decide (project = n)
  | Call.AddGroupsToProject _ => true
  | Call.AddProjectToBillingGroup _ => true
  | Call.AddUserToGroup _ => true
  | Call.AddNotificationToProject _ => true
  | _ => false

/-- The block never executes a `return`. -/
def NoReturn (b : Block) : Prop := ∀ s, (b s).1 = none

/-- The shape of the calls `evs` issued by the steps that follow the creation
of a project, run with `newProj.ID = n`, and of what they return: the calls for
the project's variables, then one segment per environment, then the calls that
associate the project. -/
def StepsShape (i : Importer) (keepGoing : Bool) (p : ProjectConfig) (n : Nat)
    (evs : List Event) (res : Option GoError) : Prop :=
  ∃ pv,
    (∀ ev ∈ pv, (∃ kv ∈ p.EnvVariables,
        ev.call = Call.AddEnvVariable ⟨kv, EnvVariableType.ProjectVar, n⟩) ∧ FromClient i ev) ∧
    (keepGoing = true → pv.map (fun ev => ev.call) = p.EnvVariables.map
        (fun kv => Call.AddEnvVariable ⟨kv, EnvVariableType.ProjectVar, n⟩)) ∧
    ((∃ e, res = some e ∧ keepGoing = false ∧ evs = pv) ∨
     (∃ esegs tail res₂,
        evs = pv ++ esegs.flatten ++ tail ∧
        RunsOf (EnvRun i keepGoing n) p.Environments esegs res₂ ∧
        (∀ e, res₂ = some e → tail = [] ∧ res = some e) ∧
        (∀ ev ∈ tail, ev.call.isAssociation = true ∧ FromClient i ev) ∧
        (2 ≤ p.BillingGroups.length →
          (∀ ev ∈ tail, ∃ inp, ev.call = Call.AddGroupsToProject inp) ∧
          res.isSome = true) ∧
        (keepGoing = true → p.BillingGroups.length ≤ 1 → res₂ = none → res = none)))

/-- The calls of the phases that precede the projects. -/
def Call.isGlobal : Call → Bool
  | Call.AddBillingGroup _ => true
  | Call.AddGroup _ => true
  | Call.AddUser _ => true
  | Call.AddSSHKey _ => true
  | Call.AddUserToGroup _ => true
  | Call.AddNotificationSlack _ => true
  | Call.AddNotificationRocketChat _ => true
  | _ => false

/-- The calls that the body of the project loop issues before it checks the
number of billing groups (import.go:148-238). -/
def Call.isBeforeBillingCheck : Call → Bool
  | Call.AddProject _ => true
  | Call.ProjectByName _ => true
  | Call.AddEnvVariable _ => true
  | Call.AddOrUpdateEnvironment _ => true
  | Call.EnvironmentByName _ _ => true
  | Call.AddGroupsToProject _ => true
  | _ => false

/-! ## Examples -/

/-- A client that answers every call by the same rule, whatever happened before. -/
def clientOf (answer : Call → Response) : Importer := ⟨fun _ c => answer c⟩

/-- A client on which every operation succeeds: a created project gets the
identifier 7, a created environment the identifier 9. -/
def succeedingClient : Importer :=
  clientOf (fun c =>
    match c with
    | Call.AddProject _ => ⟨none, some 7⟩
    | Call.AddOrUpdateEnvironment _ => ⟨none, some 9⟩
    | _ => ⟨none, none⟩)

/-- An error of the transport that is no conflict. -/
def transportError : GoError := GoError.errorString 2 "graphql: Unauthorized"

/-- An error as `wrapErr` returns it for a duplicate entry. -/
def conflictError : GoError :=
  GoError.wrapError
    "couldn't create object: object already exists: graphql: Duplicate entry 'demo'"
    ErrExist

/-- A client on which `AddProject` fails with an error that is no conflict;
every other operation succeeds. -/
def rejectingClient : Importer :=
  clientOf (fun c =>
    match c with
    | Call.AddProject _ => ⟨some transportError, none⟩
    | _ => ⟨none, none⟩)

/-- A client on which every project and every environment exists already: the
creations fail with a conflict, the lookups succeed (project 7, environment 9). -/
def secondRunClient : Importer :=
  clientOf (fun c =>
    match c with
    | Call.AddProject _ => ⟨some conflictError, none⟩
    | Call.AddOrUpdateEnvironment _ => ⟨some conflictError, none⟩
    | Call.ProjectByName _ => ⟨none, some 7⟩
    | Call.EnvironmentByName _ _ => ⟨none, some 9⟩
    | _ => ⟨none, none⟩)

/-- A client on which every project exists already and cannot be looked up. -/
def lookupFailingClient : Importer :=
  clientOf (fun c =>
    match c with
    | Call.AddProject _ => ⟨some conflictError, none⟩
    | Call.ProjectByName _ => ⟨some transportError, none⟩
    | _ => ⟨none, none⟩)

/-- A client on which `AddUser` fails; every other operation succeeds. -/
def userFailingClient : Importer :=
  clientOf (fun c =>
    match c with
    | Call.AddUser _ => ⟨some transportError, none⟩
    | Call.AddProject _ => ⟨none, some 7⟩
    | Call.AddOrUpdateEnvironment _ => ⟨none, some 9⟩
    | _ => ⟨none, none⟩)

/-- The project `demo`: two variables, the environment `main` with one
variable, one group, one billing group, one user, one notification of each kind. -/
def demoProject : ProjectConfig :=
  { AddProjectInput := ⟨"demo", "git@example.com:demo.git", 1⟩
    EnvVariables := [⟨"build", "A", "1"⟩, ⟨"runtime", "B", "2"⟩]
    Environments := [⟨⟨⟨"main", 0, "main"⟩, [⟨"runtime", "C", "3"⟩]⟩⟩]
    Groups := ["devs"]
    BillingGroups := ["acme"]
    Users := [⟨"ann@example.com", "owner"⟩]
    Notifications := some ⟨["slack-a"], ["rocket-a"]⟩ }

/-- A configuration with one entity of every kind. -/
def demoConfig : Config :=
  { BillingGroups := [⟨"acme", "USD"⟩]
    Groups := [⟨⟨"devs"⟩, [⟨"ann@example.com", "owner"⟩]⟩]
    Users := [⟨⟨"ann@example.com", "Ann"⟩, [⟨"laptop", "ssh-ed25519 AAAA"⟩]⟩]
    Notifications := some ⟨[⟨"slack-a", "https://hooks/a", "#a"⟩],
      [⟨"rocket-a", "https://rocket/a", "#a"⟩]⟩
    Projects := [demoProject] }

/-- The project `demo` declaring two billing groups. -/
def invalidProject : ProjectConfig :=
  { demoProject with BillingGroups := ["acme", "globex"] }

/-- A configuration whose only project declares two billing groups. -/
def invalidConfig : Config :=
  { BillingGroups := [], Groups := [], Users := [], Notifications := none,
    Projects := [invalidProject] }

/-- A configuration of two projects, the first declaring two billing groups. -/
def twoProjectsConfig : Config :=
  { BillingGroups := [], Groups := [], Users := [], Notifications := none,
    Projects := [invalidProject, demoProject] }

/-- The project `app`: one variable, the environment `main` with one variable. -/
def smallProject : ProjectConfig :=
  { AddProjectInput := ⟨"app", "git@example.com:app.git", 1⟩
    EnvVariables := [⟨"build", "A", "1"⟩]
    Environments := [⟨⟨⟨"main", 0, "main"⟩, [⟨"runtime", "C", "3"⟩]⟩⟩]
    Groups := []
    BillingGroups := []
    Users := []
    Notifications := none }

/-- A configuration with the project `app` and nothing else. -/
def smallConfig : Config :=
  { BillingGroups := [], Groups := [], Users := [], Notifications := none,
    Projects := [smallProject] }

/-- The `AddProject` call for the project `demo`, rejected by the transport. -/
def demoCreationRejected : Event :=
  ⟨Call.AddProject ⟨"demo", "git@example.com:demo.git", 3⟩, ⟨some transportError, none⟩⟩

/-- The `AddProject` call for the project `app`, failing with a conflict. -/
def appCreationConflict : Event :=
  ⟨Call.AddProject ⟨"app", "git@example.com:app.git", 3⟩, ⟨some conflictError, none⟩⟩

/-- The calls for the environment `main` of the project `app` on a second run. -/
def mainSecondRun : List Event :=
  [⟨Call.AddOrUpdateEnvironment ⟨"main", 7, "main"⟩, ⟨some conflictError, none⟩⟩,
   ⟨Call.EnvironmentByName "main" 7, ⟨none, some 9⟩⟩,
   ⟨Call.AddEnvVariable ⟨⟨"runtime", "C", "3"⟩, EnvVariableType.EnvironmentVar, 9⟩,
     ⟨none, none⟩⟩]

/-- The calls for the project `app` on a second run. -/
def appSecondRun : List Event :=
  appCreationConflict ::
  ⟨Call.ProjectByName "app", ⟨none, some 7⟩⟩ ::
  ⟨Call.AddEnvVariable ⟨⟨"build", "A", "1"⟩, EnvVariableType.ProjectVar, 7⟩, ⟨none, none⟩⟩ ::
  mainSecondRun

/-- Is the call an `AddEnvVariable` of the type `t`? -/
def Call.isEnvVariableOf (t : EnvVariableType) : Call → Bool
  | Call.AddEnvVariable inp => decide (inp.Type_ = t)
  | _ => false

/-- The configuration of the spec's example: the one project `demo` with the
two project-level variables `v₁` and `v₂` and the one environment `main`, which
declares the variables `evs`; nothing else is declared. -/
def exampleConfig (v₁ v₂ : EnvKeyValue) (evs : List EnvKeyValue) : Config :=
  { BillingGroups := [], Groups := [], Users := [], Notifications := none,
    Projects := [
      { AddProjectInput := ⟨"demo", "git@example.com:demo.git", 1⟩
        EnvVariables := [v₁, v₂]
        Environments := [⟨⟨⟨"main", 0, "main"⟩, evs⟩⟩]
        Groups := []
        BillingGroups := []
        Users := []
        Notifications := none }] }

/-- Started in `s`, the block returns nothing, leaves `newProj` as it was and
issues the calls `cs`, in this order. -/
def IssuesAt (cs : List Call) (b : Block) (s : St) : Prop :=
  (b s).1 = none ∧ (b s).2.newProj = s.newProj ∧
  (b s).2.trace.map (fun ev => ev.call) = s.trace.map (fun ev => ev.call) ++ cs

/-- The identifier of the environment of a segment is resolved to `m`: its
`AddOrUpdateEnvironment` call succeeded and yielded `m`, or it failed with a
conflict and the `EnvironmentByName` call that follows succeeded and yielded `m`. -/
def EnvResolvesTo (eseg : List Event) (m : Nat) : Prop :=
  (∃ ev rest, eseg = ev :: rest ∧ ev.resp.err = none ∧ ev.resp.out = some m) ∨
  (∃ ev ev₂ rest, eseg = ev :: ev₂ :: rest ∧ ev.conflict = true ∧
    ev₂.call.isEnvironmentByName = true ∧ ev₂.resp.err = none ∧ ev₂.resp.out = some m)

/-- A client on which every operation succeeds and writes nothing into the
output record. -/
def silentClient : Importer := clientOf (fun _ => ⟨none, none⟩)

/-- A client on which every operation succeeds; only the creation of the
project `base` writes an identifier, 7, into the output record. -/
def baseOnlyClient : Importer :=
  clientOf (fun c =>
    match c with
    | Call.AddProject inp => if inp.Name = "base" then ⟨none, some 7⟩ else ⟨none, none⟩
    | _ => ⟨none, none⟩)

/-- The project `base`, which declares nothing but itself. -/
def baseProject : ProjectConfig :=
  { AddProjectInput := ⟨"base", "git@example.com:base.git", 1⟩
    EnvVariables := []
    Environments := []
    Groups := []
    BillingGroups := []
    Users := []
    Notifications := none }

/-- A configuration with the projects `base` and `app`, in this order. -/
def baseAndAppConfig : Config :=
  { BillingGroups := [], Groups := [], Users := [], Notifications := none,
    Projects := [baseProject, smallProject] }

/-- The calls for the environment `main` of the project `app` on a first run. -/
def mainFirstRun : List Event :=
  [⟨Call.AddOrUpdateEnvironment ⟨"main", 7, "main"⟩, ⟨none, some 9⟩⟩,
   ⟨Call.AddEnvVariable ⟨⟨"runtime", "C", "3"⟩, EnvVariableType.EnvironmentVar, 9⟩,
     ⟨none, none⟩⟩]

/-- The calls for the project `app` on a first run. -/
def appFirstRun : List Event :=
  ⟨Call.AddProject ⟨"app", "git@example.com:app.git", 3⟩, ⟨none, some 7⟩⟩ ::
  ⟨Call.AddEnvVariable ⟨⟨"build", "A", "1"⟩, EnvVariableType.ProjectVar, 7⟩, ⟨none, none⟩⟩ ::
  mainFirstRun

/-- The creation of the project of a segment succeeded, or it failed with a
conflict and the `ProjectByName` call that follows succeeded: the project is
one whose dependent steps are executed. -/
def Created (seg : List Event) : Prop :=
  (∃ ev rest, seg = ev :: rest ∧ ev.resp.err = none) ∨
  (∃ ev ev₂ rest, seg = ev :: ev₂ :: rest ∧ ev.conflict = true ∧
    ev₂.call.isProjectByName = true ∧ ev₂.resp.err = none)

/-- Every lookup among the events directly follows the creation it resolves,
and that creation failed with a conflict: a `ProjectByName` call follows an
`AddProject` call, an `EnvironmentByName` call an `AddOrUpdateEnvironment` call. -/
def LookupsFollowConflicts (evs : List Event) : Prop :=
  ∀ pre ev post, evs = pre ++ ev :: post → ev.call.isLookup = true →
    ∃ pre' ev', pre = pre' ++ [ev'] ∧ ev'.conflict = true ∧
      ((ev.call.isProjectByName = true ∧ ev'.call.isAddProject = true) ∨
       (ev.call.isEnvironmentByName = true ∧ ev'.call.isAddOrUpdateEnvironment = true))

/-- A client on which every `AddOrUpdateEnvironment` call fails with an error
that is no conflict; every other operation succeeds, a created project gets the
identifier 7. -/
def environmentRejectingClient : Importer :=
  clientOf (fun c =>
    match c with
    | Call.AddProject _ => ⟨none, some 7⟩
    | Call.AddOrUpdateEnvironment _ => ⟨some transportError, none⟩
    | _ => ⟨none, none⟩)

/-- The project `site`: the environments `main` and `staging`, one variable
each, and one group. -/
def siteProject : ProjectConfig :=
  { AddProjectInput := ⟨"site", "git@example.com:site.git", 1⟩
    EnvVariables := []
    Environments := [⟨⟨⟨"main", 0, "main"⟩, [⟨"runtime", "C", "3"⟩]⟩⟩,
      ⟨⟨⟨"staging", 0, "develop"⟩, [⟨"runtime", "D", "4"⟩]⟩⟩]
    Groups := ["devs"]
    BillingGroups := []
    Users := []
    Notifications := none }

/-- A configuration with the project `site` and nothing else. -/
def siteConfig : Config :=
  { BillingGroups := [], Groups := [], Users := [], Notifications := none,
    Projects := [siteProject] }

/-- The calls for the project `site` when its environments are rejected. -/
def siteRejectedRun : List Event :=
  [⟨Call.AddProject ⟨"site", "git@example.com:site.git", 3⟩, ⟨none, some 7⟩⟩,
   ⟨Call.AddOrUpdateEnvironment ⟨"main", 7, "main"⟩, ⟨some transportError, none⟩⟩,
   ⟨Call.AddOrUpdateEnvironment ⟨"staging", 7, "develop"⟩, ⟨some transportError, none⟩⟩,
   ⟨Call.AddGroupsToProject ⟨⟨"site"⟩, [⟨"devs"⟩]⟩, ⟨none, none⟩⟩]

/-- The calls whose outcome resolves an identifier: the two creations that
write one, and the two lookups. -/
def Call.isResolving (c : Call) : Bool :=
  c.isAddProject || c.isProjectByName || c.isAddOrUpdateEnvironment || c.isEnvironmentByName

/-- Two histories of the same calls, in which every call that resolves an
identifier got the same answer; the answers to the other calls may differ. -/
def SameResolving (h₁ h₂ : List Event) : Prop :=
  List.Forall₂ (fun e₁ e₂ => e₁.call = e₂.call ∧
    (e₁.call.isResolving = true → e₁.resp = e₂.resp)) h₁ h₂

/-- The two clients agree on the outcomes of the calls that resolve an
identifier: after histories that differ only in the answers to other calls,
they answer such a call alike. -/
def AgreeOnResolving (i₁ i₂ : Importer) : Prop :=
  ∀ h₁ h₂ c, SameResolving h₁ h₂ → c.isResolving = true → i₁.respond h₁ c = i₂.respond h₂ c

/-- The two blocks run alike: from states whose traces differ only in the
answers to calls that resolve no identifier, with the same `newProj.ID`, they
reach such states again and return the same. -/
def Sim (b₁ b₂ : Block) : Prop :=
  ∀ s₁ s₂, SameResolving s₁.trace s₂.trace → s₁.newProj = s₂.newProj →
    SameResolving (b₁ s₁).2.trace (b₂ s₂).2.trace ∧
    (b₁ s₁).2.newProj = (b₂ s₂).2.newProj ∧ (b₁ s₁).1 = (b₂ s₂).1

/-- The context under which `Import` returns or logs the error of a failing
call, by the call: the text of the `fmt.Errorf` and of the `l.Printf` of
import.go for it, the verb `": %w"` or `": %v"` apart.  `inProject` tells
whether the call is made in the loop over the projects: a membership is added
before the projects under one context (import.go:118-120) and in a project
under another (import.go:268-270).  `conflict` tells whether the error wraps
`ErrExist`, which matters for the two creations only. -/
def phaseContext (inProject : Bool) (c : Call) (conflict : Bool) : String :=
  match c with
  | Call.AddBillingGroup _ => "couldn't add billing group"
  | Call.AddGroup _ => "couldn't add group"
  | Call.AddUser _ => "couldn't add user"
  | Call.AddSSHKey _ => "couldn't add SSH key"
  | Call.AddUserToGroup _ =>
    if inProject then "couldn't add user to project group" else "couldn't add user to group"
  | Call.AddNotificationSlack _ => "couldn't add Slack notification"
  | Call.AddNotificationRocketChat _ => "couldn't add RocketChat notification"
  | Call.AddProject _ => if conflict then "project exists" else "couldn't add Project"
  | Call.ProjectByName name => "couldn't get project \"" ++ name ++ "\" by name"
  | Call.AddEnvVariable inp =>
    match inp.Type_ with
    | EnvVariableType.ProjectVar => "couldn't add Project EnvVariable"
    | EnvVariableType.EnvironmentVar => "couldn't add Environment EnvVariable"
  | Call.AddOrUpdateEnvironment _ =>
    if conflict then "environment exists" else "couldn't add Environment"
  | Call.EnvironmentByName _ _ => "couldn't get environment by name"
  | Call.AddGroupsToProject inp =>
    "couldn't add Groups to Project \"" ++ inp.Project.Name ++ "\""
  | Call.AddProjectToBillingGroup inp =>
    "couldn't add Project \"" ++ inp.Project.Name ++ "\" to Billing Group \""
      ++ inp.Group.Name ++ "\""
  | Call.AddNotificationToProject inp =>
    match inp.NotificationType with
    | NotificationType.SlackNotification => "couldn't add Slack Notification to project"
    | NotificationType.RocketChatNotification =>
      "couldn't add RocketChat Notification to project"

/-- Whether the loop over the projects has been entered when the calls
`before` have been made: every iteration of that loop starts with `AddProject`
(import.go:148), and no phase before it makes this call. -/
def inProjects (before : List Event) : Bool :=
  before.any (fun ev => ev.call.isAddProject)

/-- The block returns the error of the first failing call, wrapped under the
context of its phase: from every state, either every call it issues succeeds,
or the last call it issued is the only one that failed, with an error `e`, and
the block returns `fmt.Errorf(ctx + ": %w", e)` for the context `ctx` of that
call. -/
def WrapsFailure (inProject : Bool) (b : Block) : Prop :=
  ∀ s, ∃ evs, (b s).2.trace = s.trace ++ evs ∧
    ((∀ ev ∈ evs, ev.resp.err = none) ∨
      (∃ init last e, evs = init ++ [last] ∧ (∀ ev ∈ init, ev.resp.err = none) ∧
        last.resp.err = some e ∧
        (b s).1 = some (Errorf (phaseContext inProject last.call (e.Is ErrExist)) e)))

/-- The block logs the failures of the calls that resolve no identifier under
the context of their phase: for every such call that it issues and that fails
with an error `e`, the line `ctx + ": " + e.Error()` is among the lines that
the block writes, for the context `ctx` that the call has for an error that
is no conflict. -/
def LogsFailures (inProject : Bool) (b : Block) : Prop :=
  ∀ s, ∃ evs lines, (b s).2.trace = s.trace ++ evs ∧ (b s).2.log = s.log ++ lines ∧
    ∀ ev ∈ evs, ∀ e, ev.call.isResolving = false → ev.resp.err = some e →
      ("import: " ++ (phaseContext inProject ev.call false ++ ": " ++ e.Error)) ∈ lines

/-- The block issues no call, or a creation of a project first. -/
def StartsWithProject (b : Block) : Prop :=
  ∀ s, ∃ evs, (b s).2.trace = s.trace ++ evs ∧
    (evs = [] ∨ ∃ ev rest, evs = ev :: rest ∧ ev.call.isAddProject = true)

/-- An error whose dynamic type is not comparable: a slice of messages, say,
with an `Error` method that joins them. -/
def sliceError : GoError := GoError.other false 0 "graphql: Unauthorized"

/-- A client on which `AddProject` fails with `sliceError`; every other
operation succeeds. -/
def sliceErrorClient : Importer :=
  clientOf (fun c =>
    match c with
    | Call.AddProject _ => ⟨some sliceError, none⟩
    | _ => ⟨none, none⟩)

/-- A client on which `AddUserToGroup` fails; every other operation succeeds. -/
def membershipFailingClient : Importer :=
  clientOf (fun c =>
    match c with
    | Call.AddUserToGroup _ => ⟨some transportError, none⟩
    | Call.AddProject _ => ⟨none, some 7⟩
    | _ => ⟨none, none⟩)

/-- A configuration with the group `devs`, of one member, and nothing else. -/
def groupConfig : Config :=
  { BillingGroups := [], Groups := [⟨⟨"devs"⟩, [⟨"ann@example.com", "owner"⟩]⟩], Users := [],
    Notifications := none, Projects := [] }

/-- A configuration with the project `team`, of one user, and nothing else. -/
def teamConfig : Config :=
  { BillingGroups := [], Groups := [], Users := [], Notifications := none,
    Projects := [{ AddProjectInput := ⟨"team", "git@example.com:team.git", 1⟩
                   EnvVariables := []
                   Environments := []
                   Groups := []
                   BillingGroups := []
                   Users := [⟨"ann@example.com", "owner"⟩]
                   Notifications := none }] }

/-! ## The methods of the client (mutation.go:23-235) -/

/-- Modelled from the spec: the input of `AddNotificationEmail`, a type of
package `schema`, which is not among the sources.  A notification has a name
and the configuration of its channel; the method hands the input to
`newRequest` and reads none of its fields. -/
structure AddNotificationEmailInput where
  Name : String
  EmailAddress : String
deriving DecidableEq, Repr

/-- Modelled from the spec: the input of `AddNotificationMicrosoftTeams`, a
type of package `schema`, which is not among the sources.  A notification has
a name and the configuration of its channel; the method hands the input to
`newRequest` and reads none of its fields. -/
structure AddNotificationMicrosoftTeamsInput where
  Name : String
  Webhook : String
deriving DecidableEq, Repr

/-- What the methods of `Client` call: `c.newRequest`, which builds a request
from the name of a query file and an input of any type (`interface{}`) and may
fail, and `c.client.Run`, which sends the request and returns the response
error (`none` is nil).  Both are parameters here; only the error returned is
followed, the output record is handed on to `Run` as it is. -/
structure Transport where
  Request : Type
  newRequest : {In : Type} → String → In → Except GoError Request
  Run : Request → Option GoError

namespace Client

/-- The method `AddGroup` (mutation.go:24-35). -/
def AddGroup (t : Transport) (inp : AddGroupInput) : Option GoError :=
  match t.newRequest "_lgraphql/addGroup.graphql" inp with
  | Except.error err => some err
  | Except.ok req => t.Run req

/-- The method `AddUser` (mutation.go:38-49). -/
def AddUser (t : Transport) (inp : AddUserInput) : Option GoError :=
  match t.newRequest "_lgraphql/addUser.graphql" inp with
  | Except.error err => some err
  | Except.ok req => t.Run req

/-- The method `AddSSHKey` (mutation.go:52-63). -/
def AddSSHKey (t : Transport) (inp : AddSSHKeyInput) : Option GoError :=
  match t.newRequest "_lgraphql/addSshKey.graphql" inp with
  | Except.error err => some err
  | Except.ok req => t.Run req

/-- The method `AddUserToGroup` (mutation.go:66-77). -/
def AddUserToGroup (t : Transport) (inp : UserGroupRoleInput) : Option GoError :=
  match t.newRequest "_lgraphql/addUserToGroup.graphql" inp with
  | Except.error err => some err
  | Except.ok req => t.Run req

/-- The method `AddNotificationSlack` (mutation.go:80-91). -/
def AddNotificationSlack (t : Transport) (inp : AddNotificationSlackInput) : Option GoError :=
  match t.newRequest "_lgraphql/addNotificationSlack.graphql" inp with
  | Except.error err => some err
  | Except.ok req => t.Run req

/-- The method `AddNotificationRocketChat` (mutation.go:94-106). -/
def AddNotificationRocketChat (t : Transport) (inp : AddNotificationRocketChatInput) : Option GoError :=
  match t.newRequest "_lgraphql/addNotificationRocketChat.graphql" inp with
  | Except.error err => some err
  | Except.ok req => t.Run req

/-- The method `AddNotificationEmail` (mutation.go:109-121). -/
def AddNotificationEmail (t : Transport) (inp : AddNotificationEmailInput) : Option GoError :=
  match t.newRequest "_lgraphql/addNotificationEmail.graphql" inp with
  | Except.error err => some err
  | Except.ok req => t.Run req

/-- The method `AddNotificationMicrosoftTeams` (mutation.go:124-136). -/
def AddNotificationMicrosoftTeams (t : Transport) (inp : AddNotificationMicrosoftTeamsInput) : Option GoError :=
  match t.newRequest "_lgraphql/addNotificationMicrosoftTeams.graphql" inp with
  | Except.error err => some err
  | Except.ok req => t.Run req

/-- The method `AddProject` (mutation.go:139-150): the response error goes
through `wrapErr`. -/
def AddProject (t : Transport) (inp : AddProjectInput) : Option GoError :=
  match t.newRequest "_lgraphql/addProject.graphql" inp with
  | Except.error err => some err
  | Except.ok req => wrapErr (t.Run req)

/-- The method `AddEnvVariable` (mutation.go:153-164). -/
def AddEnvVariable (t : Transport) (inp : EnvVariableInput) : Option GoError :=
  match t.newRequest "_lgraphql/addEnvVariable.graphql" inp with
  | Except.error err => some err
  | Except.ok req => t.Run req

/-- The method `AddOrUpdateEnvironment` (mutation.go:167-178): the response error goes
through `wrapErr`. -/
def AddOrUpdateEnvironment (t : Transport) (inp : AddEnvironmentInput) : Option GoError :=
  match t.newRequest "_lgraphql/addOrUpdateEnvironment.graphql" inp with
  | Except.error err => some err
  | Except.ok req => wrapErr (t.Run req)

/-- The method `AddGroupsToProject` (mutation.go:181-192). -/
def AddGroupsToProject (t : Transport) (inp : ProjectGroupsInput) : Option GoError :=
  match t.newRequest "_lgraphql/addGroupsToProject.graphql" inp with
  | Except.error err => some err
  | Except.ok req => t.Run req

/-- The method `AddNotificationToProject` (mutation.go:195-206). -/
def AddNotificationToProject (t : Transport) (inp : AddNotificationToProjectInput) : Option GoError :=
  match t.newRequest "_lgraphql/addNotificationToProject.graphql" inp with
  | Except.error err => some err
  | Except.ok req => t.Run req

/-- The method `AddBillingGroup` (mutation.go:209-220). -/
def AddBillingGroup (t : Transport) (inp : AddBillingGroupInput) : Option GoError :=
  match t.newRequest "_lgraphql/addBillingGroup.graphql" inp with
  | Except.error err => some err
  | Except.ok req => t.Run req

/-- The method `AddProjectToBillingGroup` (mutation.go:223-234). -/
def AddProjectToBillingGroup (t : Transport) (inp : ProjectBillingGroupInput) : Option GoError :=
  match t.newRequest "_lgraphql/addProjectToBillingGroup.graphql" inp with
  | Except.error err => some err
  | Except.ok req => t.Run req

end Client

/-- The result of a method that builds its request from `query` and `inp`
is the error of `newRequest` when the request cannot be built, and otherwise
the response error, unchanged. -/
def ReturnsUnchanged (t : Transport) {In : Type} (query : String) (inp : In)
    (result : Option GoError) : Prop :=
  (∀ err, t.newRequest query inp = Except.error err → result = some err) ∧
  (∀ req, t.newRequest query inp = Except.ok req → result = t.Run req)

/-- The result of a method that builds its request from `query` and `inp`
is the error of `newRequest` when the request cannot be built, and otherwise
the response error passed through `wrapErr`. -/
def ReturnsWrapped (t : Transport) {In : Type} (query : String) (inp : In)
    (result : Option GoError) : Prop :=
  (∀ err, t.newRequest query inp = Except.error err → result = some err) ∧
  (∀ req, t.newRequest query inp = Except.ok req → result = wrapErr (t.Run req))

/-! ## Basic facts about blocks -/

theorem andThen_none {b₁ b₂ : Block} {s s₁ : St} (h : b₁ s = (none, s₁)) :
    andThen b₁ b₂ s = b₂ s₁ := by
  simp [andThen, h]

theorem andThen_some {b₁ b₂ : Block} {s s₁ : St} {e : GoError} (h : b₁ s = (some e, s₁)) :
    andThen b₁ b₂ s = (some e, s₁) := by
  simp [andThen, h]

theorem andThen_cases (b₁ b₂ : Block) (s : St) :
    ((b₁ s).1 = none ∧ andThen b₁ b₂ s = b₂ (b₁ s).2) ∨
    (∃ e, (b₁ s).1 = some e ∧ andThen b₁ b₂ s = (some e, (b₁ s).2)) := by
  rcases h : b₁ s with ⟨r, s₁⟩
  cases r with
  | none => exact Or.inl ⟨rfl, andThen_none h⟩
  | some e => exact Or.inr ⟨e, rfl, andThen_some h⟩

theorem forEach_nil {α : Type} (body : α → Block) (s : St) :
    forEach [] body s = (none, s) := rfl

theorem forEach_cons {α : Type} (x : α) (xs : List α) (body : α → Block) :
    forEach (x :: xs) body = andThen (body x) (forEach xs body) := rfl

theorem seq_nil : seq [] = skip := rfl

theorem seq_cons (b : Block) (bs : List Block) : seq (b :: bs) = andThen b (seq bs) := rfl

theorem skip_apply (s : St) : skip s = (none, s) := rfl

/-- What `attempt` does, by the answer of the client. -/
theorem attempt_apply (i : Importer) (keepGoing : Bool) (c : Call) (ctx : String) (s : St) :
    attempt i keepGoing c ctx s =
      match (i.respond s.trace c).err with
      | none => (none, { s with trace := s.trace ++ [⟨c, i.respond s.trace c⟩] })
      | some err =>
        if keepGoing = false then
          (some (Errorf ctx err), { s with trace := s.trace ++ [⟨c, i.respond s.trace c⟩] })
        else
          (none, { trace := s.trace ++ [⟨c, i.respond s.trace c⟩],
                   log := s.log ++ ["import: " ++ (ctx ++ ": " ++ err.Error)],
                   newProj := s.newProj }) := by
  simp only [attempt, St.invoke, St.printf]
  cases (i.respond s.trace c).err <;> cases keepGoing <;> simp

theorem attempt_trace (i : Importer) (keepGoing : Bool) (c : Call) (ctx : String) (s : St) :
    (attempt i keepGoing c ctx s).2.trace = s.trace ++ [⟨c, i.respond s.trace c⟩] := by
  rw [attempt_apply]
  cases (i.respond s.trace c).err <;> cases keepGoing <;> simp

theorem attempt_newProj (i : Importer) (keepGoing : Bool) (c : Call) (ctx : String) (s : St) :
    (attempt i keepGoing c ctx s).2.newProj = s.newProj := by
  rw [attempt_apply]
  cases (i.respond s.trace c).err <;> cases keepGoing <;> simp

theorem attempt_result (i : Importer) (keepGoing : Bool) (c : Call) (ctx : String) (s : St) :
    (attempt i keepGoing c ctx s).1 =
      match (i.respond s.trace c).err with
      | none => none
      | some err => if keepGoing = false then some (Errorf ctx err) else none := by
  rw [attempt_apply]
  cases (i.respond s.trace c).err <;> cases keepGoing <;> simp

theorem satAt_skip {P : Nat → Event → Prop} {E : Option GoError → Prop} (hE : E none)
    (s : St) : SatAt P E skip s :=
  ⟨[], by simp [Lagoon.skip], rfl, by simp, hE⟩

theorem satAt_andThen {P : Nat → Event → Prop} {E : Option GoError → Prop} {b₁ b₂ : Block}
    {s : St} (h₁ : SatAt P E b₁ s) (h₂ : SatAt P E b₂ (b₁ s).2) :
    SatAt P E (andThen b₁ b₂) s := by
  obtain ⟨evs₁, ht₁, hn₁, hP₁, hE₁⟩ := h₁
  rcases andThen_cases b₁ b₂ s with ⟨_, heq⟩ | ⟨e, he, heq⟩
  · obtain ⟨evs₂, ht₂, hn₂, hP₂, hE₂⟩ := h₂
    refine ⟨evs₁ ++ evs₂, ?_, ?_, ?_, ?_⟩
    · rw [heq, ht₂, ht₁, List.append_assoc]
    · rw [heq, hn₂, hn₁]
    · intro ev hev
      rcases List.mem_append.1 hev with h | h
      · exact hP₁ ev h
      · have := hP₂ ev h
        rwa [hn₁] at this
    · rw [heq]; exact hE₂
  · refine ⟨evs₁, ?_, ?_, hP₁, ?_⟩
    · rw [heq]; exact ht₁
    · rw [heq]; exact hn₁
    · rw [heq]; simpa [he] using hE₁

theorem sat_andThen {P : Nat → Event → Prop} {E : Option GoError → Prop} {b₁ b₂ : Block}
    (h₁ : Sat P E b₁) (h₂ : Sat P E b₂) : Sat P E (andThen b₁ b₂) :=
  fun s => satAt_andThen (h₁ s) (h₂ _)

theorem sat_skip {P : Nat → Event → Prop} {E : Option GoError → Prop} (hE : E none) :
    Sat P E skip :=
  fun s => satAt_skip hE s

theorem sat_forEach {α : Type} {P : Nat → Event → Prop} {E : Option GoError → Prop}
    {body : α → Block} (hE : E none) :
    ∀ xs : List α, (∀ x ∈ xs, Sat P E (body x)) → Sat P E (forEach xs body)
  | [], _ => sat_skip hE
  | x :: xs, h => by
    rw [forEach_cons]
    exact sat_andThen (h x (List.mem_cons_self _ _))
      (sat_forEach hE xs (fun y hy => h y (List.mem_cons_of_mem _ hy)))

theorem sat_seq {P : Nat → Event → Prop} {E : Option GoError → Prop} (hE : E none) :
    ∀ bs : List Block, (∀ b ∈ bs, Sat P E b) → Sat P E (seq bs)
  | [], _ => sat_skip hE
  | b :: bs, h => by
    rw [seq_cons]
    exact sat_andThen (h b (List.mem_cons_self _ _))
      (sat_seq hE bs (fun y hy => h y (List.mem_cons_of_mem _ hy)))

/-- The rule for `attempt`: the one call issued must satisfy `P` whatever the
client answers, and `E` must hold of whatever can be returned. -/
theorem satAt_attempt {P : Nat → Event → Prop} {E : Option GoError → Prop} (i : Importer)
    (keepGoing : Bool) (c : Call) (ctx : String) (s : St)
    (hP : P s.newProj ⟨c, i.respond s.trace c⟩)
    (hE : E none)
    (hE' : keepGoing = false → ∀ err, (i.respond s.trace c).err = some err →
      E (some (Errorf ctx err))) :
    SatAt P E (attempt i keepGoing c ctx) s := by
  refine ⟨[⟨c, i.respond s.trace c⟩], attempt_trace _ _ _ _ _, attempt_newProj _ _ _ _ _, ?_, ?_⟩
  · simpa using hP
  · rw [attempt_result]
    cases h : (i.respond s.trace c).err with
    | none => exact hE
    | some err =>
      cases keepGoing with
      | false => simpa using hE' rfl err h
      | true => simpa using hE

theorem sat_ite {P : Nat → Event → Prop} {E : Option GoError → Prop} {c : Prop} [Decidable c]
    {b₁ b₂ : Block} (h₁ : c → Sat P E b₁) (h₂ : ¬ c → Sat P E b₂) :
    Sat P E (if c then b₁ else b₂) := by
  by_cases h : c
  · simpa [h] using h₁ h
  · simpa [h] using h₂ h

/-! ## C5: the conflict classifier -/

theorem wrapErr_of_duplicate (e : GoError) (h : duplicate e.Error = true) :
    wrapErr (some e) = some (GoError.wrapError
      ("couldn't create object: " ++ lagoonErrExist.Error ++ ": " ++ e.Error) lagoonErrExist) := by
  simp [wrapErr, h]

theorem wrapErr_of_not_duplicate (e : GoError) (h : duplicate e.Error = false) :
    wrapErr (some e) = some e := by
  simp [wrapErr, h]

/-- C5, as stated, fails: `wrapErr` returns `ErrExist` itself unchanged (its
message does not start with the duplicate-entry text), and the result then
wraps `ErrExist` although the message of the argument does not match. -/
theorem C5_counterexample :
    errorsIs (wrapErr (some lagoonErrExist)) lagoonErrExist = true ∧
    duplicate lagoonErrExist.Error = false ∧
    wrapErr (some lagoonErrExist) = some lagoonErrExist := by
  decide

/-- C5, amended: when `e` is non-nil and its message begins with
`"graphql: Duplicate entry "`, `wrapErr e` is a new error that wraps `ErrExist`;
in every other case, `e = nil` included, `wrapErr e` is `e` itself.  Hence
`wrapErr e` wraps `ErrExist` if and only if the message of `e` matches or `e`
wraps `ErrExist` already. -/
theorem C5_wrapErr (e : Option GoError) :
    ((∃ x, e = some x ∧ duplicate x.Error = true) →
        errorsIs (wrapErr e) lagoonErrExist = true ∧ wrapErr e ≠ e) ∧
    ((¬ ∃ x, e = some x ∧ duplicate x.Error = true) → wrapErr e = e) ∧
    (errorsIs (wrapErr e) lagoonErrExist = true ↔
      ((∃ x, e = some x ∧ duplicate x.Error = true) ∨ errorsIs e lagoonErrExist = true)) := by
  cases e with
  | none => simp [wrapErr, errorsIs]
  | some x =>
    cases h : duplicate x.Error with
    | true =>
      have hw := wrapErr_of_duplicate x h
      have his : errorsIs (wrapErr (some x)) lagoonErrExist = true := by
        rw [hw]
        simp [errorsIs, GoError.Is, GoError.comparable, lagoonErrExist, ErrExist]
      refine ⟨fun _ => ⟨his, ?_⟩, fun hn => absurd ⟨x, rfl, h⟩ hn, ?_⟩
      · rw [hw]
        intro heq
        have hx : x = GoError.wrapError
            ("couldn't create object: " ++ lagoonErrExist.Error ++ ": " ++ x.Error)
            lagoonErrExist := (Option.some.inj heq).symm
        have hlen := congrArg (fun g => g.Error.length) hx
        simp [GoError.Error] at hlen
        exact absurd hlen.2 (by decide)
      · simp [his, h]
    | false =>
      have hw := wrapErr_of_not_duplicate x h
      refine ⟨fun ⟨y, hy, hd⟩ => ?_, fun _ => hw, ?_⟩
      · cases hy
        rw [h] at hd
        exact absurd hd (by decide)
      · rw [hw]
        simp [h]

/-! ## C3: without `keepGoing`, the first failure ends the run -/

theorem stops_skip : StopsAtFailure skip :=
  fun s => ⟨[], by simp [skip], Or.inl (by simp)⟩

theorem stops_andThen {b₁ b₂ : Block} (h₁ : StopsAtFailure b₁) (h₂ : StopsAtFailure b₂) :
    StopsAtFailure (andThen b₁ b₂) := by
  intro s
  obtain ⟨evs₁, ht₁, hc₁⟩ := h₁ s
  rcases andThen_cases b₁ b₂ s with ⟨hnone, heq⟩ | ⟨e, he, heq⟩
  · rcases hc₁ with hok | ⟨hsome, _⟩
    · obtain ⟨evs₂, ht₂, hc₂⟩ := h₂ (b₁ s).2
      refine ⟨evs₁ ++ evs₂, by rw [heq, ht₂, ht₁, List.append_assoc], ?_⟩
      rcases hc₂ with hok₂ | ⟨hsome₂, init, last, hev, hinit, hlast⟩
      · left
        intro ev hev
        rcases List.mem_append.1 hev with h | h
        · exact hok ev h
        · exact hok₂ ev h
      · right
        refine ⟨by rw [heq]; exact hsome₂, evs₁ ++ init, last, by rw [hev, List.append_assoc],
          ?_, hlast⟩
        intro ev hev
        rcases List.mem_append.1 hev with h | h
        · exact hok ev h
        · exact hinit ev h
    · rw [hnone] at hsome
      exact absurd hsome (by simp)
  · refine ⟨evs₁, by rw [heq]; exact ht₁, ?_⟩
    rcases hc₁ with hok | ⟨_, hrest⟩
    · exact Or.inl hok
    · exact Or.inr ⟨by rw [heq]; rfl, hrest⟩

theorem stops_forEach {α : Type} {body : α → Block} (h : ∀ x, StopsAtFailure (body x)) :
    ∀ xs : List α, StopsAtFailure (forEach xs body)
  | [] => stops_skip
  | x :: xs => by
    rw [forEach_cons]
    exact stops_andThen (h x) (stops_forEach h xs)

theorem stops_seq : ∀ bs : List Block, (∀ b ∈ bs, StopsAtFailure b) → StopsAtFailure (seq bs)
  | [], _ => stops_skip
  | b :: bs, h => by
    rw [seq_cons]
    exact stops_andThen (h b (List.mem_cons_self _ _))
      (stops_seq bs (fun y hy => h y (List.mem_cons_of_mem _ hy)))

/-- An `attempt` without `keepGoing`, whose call may be computed from the state. -/
theorem stops_attempt (i : Importer) (c : St → Call) (ctx : String) :
    StopsAtFailure (fun s => attempt i false (c s) ctx s) := by
  intro s
  refine ⟨[⟨c s, i.respond s.trace (c s)⟩], attempt_trace _ _ _ _ _, ?_⟩
  cases h : (i.respond s.trace (c s)).err with
  | none => left; simp [h]
  | some err =>
    right
    refine ⟨?_, [], _, rfl, by simp, by simp [h]⟩
    show (attempt i false (c s) ctx s).1.isSome = true
    rw [attempt_result, h]
    simp

theorem stops_attempt_const (i : Importer) (c : Call) (ctx : String) :
    StopsAtFailure (attempt i false c ctx) :=
  stops_attempt i (fun _ => c) ctx

theorem stops_addEnvironmentEnvVars (i : Importer) (env : EnvironmentConfig) (newEnv : Nat) :
    StopsAtFailure (addEnvironmentEnvVars i false env newEnv) :=
  stops_forEach (fun _ => stops_attempt_const i _ _) _

/-- A call issued first, then a block run only if the call succeeded. -/
theorem stops_after_call (i : Importer) (s : St) (c : Call) (b : Block) (s₁ : St)
    (hs₁ : s₁.trace = s.trace ++ [⟨c, i.respond s.trace c⟩])
    (res : Option GoError × St)
    (hok : (i.respond s.trace c).err = none → res = b s₁)
    (hfail : (i.respond s.trace c).err ≠ none → res.1.isSome = true ∧ res.2.trace = s₁.trace)
    (hb : StopsAtFailure b) :
    ∃ evs, res.2.trace = s.trace ++ evs ∧
      ((∀ ev ∈ evs, ev.resp.err = none) ∨
        (res.1.isSome = true ∧ ∃ init last, evs = init ++ [last] ∧
          (∀ ev ∈ init, ev.resp.err = none) ∧ last.resp.err.isSome = true)) := by
  cases h : (i.respond s.trace c).err with
  | none =>
    obtain ⟨evs, ht, hc⟩ := hb s₁
    rw [hok h]
    refine ⟨⟨c, i.respond s.trace c⟩ :: evs, by rw [ht, hs₁]; simp, ?_⟩
    rcases hc with hall | ⟨hsome, init, last, hev, hinit, hlast⟩
    · left
      intro ev hev
      rcases List.mem_cons.1 hev with h' | h'
      · rw [h']; exact h
      · exact hall ev h'
    · right
      refine ⟨hsome, ⟨c, i.respond s.trace c⟩ :: init, last, by rw [hev]; rfl, ?_, hlast⟩
      intro ev hev
      rcases List.mem_cons.1 hev with h' | h'
      · rw [h']; exact h
      · exact hinit ev h'
  | some err =>
    obtain ⟨hsome, ht⟩ := hfail (by rw [h]; simp)
    refine ⟨[⟨c, i.respond s.trace c⟩], by rw [ht, hs₁], Or.inr ⟨hsome, [], _, rfl, by simp, ?_⟩⟩
    simp [h]

theorem stops_importEnvironment (i : Importer) (p : ProjectConfig) (env : EnvironmentConfig) :
    StopsAtFailure (importEnvironment i false p env) := by
  intro s
  apply stops_after_call i s
    (Call.AddOrUpdateEnvironment { env.Environment.AddEnvironmentInput with ProjectID := s.newProj })
    (addEnvironmentEnvVars i false env
      ((i.respond s.trace (Call.AddOrUpdateEnvironment
        { env.Environment.AddEnvironmentInput with ProjectID := s.newProj })).out.getD 0))
    { s with trace := s.trace ++ [⟨_, i.respond s.trace (Call.AddOrUpdateEnvironment
        { env.Environment.AddEnvironmentInput with ProjectID := s.newProj })⟩] } rfl
  · intro h
    simp only [importEnvironment, St.invoke, h]
  · intro h
    simp only [importEnvironment, St.invoke]
    cases h' : (i.respond s.trace (Call.AddOrUpdateEnvironment
        { env.Environment.AddEnvironmentInput with ProjectID := s.newProj })).err with
    | none => exact absurd h' h
    | some err =>
      by_cases hi : err.Is ErrExist = true <;> simp [hi]
  · exact stops_addEnvironmentEnvVars i env _

theorem stops_return (e : GoError) : StopsAtFailure (fun s => (some e, s)) :=
  fun s => ⟨[], by simp, Or.inl (by simp)⟩

theorem stops_ite {c : Prop} [Decidable c] {b₁ b₂ : Block} (h₁ : StopsAtFailure b₁)
    (h₂ : StopsAtFailure b₂) : StopsAtFailure (if c then b₁ else b₂) := by
  by_cases h : c
  · simpa [h] using h₁
  · simpa [h] using h₂

theorem stops_addProjectAssociations (i : Importer) (p : ProjectConfig) :
    StopsAtFailure (addProjectAssociations i false p) := by
  apply stops_seq
  intro b hb
  simp only [List.mem_cons, List.mem_singleton, List.not_mem_nil, or_false] at hb
  rcases hb with rfl | rfl | rfl | rfl | rfl
  · exact stops_ite (stops_attempt_const i _ _) stops_skip
  · exact stops_ite (stops_return _) stops_skip
  · exact stops_forEach (fun _ => stops_attempt_const i _ _) _
  · exact stops_forEach (fun _ => stops_attempt_const i _ _) _
  · cases p.Notifications with
    | none => exact stops_skip
    | some ns =>
      apply stops_seq
      intro b hb
      simp only [List.mem_cons, List.mem_singleton, List.not_mem_nil, or_false] at hb
      rcases hb with rfl | rfl
      · exact stops_forEach (fun _ => stops_attempt_const i _ _) _
      · exact stops_forEach (fun _ => stops_attempt_const i _ _) _

theorem stops_importProjectSteps (i : Importer) (p : ProjectConfig) :
    StopsAtFailure (importProjectSteps i false p) := by
  apply stops_seq
  intro b hb
  simp only [List.mem_cons, List.mem_singleton, List.not_mem_nil, or_false] at hb
  rcases hb with rfl | rfl | rfl
  · exact stops_forEach (fun ev => stops_attempt i _ _) _
  · exact stops_forEach (fun env => stops_importEnvironment i p env) _
  · exact stops_addProjectAssociations i p

theorem stops_importProject (i : Importer) (openshiftID : Nat) (p : ProjectConfig) :
    StopsAtFailure (importProject i false openshiftID p) := by
  intro s
  apply stops_after_call i s
    (Call.AddProject (p.withOpenshift openshiftID).AddProjectInput)
    (importProjectSteps i false (p.withOpenshift openshiftID))
    (s.invokeProj i (Call.AddProject (p.withOpenshift openshiftID).AddProjectInput)).2 rfl
  · intro h
    simp only [importProject, St.invokeProj, h]
  · intro h
    simp only [importProject, St.invokeProj]
    cases h' : (i.respond s.trace
        (Call.AddProject (p.withOpenshift openshiftID).AddProjectInput)).err with
    | none => exact absurd h' h
    | some err =>
      by_cases hi : err.Is ErrExist = true <;> simp [hi]
  · exact stops_importProjectSteps i _

theorem stops_importGlobals (i : Importer) (config : Config) :
    StopsAtFailure (importGlobals i false config) := by
  apply stops_seq
  intro b hb
  simp only [List.mem_cons, List.mem_singleton, List.not_mem_nil, or_false] at hb
  rcases hb with rfl | rfl | rfl | rfl | rfl | rfl
  · exact stops_forEach (fun _ => stops_attempt_const i _ _) _
  · exact stops_forEach (fun _ => stops_attempt_const i _ _) _
  · exact stops_forEach (fun _ => stops_attempt_const i _ _) _
  · exact stops_forEach (fun _ => stops_forEach (fun _ => stops_attempt_const i _ _) _) _
  · exact stops_forEach (fun _ => stops_forEach (fun _ => stops_attempt_const i _ _) _) _
  · cases config.Notifications with
    | none => exact stops_skip
    | some ns =>
      apply stops_seq
      intro b hb
      simp only [List.mem_cons, List.mem_singleton, List.not_mem_nil, or_false] at hb
      rcases hb with rfl | rfl
      · exact stops_forEach (fun _ => stops_attempt_const i _ _) _
      · exact stops_forEach (fun _ => stops_attempt_const i _ _) _

theorem Import_eq (i : Importer) (config : Config) (keepGoing : Bool) (openshiftID : Nat) :
    Import i config keepGoing openshiftID =
      andThen (importGlobals i keepGoing config)
        (forEach config.Projects (importProject i keepGoing openshiftID)) St.init := by
  simp only [Import, seq_cons, seq_nil]
  rcases andThen_cases (importGlobals i keepGoing config)
    (andThen (forEach config.Projects (importProject i keepGoing openshiftID)) skip)
    St.init with ⟨h₁, h₂⟩ | ⟨e, h₁, h₂⟩
  · rcases andThen_cases (importGlobals i keepGoing config)
      (forEach config.Projects (importProject i keepGoing openshiftID))
      St.init with ⟨h₃, h₄⟩ | ⟨e, h₃, _⟩
    · rw [h₂, h₄]
      rcases andThen_cases (forEach config.Projects (importProject i keepGoing openshiftID))
        skip (importGlobals i keepGoing config St.init).2 with ⟨h₅, h₆⟩ | ⟨e, h₅, h₆⟩
      · rw [h₆, skip_apply]; exact Prod.ext h₅.symm rfl
      · rw [h₆]; exact Prod.ext h₅.symm rfl
    · rw [h₁] at h₃; cases h₃
  · rcases andThen_cases (importGlobals i keepGoing config)
      (forEach config.Projects (importProject i keepGoing openshiftID))
      St.init with ⟨h₃, _⟩ | ⟨e', h₃, h₄⟩
    · rw [h₁] at h₃; cases h₃
    · rw [h₂, h₄]; rw [h₁] at h₃; cases h₃; rfl

theorem stops_Import_block (i : Importer) (config : Config) (openshiftID : Nat) :
    StopsAtFailure (andThen (importGlobals i false config)
        (forEach config.Projects (importProject i false openshiftID))) :=
  stops_andThen (stops_importGlobals i config)
    (stops_forEach (fun p => stops_importProject i openshiftID p) _)

/-- C3: without `keepGoing`, a client call that returns an error makes `Import`
return an error, and that call is the last of the trace: no call of the same or
of a later phase follows the first failure. -/
theorem C3_first_failure_ends_run (i : Importer) (config : Config) (openshiftID : Nat)
    (before after : List Event) (ev : Event)
    (htrace : (Import i config false openshiftID).2.trace = before ++ ev :: after)
    (hfail : ev.resp.err.isSome = true) :
    (Import i config false openshiftID).1.isSome = true ∧ after = [] ∧
      ∀ ev' ∈ before, ev'.resp.err = none := by
  obtain ⟨evs, ht, hc⟩ := stops_Import_block i config openshiftID St.init
  rw [← Import_eq] at ht hc
  have hevs : evs = before ++ ev :: after := by
    rw [htrace] at ht
    simpa [St.init] using ht.symm
  rcases hc with hall | ⟨hsome, init, last, hev, hinit, hlast⟩
  · have := hall ev (by rw [hevs]; simp)
    rw [this] at hfail
    exact absurd hfail (by simp)
  · refine ⟨hsome, ?_⟩
    rw [hevs] at hev
    rcases List.append_eq_append_iff.1 hev with ⟨a, ha, hb⟩ | ⟨c, hc, hd⟩
    · cases a with
      | nil =>
        simp only [List.nil_append, List.cons.injEq] at hb
        refine ⟨hb.2, ?_⟩
        intro ev' hev'
        exact hinit ev' (by rw [ha]; simpa using hev')
      | cons x a =>
        simp only [List.cons_append, List.cons.injEq] at hb
        have := hinit ev (by rw [ha, ← hb.1]; simp)
        rw [this] at hfail
        exact absurd hfail (by simp)
    · cases c with
      | nil =>
        simp only [List.nil_append, List.cons.injEq] at hd
        refine ⟨hd.2.symm, ?_⟩
        intro ev' hev'
        exact hinit ev' (by rw [hc] at hev'; simpa using hev')
      | cons x c =>
        simp only [List.cons_append, List.cons.injEq] at hd
        have := congrArg List.length hd.2
        simp at this
        omega

/-! ## C7: the trace of a run on which nothing fails -/

theorem erasedCalls_append (xs ys : List Event) :
    erasedCalls (xs ++ ys) = erasedCalls xs ++ erasedCalls ys := by
  simp [erasedCalls]

theorem produces_skip : Produces [] skip :=
  fun s => ⟨rfl, by simp [skip]⟩

theorem producesAt_andThen {r₁ r₂ : List Call} {b₁ b₂ : Block} {s : St}
    (h₁ : ProducesAt r₁ b₁ s) (h₂ : ProducesAt r₂ b₂ (b₁ s).2) :
    ProducesAt (r₁ ++ r₂) (andThen b₁ b₂) s := by
  rcases andThen_cases b₁ b₂ s with ⟨_, heq⟩ | ⟨e, he, _⟩
  · refine ⟨by rw [heq]; exact h₂.1, ?_⟩
    rw [heq, h₂.2, h₁.2, List.append_assoc]
  · rw [h₁.1] at he
    cases he

theorem produces_andThen {r₁ r₂ : List Call} {b₁ b₂ : Block}
    (h₁ : Produces r₁ b₁) (h₂ : Produces r₂ b₂) : Produces (r₁ ++ r₂) (andThen b₁ b₂) :=
  fun s => producesAt_andThen (h₁ s) (h₂ _)

theorem produces_forEach {α : Type} {body : α → Block} {f : α → List Call}
    (h : ∀ x, Produces (f x) (body x)) :
    ∀ xs : List α, Produces (xs.flatMap f) (forEach xs body)
  | [] => produces_skip
  | x :: xs => by
    rw [forEach_cons, List.flatMap_cons]
    exact produces_andThen (h x) (produces_forEach h xs)

theorem produces_congr {r₁ r₂ : List Call} {b : Block} (h : Produces r₁ b) (hr : r₁ = r₂) :
    Produces r₂ b := hr ▸ h

theorem flatMap_singleton_map {α β : Type} (f : α → β) (xs : List α) :
    xs.flatMap (fun x => [f x]) = xs.map f := by
  induction xs with
  | nil => rfl
  | cons x xs ih => simp [List.flatMap_cons, ih]

/-- An `attempt` on a client that never fails; the call may be computed from the state. -/
theorem produces_attempt (i : Importer) (hi : ∀ h c, (i.respond h c).err = none)
    (keepGoing : Bool) (c : St → Call) (c₀ : Call) (hc : ∀ s, (c s).eraseID = c₀)
    (ctx : String) :
    Produces [c₀] (fun s => attempt i keepGoing (c s) ctx s) := by
  intro s
  refine ⟨?_, ?_⟩
  · show (attempt i keepGoing (c s) ctx s).1 = none
    rw [attempt_result, hi]
  · show erasedCalls (attempt i keepGoing (c s) ctx s).2.trace = _
    rw [attempt_trace, erasedCalls_append]
    simp [erasedCalls, hc]

theorem produces_attempt_const (i : Importer) (hi : ∀ h c, (i.respond h c).err = none)
    (keepGoing : Bool) (c : Call) (hc : c.eraseID = c) (ctx : String) :
    Produces [c] (attempt i keepGoing c ctx) :=
  produces_attempt i hi keepGoing (fun _ => c) c (fun _ => hc) ctx

/-- A loop of `attempt`s on a client that never fails. -/
theorem produces_attempts {α : Type} (i : Importer) (hi : ∀ h c, (i.respond h c).err = none)
    (keepGoing : Bool) (c : α → St → Call) (c₀ : α → Call)
    (hc : ∀ x s, (c x s).eraseID = c₀ x) (ctx : α → String) (xs : List α) :
    Produces (xs.map c₀) (forEach xs (fun x s => attempt i keepGoing (c x s) (ctx x) s)) := by
  have := @produces_forEach α (fun x s => attempt i keepGoing (c x s) (ctx x) s)
    (fun x => [c₀ x])
    (fun x => produces_attempt i hi keepGoing (c x) (c₀ x) (hc x) (ctx x)) xs
  rwa [flatMap_singleton_map] at this

theorem produces_importEnvironment (i : Importer) (hi : ∀ h c, (i.respond h c).err = none)
    (keepGoing : Bool) (p : ProjectConfig) (env : EnvironmentConfig) :
    Produces (environmentReference env) (importEnvironment i keepGoing p env) := by
  intro s
  obtain ⟨c, hc⟩ : ∃ c, c = Call.AddOrUpdateEnvironment
      { env.Environment.AddEnvironmentInput with ProjectID := s.newProj } := ⟨_, rfl⟩
  obtain ⟨s₁, hs₁⟩ : ∃ s₁ : St, s₁ = { s with trace := s.trace ++ [⟨c, i.respond s.trace c⟩] } :=
    ⟨_, rfl⟩
  have hv := produces_attempts i hi keepGoing
    (fun (ev : EnvKeyValue) _ => Call.AddEnvVariable ⟨ev, EnvVariableType.EnvironmentVar,
      (i.respond s.trace c).out.getD 0⟩)
    (fun ev => Call.AddEnvVariable ⟨ev, EnvVariableType.EnvironmentVar, 0⟩)
    (fun _ _ => rfl) (fun _ => "couldn't add Environment EnvVariable")
    env.Environment.EnvVariables s₁
  have heq : importEnvironment i keepGoing p env s =
      addEnvironmentEnvVars i keepGoing env ((i.respond s.trace c).out.getD 0) s₁ := by
    simp only [importEnvironment, St.invoke, hi, hc, hs₁]
  refine ⟨by rw [heq]; exact hv.1, ?_⟩
  rw [heq]
  refine hv.2.trans ?_
  simp [erasedCalls, environmentReference, Call.eraseID, hs₁, hc]

/-- The calls expected after the environments of a project. -/
theorem produces_addProjectAssociations (i : Importer)
    (hi : ∀ h c, (i.respond h c).err = none)
    (keepGoing : Bool) (p : ProjectConfig) (hbg : p.BillingGroups.length ≤ 1) :
    Produces
      ((if p.Groups = [] then []
        else [Call.AddGroupsToProject
          ⟨⟨p.AddProjectInput.Name⟩, p.Groups.map GroupInput.mk⟩]) ++
      p.BillingGroups.map (fun bgName =>
        Call.AddProjectToBillingGroup ⟨⟨bgName⟩, ⟨p.AddProjectInput.Name⟩⟩) ++
      p.Users.map (fun u =>
        Call.AddUserToGroup ⟨u.Email, "project-" ++ p.AddProjectInput.Name, u.Role⟩) ++
      (match p.Notifications with
        | none => []
        | some ns =>
          ns.Slack.map (fun n => Call.AddNotificationToProject
            ⟨p.AddProjectInput.Name, NotificationType.SlackNotification, n⟩) ++
          ns.RocketChat.map (fun n => Call.AddNotificationToProject
            ⟨p.AddProjectInput.Name, NotificationType.RocketChatNotification, n⟩)))
      (addProjectAssociations i keepGoing p) := by
  simp only [addProjectAssociations, seq_cons, seq_nil]
  refine produces_congr
    (@produces_andThen
      (if p.Groups = [] then []
        else [Call.AddGroupsToProject ⟨⟨p.AddProjectInput.Name⟩, p.Groups.map GroupInput.mk⟩])
      _ _ _ ?groups
      (@produces_andThen [] _ _ _ ?valid
        (produces_andThen
          (produces_attempts i hi keepGoing
            (fun (bgName : String) _ =>
              Call.AddProjectToBillingGroup ⟨⟨bgName⟩, ⟨p.AddProjectInput.Name⟩⟩)
            (fun bgName =>
              Call.AddProjectToBillingGroup ⟨⟨bgName⟩, ⟨p.AddProjectInput.Name⟩⟩)
            (fun _ _ => rfl) _ p.BillingGroups)
          (produces_andThen
            (produces_attempts i hi keepGoing
              (fun (u : UserRoleConfig) _ => Call.AddUserToGroup
                ⟨u.Email, "project-" ++ p.AddProjectInput.Name, u.Role⟩)
              (fun u => Call.AddUserToGroup
                ⟨u.Email, "project-" ++ p.AddProjectInput.Name, u.Role⟩)
              (fun _ _ => rfl) (fun _ => "couldn't add user to project group") p.Users)
            (@produces_andThen
              (match p.Notifications with
                | none => []
                | some ns =>
                  ns.Slack.map (fun n => Call.AddNotificationToProject
                    ⟨p.AddProjectInput.Name, NotificationType.SlackNotification, n⟩) ++
                  ns.RocketChat.map (fun n => Call.AddNotificationToProject
                    ⟨p.AddProjectInput.Name, NotificationType.RocketChatNotification, n⟩))
              _ _ _ ?notif produces_skip))))) ?_
  case groups =>
    by_cases hg : p.Groups = []
    · simp only [hg, List.length_nil, gt_iff_lt, lt_self_iff_false, if_false, if_true]
      exact produces_skip
    · have hpos : p.Groups.length > 0 := List.length_pos.2 hg
      simp only [hg, hpos, if_true, if_false]
      exact produces_attempt_const i hi keepGoing _ rfl _
  case valid =>
    have : ¬ p.BillingGroups.length > 1 := by omega
    simp only [this, if_false]
    exact produces_skip
  case notif =>
    cases p.Notifications with
    | none => exact produces_skip
    | some ns =>
      simp only [seq_cons, seq_nil]
      refine produces_congr
        (produces_andThen
          (produces_attempts i hi keepGoing
            (fun (n : String) _ => Call.AddNotificationToProject
              ⟨p.AddProjectInput.Name, NotificationType.SlackNotification, n⟩)
            (fun n => Call.AddNotificationToProject
              ⟨p.AddProjectInput.Name, NotificationType.SlackNotification, n⟩)
            (fun _ _ => rfl) (fun _ => "couldn't add Slack Notification to project") ns.Slack)
          (produces_andThen
            (produces_attempts i hi keepGoing
              (fun (n : String) _ => Call.AddNotificationToProject
                ⟨p.AddProjectInput.Name, NotificationType.RocketChatNotification, n⟩)
              (fun n => Call.AddNotificationToProject
                ⟨p.AddProjectInput.Name, NotificationType.RocketChatNotification, n⟩)
              (fun _ _ => rfl) (fun _ => "couldn't add RocketChat Notification to project")
              ns.RocketChat)
            produces_skip)) ?_
      simp
  · simp [List.append_assoc]

theorem produces_importProjectSteps (i : Importer) (hi : ∀ h c, (i.respond h c).err = none)
    (keepGoing : Bool) (p : ProjectConfig) (hbg : p.BillingGroups.length ≤ 1) :
    Produces ((projectReference 0 p).tail) (importProjectSteps i keepGoing p) := by
  simp only [importProjectSteps, addProjectEnvVars, seq_cons, seq_nil]
  refine produces_congr
    (produces_andThen
      (produces_attempts i hi keepGoing
        (fun (ev : EnvKeyValue) s => Call.AddEnvVariable ⟨ev, EnvVariableType.ProjectVar, s.newProj⟩)
        (fun ev => Call.AddEnvVariable ⟨ev, EnvVariableType.ProjectVar, 0⟩)
        (fun _ _ => rfl) (fun _ => "couldn't add Project EnvVariable") p.EnvVariables)
      (produces_andThen
        (produces_forEach (fun env => produces_importEnvironment i hi keepGoing p env)
          p.Environments)
        (produces_andThen (produces_addProjectAssociations i hi keepGoing p hbg)
          produces_skip))) ?_
  simp [projectReference, List.append_assoc]

theorem produces_importProject (i : Importer) (hi : ∀ h c, (i.respond h c).err = none)
    (keepGoing : Bool) (openshiftID : Nat) (p : ProjectConfig)
    (hbg : p.BillingGroups.length ≤ 1) :
    Produces (projectReference openshiftID p) (importProject i keepGoing openshiftID p) := by
  intro s
  obtain ⟨s₁, hs₁⟩ : ∃ s₁ : St, s₁ =
      (s.invokeProj i (Call.AddProject (p.withOpenshift openshiftID).AddProjectInput)).2 :=
    ⟨_, rfl⟩
  have hv := produces_importProjectSteps i hi keepGoing (p.withOpenshift openshiftID) hbg s₁
  have heq : importProject i keepGoing openshiftID p s =
      importProjectSteps i keepGoing (p.withOpenshift openshiftID) s₁ := by
    simp only [importProject, St.invokeProj, hi, hs₁]
  refine ⟨by rw [heq]; exact hv.1, ?_⟩
  rw [heq]
  refine hv.2.trans ?_
  simp [erasedCalls, projectReference, Call.eraseID, hs₁, St.invokeProj,
    ProjectConfig.withOpenshift]

theorem produces_importGlobals (i : Importer) (hi : ∀ h c, (i.respond h c).err = none)
    (keepGoing : Bool) (config : Config) :
    Produces (globalsReference config) (importGlobals i keepGoing config) := by
  simp only [importGlobals, seq_cons, seq_nil]
  refine produces_congr
    (produces_andThen
      (produces_attempts i hi keepGoing (fun (bg : AddBillingGroupInput) _ => Call.AddBillingGroup bg)
        Call.AddBillingGroup (fun _ _ => rfl) (fun _ => "couldn't add billing group")
        config.BillingGroups)
      (produces_andThen
        (produces_attempts i hi keepGoing
          (fun (group : GroupConfig) _ => Call.AddGroup group.AddGroupInput)
          (fun group => Call.AddGroup group.AddGroupInput) (fun _ _ => rfl)
          (fun _ => "couldn't add group") config.Groups)
        (produces_andThen
          (produces_attempts i hi keepGoing
            (fun (user : UserConfig) _ => Call.AddUser user.AddUserInput)
            (fun user => Call.AddUser user.AddUserInput) (fun _ _ => rfl)
            (fun _ => "couldn't add user") config.Users)
          (produces_andThen
            (produces_forEach (fun (user : UserConfig) =>
              produces_attempts i hi keepGoing
                (fun (sshKey : SSHKey) _ => Call.AddSSHKey ⟨sshKey, user.AddUserInput.Email⟩)
                (fun sshKey => Call.AddSSHKey ⟨sshKey, user.AddUserInput.Email⟩)
                (fun _ _ => rfl) (fun _ => "couldn't add SSH key") user.SSHKeys) config.Users)
            (produces_andThen
              (produces_forEach (fun (group : GroupConfig) =>
                produces_attempts i hi keepGoing
                  (fun (userRole : UserRoleConfig) _ => Call.AddUserToGroup
                    ⟨userRole.Email, group.AddGroupInput.Name, userRole.Role⟩)
                  (fun userRole => Call.AddUserToGroup
                    ⟨userRole.Email, group.AddGroupInput.Name, userRole.Role⟩)
                  (fun _ _ => rfl) (fun _ => "couldn't add user to group") group.Users)
                config.Groups)
              (@produces_andThen
                (match config.Notifications with
                  | none => []
                  | some ns =>
                    ns.Slack.map Call.AddNotificationSlack ++
                    ns.RocketChat.map Call.AddNotificationRocketChat)
                _ _ _ ?notif produces_skip)))))) ?_
  case notif =>
    cases config.Notifications with
    | none => exact produces_skip
    | some ns =>
      simp only [seq_cons, seq_nil]
      refine produces_congr
        (produces_andThen
          (produces_attempts i hi keepGoing
            (fun (n : AddNotificationSlackInput) _ => Call.AddNotificationSlack n)
            Call.AddNotificationSlack (fun _ _ => rfl)
            (fun _ => "couldn't add Slack notification") ns.Slack)
          (produces_andThen
            (produces_attempts i hi keepGoing
              (fun (n : AddNotificationRocketChatInput) _ => Call.AddNotificationRocketChat n)
              Call.AddNotificationRocketChat (fun _ _ => rfl)
              (fun _ => "couldn't add RocketChat notification") ns.RocketChat)
            produces_skip)) ?_
      simp
  · simp [globalsReference, List.append_assoc]

theorem eraseID_isLookup (c : Call) : c.eraseID.isLookup = c.isLookup := by
  cases c <;> rfl

theorem reference_no_lookup (config : Config) (openshiftID : Nat) :
    ∀ c ∈ reference config openshiftID, c.isLookup = false := by
  intro c hc
  simp only [reference, globalsReference, projectReference, environmentReference,
    List.mem_append, List.mem_map, List.mem_flatMap, List.mem_cons, List.mem_singleton] at hc
  rcases hc with (((((h | h) | h) | h) | h) | h) | h
  · obtain ⟨_, _, rfl⟩ := h; rfl
  · obtain ⟨_, _, rfl⟩ := h; rfl
  · obtain ⟨_, _, rfl⟩ := h; rfl
  · obtain ⟨_, _, _, _, rfl⟩ := h; rfl
  · obtain ⟨_, _, _, _, rfl⟩ := h; rfl
  · cases hn : config.Notifications with
    | none => simp [hn] at h
    | some ns =>
      simp only [hn, List.mem_append, List.mem_map] at h
      rcases h with ⟨_, _, rfl⟩ | ⟨_, _, rfl⟩ <;> rfl
  · obtain ⟨p, _, h⟩ := h
    rcases h with (((((h | h) | h) | h) | h) | h) | h
    · rcases h with rfl | h
      · rfl
      · exact absurd h (List.not_mem_nil _)
    · obtain ⟨_, _, rfl⟩ := h; rfl
    · obtain ⟨_, _, h⟩ := h
      rcases h with rfl | ⟨_, _, rfl⟩ <;> rfl
    · by_cases hg : p.Groups = []
      · simp [hg] at h
      · simp only [hg, if_false, List.mem_singleton] at h
        rw [h]; rfl
    · obtain ⟨_, _, rfl⟩ := h; rfl
    · obtain ⟨_, _, rfl⟩ := h; rfl
    · cases hn : p.Notifications with
      | none => simp [hn] at h
      | some ns =>
        simp only [hn, List.mem_append, List.mem_map] at h
        rcases h with ⟨_, _, rfl⟩ | ⟨_, _, rfl⟩ <;> rfl

/-- C7: on a configuration whose projects each declare at most one
billing-group name, against a client on which every operation succeeds,
`Import` returns nil and the calls of its trace are the reference sequence
(one call per entity, phase after phase, every collection in declared order;
the identifiers the client assigned apart), and no lookup is issued. -/
theorem C7_successful_run (i : Importer) (config : Config) (keepGoing : Bool)
    (openshiftID : Nat)
    (hbg : ∀ p ∈ config.Projects, p.BillingGroups.length ≤ 1)
    (hok : ∀ history c, (i.respond history c).err = none) :
    (Import i config keepGoing openshiftID).1 = none ∧
    erasedCalls (Import i config keepGoing openshiftID).2.trace = reference config openshiftID ∧
    ∀ ev ∈ (Import i config keepGoing openshiftID).2.trace, ev.call.isLookup = false := by
  have hprojects : ∀ ps : List ProjectConfig, (∀ p ∈ ps, p.BillingGroups.length ≤ 1) →
      Produces (ps.flatMap (projectReference openshiftID))
        (forEach ps (importProject i keepGoing openshiftID)) := by
    intro ps
    induction ps with
    | nil => intro _; exact produces_skip
    | cons p ps ih =>
      intro h
      rw [forEach_cons, List.flatMap_cons]
      exact produces_andThen
        (produces_importProject i hok keepGoing openshiftID p (h p (List.mem_cons_self _ _)))
        (ih (fun q hq => h q (List.mem_cons_of_mem _ hq)))
  have h := produces_andThen (produces_importGlobals i hok keepGoing config)
    (hprojects config.Projects hbg) St.init
  unfold ProducesAt at h
  rw [← Import_eq] at h
  have htrace : erasedCalls (Import i config keepGoing openshiftID).2.trace =
      reference config openshiftID := by
    rw [h.2]; simp [erasedCalls, St.init, reference]
  refine ⟨h.1, htrace, ?_⟩
  intro ev hev
  have hmem : ev.call.eraseID ∈ reference config openshiftID := by
    rw [← htrace]
    exact List.mem_map.2 ⟨ev, hev, rfl⟩
  rw [← eraseID_isLookup]
  exact reference_no_lookup config openshiftID _ hmem

/-! ## Loops and segments -/

/-- The trace of a loop is the trace before it followed by one segment per
iteration run. -/
theorem forEach_runs {α : Type} (body : α → Block) (I : St → Prop)
    (Q : α → List Event → Option GoError → Prop)
    (h : ∀ x s, I s → ∃ seg, (body x s).2.trace = s.trace ++ seg ∧ I (body x s).2 ∧
      Q x seg (body x s).1) :
    ∀ (xs : List α) (s : St), I s → ∃ segs,
      (forEach xs body s).2.trace = s.trace ++ segs.flatten ∧ I (forEach xs body s).2 ∧
      RunsOf Q xs segs (forEach xs body s).1
  | [], s, hI => ⟨[], by simp [forEach_nil], hI, RunsOf.done⟩
  | x :: xs, s, hI => by
    obtain ⟨seg, ht, hI₁, hQ⟩ := h x s hI
    rw [forEach_cons]
    rcases andThen_cases (body x) (forEach xs body) s with ⟨hnone, heq⟩ | ⟨e, he, heq⟩
    · obtain ⟨segs, ht₂, hI₂, hR⟩ := forEach_runs body I Q h xs (body x s).2 hI₁
      refine ⟨seg :: segs, ?_, ?_, ?_⟩
      · rw [heq, ht₂, ht, List.flatten_cons, List.append_assoc]
      · rw [heq]; exact hI₂
      · rw [heq]
        exact RunsOf.next x xs seg segs _ (hnone ▸ hQ) hR
    · refine ⟨[seg], ?_, ?_, ?_⟩
      · rw [heq]; simpa using ht
      · rw [heq]; exact hI₁
      · rw [heq]
        exact RunsOf.stop x xs seg e (he ▸ hQ)

theorem runsOf_length_le {α : Type} {Q : α → List Event → Option GoError → Prop}
    {xs : List α} {segs : List (List Event)} {res : Option GoError}
    (h : RunsOf Q xs segs res) : segs.length ≤ xs.length := by
  induction h with
  | done => simp
  | stop x xs seg e _ => simp
  | next x xs seg segs res _ _ ih => simpa using ih

theorem runsOf_length_of_none {α : Type} {Q : α → List Event → Option GoError → Prop}
    {xs : List α} {segs : List (List Event)} {res : Option GoError}
    (h : RunsOf Q xs segs res) : res = none → segs.length = xs.length := by
  induction h with
  | done => simp
  | stop x xs seg e _ => intro h; cases h
  | next x xs seg segs res _ _ ih => intro h; simpa using ih h

/-- The segment at a position belongs to the element at that position; its
iteration returned nothing if a segment follows, and what the loop returns if
it is the last. -/
theorem runsOf_get {α : Type} {Q : α → List Event → Option GoError → Prop}
    {xs : List α} {segs : List (List Event)} {res : Option GoError}
    (h : RunsOf Q xs segs res) :
    ∀ (k : Nat) (seg : List Event), segs[k]? = some seg →
      ∃ x r, xs[k]? = some x ∧ Q x seg r ∧ (k + 1 < segs.length → r = none) ∧
        (k + 1 = segs.length → r = res) := by
  induction h with
  | done => intro k seg hk; simp at hk
  | stop x xs seg e hQ =>
    intro k seg' hk
    cases k with
    | zero =>
      simp only [List.getElem?_cons_zero, Option.some.injEq] at hk
      subst hk
      exact ⟨x, some e, by simp, hQ, by simp, by simp⟩
    | succ k => simp at hk
  | next x xs seg segs res hQ _ ih =>
    intro k seg' hk
    cases k with
    | zero =>
      simp only [List.getElem?_cons_zero, Option.some.injEq] at hk
      subst hk
      refine ⟨x, none, by simp, hQ, by simp, ?_⟩
      intro hlen
      simp only [List.length_cons, zero_add, self_eq_add_left, List.length_eq_zero] at hlen
      subst hlen
      rename_i hR
      cases hR
      rfl
    | succ k =>
      simp only [List.getElem?_cons_succ] at hk
      obtain ⟨y, r, hy, hQy, h₁, h₂⟩ := ih k seg' hk
      exact ⟨y, r, by simpa using hy, hQy, fun hl => h₁ (by simpa using hl),
        fun hl => h₂ (by simpa using hl)⟩

theorem runsOf_forall {α : Type} {Q : α → List Event → Option GoError → Prop}
    {xs : List α} {segs : List (List Event)} {res : Option GoError}
    (h : RunsOf Q xs segs res) : ∀ seg ∈ segs, ∃ x r, x ∈ xs ∧ Q x seg r := by
  induction h with
  | done => intro seg hs; simp at hs
  | stop x xs seg e hQ =>
    intro seg' hs
    simp only [List.mem_singleton] at hs
    subst hs
    exact ⟨x, some e, by simp, hQ⟩
  | next x xs seg segs res hQ _ ih =>
    intro seg' hs
    rcases List.mem_cons.1 hs with rfl | hs
    · exact ⟨x, none, by simp, hQ⟩
    · obtain ⟨y, r, hy, hQy⟩ := ih seg' hs
      exact ⟨y, r, List.mem_cons_of_mem _ hy, hQy⟩

/-! ### Cutting a trace into segments -/

theorem segments_no_start (isStart : Event → Bool) :
    ∀ xs : List Event, (∀ ev ∈ xs, isStart ev = false) → ∀ ys,
      segments isStart (xs ++ ys) = (xs ++ (segments isStart ys).1, (segments isStart ys).2)
  | [], _, ys => by simp
  | x :: xs, h, ys => by
    have hx : isStart x = false := h x (List.mem_cons_self _ _)
    have ih := segments_no_start isStart xs (fun ev hev => h ev (List.mem_cons_of_mem _ hev)) ys
    simp [segments, hx, ih]

theorem segments_flatten (isStart : Event → Bool) :
    ∀ segs : List (List Event), (∀ seg ∈ segs, IsSegment isStart seg) →
      segments isStart segs.flatten = ([], segs)
  | [], _ => rfl
  | seg :: segs, h => by
    obtain ⟨ev, rest, rfl, hev, hrest⟩ := h seg (List.mem_cons_self _ _)
    have ih := segments_flatten isStart segs (fun s hs => h s (List.mem_cons_of_mem _ hs))
    have hr := segments_no_start isStart rest hrest segs.flatten
    rw [ih] at hr
    show segments isStart (ev :: (rest ++ segs.flatten)) = _
    simp only [segments, hev, if_true, hr, List.append_nil]

/-- A trace made of events that are no start, followed by segments, is cut
into exactly these. -/
theorem segments_lead_flatten (isStart : Event → Bool) (lead : List Event)
    (segs : List (List Event)) (hlead : ∀ ev ∈ lead, isStart ev = false)
    (hsegs : ∀ seg ∈ segs, IsSegment isStart seg) :
    segments isStart (lead ++ segs.flatten) = (lead, segs) := by
  rw [segments_no_start isStart lead hlead, segments_flatten isStart segs hsegs]
  simp

/-! ## The runs of the loop bodies -/

theorem importEnvironment_run (i : Importer) (keepGoing : Bool) (p : ProjectConfig)
    (env : EnvironmentConfig) (s : St) :
    ∃ seg, (importEnvironment i keepGoing p env s).2.trace = s.trace ++ seg ∧
      (importEnvironment i keepGoing p env s).2.newProj = s.newProj ∧
      EnvRun i keepGoing s.newProj env seg (importEnvironment i keepGoing p env s).1 := by
  obtain ⟨c₁, hc₁⟩ : ∃ c, c = Call.AddOrUpdateEnvironment
      { env.Environment.AddEnvironmentInput with ProjectID := s.newProj } := ⟨_, rfl⟩
  obtain ⟨r₁, hr₁⟩ : ∃ r, r = i.respond s.trace c₁ := ⟨_, rfl⟩
  have hvars : ∀ (m : Nat) (s' : St), ∃ evs,
      (addEnvironmentEnvVars i keepGoing env m s').2.trace = s'.trace ++ evs ∧
      (addEnvironmentEnvVars i keepGoing env m s').2.newProj = s'.newProj := by
    intro m s'
    obtain ⟨evs, h₁, h₂, _, _⟩ := sat_forEach (P := fun _ _ => True) (E := fun _ => True)
      trivial env.Environment.EnvVariables
      (fun ev _ s'' => satAt_attempt i keepGoing _ _ s'' trivial trivial (fun _ _ _ => trivial)) s'
    exact ⟨evs, h₁, h₂⟩
  cases herr : r₁.err with
  | none =>
    obtain ⟨evs, h₁, h₂⟩ := hvars (r₁.out.getD 0) { s with trace := s.trace ++ [⟨c₁, r₁⟩] }
    have heq : importEnvironment i keepGoing p env s =
        addEnvironmentEnvVars i keepGoing env (r₁.out.getD 0)
          { s with trace := s.trace ++ [⟨c₁, r₁⟩] } := by
      simp only [importEnvironment, St.invoke, ← hc₁, ← hr₁, herr]
    refine ⟨⟨c₁, r₁⟩ :: evs, by rw [heq, h₁]; simp, by rw [heq, h₂], r₁, evs, by rw [hc₁],
      ⟨s.trace, by rw [hr₁, hc₁]⟩, Or.inl ⟨herr, _, h₁, by rw [heq]⟩⟩
  | some err =>
    cases his : err.Is ErrExist with
    | true =>
      cases keepGoing with
      | false =>
        have heq : importEnvironment i false p env s =
            (some (Errorf "environment exists" err),
              { s with trace := s.trace ++ [⟨c₁, r₁⟩] }) := by
          simp [importEnvironment, St.invoke, ← hc₁, ← hr₁, herr, his]
        refine ⟨[⟨c₁, r₁⟩], by rw [heq], by rw [heq], r₁, [], by rw [hc₁],
          ⟨s.trace, by rw [hr₁, hc₁]⟩, Or.inr (Or.inl ⟨err, herr, his, rfl, rfl, by rw [heq]⟩)⟩
      | true =>
        obtain ⟨s₂, hs₂⟩ : ∃ s₂ : St, s₂ = St.printf { s with trace := s.trace ++ [⟨c₁, r₁⟩] }
            ("environment \"" ++ env.Environment.AddEnvironmentInput.Name ++ "\" (project \""
              ++ p.AddProjectInput.Name ++ "\") exists, query by name for ID") := ⟨_, rfl⟩
        obtain ⟨c₂, hc₂⟩ : ∃ c, c = Call.EnvironmentByName
            env.Environment.AddEnvironmentInput.Name s.newProj := ⟨_, rfl⟩
        obtain ⟨r₂, hr₂⟩ : ∃ r, r = i.respond s₂.trace c₂ := ⟨_, rfl⟩
        have hs₂t : s₂.trace = s.trace ++ [⟨c₁, r₁⟩] := by rw [hs₂]; rfl
        have hs₂n : s₂.newProj = s.newProj := by rw [hs₂]; rfl
        cases herr₂ : r₂.err with
        | some err₂ =>
          have heq : importEnvironment i true p env s =
              (some (Errorf "couldn't get environment by name" err₂),
                { s₂ with trace := s₂.trace ++ [⟨c₂, r₂⟩] }) := by
            simp [importEnvironment, St.invoke, ← hc₁, ← hr₁, herr, his, ← hs₂, ← hc₂, ← hr₂,
              herr₂]
          refine ⟨[⟨c₁, r₁⟩, ⟨c₂, r₂⟩], by rw [heq]; simp [hs₂t], by rw [heq]; exact hs₂n,
            r₁, [⟨c₂, r₂⟩], by rw [hc₁], ⟨s.trace, by rw [hr₁, hc₁]⟩,
            Or.inr (Or.inr (Or.inl ⟨err, r₂, [], herr, his, rfl, by rw [hc₂],
              ⟨s₂.trace, by rw [hr₂, hc₂]⟩, Or.inl ⟨err₂, herr₂, rfl, by rw [heq]⟩⟩))⟩
        | none =>
          obtain ⟨evs, h₁, h₂⟩ := hvars (r₂.out.getD (r₁.out.getD 0))
            { s₂ with trace := s₂.trace ++ [⟨c₂, r₂⟩] }
          have heq : importEnvironment i true p env s =
              addEnvironmentEnvVars i true env (r₂.out.getD (r₁.out.getD 0))
                { s₂ with trace := s₂.trace ++ [⟨c₂, r₂⟩] } := by
            simp [importEnvironment, St.invoke, ← hc₁, ← hr₁, herr, his, ← hs₂, ← hc₂, ← hr₂,
              herr₂]
          refine ⟨⟨c₁, r₁⟩ :: ⟨c₂, r₂⟩ :: evs, by rw [heq, h₁]; simp [hs₂t],
            by rw [heq, h₂]; exact hs₂n,
            r₁, ⟨c₂, r₂⟩ :: evs, by rw [hc₁], ⟨s.trace, by rw [hr₁, hc₁]⟩,
            Or.inr (Or.inr (Or.inl ⟨err, r₂, evs, herr, his, rfl, by rw [hc₂],
              ⟨s₂.trace, by rw [hr₂, hc₂]⟩, Or.inr ⟨herr₂, _, h₁, by rw [heq]⟩⟩))⟩
    | false =>
      cases keepGoing with
      | false =>
        have heq : importEnvironment i false p env s =
            (some (Errorf "couldn't add Environment" err),
              { s with trace := s.trace ++ [⟨c₁, r₁⟩] }) := by
          simp [importEnvironment, St.invoke, ← hc₁, ← hr₁, herr, his]
        refine ⟨[⟨c₁, r₁⟩], by rw [heq], by rw [heq], r₁, [], by rw [hc₁],
          ⟨s.trace, by rw [hr₁, hc₁]⟩,
          Or.inr (Or.inr (Or.inr ⟨err, herr, his, rfl, by rw [heq]; simp⟩))⟩
      | true =>
        have heq : importEnvironment i true p env s =
            (none, St.printf { s with trace := s.trace ++ [⟨c₁, r₁⟩] }
              ("couldn't add Environment: " ++ err.Error)) := by
          simp [importEnvironment, St.invoke, ← hc₁, ← hr₁, herr, his]
        refine ⟨[⟨c₁, r₁⟩], by rw [heq]; rfl, by rw [heq]; rfl, r₁, [], by rw [hc₁],
          ⟨s.trace, by rw [hr₁, hc₁]⟩,
          Or.inr (Or.inr (Or.inr ⟨err, herr, his, rfl, by rw [heq]; simp⟩))⟩

/-! ## The calls of the loops of `attempt`s -/

theorem sat_mono {P P' : Nat → Event → Prop} {E E' : Option GoError → Prop} {b : Block}
    (h : Sat P E b) (hP : ∀ n ev, P n ev → P' n ev) (hE : ∀ r, E r → E' r) : Sat P' E' b := by
  intro s
  obtain ⟨evs, h₁, h₂, h₃, h₄⟩ := h s
  exact ⟨evs, h₁, h₂, fun ev hev => hP _ _ (h₃ ev hev), hE _ h₄⟩

/-- A single `attempt` whose call may read `newProj.ID`. -/
theorem sat_attempt (i : Importer) (keepGoing : Bool) (c : Nat → Call) (ctx : String) :
    Sat (fun n ev => ev.call = c n ∧ FromClient i ev) (fun _ => True)
      (fun s => attempt i keepGoing (c s.newProj) ctx s) :=
  fun s => satAt_attempt (P := fun n ev => ev.call = c n ∧ FromClient i ev)
    (E := fun _ => True) i keepGoing (c s.newProj) ctx s ⟨rfl, s.trace, rfl⟩ trivial
    (fun _ _ _ => trivial)

/-- A loop of `attempt`s: every call it issues is the call of an element. -/
theorem sat_attempts {α : Type} (i : Importer) (keepGoing : Bool) (c : α → Nat → Call)
    (ctx : α → String) (xs : List α) :
    Sat (fun n ev => (∃ x ∈ xs, ev.call = c x n) ∧ FromClient i ev) (fun _ => True)
      (forEach xs (fun x s => attempt i keepGoing (c x s.newProj) (ctx x) s)) := by
  apply sat_forEach trivial
  intro x hx
  exact sat_mono (sat_attempt i keepGoing (c x) (ctx x))
    (fun n ev h => ⟨⟨x, hx, h.1⟩, h.2⟩) (fun _ h => h)

/-- With `keepGoing`, a loop of `attempt`s issues the call of every element, in
order, and returns nothing. -/
theorem attempts_keepGoing {α : Type} (i : Importer) (c : α → Nat → Call)
    (ctx : α → String) :
    ∀ (xs : List α) (s : St),
      (forEach xs (fun x s => attempt i true (c x s.newProj) (ctx x) s) s).1 = none ∧
      ∃ evs, (forEach xs (fun x s => attempt i true (c x s.newProj) (ctx x) s) s).2.trace
          = s.trace ++ evs ∧
        evs.map (fun ev => ev.call) = xs.map (fun x => c x s.newProj)
  | [], s => ⟨rfl, [], by simp [forEach_nil], rfl⟩
  | x :: xs, s => by
    have hres : (attempt i true (c x s.newProj) (ctx x) s).1 = none := by
      rw [attempt_result]
      cases (i.respond s.trace (c x s.newProj)).err <;> simp
    have hstep : forEach (x :: xs) (fun x s => attempt i true (c x s.newProj) (ctx x) s) s =
        forEach xs (fun x s => attempt i true (c x s.newProj) (ctx x) s)
          (attempt i true (c x s.newProj) (ctx x) s).2 := by
      rw [forEach_cons]
      exact andThen_none (Prod.ext hres rfl)
    obtain ⟨h₁, evs, h₂, h₃⟩ := attempts_keepGoing i c ctx xs
      (attempt i true (c x s.newProj) (ctx x) s).2
    rw [attempt_newProj] at h₃
    refine ⟨by rw [hstep]; exact h₁, ⟨c x s.newProj, i.respond s.trace (c x s.newProj)⟩ :: evs,
      ?_, by simp [h₃]⟩
    rw [hstep, h₂, attempt_trace]
    simp

theorem sat_return {P : Nat → Event → Prop} {E : Option GoError → Prop} (e : GoError)
    (hE : E (some e)) : Sat P E (fun s => (some e, s)) :=
  fun s => ⟨[], by simp, rfl, by simp, hE⟩

/-- A `return` ends the run: the blocks that follow issue nothing. -/
theorem sat_return_andThen {P : Nat → Event → Prop} {E : Option GoError → Prop} (e : GoError)
    (b : Block) (hE : E (some e)) : Sat P E (andThen (fun s => (some e, s)) b) :=
  fun s => ⟨[], by simp [andThen], rfl, by simp, by simpa [andThen] using hE⟩

theorem sat_of_envRun (i : Importer) (keepGoing : Bool) (p : ProjectConfig)
    (env : EnvironmentConfig) (P : Nat → Event → Prop)
    (hP : ∀ n seg res, EnvRun i keepGoing n env seg res → ∀ ev ∈ seg, P n ev) :
    Sat P (fun _ => True) (importEnvironment i keepGoing p env) := by
  intro s
  obtain ⟨seg, h₁, h₂, h₃⟩ := importEnvironment_run i keepGoing p env s
  exact ⟨seg, h₁, h₂, hP _ _ _ h₃, trivial⟩

/-- The calls of the loop over the variables of an environment. -/
theorem varsRun_events {i : Importer} {keepGoing : Bool} {env : EnvironmentConfig} {m : Nat}
    {evs : List Event} {res : Option GoError} (h : VarsRun i keepGoing env m evs res) :
    ∀ ev ∈ evs, (∃ kv ∈ env.Environment.EnvVariables,
      ev.call = Call.AddEnvVariable ⟨kv, EnvVariableType.EnvironmentVar, m⟩) ∧
      FromClient i ev := by
  obtain ⟨s, ht, _⟩ := h
  obtain ⟨evs', h₁, _, h₃, _⟩ := sat_attempts i keepGoing
    (fun (kv : EnvKeyValue) (_ : Nat) =>
      Call.AddEnvVariable ⟨kv, EnvVariableType.EnvironmentVar, m⟩)
    (fun _ => "couldn't add Environment EnvVariable") env.Environment.EnvVariables s
  have : evs' = evs := List.append_cancel_left (h₁.symm.trans ht)
  subst this
  exact h₃

/-- With `keepGoing`, the loop over the variables of an environment issues one
call per variable and returns nothing. -/
theorem varsRun_keepGoing {i : Importer} {env : EnvironmentConfig} {m : Nat}
    {evs : List Event} {res : Option GoError} (h : VarsRun i true env m evs res) :
    res = none ∧ evs.map (fun ev => ev.call) = env.Environment.EnvVariables.map
      (fun kv => Call.AddEnvVariable ⟨kv, EnvVariableType.EnvironmentVar, m⟩) := by
  obtain ⟨s, ht, hres⟩ := h
  obtain ⟨h₁, evs', h₂, h₃⟩ := attempts_keepGoing i
    (fun (kv : EnvKeyValue) (_ : Nat) =>
      Call.AddEnvVariable ⟨kv, EnvVariableType.EnvironmentVar, m⟩)
    (fun _ => "couldn't add Environment EnvVariable") env.Environment.EnvVariables s
  have : evs' = evs := List.append_cancel_left (h₂.symm.trans ht)
  subst this
  exact ⟨hres.trans h₁, h₃⟩

/-- Every call of an environment's iteration is an answer of the client and
carries the project's identifier where it carries one. -/
theorem envRun_events {i : Importer} {keepGoing : Bool} {n : Nat} {env : EnvironmentConfig}
    {seg : List Event} {res : Option GoError} (h : EnvRun i keepGoing n env seg res) :
    ∀ ev ∈ seg, FromClient i ev ∧ stepCall n ev.call = true ∧
      ev.call.isAssociation = false ∧ ev.call.isAddProject = false ∧
      ev.call.isProjectByName = false := by
  obtain ⟨r₁, rest, rfl, ⟨h₁, hh₁⟩, hcases⟩ := h
  have hvars : ∀ m evs, VarsRun i keepGoing env m evs res → ∀ ev ∈ evs,
      FromClient i ev ∧ stepCall n ev.call = true ∧
      ev.call.isAssociation = false ∧ ev.call.isAddProject = false ∧
      ev.call.isProjectByName = false := by
    intro m evs hv ev hev
    obtain ⟨⟨kv, _, hc⟩, hf⟩ := varsRun_events hv ev hev
    refine ⟨hf, ?_, ?_, ?_, ?_⟩ <;> rw [hc] <;> simp [stepCall, Call.isAssociation,
      Call.isAddProject, Call.isProjectByName]
  have hhead : ∀ r, (∃ history, r = i.respond history (Call.AddOrUpdateEnvironment
      { env.Environment.AddEnvironmentInput with ProjectID := n })) →
      FromClient i ⟨Call.AddOrUpdateEnvironment
        { env.Environment.AddEnvironmentInput with ProjectID := n }, r⟩ ∧
      stepCall n (Call.AddOrUpdateEnvironment
        { env.Environment.AddEnvironmentInput with ProjectID := n }) = true ∧
      (Call.AddOrUpdateEnvironment
        { env.Environment.AddEnvironmentInput with ProjectID := n }).isAssociation = false ∧
      (Call.AddOrUpdateEnvironment
        { env.Environment.AddEnvironmentInput with ProjectID := n }).isAddProject = false ∧
      (Call.AddOrUpdateEnvironment
        { env.Environment.AddEnvironmentInput with ProjectID := n }).isProjectByName = false := by
    intro r ⟨h, hr⟩
    exact ⟨⟨h, hr⟩, by simp [stepCall], rfl, rfl, rfl⟩
  intro ev hev
  rcases List.mem_cons.1 hev with rfl | hev
  · exact hhead r₁ ⟨h₁, hh₁⟩
  · rcases hcases with ⟨_, hv⟩ | ⟨_, _, _, _, hrest, _⟩ | ⟨_, r₂, rest₂, _, _, _, hrest, ⟨h₂, hh₂⟩, hc⟩ |
      ⟨_, _, _, hrest, _⟩
    · exact hvars _ _ hv ev hev
    · rw [hrest] at hev; exact absurd hev (List.not_mem_nil _)
    · rw [hrest] at hev
      rcases List.mem_cons.1 hev with rfl | hev
      · exact ⟨⟨h₂, hh₂⟩, by simp [stepCall], rfl, rfl, rfl⟩
      · rcases hc with ⟨_, _, hr₂, _⟩ | ⟨_, hv⟩
        · rw [hr₂] at hev; exact absurd hev (List.not_mem_nil _)
        · exact hvars _ _ hv ev hev
    · rw [hrest] at hev; exact absurd hev (List.not_mem_nil _)

/-! ## The steps after the environments -/

theorem noReturn_skip : NoReturn skip := fun _ => rfl

theorem noReturn_andThen {b₁ b₂ : Block} (h₁ : NoReturn b₁) (h₂ : NoReturn b₂) :
    NoReturn (andThen b₁ b₂) := by
  intro s
  rcases andThen_cases b₁ b₂ s with ⟨_, heq⟩ | ⟨e, he, _⟩
  · rw [heq]; exact h₂ _
  · rw [h₁ s] at he; cases he

theorem noReturn_forEach {α : Type} {body : α → Block} (h : ∀ x, NoReturn (body x)) :
    ∀ xs : List α, NoReturn (forEach xs body)
  | [] => noReturn_skip
  | x :: xs => by
    rw [forEach_cons]
    exact noReturn_andThen (h x) (noReturn_forEach h xs)

theorem noReturn_seq : ∀ bs : List Block, (∀ b ∈ bs, NoReturn b) → NoReturn (seq bs)
  | [], _ => noReturn_skip
  | b :: bs, h => by
    rw [seq_cons]
    exact noReturn_andThen (h b (List.mem_cons_self _ _))
      (noReturn_seq bs (fun y hy => h y (List.mem_cons_of_mem _ hy)))

theorem noReturn_attempt (i : Importer) (c : St → Call) (ctx : String) :
    NoReturn (fun s => attempt i true (c s) ctx s) := by
  intro s
  show (attempt i true (c s) ctx s).1 = none
  rw [attempt_result]
  cases (i.respond s.trace (c s)).err <;> simp

theorem noReturn_attempt_const (i : Importer) (c : Call) (ctx : String) :
    NoReturn (attempt i true c ctx) :=
  noReturn_attempt i (fun _ => c) ctx

theorem noReturn_ite {c : Prop} [Decidable c] {b₁ b₂ : Block} (h₁ : NoReturn b₁)
    (h₂ : NoReturn b₂) : NoReturn (if c then b₁ else b₂) := by
  by_cases h : c
  · simpa [h] using h₁
  · simpa [h] using h₂

/-- With `keepGoing` and at most one billing group, the steps after the
environments return nothing. -/
theorem noReturn_addProjectAssociations (i : Importer) (p : ProjectConfig)
    (hbg : p.BillingGroups.length ≤ 1) : NoReturn (addProjectAssociations i true p) := by
  apply noReturn_seq
  intro b hb
  simp only [List.mem_cons, List.mem_singleton, List.not_mem_nil, or_false] at hb
  rcases hb with rfl | rfl | rfl | rfl | rfl
  · exact noReturn_ite (noReturn_attempt_const i _ _) noReturn_skip
  · have : ¬ p.BillingGroups.length > 1 := by omega
    simp only [this, if_false]
    exact noReturn_skip
  · exact noReturn_forEach (fun _ => noReturn_attempt_const i _ _) _
  · exact noReturn_forEach (fun _ => noReturn_attempt_const i _ _) _
  · cases p.Notifications with
    | none => exact noReturn_skip
    | some ns =>
      apply noReturn_seq
      intro b hb
      simp only [List.mem_cons, List.mem_singleton, List.not_mem_nil, or_false] at hb
      rcases hb with rfl | rfl
      · exact noReturn_forEach (fun _ => noReturn_attempt_const i _ _) _
      · exact noReturn_forEach (fun _ => noReturn_attempt_const i _ _) _

theorem satAt_andThen_gen {P : Nat → Event → Prop} {E₁ E : Option GoError → Prop}
    {b₁ b₂ : Block} {s : St} (h₁ : SatAt P E₁ b₁ s) (hE : ∀ e, E₁ (some e) → E (some e))
    (h₂ : SatAt P E b₂ (b₁ s).2) : SatAt P E (andThen b₁ b₂) s := by
  obtain ⟨evs₁, ht₁, hn₁, hP₁, hE₁⟩ := h₁
  rcases andThen_cases b₁ b₂ s with ⟨_, heq⟩ | ⟨e, he, heq⟩
  · obtain ⟨evs₂, ht₂, hn₂, hP₂, hE₂⟩ := h₂
    refine ⟨evs₁ ++ evs₂, ?_, ?_, ?_, ?_⟩
    · rw [heq, ht₂, ht₁, List.append_assoc]
    · rw [heq, hn₂, hn₁]
    · intro ev hev
      rcases List.mem_append.1 hev with h | h
      · exact hP₁ ev h
      · have := hP₂ ev h
        rwa [hn₁] at this
    · rw [heq]; exact hE₂
  · refine ⟨evs₁, ?_, ?_, hP₁, ?_⟩
    · rw [heq]; exact ht₁
    · rw [heq]; exact hn₁
    · rw [heq]
      rw [he] at hE₁
      exact hE _ hE₁

theorem sat_andThen_gen {P : Nat → Event → Prop} {E₁ E : Option GoError → Prop}
    {b₁ b₂ : Block} (h₁ : Sat P E₁ b₁) (hE : ∀ e, E₁ (some e) → E (some e))
    (h₂ : Sat P E b₂) : Sat P E (andThen b₁ b₂) :=
  fun s => satAt_andThen_gen (h₁ s) hE (h₂ _)

/-- A single `attempt` with a constant call. -/
theorem sat_attempt_const (i : Importer) (keepGoing : Bool) (c : Call) (ctx : String) :
    Sat (fun _ ev => ev.call = c ∧ FromClient i ev) (fun _ => True)
      (attempt i keepGoing c ctx) :=
  sat_attempt i keepGoing (fun _ => c) ctx

/-- A loop of `attempt`s with constant calls. -/
theorem sat_attempts_const {α : Type} (i : Importer) (keepGoing : Bool) (c : α → Call)
    (ctx : α → String) (xs : List α) :
    Sat (fun _ ev => (∃ x ∈ xs, ev.call = c x) ∧ FromClient i ev) (fun _ => True)
      (forEach xs (fun x => attempt i keepGoing (c x) (ctx x))) :=
  sat_attempts i keepGoing (fun x _ => c x) ctx xs

/-- Every call of the steps after the environments associates the project with
something, and is answered by the client. -/
theorem sat_addProjectAssociations (i : Importer) (keepGoing : Bool) (p : ProjectConfig) :
    Sat (fun _ ev => ev.call.isAssociation = true ∧ FromClient i ev) (fun _ => True)
      (addProjectAssociations i keepGoing p) := by
  apply sat_seq trivial
  intro b hb
  simp only [List.mem_cons, List.mem_singleton, List.not_mem_nil, or_false] at hb
  rcases hb with rfl | rfl | rfl | rfl | rfl
  · refine sat_ite (fun _ => sat_mono (sat_attempt_const i keepGoing _ _) ?_ (fun _ h => h))
      (fun _ => sat_skip trivial)
    rintro _ ev ⟨hc, hf⟩
    exact ⟨by rw [hc]; rfl, hf⟩
  · exact sat_ite (fun _ => sat_return _ trivial) (fun _ => sat_skip trivial)
  · refine sat_mono (sat_attempts_const i keepGoing _ _ _) ?_ (fun _ h => h)
    rintro _ ev ⟨⟨_, _, hc⟩, hf⟩
    exact ⟨by rw [hc]; rfl, hf⟩
  · refine sat_mono (sat_attempts_const i keepGoing _ _ _) ?_ (fun _ h => h)
    rintro _ ev ⟨⟨_, _, hc⟩, hf⟩
    exact ⟨by rw [hc]; rfl, hf⟩
  · cases p.Notifications with
    | none => exact sat_skip trivial
    | some ns =>
      apply sat_seq trivial
      intro b hb
      simp only [List.mem_cons, List.mem_singleton, List.not_mem_nil, or_false] at hb
      rcases hb with rfl | rfl
      · refine sat_mono (sat_attempts_const i keepGoing _ _ _) ?_ (fun _ h => h)
        rintro _ ev ⟨⟨_, _, hc⟩, hf⟩
        exact ⟨by rw [hc]; rfl, hf⟩
      · refine sat_mono (sat_attempts_const i keepGoing _ _ _) ?_ (fun _ h => h)
        rintro _ ev ⟨⟨_, _, hc⟩, hf⟩
        exact ⟨by rw [hc]; rfl, hf⟩

/-- When the project declares two billing groups or more, the steps after the
environments issue at most the `AddGroupsToProject` call and return an error. -/
theorem sat_addProjectAssociations_invalid (i : Importer) (keepGoing : Bool)
    (p : ProjectConfig) (hbg : 2 ≤ p.BillingGroups.length) :
    Sat (fun _ ev => (∃ inp, ev.call = Call.AddGroupsToProject inp) ∧ FromClient i ev)
      (fun r => r.isSome = true) (addProjectAssociations i keepGoing p) := by
  have hgt : p.BillingGroups.length > 1 := by omega
  simp only [addProjectAssociations, seq_cons, hgt, if_true]
  refine @sat_andThen_gen _ (fun _ => True) _ _ _ ?_ (fun _ _ => rfl)
    (sat_return_andThen _ _ rfl)
  refine sat_ite (fun _ => sat_mono (sat_attempt_const i keepGoing _ _) ?_ (fun _ h => h))
    (fun _ => sat_skip trivial)
  rintro _ ev ⟨hc, hf⟩
  exact ⟨⟨_, hc⟩, hf⟩

/-! ## The shape of a project's steps -/

theorem andThen_skip (b : Block) (s : St) : andThen b skip s = b s := by
  rcases andThen_cases b skip s with ⟨h, heq⟩ | ⟨e, h, heq⟩
  · rw [heq, skip_apply]; exact Prod.ext h.symm rfl
  · rw [heq]; exact Prod.ext h.symm rfl

theorem importProjectSteps_eq (i : Importer) (keepGoing : Bool) (p : ProjectConfig) (s : St) :
    importProjectSteps i keepGoing p s =
      andThen (addProjectEnvVars i keepGoing p)
        (andThen (forEach p.Environments (importEnvironment i keepGoing p))
          (addProjectAssociations i keepGoing p)) s := by
  simp only [importProjectSteps, seq_cons, seq_nil]
  rcases andThen_cases (addProjectEnvVars i keepGoing p)
    (andThen (forEach p.Environments (importEnvironment i keepGoing p))
      (andThen (addProjectAssociations i keepGoing p) skip)) s with ⟨h, heq⟩ | ⟨e, h, heq⟩
  · rw [heq, andThen_none (Prod.ext h rfl : addProjectEnvVars i keepGoing p s = (none, _))]
    rcases andThen_cases (forEach p.Environments (importEnvironment i keepGoing p))
      (andThen (addProjectAssociations i keepGoing p) skip)
      (addProjectEnvVars i keepGoing p s).2 with ⟨h', heq'⟩ | ⟨e, h', heq'⟩
    · rw [heq', andThen_none (Prod.ext h' rfl :
        forEach p.Environments (importEnvironment i keepGoing p) _ = (none, _)), andThen_skip]
    · rw [heq', andThen_some (Prod.ext h' rfl :
        forEach p.Environments (importEnvironment i keepGoing p) _ = (some e, _))]
  · rw [heq, andThen_some (Prod.ext h rfl : addProjectEnvVars i keepGoing p s = (some e, _))]

theorem stepsRun_shape {i : Importer} {keepGoing : Bool} {p : ProjectConfig} {n : Nat}
    {evs : List Event} {res : Option GoError} (h : StepsRun i keepGoing p n evs res) :
    StepsShape i keepGoing p n evs res := by
  obtain ⟨s, hn, ht, hres⟩ := h
  subst hn
  rw [importProjectSteps_eq] at ht hres
  -- the variables of the project
  obtain ⟨pv, hpv₁, hpv₂, hpv₃, _⟩ : SatAt (fun n ev => (∃ kv ∈ p.EnvVariables,
        ev.call = Call.AddEnvVariable ⟨kv, EnvVariableType.ProjectVar, n⟩) ∧ FromClient i ev)
      (fun _ => True) (addProjectEnvVars i keepGoing p) s :=
    sat_attempts i keepGoing
      (fun (kv : EnvKeyValue) (n : Nat) =>
        Call.AddEnvVariable ⟨kv, EnvVariableType.ProjectVar, n⟩)
      (fun _ => "couldn't add Project EnvVariable") p.EnvVariables s
  have hpvk : keepGoing = true → pv.map (fun ev => ev.call) = p.EnvVariables.map
      (fun kv => Call.AddEnvVariable ⟨kv, EnvVariableType.ProjectVar, s.newProj⟩) := by
    intro hk
    subst hk
    obtain ⟨_, evs', h₂, h₃⟩ := attempts_keepGoing i
      (fun (kv : EnvKeyValue) (n : Nat) =>
        Call.AddEnvVariable ⟨kv, EnvVariableType.ProjectVar, n⟩)
      (fun _ => "couldn't add Project EnvVariable") p.EnvVariables s
    have : evs' = pv := List.append_cancel_left (h₂.symm.trans hpv₁)
    subst this
    exact h₃
  refine ⟨pv, hpv₃, hpvk, ?_⟩
  rcases andThen_cases (addProjectEnvVars i keepGoing p)
    (andThen (forEach p.Environments (importEnvironment i keepGoing p))
      (addProjectAssociations i keepGoing p)) s with ⟨h₁, heq₁⟩ | ⟨e, h₁, heq₁⟩
  · right
    -- the environments
    obtain ⟨esegs, hes₁, hes₂, hes₃⟩ := forEach_runs (importEnvironment i keepGoing p)
      (fun s' => s'.newProj = s.newProj) (EnvRun i keepGoing s.newProj)
      (fun env s' hs' => by
        obtain ⟨seg, h₁, h₂, h₃⟩ := importEnvironment_run i keepGoing p env s'
        exact ⟨seg, h₁, h₂.trans hs', hs' ▸ h₃⟩)
      p.Environments (addProjectEnvVars i keepGoing p s).2 hpv₂
    rcases andThen_cases (forEach p.Environments (importEnvironment i keepGoing p))
      (addProjectAssociations i keepGoing p) (addProjectEnvVars i keepGoing p s).2
      with ⟨h₂, heq₂⟩ | ⟨e, h₂, heq₂⟩
    · -- the associations
      obtain ⟨tail, ht₁, _, ht₃, _⟩ := sat_addProjectAssociations i keepGoing p
        (forEach p.Environments (importEnvironment i keepGoing p)
          (addProjectEnvVars i keepGoing p s).2).2
      rw [heq₁, heq₂] at ht hres
      refine ⟨esegs, tail, none, ?_, h₂ ▸ hes₃, ?_, ht₃, ?_, ?_⟩
      · refine @List.append_cancel_left _ s.trace _ _ ?_
        rw [← ht, ht₁, hes₁, hpv₁]
        simp [List.append_assoc]
      · intro e he
        cases he
      · intro hbg
        obtain ⟨tail', ht₁', _, ht₃', ht₄'⟩ := sat_addProjectAssociations_invalid i keepGoing p
          hbg (forEach p.Environments (importEnvironment i keepGoing p)
            (addProjectEnvVars i keepGoing p s).2).2
        have : tail' = tail := List.append_cancel_left (ht₁'.symm.trans ht₁)
        subst this
        exact ⟨fun ev hev => (ht₃' ev hev).1, by rw [hres]; exact ht₄'⟩
      · intro hk hbg _
        subst hk
        rw [hres]
        exact noReturn_addProjectAssociations i p hbg _
    · rw [heq₁, heq₂] at ht hres
      refine ⟨esegs, [], some e, ?_, h₂ ▸ hes₃, fun e' he' => ⟨rfl, by rw [hres, ← he']⟩,
        by simp, fun _ => ⟨by simp, by rw [hres]; rfl⟩, fun _ _ h => by cases h⟩
      refine @List.append_cancel_left _ s.trace _ _ ?_
      rw [← ht, hes₁, hpv₁]
      simp [List.append_assoc]
  · left
    rw [heq₁] at ht hres
    refine ⟨e, hres, ?_, ?_⟩
    · cases keepGoing with
      | false => rfl
      | true =>
        have := @noReturn_forEach EnvKeyValue (fun (ev : EnvKeyValue) (s : St) =>
          attempt i true (Call.AddEnvVariable ⟨ev, EnvVariableType.ProjectVar, s.newProj⟩)
            "couldn't add Project EnvVariable" s)
          (fun ev => noReturn_attempt i _ _) p.EnvVariables s
        rw [show addProjectEnvVars i true p s = forEach p.EnvVariables
          (fun (ev : EnvKeyValue) (s : St) =>
          attempt i true (Call.AddEnvVariable ⟨ev, EnvVariableType.ProjectVar, s.newProj⟩)
            "couldn't add Project EnvVariable" s) s from rfl, this] at h₁
        cases h₁
    · refine @List.append_cancel_left _ s.trace _ _ ?_
      rw [← ht]
      exact hpv₁

theorem importProjectSteps_extends (i : Importer) (keepGoing : Bool) (p : ProjectConfig)
    (s : St) : ∃ evs, (importProjectSteps i keepGoing p s).2.trace = s.trace ++ evs := by
  have h : Sat (fun _ _ => True) (fun _ => True)
      (andThen (addProjectEnvVars i keepGoing p)
        (andThen (forEach p.Environments (importEnvironment i keepGoing p))
          (addProjectAssociations i keepGoing p))) :=
    sat_andThen
      (sat_mono (sat_attempts i keepGoing
        (fun (kv : EnvKeyValue) (n : Nat) =>
          Call.AddEnvVariable ⟨kv, EnvVariableType.ProjectVar, n⟩)
        (fun _ => "couldn't add Project EnvVariable") p.EnvVariables)
        (fun _ _ _ => trivial) (fun _ h => h))
      (sat_andThen
        (sat_forEach trivial _ (fun env _ =>
          sat_of_envRun i keepGoing p env _ (fun _ _ _ _ _ _ => trivial)))
        (sat_mono (sat_addProjectAssociations i keepGoing p) (fun _ _ _ => trivial)
          (fun _ h => h)))
  obtain ⟨evs, h₁, _⟩ := h s
  exact ⟨evs, by rw [importProjectSteps_eq]; exact h₁⟩

theorem importProject_run (i : Importer) (keepGoing : Bool) (openshiftID : Nat)
    (p : ProjectConfig) (s : St) :
    ∃ seg, (importProject i keepGoing openshiftID p s).2.trace = s.trace ++ seg ∧
      ProjectRun i keepGoing openshiftID p seg (importProject i keepGoing openshiftID p s).1 := by
  obtain ⟨p', hp'⟩ : ∃ p', p' = p.withOpenshift openshiftID := ⟨_, rfl⟩
  obtain ⟨c₁, hc₁⟩ : ∃ c, c = Call.AddProject p'.AddProjectInput := ⟨_, rfl⟩
  obtain ⟨r₁, hr₁⟩ : ∃ r, r = i.respond s.trace c₁ := ⟨_, rfl⟩
  obtain ⟨s₁, hs₁⟩ : ∃ s₁ : St, s₁ =
      { s with trace := s.trace ++ [⟨c₁, r₁⟩], newProj := r₁.out.getD s.newProj } := ⟨_, rfl⟩
  have hs₁t : s₁.trace = s.trace ++ [⟨c₁, r₁⟩] := by rw [hs₁]
  have hfrom₁ : ∃ history, r₁ = i.respond history
      (Call.AddProject (p.withOpenshift openshiftID).AddProjectInput) :=
    ⟨s.trace, by rw [hr₁, hc₁, hp']⟩
  have hname : p'.AddProjectInput.Name = p.AddProjectInput.Name := by rw [hp']; rfl
  cases herr : r₁.err with
  | none =>
    obtain ⟨evs, hevs⟩ := importProjectSteps_extends i keepGoing p' s₁
    have heq : importProject i keepGoing openshiftID p s = importProjectSteps i keepGoing p' s₁ := by
      simp only [importProject, St.invokeProj, ← hp', ← hc₁,
        ← hr₁, herr, ← hs₁]
    refine ⟨⟨c₁, r₁⟩ :: evs, by rw [heq, hevs, hs₁t]; simp, r₁, evs, by rw [hc₁, hp'],
      hfrom₁, Or.inl ⟨herr, s₁.newProj, ?_, s₁, rfl, by rw [← hp']; exact hevs,
        by rw [heq, hp']⟩⟩
    intro m hm
    rw [hs₁]
    simp [hm]
  | some err =>
    cases his : err.Is ErrExist with
    | true =>
      cases keepGoing with
      | false =>
        have heq : importProject i false openshiftID p s =
            (some (Errorf "project exists" err), s₁) := by
          simp [importProject, St.invokeProj, ← hp', ← hc₁,
            ← hr₁, herr, ← hs₁, his]
        exact ⟨[⟨c₁, r₁⟩], by rw [heq]; exact hs₁t, r₁, [], by rw [hc₁, hp'], hfrom₁,
          Or.inr (Or.inl ⟨err, herr, his, rfl, rfl, by rw [heq]⟩)⟩
      | true =>
        obtain ⟨c₂, hc₂⟩ : ∃ c, c = Call.ProjectByName p'.AddProjectInput.Name := ⟨_, rfl⟩
        obtain ⟨r₂, hr₂⟩ : ∃ r, r = i.respond s₁.trace c₂ := ⟨_, rfl⟩
        obtain ⟨s₂, hs₂⟩ : ∃ s₂ : St, s₂ =
            { s₁ with trace := s₁.trace ++ [⟨c₂, r₂⟩], newProj := r₂.out.getD s₁.newProj } :=
          ⟨_, rfl⟩
        have hs₂t : s₂.trace = s.trace ++ [⟨c₁, r₁⟩, ⟨c₂, r₂⟩] := by rw [hs₂]; simp [hs₁t]
        have hfrom₂ : ∃ history, r₂ = i.respond history
            (Call.ProjectByName p.AddProjectInput.Name) :=
          ⟨s₁.trace, by rw [hr₂, hc₂, hname]⟩
        cases herr₂ : r₂.err with
        | some err₂ =>
          have heq : importProject i true openshiftID p s =
              (some (Errorf ("couldn't get project \"" ++ p'.AddProjectInput.Name
                ++ "\" by name") err₂), s₂) := by
            simp [importProject, St.invokeProj, ← hp', ← hc₁,
              ← hr₁, herr, ← hs₁, his, ← hc₂, ← hr₂, herr₂, ← hs₂]
          refine ⟨[⟨c₁, r₁⟩, ⟨c₂, r₂⟩], by rw [heq]; exact hs₂t, r₁, [⟨c₂, r₂⟩],
            by rw [hc₁, hp'], hfrom₁,
            Or.inr (Or.inr (Or.inl ⟨err, r₂, [], herr, his, rfl, by rw [hc₂, hname], hfrom₂,
              Or.inl ⟨err₂, herr₂, rfl, by rw [heq, hname]⟩⟩))⟩
        | none =>
          obtain ⟨s₃, hs₃⟩ : ∃ s₃ : St, s₃ = s₂.printf ("project \"" ++ p'.AddProjectInput.Name
              ++ "\" exists, using ID " ++ toString s₂.newProj) := ⟨_, rfl⟩
          have hs₃t : s₃.trace = s₂.trace := by rw [hs₃]; rfl
          have hs₃n : s₃.newProj = s₂.newProj := by rw [hs₃]; rfl
          obtain ⟨evs, hevs⟩ := importProjectSteps_extends i true p' s₃
          have heq : importProject i true openshiftID p s = importProjectSteps i true p' s₃ := by
            simp [importProject, St.invokeProj, ← hp', ← hc₁,
              ← hr₁, herr, ← hs₁, his, ← hc₂, ← hr₂, herr₂, ← hs₂, ← hs₃]
          refine ⟨⟨c₁, r₁⟩ :: ⟨c₂, r₂⟩ :: evs, by rw [heq, hevs, hs₃t, hs₂t]; simp, r₁,
            ⟨c₂, r₂⟩ :: evs, by rw [hc₁, hp'], hfrom₁,
            Or.inr (Or.inr (Or.inl ⟨err, r₂, evs, herr, his, rfl, by rw [hc₂, hname], hfrom₂,
              Or.inr ⟨herr₂, s₃.newProj, ?_, s₃, rfl, by rw [← hp']; exact hevs,
                by rw [heq, hp']⟩⟩))⟩
          intro m hm
          rw [hs₃n, hs₂]
          simp [hm]
    | false =>
      cases keepGoing with
      | false =>
        have heq : importProject i false openshiftID p s =
            (some (Errorf "couldn't add Project" err), s₁) := by
          simp [importProject, St.invokeProj, ← hp', ← hc₁,
            ← hr₁, herr, ← hs₁, his]
        exact ⟨[⟨c₁, r₁⟩], by rw [heq]; exact hs₁t, r₁, [], by rw [hc₁, hp'], hfrom₁,
          Or.inr (Or.inr (Or.inr ⟨err, herr, his, rfl, by rw [heq]; simp⟩))⟩
      | true =>
        have heq : importProject i true openshiftID p s =
            (none, s₁.printf ("couldn't add Project: " ++ err.Error)) := by
          simp [importProject, St.invokeProj, ← hp', ← hc₁,
            ← hr₁, herr, ← hs₁, his]
        exact ⟨[⟨c₁, r₁⟩], by rw [heq]; exact hs₁t, r₁, [], by rw [hc₁, hp'], hfrom₁,
          Or.inr (Or.inr (Or.inr ⟨err, herr, his, rfl, by rw [heq]; simp⟩))⟩

/-! ## The run of `Import`, project by project -/

theorem stepCall_of_isAssociation {c : Call} (n : Nat) (h : c.isAssociation = true) :
    stepCall n c = true := by
  cases c <;> simp_all [Call.isAssociation, stepCall]

theorem stepCall_not_start {c : Call} {n : Nat} (h : stepCall n c = true) :
    c.isAddProject = false ∧ c.isProjectByName = false := by
  cases c <;> simp_all [stepCall, Call.isAddProject, Call.isProjectByName]

/-- Every call of the steps that follow the creation of a project is an answer
of the client and is one of the calls of these steps, with the identifier `n`
where it carries the project's. -/
theorem stepsShape_events {i : Importer} {keepGoing : Bool} {p : ProjectConfig} {n : Nat}
    {evs : List Event} {res : Option GoError} (h : StepsShape i keepGoing p n evs res) :
    ∀ ev ∈ evs, FromClient i ev ∧ stepCall n ev.call = true := by
  obtain ⟨pv, hpv, _, hcases⟩ := h
  have hpv' : ∀ ev ∈ pv, FromClient i ev ∧ stepCall n ev.call = true := by
    intro ev hev
    obtain ⟨⟨kv, _, hc⟩, hf⟩ := hpv ev hev
    exact ⟨hf, by rw [hc]; simp [stepCall]⟩
  rcases hcases with ⟨_, _, _, rfl⟩ | ⟨esegs, tail, res₂, rfl, hruns, _, htail, _, _⟩
  · exact hpv'
  · intro ev hev
    rcases List.mem_append.1 hev with hev | hev
    · rcases List.mem_append.1 hev with hev | hev
      · exact hpv' ev hev
      · obtain ⟨seg, hseg, hev'⟩ := List.mem_flatten.1 hev
        obtain ⟨env, r, _, hrun⟩ := runsOf_forall hruns seg hseg
        obtain ⟨h₁, h₂, _⟩ := envRun_events hrun ev hev'
        exact ⟨h₁, h₂⟩
    · obtain ⟨h₁, h₂⟩ := htail ev hev
      exact ⟨h₂, stepCall_of_isAssociation n h₁⟩

/-- The calls of a project's iteration form a segment: they start with the
`AddProject` call and hold no other; all are answers of the client. -/
theorem projectRun_isSegment {i : Importer} {keepGoing : Bool} {openshiftID : Nat}
    {p : ProjectConfig} {seg : List Event} {res : Option GoError}
    (h : ProjectRun i keepGoing openshiftID p seg res) :
    IsSegment (fun ev => ev.call.isAddProject) seg := by
  obtain ⟨r₁, rest, rfl, _, hcases⟩ := h
  refine ⟨_, rest, rfl, rfl, ?_⟩
  have hsteps : ∀ n evs, StepsRun i keepGoing (p.withOpenshift openshiftID) n evs res →
      ∀ ev ∈ evs, ev.call.isAddProject = false :=
    fun n evs hs ev hev => (stepCall_not_start (stepsShape_events (stepsRun_shape hs) ev hev).2).1
  rcases hcases with ⟨_, n, _, hs⟩ | ⟨_, _, _, _, hrest, _⟩ |
    ⟨_, r₂, rest₂, _, _, _, hrest, _, hc⟩ | ⟨_, _, _, hrest, _⟩
  · exact hsteps n rest hs
  · rw [hrest]; simp
  · rw [hrest]
    intro ev hev
    rcases List.mem_cons.1 hev with rfl | hev
    · rfl
    · rcases hc with ⟨_, _, hr₂, _⟩ | ⟨_, n, _, hs⟩
      · rw [hr₂] at hev; exact absurd hev (List.not_mem_nil _)
      · exact hsteps n rest₂ hs ev hev
  · rw [hrest]; simp

/-- Every call of the phases before the projects is one of their calls and an
answer of the client. -/
theorem sat_importGlobals (i : Importer) (keepGoing : Bool) (config : Config) :
    Sat (fun _ ev => ev.call.isGlobal = true ∧ FromClient i ev) (fun _ => True)
      (importGlobals i keepGoing config) := by
  have hloop : ∀ {α : Type} (c : α → Call) (ctx : α → String) (xs : List α),
      (∀ x, (c x).isGlobal = true) →
      Sat (fun _ ev => ev.call.isGlobal = true ∧ FromClient i ev) (fun _ => True)
        (forEach xs (fun x => attempt i keepGoing (c x) (ctx x))) := by
    intro α c ctx xs hc
    refine sat_mono (sat_attempts_const i keepGoing c ctx xs) ?_ (fun _ h => h)
    rintro _ ev ⟨⟨x, _, hx⟩, hf⟩
    exact ⟨by rw [hx]; exact hc x, hf⟩
  apply sat_seq trivial
  intro b hb
  simp only [List.mem_cons, List.mem_singleton, List.not_mem_nil, or_false] at hb
  rcases hb with rfl | rfl | rfl | rfl | rfl | rfl
  · exact hloop _ _ _ (fun _ => rfl)
  · exact hloop _ _ _ (fun _ => rfl)
  · exact hloop _ _ _ (fun _ => rfl)
  · exact sat_forEach trivial _ (fun user _ => hloop _ _ _ (fun _ => rfl))
  · exact sat_forEach trivial _ (fun group _ => hloop _ _ _ (fun _ => rfl))
  · cases config.Notifications with
    | none => exact sat_skip trivial
    | some ns =>
      apply sat_seq trivial
      intro b hb
      simp only [List.mem_cons, List.mem_singleton, List.not_mem_nil, or_false] at hb
      rcases hb with rfl | rfl
      · exact hloop _ _ _ (fun _ => rfl)
      · exact hloop _ _ _ (fun _ => rfl)

theorem isGlobal_not_start {c : Call} (h : c.isGlobal = true) : c.isAddProject = false := by
  cases c <;> simp_all [Call.isGlobal, Call.isAddProject]

/-- The run of `Import`: the calls of the phases before the projects, then one
segment per project processed, each the run of the loop body on its project.
If a phase before the projects returns, no project is processed. -/
theorem Import_runs (i : Importer) (config : Config) (keepGoing : Bool) (openshiftID : Nat) :
    ∃ globals segs,
      (Import i config keepGoing openshiftID).2.trace = globals ++ segs.flatten ∧
      (∀ ev ∈ globals, ev.call.isGlobal = true ∧ FromClient i ev) ∧
      globalSegment (Import i config keepGoing openshiftID).2.trace = globals ∧
      projectSegments (Import i config keepGoing openshiftID).2.trace = segs ∧
      ((∃ e, (Import i config keepGoing openshiftID).1 = some e ∧ segs = [] ∧
          (importGlobals i keepGoing config St.init).1 = some e) ∨
        ((importGlobals i keepGoing config St.init).1 = none ∧
          RunsOf (ProjectRun i keepGoing openshiftID) config.Projects segs
            (Import i config keepGoing openshiftID).1)) := by
  obtain ⟨globals, hg₁, _, hg₃, _⟩ := sat_importGlobals i keepGoing config St.init
  have hg₁' : (importGlobals i keepGoing config St.init).2.trace = globals := by
    simpa [St.init] using hg₁
  have hlead : ∀ ev ∈ globals, (fun ev : Event => ev.call.isAddProject) ev = false :=
    fun ev hev => isGlobal_not_start (hg₃ ev hev).1
  rw [Import_eq]
  rcases andThen_cases (importGlobals i keepGoing config)
    (forEach config.Projects (importProject i keepGoing openshiftID)) St.init
    with ⟨h₁, heq⟩ | ⟨e, h₁, heq⟩
  · obtain ⟨segs, hs₁, _, hs₃⟩ := forEach_runs (importProject i keepGoing openshiftID)
      (fun _ => True) (ProjectRun i keepGoing openshiftID)
      (fun p s _ => by
        obtain ⟨seg, h₁, h₂⟩ := importProject_run i keepGoing openshiftID p s
        exact ⟨seg, h₁, trivial, h₂⟩)
      config.Projects (importGlobals i keepGoing config St.init).2 trivial
    have hsegs : ∀ seg ∈ segs, IsSegment (fun ev : Event => ev.call.isAddProject) seg := by
      intro seg hseg
      obtain ⟨p, r, _, hrun⟩ := runsOf_forall hs₃ seg hseg
      exact projectRun_isSegment hrun
    have hcut := segments_lead_flatten _ globals segs hlead hsegs
    rw [heq]
    refine ⟨globals, segs, by rw [hs₁, hg₁'], hg₃, ?_, ?_, Or.inr ⟨h₁, hs₃⟩⟩
    · rw [hs₁, hg₁', globalSegment, hcut]
    · rw [hs₁, hg₁', projectSegments, hcut]
  · have hcut := segments_lead_flatten _ globals [] hlead (by simp)
    rw [heq]
    refine ⟨globals, [], by simpa using hg₁', hg₃, ?_, ?_, Or.inl ⟨e, rfl, rfl, h₁⟩⟩
    · show globalSegment (importGlobals i keepGoing config St.init).2.trace = globals
      rw [hg₁', globalSegment]
      simpa using congrArg Prod.fst hcut
    · show projectSegments (importGlobals i keepGoing config St.init).2.trace = []
      rw [hg₁', projectSegments]
      simpa using congrArg Prod.snd hcut

/-! ## C1 and C6: a project with two billing groups or more -/

theorem isBeforeBillingCheck_of_stepCall {c : Call} {n : Nat} (h₁ : stepCall n c = true)
    (h₂ : c.isAssociation = false) : c.isBeforeBillingCheck = true := by
  cases c <;> simp_all [stepCall, Call.isAssociation, Call.isBeforeBillingCheck]

/-- The steps of a project that declares two billing groups or more return an
error, and issue no call that follows the check. -/
theorem stepsShape_invalid {i : Importer} {keepGoing : Bool} {p : ProjectConfig} {n : Nat}
    {evs : List Event} {res : Option GoError} (h : StepsShape i keepGoing p n evs res)
    (hbg : 2 ≤ p.BillingGroups.length) :
    res.isSome = true ∧ ∀ ev ∈ evs, ev.call.isBeforeBillingCheck = true := by
  obtain ⟨pv, hpv, _, hcases⟩ := h
  have hpv' : ∀ ev ∈ pv, ev.call.isBeforeBillingCheck = true := by
    intro ev hev
    obtain ⟨⟨kv, _, hc⟩, _⟩ := hpv ev hev
    rw [hc]; rfl
  rcases hcases with ⟨e, hres, _, rfl⟩ | ⟨esegs, tail, res₂, rfl, hruns, _, _, hinv, _⟩
  · exact ⟨by rw [hres]; rfl, hpv'⟩
  · obtain ⟨htail, hsome⟩ := hinv hbg
    refine ⟨hsome, ?_⟩
    intro ev hev
    rcases List.mem_append.1 hev with hev | hev
    · rcases List.mem_append.1 hev with hev | hev
      · exact hpv' ev hev
      · obtain ⟨seg, hseg, hev'⟩ := List.mem_flatten.1 hev
        obtain ⟨env, r, _, hrun⟩ := runsOf_forall hruns seg hseg
        obtain ⟨_, h₂, h₃, _⟩ := envRun_events hrun ev hev'
        exact isBeforeBillingCheck_of_stepCall h₂ h₃
    · obtain ⟨inp, hc⟩ := htail ev hev
      rw [hc]; rfl

/-- The iteration of a project that declares two billing groups or more issues
no call that follows the check; it returns an error, unless `keepGoing` is set
and the creation of the project failed with an error that is no conflict. -/
theorem projectRun_invalid {i : Importer} {keepGoing : Bool} {openshiftID : Nat}
    {p : ProjectConfig} {seg : List Event} {res : Option GoError}
    (h : ProjectRun i keepGoing openshiftID p seg res)
    (hbg : 2 ≤ p.BillingGroups.length) :
    (∀ ev ∈ seg, ev.call.isBeforeBillingCheck = true) ∧
    (res.isSome = true ∨
      (res = none ∧ keepGoing = true ∧ ∃ r err,
        seg = [⟨Call.AddProject (p.withOpenshift openshiftID).AddProjectInput, r⟩] ∧
        r.err = some err ∧ err.Is ErrExist = false)) := by
  obtain ⟨r₁, rest, rfl, _, hcases⟩ := h
  have hsteps : ∀ n evs, StepsRun i keepGoing (p.withOpenshift openshiftID) n evs res →
      res.isSome = true ∧ ∀ ev ∈ evs, ev.call.isBeforeBillingCheck = true :=
    fun n evs hs => stepsShape_invalid (stepsRun_shape hs) hbg
  rcases hcases with ⟨_, n, _, hs⟩ | ⟨_, _, _, _, hrest, hres⟩ |
    ⟨_, r₂, rest₂, _, _, _, hrest, _, hc⟩ | ⟨err, herr, his, hrest, hres⟩
  · obtain ⟨h₁, h₂⟩ := hsteps n rest hs
    refine ⟨?_, Or.inl h₁⟩
    intro ev hev
    rcases List.mem_cons.1 hev with rfl | hev
    · rfl
    · exact h₂ ev hev
  · subst hrest
    exact ⟨by simp [Call.isBeforeBillingCheck], Or.inl (by rw [hres]; rfl)⟩
  · subst hrest
    rcases hc with ⟨_, _, hr₂, hres⟩ | ⟨_, n, _, hs⟩
    · subst hr₂
      exact ⟨by simp [Call.isBeforeBillingCheck], Or.inl (by rw [hres]; rfl)⟩
    · obtain ⟨h₁, h₂⟩ := hsteps n rest₂ hs
      refine ⟨?_, Or.inl h₁⟩
      intro ev hev
      rcases List.mem_cons.1 hev with rfl | hev
      · rfl
      · rcases List.mem_cons.1 hev with rfl | hev
        · rfl
        · exact h₂ ev hev
  · subst hrest
    refine ⟨by simp [Call.isBeforeBillingCheck], ?_⟩
    cases keepGoing with
    | false => exact Or.inl (by rw [hres]; rfl)
    | true => exact Or.inr ⟨by rw [hres]; rfl, rfl, r₁, err, rfl, herr, his⟩

/-- C1, as stated, fails: for a project that declares two billing groups the
creation of the project, its variables, its environment and its groups are all
called before `Import` returns the error, with and without `keepGoing`. -/
theorem C1_counterexample :
    invalidConfig.Projects.map (fun p => p.BillingGroups.length) = [2] ∧
    (Import succeedingClient invalidConfig true 3).1 = some (GoError.errorString 1
      "project can only have one billing group: [acme globex]") ∧
    (Import succeedingClient invalidConfig true 3).2.trace.map (fun ev => ev.call) =
      [Call.AddProject ⟨"demo", "git@example.com:demo.git", 3⟩,
       Call.AddEnvVariable ⟨⟨"build", "A", "1"⟩, EnvVariableType.ProjectVar, 7⟩,
       Call.AddEnvVariable ⟨⟨"runtime", "B", "2"⟩, EnvVariableType.ProjectVar, 7⟩,
       Call.AddOrUpdateEnvironment ⟨"main", 7, "main"⟩,
       Call.AddEnvVariable ⟨⟨"runtime", "C", "3"⟩, EnvVariableType.EnvironmentVar, 9⟩,
       Call.AddGroupsToProject ⟨⟨"demo"⟩, [⟨"devs"⟩]⟩] ∧
    (Import succeedingClient invalidConfig false 3).2.trace =
      (Import succeedingClient invalidConfig true 3).2.trace := by
  decide

/-- C1, amended: of the calls made on behalf of a project that declares two
billing groups or more, none follows the check of import.go:239: there is no
`AddProjectToBillingGroup`, `AddUserToGroup` or `AddNotificationToProject` call
for it, only `AddProject`, `ProjectByName`, `AddEnvVariable`,
`AddOrUpdateEnvironment`, `EnvironmentByName` and `AddGroupsToProject` calls.
`Import` then returns an error and no later project is processed, unless
`keepGoing` is set and the project's `AddProject` call, its only call, failed
with an error that is no conflict. -/
theorem C1_invalid_project_calls (i : Importer) (config : Config) (keepGoing : Bool)
    (openshiftID : Nat) (k : Nat) (p : ProjectConfig) (seg : List Event)
    (hp : config.Projects[k]? = some p) (hbg : 2 ≤ p.BillingGroups.length)
    (hseg : (projectSegments (Import i config keepGoing openshiftID).2.trace)[k]? = some seg) :
    (∀ ev ∈ seg, ev.call.isBeforeBillingCheck = true) ∧
    (((Import i config keepGoing openshiftID).1.isSome = true ∧
        (projectSegments (Import i config keepGoing openshiftID).2.trace).length = k + 1) ∨
      (keepGoing = true ∧ ∃ r err,
        seg = [⟨Call.AddProject (p.withOpenshift openshiftID).AddProjectInput, r⟩] ∧
        r.err = some err ∧ err.Is ErrExist = false)) := by
  obtain ⟨globals, segs, _, _, _, hsegs, hcases⟩ := Import_runs i config keepGoing openshiftID
  rw [hsegs] at hseg ⊢
  rcases hcases with ⟨_, _, hnil, _⟩ | ⟨_, hruns⟩
  · rw [hnil] at hseg
    simp at hseg
  · obtain ⟨x, r, hx, hrun, hlt, hlast⟩ := runsOf_get hruns k seg hseg
    rw [hp] at hx
    cases hx
    obtain ⟨hcalls, hres⟩ := projectRun_invalid hrun hbg
    refine ⟨hcalls, ?_⟩
    rcases hres with hsome | ⟨_, hk, hshape⟩
    · left
      have hklt : k < segs.length := by
        by_contra hge
        rw [List.getElem?_eq_none (by omega)] at hseg
        cases hseg
      have hlen : k + 1 = segs.length := by
        by_contra hne
        have := hlt (by omega)
        rw [this] at hsome
        cases hsome
      exact ⟨by rw [← hlast hlen]; exact hsome, hlen.symm⟩
    · exact Or.inr ⟨hk, hshape⟩

/-- C1, amended, on the configuration whose only project declares two billing
groups, against a client on which everything succeeds. -/
theorem C1_invalid_project_calls_witness :
    invalidConfig.Projects[0]? = some invalidProject ∧
    2 ≤ invalidProject.BillingGroups.length ∧
    (projectSegments (Import succeedingClient invalidConfig true 3).2.trace)[0]? =
      some (Import succeedingClient invalidConfig true 3).2.trace ∧
    ((∀ ev ∈ (Import succeedingClient invalidConfig true 3).2.trace,
        ev.call.isBeforeBillingCheck = true) ∧
      (((Import succeedingClient invalidConfig true 3).1.isSome = true ∧
          (projectSegments (Import succeedingClient invalidConfig true 3).2.trace).length
            = 0 + 1) ∨
        (true = true ∧ ∃ r err,
          (Import succeedingClient invalidConfig true 3).2.trace =
            [⟨Call.AddProject (invalidProject.withOpenshift 3).AddProjectInput, r⟩] ∧
          r.err = some err ∧ err.Is ErrExist = false))) :=
  ⟨by decide, by decide, by decide,
    C1_invalid_project_calls succeedingClient invalidConfig true 3 0 invalidProject _
      (by decide) (by decide) (by decide)⟩

/-- C6, as stated, fails: with `keepGoing`, when the creation of the project
that declares two billing groups fails with an error that is no conflict, the
project is skipped, its check with it, and `Import` returns nil. -/
theorem C6_counterexample :
    invalidConfig.Projects.map (fun p => p.BillingGroups.length) = [2] ∧
    (Import rejectingClient invalidConfig true 3).1 = none ∧
    (Import rejectingClient invalidConfig true 3).2.trace =
      [⟨Call.AddProject ⟨"demo", "git@example.com:demo.git", 3⟩,
        ⟨some transportError, none⟩⟩] := by
  decide

/-- C6, amended: on a configuration in which some project declares two
billing groups or more, `Import` returns an error, whatever the client does and
whatever `keepGoing` is, with one exception: `keepGoing` is set and, for every
project that declares two billing groups or more, the `AddProject` call failed
with an error that is no conflict (the project is then skipped, and the call is
the only one made for it). -/
theorem C6_invalid_config_fatal (i : Importer) (config : Config) (keepGoing : Bool)
    (openshiftID : Nat) (hex : ∃ p ∈ config.Projects, 2 ≤ p.BillingGroups.length) :
    (Import i config keepGoing openshiftID).1.isSome = true ∨
    (keepGoing = true ∧ ∀ (k : Nat) (p : ProjectConfig), config.Projects[k]? = some p → 2 ≤ p.BillingGroups.length →
      ∃ (r : Response) (err : GoError), (projectSegments (Import i config keepGoing openshiftID).2.trace)[k]? =
          some [⟨Call.AddProject (p.withOpenshift openshiftID).AddProjectInput, r⟩] ∧
        r.err = some err ∧ err.Is ErrExist = false) := by
  obtain ⟨globals, segs, _, _, _, hsegs, hcases⟩ := Import_runs i config keepGoing openshiftID
  rw [hsegs]
  cases hres : (Import i config keepGoing openshiftID).1 with
  | some e => exact Or.inl rfl
  | none =>
    right
    rcases hcases with ⟨e, he, _⟩ | ⟨_, hruns⟩
    · rw [hres] at he; cases he
    · rw [hres] at hruns
      have hlen := runsOf_length_of_none hruns rfl
      have hall : ∀ (k : Nat) (p : ProjectConfig), config.Projects[k]? = some p → 2 ≤ p.BillingGroups.length →
          keepGoing = true ∧ ∃ (r : Response) (err : GoError), segs[k]? =
            some [⟨Call.AddProject (p.withOpenshift openshiftID).AddProjectInput, r⟩] ∧
          r.err = some err ∧ err.Is ErrExist = false := by
        intro k p hp hbg
        have hk : k < segs.length := by
          rw [hlen]
          by_contra hge
          rw [List.getElem?_eq_none (by omega)] at hp
          cases hp
        obtain ⟨x, r, hx, hrun, hlt, hlast⟩ := runsOf_get hruns k segs[k]
          (List.getElem?_eq_getElem hk)
        rw [hp] at hx
        cases hx
        have hr : r = none := by
          by_cases h : k + 1 < segs.length
          · exact hlt h
          · exact hlast (by omega)
        subst hr
        rcases (projectRun_invalid hrun hbg).2 with hsome | ⟨_, hkg, r, err, hshape, h₁, h₂⟩
        · cases hsome
        · exact ⟨hkg, r, err, by rw [List.getElem?_eq_getElem hk, hshape], h₁, h₂⟩
      obtain ⟨p, hp, hbg⟩ := hex
      obtain ⟨k, hk⟩ := List.mem_iff_getElem?.1 hp
      exact ⟨(hall k p hk hbg).1, fun k p hp hbg => (hall k p hp hbg).2⟩

/-- C6, amended, on the configuration whose only project declares two billing
groups, against a client on which everything succeeds. -/
theorem C6_invalid_config_fatal_witness :
    (∃ p ∈ invalidConfig.Projects, 2 ≤ p.BillingGroups.length) ∧
    ((Import succeedingClient invalidConfig false 3).1.isSome = true ∨
      (false = true ∧ ∀ (k : Nat) (p : ProjectConfig), invalidConfig.Projects[k]? = some p →
        2 ≤ p.BillingGroups.length →
        ∃ (r : Response) (err : GoError), (projectSegments (Import succeedingClient invalidConfig false 3).2.trace)[k]? =
            some [⟨Call.AddProject (p.withOpenshift 3).AddProjectInput, r⟩] ∧
          r.err = some err ∧ err.Is ErrExist = false)) :=
  ⟨⟨invalidProject, by decide, by decide⟩,
    C6_invalid_config_fatal succeedingClient invalidConfig false 3
      ⟨invalidProject, by decide, by decide⟩⟩

/-- C3 on the demo configuration, against a client on which `AddUser` fails:
the run ends with that call, the third. -/
theorem C3_first_failure_ends_run_witness :
    (Import userFailingClient demoConfig false 3).2.trace =
      [⟨Call.AddBillingGroup ⟨"acme", "USD"⟩, ⟨none, none⟩⟩,
       ⟨Call.AddGroup ⟨"devs"⟩, ⟨none, none⟩⟩] ++
      ⟨Call.AddUser ⟨"ann@example.com", "Ann"⟩, ⟨some transportError, none⟩⟩ :: [] ∧
    (⟨Call.AddUser ⟨"ann@example.com", "Ann"⟩, ⟨some transportError, none⟩⟩ : Event).resp.err.isSome
      = true ∧
    ((Import userFailingClient demoConfig false 3).1.isSome = true ∧ ([] : List Event) = [] ∧
      ∀ ev' ∈ [(⟨Call.AddBillingGroup ⟨"acme", "USD"⟩, ⟨none, none⟩⟩ : Event),
        ⟨Call.AddGroup ⟨"devs"⟩, ⟨none, none⟩⟩], ev'.resp.err = none) :=
  ⟨by decide, by decide,
    C3_first_failure_ends_run userFailingClient demoConfig 3
      [⟨Call.AddBillingGroup ⟨"acme", "USD"⟩, ⟨none, none⟩⟩,
       ⟨Call.AddGroup ⟨"devs"⟩, ⟨none, none⟩⟩] []
      ⟨Call.AddUser ⟨"ann@example.com", "Ann"⟩, ⟨some transportError, none⟩⟩
      (by decide) (by decide)⟩

/-- C7 on the demo configuration, against the client on which everything succeeds. -/
theorem C7_successful_run_witness :
    (∀ p ∈ demoConfig.Projects, p.BillingGroups.length ≤ 1) ∧
    (∀ history c, (succeedingClient.respond history c).err = none) ∧
    ((Import succeedingClient demoConfig false 3).1 = none ∧
      erasedCalls (Import succeedingClient demoConfig false 3).2.trace = reference demoConfig 3 ∧
      ∀ ev ∈ (Import succeedingClient demoConfig false 3).2.trace, ev.call.isLookup = false) :=
  ⟨by decide, fun _ c => by cases c <;> rfl,
    C7_successful_run succeedingClient demoConfig false 3 (by decide)
      (fun _ c => by cases c <;> rfl)⟩

/-! ## C2: what makes a run with `keepGoing` return an error -/

theorem runsOf_some {α : Type} {Q : α → List Event → Option GoError → Prop}
    {xs : List α} {segs : List (List Event)} {res : Option GoError}
    (h : RunsOf Q xs segs res) :
    ∀ e, res = some e → ∃ x seg, x ∈ xs ∧ seg ∈ segs ∧ Q x seg (some e) := by
  induction h with
  | done => intro e he; cases he
  | stop x xs seg e' hQ =>
    intro e he
    cases he
    exact ⟨x, seg, by simp, by simp, hQ⟩
  | next x xs seg segs res _ _ ih =>
    intro e he
    obtain ⟨y, seg', hy, hs, hQ⟩ := ih e he
    exact ⟨y, seg', List.mem_cons_of_mem _ hy, List.mem_cons_of_mem _ hs, hQ⟩

/-- With `keepGoing`, the iteration of an environment returns an error only
when its lookup failed. -/
theorem envRun_keepGoing_error {i : Importer} {n : Nat} {env : EnvironmentConfig}
    {seg : List Event} {e : GoError} (h : EnvRun i true n env seg (some e)) :
    ∃ ev ∈ seg, ev.call.isEnvironmentByName = true ∧ ev.resp.err.isSome = true := by
  obtain ⟨r₁, rest, rfl, _, hcases⟩ := h
  rcases hcases with ⟨_, hv⟩ | ⟨_, _, _, hk, _⟩ | ⟨_, r₂, rest₂, _, _, _, hrest, _, hc⟩ |
    ⟨_, _, _, _, hres⟩
  · exact absurd (varsRun_keepGoing hv).1 (by simp)
  · cases hk
  · subst hrest
    rcases hc with ⟨err₂, herr₂, _, _⟩ | ⟨_, hv⟩
    · exact ⟨⟨Call.EnvironmentByName env.Environment.AddEnvironmentInput.Name n, r₂⟩,
        by simp, rfl, by simp [herr₂]⟩
    · exact absurd (varsRun_keepGoing hv).1 (by simp)
  · simp at hres

/-- With `keepGoing`, the iteration of a project that declares at most one
billing group returns an error only when a lookup failed. -/
theorem projectRun_keepGoing_error {i : Importer} {openshiftID : Nat} {p : ProjectConfig}
    {seg : List Event} {e : GoError} (h : ProjectRun i true openshiftID p seg (some e))
    (hbg : p.BillingGroups.length ≤ 1) :
    ∃ ev ∈ seg, ev.call.isLookup = true ∧ ev.resp.err.isSome = true := by
  obtain ⟨r₁, rest, rfl, _, hcases⟩ := h
  have hsteps : ∀ n evs, StepsRun i true (p.withOpenshift openshiftID) n evs (some e) →
      ∃ ev ∈ evs, ev.call.isLookup = true ∧ ev.resp.err.isSome = true := by
    intro n evs hs
    obtain ⟨pv, _, _, hc⟩ := stepsRun_shape hs
    rcases hc with ⟨_, _, hk, _⟩ | ⟨esegs, tail, res₂, rfl, hruns, _, _, _, hnone⟩
    · cases hk
    · cases hres₂ : res₂ with
      | none => exact absurd (hnone rfl hbg hres₂) (by simp)
      | some e₂ =>
        obtain ⟨env, eseg, _, heseg, hrun⟩ := runsOf_some hruns e₂ hres₂
        obtain ⟨ev, hev, h₁, h₂⟩ := envRun_keepGoing_error hrun
        refine ⟨ev, ?_, by simp [Call.isLookup, h₁], h₂⟩
        exact List.mem_append_left _ (List.mem_append_right _
          (List.mem_flatten.2 ⟨eseg, heseg, hev⟩))
  rcases hcases with ⟨_, n, _, hs⟩ | ⟨_, _, _, hk, _⟩ | ⟨_, r₂, rest₂, _, _, _, hrest, _, hc⟩ |
    ⟨_, _, _, _, hres⟩
  · obtain ⟨ev, hev, h⟩ := hsteps n rest hs
    exact ⟨ev, List.mem_cons_of_mem _ hev, h⟩
  · cases hk
  · subst hrest
    rcases hc with ⟨err₂, herr₂, _, _⟩ | ⟨_, n, _, hs⟩
    · exact ⟨⟨Call.ProjectByName p.AddProjectInput.Name, r₂⟩, by simp, rfl, by simp [herr₂]⟩
    · obtain ⟨ev, hev, h⟩ := hsteps n rest₂ hs
      exact ⟨ev, List.mem_cons_of_mem _ (List.mem_cons_of_mem _ hev), h⟩
  · simp at hres

theorem noReturn_importGlobals (i : Importer) (config : Config) :
    NoReturn (importGlobals i true config) := by
  apply noReturn_seq
  intro b hb
  simp only [List.mem_cons, List.mem_singleton, List.not_mem_nil, or_false] at hb
  rcases hb with rfl | rfl | rfl | rfl | rfl | rfl
  · exact noReturn_forEach (fun _ => noReturn_attempt_const i _ _) _
  · exact noReturn_forEach (fun _ => noReturn_attempt_const i _ _) _
  · exact noReturn_forEach (fun _ => noReturn_attempt_const i _ _) _
  · exact noReturn_forEach (fun _ => noReturn_forEach (fun _ => noReturn_attempt_const i _ _) _) _
  · exact noReturn_forEach (fun _ => noReturn_forEach (fun _ => noReturn_attempt_const i _ _) _) _
  · cases config.Notifications with
    | none => exact noReturn_skip
    | some ns =>
      apply noReturn_seq
      intro b hb
      simp only [List.mem_cons, List.mem_singleton, List.not_mem_nil, or_false] at hb
      rcases hb with rfl | rfl
      · exact noReturn_forEach (fun _ => noReturn_attempt_const i _ _) _
      · exact noReturn_forEach (fun _ => noReturn_attempt_const i _ _) _

/-- C2, as stated, fails: with `keepGoing`, on a configuration whose project
declares one billing group, a failing `ProjectByName` makes `Import` return an
error. -/
theorem C2_counterexample :
    smallConfig.Projects.map (fun p => p.BillingGroups.length) = [0] ∧
    (Import lookupFailingClient smallConfig true 3).1 = some (GoError.wrapError
      "couldn't get project \"app\" by name: graphql: Unauthorized" transportError) ∧
    (Import lookupFailingClient smallConfig true 3).2.trace =
      [⟨Call.AddProject ⟨"app", "git@example.com:app.git", 3⟩, ⟨some conflictError, none⟩⟩,
       ⟨Call.ProjectByName "app", ⟨some transportError, none⟩⟩] := by
  decide

/-- C2, amended: on a configuration in which every project declares at most
one billing-group name, `Import` with `keepGoing` runs to completion and
returns nil whenever none of the lookups it issues (`ProjectByName`,
`EnvironmentByName`) fails; every other operation may fail. -/
theorem C2_keepGoing_completes (i : Importer) (config : Config) (openshiftID : Nat)
    (hbg : ∀ p ∈ config.Projects, p.BillingGroups.length ≤ 1)
    (hlookups : ∀ ev ∈ (Import i config true openshiftID).2.trace,
      ev.call.isLookup = true → ev.resp.err = none) :
    (Import i config true openshiftID).1 = none := by
  obtain ⟨globals, segs, htrace, _, _, _, hcases⟩ := Import_runs i config true openshiftID
  cases hres : (Import i config true openshiftID).1 with
  | none => rfl
  | some e =>
    exfalso
    rcases hcases with ⟨e', _, _, he'⟩ | ⟨_, hruns⟩
    · rw [noReturn_importGlobals i config St.init] at he'
      cases he'
    · obtain ⟨p, seg, hp, hseg, hrun⟩ := runsOf_some hruns e hres
      obtain ⟨ev, hev, h₁, h₂⟩ := projectRun_keepGoing_error hrun (hbg p hp)
      have hmem : ev ∈ (Import i config true openshiftID).2.trace := by
        rw [htrace]
        exact List.mem_append_right _ (List.mem_flatten.2 ⟨seg, hseg, hev⟩)
      rw [hlookups ev hmem h₁] at h₂
      cases h₂

/-- C2, amended, on the small configuration, against a client on which every
creation fails with a conflict and every lookup succeeds. -/
theorem C2_keepGoing_completes_witness :
    (∀ p ∈ smallConfig.Projects, p.BillingGroups.length ≤ 1) ∧
    (∀ ev ∈ (Import secondRunClient smallConfig true 3).2.trace,
      ev.call.isLookup = true → ev.resp.err = none) ∧
    (Import secondRunClient smallConfig true 3).1 = none :=
  ⟨by decide, by decide,
    C2_keepGoing_completes secondRunClient smallConfig 3 (by decide) (by decide)⟩

/-! ## C4 and C8: the creation of a project fails -/

/-- The variables attached within an environment's iteration are environment
variables. -/
theorem envRun_envVars {i : Importer} {keepGoing : Bool} {n : Nat} {env : EnvironmentConfig}
    {seg : List Event} {res : Option GoError} (h : EnvRun i keepGoing n env seg res) :
    ∀ ev ∈ seg, ∀ inp, ev.call = Call.AddEnvVariable inp →
      inp.Type_ = EnvVariableType.EnvironmentVar := by
  obtain ⟨r₁, rest, rfl, _, hcases⟩ := h
  have hvars : ∀ m evs, VarsRun i keepGoing env m evs res → ∀ ev ∈ evs, ∀ inp,
      ev.call = Call.AddEnvVariable inp → inp.Type_ = EnvVariableType.EnvironmentVar := by
    intro m evs hv ev hev inp hinp
    obtain ⟨⟨kv, _, hc⟩, _⟩ := varsRun_events hv ev hev
    rw [hc] at hinp
    cases hinp
    rfl
  intro ev hev inp hinp
  rcases List.mem_cons.1 hev with rfl | hev
  · cases hinp
  · rcases hcases with ⟨_, hv⟩ | ⟨_, _, _, _, hrest, _⟩ | ⟨_, r₂, rest₂, _, _, _, hrest, _, hc⟩ |
      ⟨_, _, _, hrest, _⟩
    · exact hvars _ _ hv ev hev inp hinp
    · rw [hrest] at hev; exact absurd hev (List.not_mem_nil _)
    · rw [hrest] at hev
      rcases List.mem_cons.1 hev with rfl | hev
      · cases hinp
      · rcases hc with ⟨_, _, hr₂, _⟩ | ⟨_, hv⟩
        · rw [hr₂] at hev; exact absurd hev (List.not_mem_nil _)
        · exact hvars _ _ hv ev hev inp hinp
    · rw [hrest] at hev; exact absurd hev (List.not_mem_nil _)

/-- With `keepGoing`, the steps that follow the creation of a project start
with one call per project variable, carrying the project's identifier; no
project variable is attached after these. -/
theorem stepsShape_keepGoing_vars {i : Importer} {p : ProjectConfig} {n : Nat}
    {evs : List Event} {res : Option GoError} (h : StepsShape i true p n evs res) :
    ∃ pv more, evs = pv ++ more ∧
      pv.map (fun ev => ev.call) = p.EnvVariables.map
        (fun kv => Call.AddEnvVariable ⟨kv, EnvVariableType.ProjectVar, n⟩) ∧
      ∀ ev ∈ more, ∀ inp, ev.call = Call.AddEnvVariable inp →
        inp.Type_ = EnvVariableType.EnvironmentVar := by
  obtain ⟨pv, _, hpv, hcases⟩ := h
  rcases hcases with ⟨_, _, hk, _⟩ | ⟨esegs, tail, res₂, rfl, hruns, _, htail, _, _⟩
  · cases hk
  · refine ⟨pv, esegs.flatten ++ tail, by rw [List.append_assoc], hpv rfl, ?_⟩
    intro ev hev inp hinp
    rcases List.mem_append.1 hev with hev | hev
    · obtain ⟨seg, hseg, hev'⟩ := List.mem_flatten.1 hev
      obtain ⟨env, r, _, hrun⟩ := runsOf_forall hruns seg hseg
      exact envRun_envVars hrun ev hev' inp hinp
    · have := (htail ev hev).1
      rw [hinp] at this
      cases this

/-- The two facts that `stepCall` states about identifiers. -/
theorem stepCall_ids {c : Call} {n : Nat} (h : stepCall n c = true) :
    (∀ inp, c = Call.AddEnvVariable inp → inp.Type_ = EnvVariableType.ProjectVar →
      inp.TypeID = n) ∧
    (∀ inp, c = Call.AddOrUpdateEnvironment inp → inp.ProjectID = n) := by
  refine ⟨?_, ?_⟩
  · rintro inp rfl hty
    simpa [stepCall, hty] using h
  · rintro inp rfl
    simpa [stepCall] using h

/-- C8: with `keepGoing`, when the `AddProject` call of a project fails with an
error that does not wrap `ErrExist`, that call is the only one made on behalf
of the project (no `ProjectByName`, none of the dependent operations), and the
call that follows in the trace, if any, is the `AddProject` of the next
declared project. -/
theorem C8_failed_creation_skips_project (i : Importer) (config : Config)
    (openshiftID : Nat) (k : Nat) (seg : List Event) (ev : Event) (err : GoError)
    (hseg : (projectSegments (Import i config true openshiftID).2.trace)[k]? = some seg)
    (hhead : seg.head? = some ev) (herr : ev.resp.err = some err)
    (hnc : err.Is ErrExist = false) :
    seg = [ev] ∧
    (∃ p, config.Projects[k]? = some p ∧
      ev.call = Call.AddProject (p.withOpenshift openshiftID).AddProjectInput) ∧
    (∀ seg', (projectSegments (Import i config true openshiftID).2.trace)[k + 1]? = some seg' →
      ∃ p' r', config.Projects[k + 1]? = some p' ∧
        seg'.head? = some ⟨Call.AddProject (p'.withOpenshift openshiftID).AddProjectInput, r'⟩) ∧
    (Import i config true openshiftID).2.trace =
      globalSegment (Import i config true openshiftID).2.trace ++
        (projectSegments (Import i config true openshiftID).2.trace).flatten := by
  obtain ⟨globals, segs, htrace, _, hglobals, hsegs, hcases⟩ :=
    Import_runs i config true openshiftID
  rw [hsegs] at hseg
  rw [hsegs, hglobals]
  rcases hcases with ⟨_, _, hnil, _⟩ | ⟨_, hruns⟩
  · rw [hnil] at hseg
    simp at hseg
  · obtain ⟨p, r, hp, hrun, _, _⟩ := runsOf_get hruns k seg hseg
    obtain ⟨r₁, rest, rfl, _, hc⟩ := hrun
    simp only [List.head?_cons, Option.some.injEq] at hhead
    subst hhead
    simp only at herr
    refine ⟨?_, ⟨p, hp, rfl⟩, ?_, htrace⟩
    · rcases hc with ⟨h, _⟩ | ⟨_, _, _, hk, _⟩ | ⟨e, _, _, he, his, _⟩ | ⟨_, _, _, hrest, _⟩
      · rw [h] at herr; cases herr
      · cases hk
      · rw [he] at herr
        cases herr
        rw [his] at hnc
        cases hnc
      · rw [hrest]
    · intro seg' hseg'
      obtain ⟨p', _, hp', hrun', _, _⟩ := runsOf_get hruns (k + 1) seg' hseg'
      obtain ⟨r', rest', rfl, _, _⟩ := hrun'
      exact ⟨p', r', hp', rfl⟩

/-- C4: with `keepGoing`, when the `AddProject` call of project `p` fails with
an error that wraps `ErrExist`, the calls made on behalf of `p` are that call,
then one `ProjectByName` call with `p.Name`, then calls among which there is no
further `AddProject` or `ProjectByName`; and when the lookup succeeds yielding
the identifier `n`, every project-level `AddEnvVariable` call for `p` carries
`TypeID = n` (there is exactly one per declared variable, and they come
first), and every `AddOrUpdateEnvironment` call for `p` carries `ProjectID = n`. -/
theorem C4_conflict_resolved_by_lookup (i : Importer) (config : Config) (openshiftID : Nat)
    (k : Nat) (p : ProjectConfig) (seg : List Event) (ev : Event)
    (hp : config.Projects[k]? = some p)
    (hseg : (projectSegments (Import i config true openshiftID).2.trace)[k]? = some seg)
    (hhead : seg.head? = some ev) (hconf : ev.conflict = true) :
    ∃ r₂ rest,
      seg = ev :: ⟨Call.ProjectByName p.AddProjectInput.Name, r₂⟩ :: rest ∧
      ev.call = Call.AddProject (p.withOpenshift openshiftID).AddProjectInput ∧
      (∀ ev' ∈ rest, ev'.call.isAddProject = false ∧ ev'.call.isProjectByName = false) ∧
      (∀ n, r₂.err = none → r₂.out = some n →
        (∀ ev' ∈ rest,
          (∀ inp, ev'.call = Call.AddEnvVariable inp →
            inp.Type_ = EnvVariableType.ProjectVar → inp.TypeID = n) ∧
          (∀ inp, ev'.call = Call.AddOrUpdateEnvironment inp → inp.ProjectID = n)) ∧
        ∃ pv more, rest = pv ++ more ∧
          pv.map (fun ev' => ev'.call) = p.EnvVariables.map
            (fun kv => Call.AddEnvVariable ⟨kv, EnvVariableType.ProjectVar, n⟩) ∧
          ∀ ev' ∈ more, ∀ inp, ev'.call = Call.AddEnvVariable inp →
            inp.Type_ = EnvVariableType.EnvironmentVar) := by
  obtain ⟨globals, segs, _, _, _, hsegs, hcases⟩ := Import_runs i config true openshiftID
  rw [hsegs] at hseg
  rcases hcases with ⟨_, _, hnil, _⟩ | ⟨_, hruns⟩
  · rw [hnil] at hseg
    simp at hseg
  · obtain ⟨x, r, hx, hrun, _, _⟩ := runsOf_get hruns k seg hseg
    rw [hp] at hx
    cases hx
    obtain ⟨r₁, rest, rfl, _, hc⟩ := hrun
    simp only [List.head?_cons, Option.some.injEq] at hhead
    subst hhead
    have hconf' : errorsIs r₁.err ErrExist = true := hconf
    rcases hc with ⟨h, _⟩ | ⟨_, _, _, hk, _⟩ | ⟨e, r₂, rest₂, _, _, _, hrest, _, hc₂⟩ |
      ⟨e, he, his, _, _⟩
    · rw [h] at hconf'; cases hconf'
    · cases hk
    · subst hrest
      refine ⟨r₂, rest₂, rfl, rfl, ?_, ?_⟩
      · rcases hc₂ with ⟨_, _, hr₂, _⟩ | ⟨_, n, _, hs⟩
        · rw [hr₂]; simp
        · intro ev' hev'
          exact stepCall_not_start (stepsShape_events (stepsRun_shape hs) ev' hev').2
      · intro n hok hout
        rcases hc₂ with ⟨e₂, he₂, _, _⟩ | ⟨_, n', hn', hs⟩
        · rw [he₂] at hok; cases hok
        · have hn : n' = n := hn' n hout
          subst hn
          have hshape := stepsRun_shape hs
          exact ⟨fun ev' hev' => stepCall_ids (stepsShape_events hshape ev' hev').2,
            stepsShape_keepGoing_vars hshape⟩
    · rw [he] at hconf'
      simp only [errorsIs] at hconf'
      rw [his] at hconf'
      cases hconf'

/-- C8 on the configuration of two projects, against a client that rejects
every creation: each project has its `AddProject` call and nothing else. -/
theorem C8_failed_creation_skips_project_witness :
    (projectSegments (Import rejectingClient twoProjectsConfig true 3).2.trace)[0]? =
      some [demoCreationRejected] ∧
    [demoCreationRejected].head? = some demoCreationRejected ∧
    demoCreationRejected.resp.err = some transportError ∧
    transportError.Is ErrExist = false ∧
    ([demoCreationRejected] = [demoCreationRejected] ∧
      (∃ p, twoProjectsConfig.Projects[0]? = some p ∧
        demoCreationRejected.call = Call.AddProject (p.withOpenshift 3).AddProjectInput) ∧
      (∀ seg', (projectSegments
          (Import rejectingClient twoProjectsConfig true 3).2.trace)[0 + 1]? = some seg' →
        ∃ p' r', twoProjectsConfig.Projects[0 + 1]? = some p' ∧
          seg'.head? = some ⟨Call.AddProject (p'.withOpenshift 3).AddProjectInput, r'⟩) ∧
      (Import rejectingClient twoProjectsConfig true 3).2.trace =
        globalSegment (Import rejectingClient twoProjectsConfig true 3).2.trace ++
          (projectSegments (Import rejectingClient twoProjectsConfig true 3).2.trace).flatten) :=
  ⟨by decide, rfl, rfl, by decide,
    C8_failed_creation_skips_project rejectingClient twoProjectsConfig 3 0
      [demoCreationRejected] demoCreationRejected transportError (by decide) rfl rfl
      (by decide)⟩

/-- C4 on the small configuration, against a client on which every creation
fails with a conflict and every lookup succeeds. -/
theorem C4_conflict_resolved_by_lookup_witness :
    smallConfig.Projects[0]? = some smallProject ∧
    (projectSegments (Import secondRunClient smallConfig true 3).2.trace)[0]? =
      some (Import secondRunClient smallConfig true 3).2.trace ∧
    (Import secondRunClient smallConfig true 3).2.trace.head? = some appCreationConflict ∧
    appCreationConflict.conflict = true ∧
    ∃ r₂ rest,
      (Import secondRunClient smallConfig true 3).2.trace =
        appCreationConflict :: ⟨Call.ProjectByName smallProject.AddProjectInput.Name, r₂⟩ :: rest ∧
      appCreationConflict.call = Call.AddProject (smallProject.withOpenshift 3).AddProjectInput ∧
      (∀ ev' ∈ rest, ev'.call.isAddProject = false ∧ ev'.call.isProjectByName = false) ∧
      (∀ n, r₂.err = none → r₂.out = some n →
        (∀ ev' ∈ rest,
          (∀ inp, ev'.call = Call.AddEnvVariable inp →
            inp.Type_ = EnvVariableType.ProjectVar → inp.TypeID = n) ∧
          (∀ inp, ev'.call = Call.AddOrUpdateEnvironment inp → inp.ProjectID = n)) ∧
        ∃ pv more, rest = pv ++ more ∧
          pv.map (fun ev' => ev'.call) = smallProject.EnvVariables.map
            (fun kv => Call.AddEnvVariable ⟨kv, EnvVariableType.ProjectVar, n⟩) ∧
          ∀ ev' ∈ more, ∀ inp, ev'.call = Call.AddEnvVariable inp →
            inp.Type_ = EnvVariableType.EnvironmentVar) :=
  ⟨by decide, by decide, by decide, by decide,
    C4_conflict_resolved_by_lookup secondRunClient smallConfig 3 0 smallProject
      (Import secondRunClient smallConfig true 3).2.trace appCreationConflict
      (by decide) (by decide) (by decide) (by decide)⟩

/-! ## The environments of a project -/

theorem takeWhile_append_of_all {α : Type} (q : α → Bool) :
    ∀ (xs ys : List α), (∀ x ∈ xs, q x = true) → (∀ y ∈ ys, q y = false) →
      (xs ++ ys).takeWhile q = xs
  | [], [], _, _ => rfl
  | [], y :: ys, _, h => by
    simp [List.takeWhile, h y (List.mem_cons_self _ _)]
  | x :: xs, ys, hx, hy => by
    have ih := takeWhile_append_of_all q xs ys
      (fun z hz => hx z (List.mem_cons_of_mem _ hz)) hy
    simp [List.takeWhile, hx x (List.mem_cons_self _ _), ih]

/-- The calls of an environment's iteration form a segment: they start with
the `AddOrUpdateEnvironment` call and hold no other. -/
theorem envRun_isSegment {i : Importer} {keepGoing : Bool} {n : Nat} {env : EnvironmentConfig}
    {seg : List Event} {res : Option GoError} (h : EnvRun i keepGoing n env seg res) :
    IsSegment (fun ev => ev.call.isAddOrUpdateEnvironment) seg := by
  obtain ⟨r₁, rest, rfl, _, hcases⟩ := h
  refine ⟨_, rest, rfl, rfl, ?_⟩
  have hvars : ∀ m evs, VarsRun i keepGoing env m evs res → ∀ ev ∈ evs,
      ev.call.isAddOrUpdateEnvironment = false := by
    intro m evs hv ev hev
    obtain ⟨⟨kv, _, hc⟩, _⟩ := varsRun_events hv ev hev
    rw [hc]; rfl
  rcases hcases with ⟨_, hv⟩ | ⟨_, _, _, _, hrest, _⟩ | ⟨_, r₂, rest₂, _, _, _, hrest, _, hc⟩ |
    ⟨_, _, _, hrest, _⟩
  · exact hvars _ _ hv
  · rw [hrest]; simp
  · rw [hrest]
    intro ev hev
    rcases List.mem_cons.1 hev with rfl | hev
    · rfl
    · rcases hc with ⟨_, _, hr₂, _⟩ | ⟨_, hv⟩
      · rw [hr₂] at hev; exact absurd hev (List.not_mem_nil _)
      · exact hvars _ _ hv ev hev
  · rw [hrest]; simp

/-- The environment segments of a project's segment are the runs of the loop
over its environments. -/
theorem stepsShape_environmentSegments {i : Importer} {keepGoing : Bool} {p : ProjectConfig}
    {n : Nat} {evs : List Event} {res : Option GoError}
    (h : StepsShape i keepGoing p n evs res) (lead : List Event)
    (hlead : ∀ ev ∈ lead, ev.call.isAssociation = false ∧
      ev.call.isAddOrUpdateEnvironment = false) :
    (keepGoing = false ∧ environmentSegments (lead ++ evs) = [] ∧ ∃ e, res = some e) ∨
    (∃ res₂, RunsOf (EnvRun i keepGoing n) p.Environments
        (environmentSegments (lead ++ evs)) res₂ ∧
      (∀ e, res₂ = some e → res = some e) ∧
      (keepGoing = true → p.BillingGroups.length ≤ 1 → res₂ = none → res = none)) := by
  obtain ⟨pv, hpv, _, hcases⟩ := h
  have hpv' : ∀ ev ∈ lead ++ pv, ev.call.isAssociation = false ∧
      ev.call.isAddOrUpdateEnvironment = false := by
    intro ev hev
    rcases List.mem_append.1 hev with hev | hev
    · exact hlead ev hev
    · obtain ⟨⟨kv, _, hc⟩, _⟩ := hpv ev hev
      rw [hc]; exact ⟨rfl, rfl⟩
  rcases hcases with ⟨e, hres, hk, hevs⟩ |
    ⟨esegs, tail, res₂, hevs, hruns, hstop, htail, _, hnone⟩
  · left
    rw [hevs]
    refine ⟨hk, ?_, e, hres⟩
    have htw : (lead ++ pv).takeWhile (fun ev => !ev.call.isAssociation) = lead ++ pv := by
      have := takeWhile_append_of_all (fun ev : Event => !ev.call.isAssociation) (lead ++ pv) []
        (fun ev hev => by simp [(hpv' ev hev).1]) (by simp)
      simpa using this
    have hcut := segments_lead_flatten (fun ev : Event => ev.call.isAddOrUpdateEnvironment)
      (lead ++ pv) [] (fun ev hev => (hpv' ev hev).2) (by simp)
    rw [environmentSegments, htw]
    simpa using congrArg Prod.snd hcut
  · right
    rw [hevs]
    have hsegs : ∀ seg ∈ esegs, IsSegment (fun ev : Event => ev.call.isAddOrUpdateEnvironment)
        seg := by
      intro seg hseg
      obtain ⟨env, r, _, hrun⟩ := runsOf_forall hruns seg hseg
      exact envRun_isSegment hrun
    have hnotassoc : ∀ ev ∈ lead ++ pv ++ esegs.flatten,
        (fun ev : Event => !ev.call.isAssociation) ev = true := by
      intro ev hev
      rcases List.mem_append.1 hev with hev | hev
      · simp [(hpv' ev hev).1]
      · obtain ⟨seg, hseg, hev'⟩ := List.mem_flatten.1 hev
        obtain ⟨env, r, _, hrun⟩ := runsOf_forall hruns seg hseg
        simp [(envRun_events hrun ev hev').2.2.1]
    have htw : (lead ++ (pv ++ esegs.flatten ++ tail)).takeWhile
        (fun ev => !ev.call.isAssociation) = lead ++ pv ++ esegs.flatten := by
      have := takeWhile_append_of_all (fun ev : Event => !ev.call.isAssociation)
        (lead ++ pv ++ esegs.flatten) tail hnotassoc
        (fun ev hev => by simp [(htail ev hev).1])
      simpa [List.append_assoc] using this
    have hcut := segments_lead_flatten (fun ev : Event => ev.call.isAddOrUpdateEnvironment)
      (lead ++ pv) esegs (fun ev hev => (hpv' ev hev).2) hsegs
    have hes : environmentSegments (lead ++ (pv ++ esegs.flatten ++ tail)) = esegs := by
      rw [environmentSegments, htw, hcut]
    rw [hes]
    exact ⟨res₂, hruns, fun e he => (hstop e he).2, hnone⟩

/-- A project whose identifier is resolved to `n` has run the steps that
follow the creation with `newProj.ID = n`. -/
theorem projectRun_resolved {i : Importer} {keepGoing : Bool} {openshiftID : Nat}
    {p : ProjectConfig} {seg : List Event} {res : Option GoError} {n : Nat}
    (h : ProjectRun i keepGoing openshiftID p seg res) (hn : ResolvesTo seg n) :
    ∃ lead evs, seg = lead ++ evs ∧
      (∀ ev ∈ lead, ev.call.isAssociation = false ∧
        ev.call.isAddOrUpdateEnvironment = false) ∧
      StepsShape i keepGoing (p.withOpenshift openshiftID) n evs res := by
  obtain ⟨r₁, rest, rfl, _, hcases⟩ := h
  rcases hn with ⟨ev, rest', heq, hok, hout⟩ | ⟨ev, ev₂, rest', heq, hconf, _, hok, hout⟩
  · simp only [List.cons.injEq] at heq
    obtain ⟨rfl, rfl⟩ := heq
    simp only at hok hout
    rcases hcases with ⟨_, n', hn', hs⟩ | ⟨_, he, _⟩ | ⟨_, _, _, he, _⟩ | ⟨_, he, _⟩
    · have : n' = n := hn' n hout
      subst this
      refine ⟨[_], rest, rfl, ?_, stepsRun_shape hs⟩
      intro ev hev
      simp only [List.mem_singleton] at hev
      subst hev
      exact ⟨rfl, rfl⟩
    · rw [hok] at he; cases he
    · rw [hok] at he; cases he
    · rw [hok] at he; cases he
  · simp only [List.cons.injEq] at heq
    obtain ⟨rfl, rfl⟩ := heq
    have hconf' : errorsIs r₁.err ErrExist = true := hconf
    rcases hcases with ⟨he, _⟩ | ⟨_, _, _, _, hrest, _⟩ |
      ⟨_, r₂, rest₂, _, _, _, hrest, _, hc⟩ | ⟨_, _, _, hrest, _⟩
    · rw [he] at hconf'; cases hconf'
    · cases hrest
    · simp only [List.cons.injEq] at hrest
      obtain ⟨hev₂, hrest₂⟩ := hrest
      subst hev₂
      subst hrest₂
      simp only at hok hout
      rcases hc with ⟨_, he₂, _⟩ | ⟨_, n', hn', hs⟩
      · rw [hok] at he₂; cases he₂
      · have : n' = n := hn' n hout
        subst this
        refine ⟨[_, _], _, rfl, ?_, stepsRun_shape hs⟩
        intro ev hev
        simp only [List.mem_cons, List.mem_singleton, List.not_mem_nil, or_false] at hev
        rcases hev with rfl | rfl <;> exact ⟨rfl, rfl⟩
    · cases hrest

/-! ## C9: the environments of a project with a resolved identifier -/

/-- What an environment's iteration looks like when the creation fails with a
conflict under `keepGoing`. -/
theorem envRun_conflict {i : Importer} {n : Nat} {env : EnvironmentConfig}
    {r : Response} {rest : List Event} {res : Option GoError}
    (h : EnvRun i true n env (⟨Call.AddOrUpdateEnvironment
      { env.Environment.AddEnvironmentInput with ProjectID := n }, r⟩ :: rest) res)
    (hconf : errorsIs r.err ErrExist = true) :
    ∃ r₂ vars,
      rest = ⟨Call.EnvironmentByName env.Environment.AddEnvironmentInput.Name n, r₂⟩ :: vars ∧
      (∃ history, r₂ = i.respond history
        (Call.EnvironmentByName env.Environment.AddEnvironmentInput.Name n)) ∧
      (∀ ev ∈ vars, ev.call.isEnvironmentByName = false) ∧
      (r₂.err ≠ none → vars = [] ∧ res.isSome = true) ∧
      (r₂.err = none → res = none) ∧
      (∀ m, r₂.err = none → r₂.out = some m →
        vars.map (fun ev => ev.call) = env.Environment.EnvVariables.map
          (fun kv => Call.AddEnvVariable ⟨kv, EnvVariableType.EnvironmentVar, m⟩)) := by
  obtain ⟨r₁, rest₁, heq, _, hcases⟩ := h
  simp only [List.cons.injEq, Event.mk.injEq, true_and] at heq
  obtain ⟨hr, hrest⟩ := heq
  subst hr
  subst hrest
  rcases hcases with ⟨he, _⟩ | ⟨_, _, _, hk, _⟩ | ⟨_, r₂, vars, _, _, _, hrest, hfrom, hc⟩ |
    ⟨e, he, his, _, _⟩
  · rw [he] at hconf; cases hconf
  · cases hk
  · refine ⟨r₂, vars, hrest, hfrom, ?_, ?_, ?_, ?_⟩
    · rcases hc with ⟨_, _, hv, _⟩ | ⟨_, hv⟩
      · rw [hv]; simp
      · intro ev hev
        obtain ⟨⟨kv, _, hcall⟩, _⟩ := varsRun_events hv ev hev
        rw [hcall]; rfl
    · intro hne
      rcases hc with ⟨_, _, hv, hres⟩ | ⟨hok, _⟩
      · exact ⟨hv, by rw [hres]; rfl⟩
      · exact absurd hok hne
    · intro hok
      rcases hc with ⟨_, he₂, _⟩ | ⟨_, hv⟩
      · rw [hok] at he₂; cases he₂
      · exact (varsRun_keepGoing hv).1
    · intro m hok hout
      rcases hc with ⟨_, he₂, _⟩ | ⟨_, hv⟩
      · rw [hok] at he₂; cases he₂
      · have := (varsRun_keepGoing hv).2
        simpa [hout] using this
  · rw [he] at hconf
    simp only [errorsIs] at hconf
    rw [his] at hconf
    cases hconf

/-- The environment segments of the segment of a project whose identifier is
resolved to `n` are runs of the loop body over its environments, in order. -/
theorem Import_environment_run (i : Importer) (config : Config) (keepGoing : Bool)
    (openshiftID : Nat) (k : Nat) (p : ProjectConfig) (seg : List Event) (n : Nat)
    (j : Nat) (eseg : List Event)
    (hp : config.Projects[k]? = some p)
    (hseg : (projectSegments (Import i config keepGoing openshiftID).2.trace)[k]? = some seg)
    (hn : ResolvesTo seg n)
    (heseg : (environmentSegments seg)[j]? = some eseg) :
    ∃ env res, p.Environments[j]? = some env ∧ EnvRun i keepGoing n env eseg res := by
  obtain ⟨globals, segs, _, _, _, hsegs, hcases⟩ := Import_runs i config keepGoing openshiftID
  rw [hsegs] at hseg
  rcases hcases with ⟨_, _, hnil, _⟩ | ⟨_, hruns⟩
  · rw [hnil] at hseg
    simp at hseg
  · obtain ⟨x, r, hx, hrun, _, _⟩ := runsOf_get hruns k seg hseg
    rw [hp] at hx
    cases hx
    obtain ⟨lead, evs, rfl, hlead, hshape⟩ := projectRun_resolved hrun hn
    rcases stepsShape_environmentSegments hshape lead hlead with ⟨_, hnil, _⟩ |
      ⟨res₂, heruns, _, _⟩
    · rw [hnil] at heseg
      simp at heseg
    · obtain ⟨env, res, henv, herun, _, _⟩ := runsOf_get heruns j eseg heseg
      exact ⟨env, res, henv, herun⟩

/-- C9: for every environment `env` processed for a project whose identifier
is resolved to `n`, the `AddOrUpdateEnvironment` call carries the declared
input with `ProjectID = n`; and with `keepGoing`, if that call fails with an
error wrapping `ErrExist`, it is followed by one `EnvironmentByName` call with
the arguments `(env.Name, n)`, the only one for `env`, and when that lookup
succeeds yielding the identifier `m`, the remaining calls for `env` are one
`AddEnvVariable` call per declared variable with `Type = EnvironmentVar` and
`TypeID = m`. -/
theorem C9_environment_uses_resolved_ids (i : Importer) (config : Config) (keepGoing : Bool)
    (openshiftID : Nat) (k : Nat) (p : ProjectConfig) (seg : List Event) (n : Nat)
    (j : Nat) (eseg : List Event)
    (hp : config.Projects[k]? = some p)
    (hseg : (projectSegments (Import i config keepGoing openshiftID).2.trace)[k]? = some seg)
    (hn : ResolvesTo seg n)
    (heseg : (environmentSegments seg)[j]? = some eseg) :
    ∃ env r rest, p.Environments[j]? = some env ∧
      eseg = ⟨Call.AddOrUpdateEnvironment
        { env.Environment.AddEnvironmentInput with ProjectID := n }, r⟩ :: rest ∧
      (keepGoing = true → errorsIs r.err ErrExist = true →
        ∃ r₂ vars,
          rest = ⟨Call.EnvironmentByName env.Environment.AddEnvironmentInput.Name n, r₂⟩
            :: vars ∧
          (∀ ev ∈ vars, ev.call.isEnvironmentByName = false) ∧
          (∀ m, r₂.err = none → r₂.out = some m →
            vars.map (fun ev => ev.call) = env.Environment.EnvVariables.map
              (fun kv => Call.AddEnvVariable ⟨kv, EnvVariableType.EnvironmentVar, m⟩))) := by
  obtain ⟨env, res, henv, herun⟩ :=
    Import_environment_run i config keepGoing openshiftID k p seg n j eseg hp hseg hn heseg
  obtain ⟨r, rest, heq, _⟩ := id herun
  refine ⟨env, r, rest, henv, heq, ?_⟩
  intro hk hconf
  subst hk
  rw [heq] at herun
  obtain ⟨r₂, vars, h₁, _, h₂, _, _, h₃⟩ := envRun_conflict herun hconf
  exact ⟨r₂, vars, h₁, h₂, h₃⟩

/-! ## C10: the second run -/

/-- The environment segments of a project's segment, from its parts. -/
theorem environmentSegments_eq {i : Importer} {keepGoing : Bool} {n : Nat}
    {envs : List EnvironmentConfig} {res₂ : Option GoError}
    (lead esegsFlat tail : List Event) (esegs : List (List Event))
    (hflat : esegsFlat = esegs.flatten)
    (hlead : ∀ ev ∈ lead, ev.call.isAssociation = false ∧
      ev.call.isAddOrUpdateEnvironment = false)
    (hruns : RunsOf (EnvRun i keepGoing n) envs esegs res₂)
    (htail : ∀ ev ∈ tail, ev.call.isAssociation = true) :
    environmentSegments (lead ++ esegsFlat ++ tail) = esegs := by
  subst hflat
  have hsegs : ∀ seg ∈ esegs, IsSegment (fun ev : Event => ev.call.isAddOrUpdateEnvironment)
      seg := by
    intro seg hseg
    obtain ⟨env, r, _, hrun⟩ := runsOf_forall hruns seg hseg
    exact envRun_isSegment hrun
  have hnotassoc : ∀ ev ∈ lead ++ esegs.flatten,
      (fun ev : Event => !ev.call.isAssociation) ev = true := by
    intro ev hev
    rcases List.mem_append.1 hev with hev | hev
    · simp [(hlead ev hev).1]
    · obtain ⟨seg, hseg, hev'⟩ := List.mem_flatten.1 hev
      obtain ⟨env, r, _, hrun⟩ := runsOf_forall hruns seg hseg
      simp [(envRun_events hrun ev hev').2.2.1]
  have htw := takeWhile_append_of_all (fun ev : Event => !ev.call.isAssociation)
    (lead ++ esegs.flatten) tail hnotassoc (fun ev hev => by simp [htail ev hev])
  have hcut := segments_lead_flatten (fun ev : Event => ev.call.isAddOrUpdateEnvironment)
    lead esegs (fun ev hev => (hlead ev hev).2) hsegs
  rw [environmentSegments, htw, hcut]

theorem runsOf_none_of_no_stop {α : Type} {Q : α → List Event → Option GoError → Prop}
    {xs : List α} {segs : List (List Event)} {res : Option GoError}
    (h : RunsOf Q xs segs res) (hQ : ∀ x seg e, ¬ Q x seg (some e)) : res = none := by
  induction h with
  | done => rfl
  | stop x xs seg e h => exact absurd h (hQ x seg e)
  | next x xs seg segs res _ _ ih => exact ih

theorem runsOf_sum {α : Type} {Q : α → List Event → Option GoError → Prop}
    {xs : List α} {segs : List (List Event)} {res : Option GoError}
    (h : RunsOf Q xs segs res) (f : List Event → Nat) (g : α → Nat)
    (hres : res = none) (hQ : ∀ x seg, Q x seg none → f seg = g x) :
    (segs.map f).sum = (xs.map g).sum := by
  induction h with
  | done => rfl
  | stop x xs seg e _ => cases hres
  | next x xs seg segs res h _ ih =>
    simp only [List.map_cons, List.sum_cons]
    rw [ih hres, hQ x seg h]

/-- On the second run, the iteration of an environment is the creation that
fails with a conflict, the lookup, and one call per variable. -/
theorem envRun_secondRun {i : Importer} {n : Nat} {env : EnvironmentConfig}
    {eseg : List Event} {res : Option GoError}
    (henv : ∀ history inp,
      errorsIs (i.respond history (Call.AddOrUpdateEnvironment inp)).err ErrExist = true)
    (hebn : ∀ history name project,
      (i.respond history (Call.EnvironmentByName name project)).err = none)
    (h : EnvRun i true n env eseg res) :
    res = none ∧ ∃ e₁ e₂ vars,
      eseg = ⟨Call.AddOrUpdateEnvironment
          { env.Environment.AddEnvironmentInput with ProjectID := n }, e₁⟩ ::
        ⟨Call.EnvironmentByName env.Environment.AddEnvironmentInput.Name n, e₂⟩ :: vars ∧
      (∀ ev ∈ vars, ev.call.isEnvironmentByName = false) ∧
      (∀ m, e₂.out = some m →
        vars.map (fun ev => ev.call) = env.Environment.EnvVariables.map
          (fun kv => Call.AddEnvVariable ⟨kv, EnvVariableType.EnvironmentVar, m⟩)) := by
  obtain ⟨r₁, rest, heq, ⟨history, hr₁⟩, _⟩ := id h
  subst heq
  have hconf : errorsIs r₁.err ErrExist = true := by rw [hr₁]; exact henv _ _
  obtain ⟨r₂, vars, hrest, ⟨history₂, hr₂⟩, hvars, _, hnone, hids⟩ := envRun_conflict h hconf
  have hok : r₂.err = none := by rw [hr₂]; exact hebn _ _ _
  exact ⟨hnone hok, r₁, r₂, vars, by rw [hrest], hvars, fun m hm => hids m hok hm⟩

theorem countP_eq_zero_of_forall {α : Type} (q : α → Bool) (xs : List α)
    (h : ∀ x ∈ xs, q x = false) : xs.countP q = 0 :=
  List.countP_eq_zero.2 (fun x hx => by simp [h x hx])

/-- On the second run the environment segments hold one lookup each. -/
theorem countP_environmentByName_secondRun {i : Importer} {n : Nat}
    (henv : ∀ history inp,
      errorsIs (i.respond history (Call.AddOrUpdateEnvironment inp)).err ErrExist = true)
    (hebn : ∀ history name project,
      (i.respond history (Call.EnvironmentByName name project)).err = none)
    {envs : List EnvironmentConfig} {esegs : List (List Event)}
    (hruns : RunsOf (EnvRun i true n) envs esegs none) :
    esegs.flatten.countP (fun ev => ev.call.isEnvironmentByName) = envs.length := by
  rw [List.countP_flatten]
  have := runsOf_sum hruns (List.countP (fun ev : Event => ev.call.isEnvironmentByName))
    (fun _ => 1) rfl (fun env seg hrun => by
      obtain ⟨_, e₁, e₂, vars, rfl, hvars, _⟩ := envRun_secondRun henv hebn hrun
      have hz := countP_eq_zero_of_forall (fun ev : Event => ev.call.isEnvironmentByName)
        vars hvars
      rw [List.countP_cons, List.countP_cons, hz]
      rfl)
  rw [this]
  simp

theorem isAssociation_not_lookup {c : Call} (h : c.isAssociation = true) :
    c.isEnvironmentByName = false ∧ c.isProjectByName = false := by
  cases c <;> simp_all [Call.isAssociation, Call.isEnvironmentByName, Call.isProjectByName]

/-- On the second run, the iteration of a project is the creation that fails
with a conflict, the lookup, and the steps with the identifier looked up; it
returns nothing, and every environment is resolved by its own lookup. -/
theorem projectRun_secondRun {i : Importer} {openshiftID : Nat} {p : ProjectConfig}
    {seg : List Event} {res : Option GoError}
    (hadd : ∀ history inp,
      errorsIs (i.respond history (Call.AddProject inp)).err ErrExist = true)
    (henv : ∀ history inp,
      errorsIs (i.respond history (Call.AddOrUpdateEnvironment inp)).err ErrExist = true)
    (hpbn : ∀ history name, (i.respond history (Call.ProjectByName name)).err = none)
    (hebn : ∀ history name project,
      (i.respond history (Call.EnvironmentByName name project)).err = none)
    (hbg : p.BillingGroups.length ≤ 1)
    (h : ProjectRun i true openshiftID p seg res) :
    res = none ∧
    seg.countP (fun ev => ev.call.isProjectByName) = 1 ∧
    seg.countP (fun ev => ev.call.isEnvironmentByName) = p.Environments.length ∧
    ∃ r₁ r₂ rest,
      seg = ⟨Call.AddProject (p.withOpenshift openshiftID).AddProjectInput, r₁⟩ ::
        ⟨Call.ProjectByName p.AddProjectInput.Name, r₂⟩ :: rest ∧
      (environmentSegments seg).length = p.Environments.length ∧
      ∀ n, r₂.out = some n →
        (∀ ev ∈ rest,
          (∀ inp, ev.call = Call.AddEnvVariable inp →
            inp.Type_ = EnvVariableType.ProjectVar → inp.TypeID = n) ∧
          (∀ inp, ev.call = Call.AddOrUpdateEnvironment inp → inp.ProjectID = n)) ∧
        ∀ (j : Nat) (env : EnvironmentConfig), p.Environments[j]? = some env →
          ∃ (e₁ e₂ : Response) (vars : List Event),
            (environmentSegments seg)[j]? = some
              (⟨Call.AddOrUpdateEnvironment
                  { env.Environment.AddEnvironmentInput with ProjectID := n }, e₁⟩ ::
                ⟨Call.EnvironmentByName env.Environment.AddEnvironmentInput.Name n, e₂⟩ ::
                vars) ∧
            ∀ m, e₂.out = some m →
              vars.map (fun ev => ev.call) = env.Environment.EnvVariables.map
                (fun kv => Call.AddEnvVariable ⟨kv, EnvVariableType.EnvironmentVar, m⟩) := by
  obtain ⟨r₁, rest, rfl, ⟨history, hr₁⟩, hcases⟩ := h
  have hconf : errorsIs r₁.err ErrExist = true := by rw [hr₁]; exact hadd _ _
  rcases hcases with ⟨he, _⟩ | ⟨_, _, _, hk, _⟩ |
    ⟨_, r₂, rest₂, _, _, _, hrest, ⟨history₂, hr₂⟩, hc⟩ | ⟨e, he, his, _, _⟩
  · rw [he] at hconf; cases hconf
  · cases hk
  · subst hrest
    have hok : r₂.err = none := by rw [hr₂]; exact hpbn _ _
    rcases hc with ⟨_, he₂, _⟩ | ⟨_, n', hn', hs⟩
    · rw [hok] at he₂; cases he₂
    · have hshape := stepsRun_shape hs
      have hevents := stepsShape_events hshape
      obtain ⟨pv, hpv, _, hcs⟩ := hshape
      rcases hcs with ⟨_, _, hk, _⟩ | ⟨esegs, tail, res₂, hevs, hruns, _, htail, _, hnone⟩
      · cases hk
      · have hres₂ : res₂ = none :=
          runsOf_none_of_no_stop hruns (fun env seg e hrun => by
            have := (envRun_secondRun henv hebn hrun).1
            cases this)
        subst hres₂
        have hlen : esegs.length = p.Environments.length := runsOf_length_of_none hruns rfl
        have hlead : ∀ ev ∈ [(⟨Call.AddProject (p.withOpenshift openshiftID).AddProjectInput,
              r₁⟩ : Event), ⟨Call.ProjectByName p.AddProjectInput.Name, r₂⟩] ++ pv,
            ev.call.isAssociation = false ∧ ev.call.isAddOrUpdateEnvironment = false := by
          intro ev hev
          simp only [List.cons_append, List.nil_append, List.mem_cons] at hev
          rcases hev with rfl | rfl | hev
          · exact ⟨rfl, rfl⟩
          · exact ⟨rfl, rfl⟩
          · obtain ⟨⟨kv, _, hcall⟩, _⟩ := hpv ev hev
            rw [hcall]; exact ⟨rfl, rfl⟩
        have hes : environmentSegments
            (⟨Call.AddProject (p.withOpenshift openshiftID).AddProjectInput, r₁⟩ ::
              ⟨Call.ProjectByName p.AddProjectInput.Name, r₂⟩ :: rest₂) = esegs := by
          have := environmentSegments_eq _ esegs.flatten tail esegs rfl hlead hruns
            (fun ev hev => (htail ev hev).1)
          rw [← this, hevs]
          simp [List.append_assoc]
        refine ⟨hnone rfl hbg rfl, ?_, ?_, r₁, r₂, rest₂, rfl, by rw [hes, hlen], ?_⟩
        · -- one `ProjectByName`
          have hz := countP_eq_zero_of_forall (fun ev : Event => ev.call.isProjectByName) rest₂
            (fun ev hev => (stepCall_not_start (hevents ev hev).2).2)
          rw [List.countP_cons, List.countP_cons, hz]
          rfl
        · -- one `EnvironmentByName` per environment
          have hzpv := countP_eq_zero_of_forall (fun ev : Event => ev.call.isEnvironmentByName)
            pv (fun ev hev => by
              obtain ⟨⟨kv, _, hcall⟩, _⟩ := hpv ev hev
              show ev.call.isEnvironmentByName = false
              rw [hcall]; rfl)
          have hztail := countP_eq_zero_of_forall
            (fun ev : Event => ev.call.isEnvironmentByName) tail
            (fun ev hev => (isAssociation_not_lookup (htail ev hev).1).1)
          have hmid := countP_environmentByName_secondRun henv hebn hruns
          rw [List.countP_cons, List.countP_cons, hevs, List.countP_append,
            List.countP_append, hzpv, hztail, hmid]
          show 0 + p.Environments.length + 0 + 0 + 0 = p.Environments.length
          omega
        · intro n hout
          have hn : n' = n := hn' n hout
          subst hn
          refine ⟨fun ev hev => stepCall_ids (hevents ev hev).2, ?_⟩
          intro j env hj
          have hjlt : j < esegs.length := by
            rw [hlen]
            by_contra hge
            rw [List.getElem?_eq_none (by omega)] at hj
            cases hj
          obtain ⟨env', r, henv', hrun, _, _⟩ := runsOf_get hruns j esegs[j]
            (List.getElem?_eq_getElem hjlt)
          have henveq : env' = env := by
            have : some env' = some env := henv'.symm.trans hj
            exact Option.some.inj this
          subst henveq
          obtain ⟨_, e₁, e₂, vars, heseg, _, hids⟩ := envRun_secondRun henv hebn hrun
          exact ⟨e₁, e₂, vars, by rw [hes, List.getElem?_eq_getElem hjlt, heseg], hids⟩
  · rw [he] at hconf
    simp only [errorsIs] at hconf
    rw [his] at hconf
    cases hconf

theorem runsOf_mem {α : Type} {Q : α → List Event → Option GoError → Prop}
    {xs : List α} {segs : List (List Event)} {res : Option GoError}
    (h : RunsOf Q xs segs res) :
    ∀ ys : List α, (∀ x ∈ xs, x ∈ ys) →
      RunsOf (fun x seg r => x ∈ ys ∧ Q x seg r) xs segs res := by
  induction h with
  | done => intro _ _; exact RunsOf.done
  | stop x xs seg e hQ =>
    intro ys hsub
    exact RunsOf.stop x xs seg e ⟨hsub x (List.mem_cons_self _ _), hQ⟩
  | next x xs seg segs res hQ _ ih =>
    intro ys hsub
    exact RunsOf.next x xs seg segs res ⟨hsub x (List.mem_cons_self _ _), hQ⟩
      (ih ys (fun y hy => hsub y (List.mem_cons_of_mem _ hy)))

theorem isGlobal_not_lookup {c : Call} (h : c.isGlobal = true) :
    c.isEnvironmentByName = false ∧ c.isProjectByName = false := by
  cases c <;> simp_all [Call.isGlobal, Call.isEnvironmentByName, Call.isProjectByName]

/-- C10, second-run idempotence: on a configuration whose projects each
declare at most one billing-group name, against a client on which every
`AddProject` and every `AddOrUpdateEnvironment` fails with an error wrapping
`ErrExist` while every `ProjectByName` and every `EnvironmentByName` succeeds
(the other operations answer as they like), `Import` with `keepGoing` returns
nil; the trace holds exactly one `ProjectByName` per project and exactly one
`EnvironmentByName` per environment; the calls for each project are its
`AddProject`, its `ProjectByName` and calls that use the identifier the lookup
yielded, and the calls for each of its environments are its
`AddOrUpdateEnvironment` with that identifier, its `EnvironmentByName` and one
`AddEnvVariable` per variable with the identifier that lookup yielded. -/
theorem C10_second_run_resolves_by_lookup (i : Importer) (config : Config)
    (openshiftID : Nat)
    (hbg : ∀ p ∈ config.Projects, p.BillingGroups.length ≤ 1)
    (hadd : ∀ history inp,
      errorsIs (i.respond history (Call.AddProject inp)).err ErrExist = true)
    (henv : ∀ history inp,
      errorsIs (i.respond history (Call.AddOrUpdateEnvironment inp)).err ErrExist = true)
    (hpbn : ∀ history name, (i.respond history (Call.ProjectByName name)).err = none)
    (hebn : ∀ history name project,
      (i.respond history (Call.EnvironmentByName name project)).err = none) :
    (Import i config true openshiftID).1 = none ∧
    (Import i config true openshiftID).2.trace.countP (fun ev => ev.call.isProjectByName)
      = config.Projects.length ∧
    (Import i config true openshiftID).2.trace.countP (fun ev => ev.call.isEnvironmentByName)
      = (config.Projects.map (fun p => p.Environments.length)).sum ∧
    ∀ (k : Nat) (p : ProjectConfig), config.Projects[k]? = some p →
      ∃ (r₁ r₂ : Response) (rest : List Event),
        (projectSegments (Import i config true openshiftID).2.trace)[k]? = some
          (⟨Call.AddProject (p.withOpenshift openshiftID).AddProjectInput, r₁⟩ ::
            ⟨Call.ProjectByName p.AddProjectInput.Name, r₂⟩ :: rest) ∧
        ∀ n, r₂.out = some n →
          (∀ ev ∈ rest,
            (∀ inp, ev.call = Call.AddEnvVariable inp →
              inp.Type_ = EnvVariableType.ProjectVar → inp.TypeID = n) ∧
            (∀ inp, ev.call = Call.AddOrUpdateEnvironment inp → inp.ProjectID = n)) ∧
          ∀ (j : Nat) (env : EnvironmentConfig), p.Environments[j]? = some env →
            ∃ (e₁ e₂ : Response) (vars : List Event),
              (environmentSegments
                (⟨Call.AddProject (p.withOpenshift openshiftID).AddProjectInput, r₁⟩ ::
                  ⟨Call.ProjectByName p.AddProjectInput.Name, r₂⟩ :: rest))[j]? = some
                (⟨Call.AddOrUpdateEnvironment
                    { env.Environment.AddEnvironmentInput with ProjectID := n }, e₁⟩ ::
                  ⟨Call.EnvironmentByName env.Environment.AddEnvironmentInput.Name n, e₂⟩ ::
                  vars) ∧
              ∀ m, e₂.out = some m →
                vars.map (fun ev => ev.call) = env.Environment.EnvVariables.map
                  (fun kv => Call.AddEnvVariable ⟨kv, EnvVariableType.EnvironmentVar, m⟩) := by
  obtain ⟨globals, segs, htrace, hglobals, _, hsegs, hcases⟩ :=
    Import_runs i config true openshiftID
  rw [hsegs]
  rcases hcases with ⟨e', _, _, he'⟩ | ⟨_, hruns₀⟩
  · rw [noReturn_importGlobals i config St.init] at he'
    cases he'
  · have hruns := runsOf_mem hruns₀ config.Projects (fun x hx => hx)
    have hres : (Import i config true openshiftID).1 = none :=
      runsOf_none_of_no_stop hruns (fun p seg e hrun => by
        have := (projectRun_secondRun hadd henv hpbn hebn (hbg p hrun.1) hrun.2).1
        cases this)
    rw [hres] at hruns
    have hlen : segs.length = config.Projects.length := runsOf_length_of_none hruns rfl
    have hzg₁ := countP_eq_zero_of_forall (fun ev : Event => ev.call.isProjectByName) globals
      (fun ev hev => (isGlobal_not_lookup (hglobals ev hev).1).2)
    have hzg₂ := countP_eq_zero_of_forall (fun ev : Event => ev.call.isEnvironmentByName)
      globals (fun ev hev => (isGlobal_not_lookup (hglobals ev hev).1).1)
    refine ⟨hres, ?_, ?_, ?_⟩
    · rw [htrace, List.countP_append, hzg₁, List.countP_flatten,
        runsOf_sum hruns (List.countP (fun ev : Event => ev.call.isProjectByName))
          (fun _ => 1) rfl
          (fun p seg hrun =>
            (projectRun_secondRun hadd henv hpbn hebn (hbg p hrun.1) hrun.2).2.1)]
      simp
    · rw [htrace, List.countP_append, hzg₂, List.countP_flatten,
        runsOf_sum hruns (List.countP (fun ev : Event => ev.call.isEnvironmentByName))
          (fun p => p.Environments.length) rfl
          (fun p seg hrun =>
            (projectRun_secondRun hadd henv hpbn hebn (hbg p hrun.1) hrun.2).2.2.1)]
      simp
    · intro k p hp
      have hk : k < segs.length := by
        rw [hlen]
        by_contra hge
        rw [List.getElem?_eq_none (by omega)] at hp
        cases hp
      obtain ⟨x, r, hx, hrun, _, _⟩ := runsOf_get hruns k segs[k]
        (List.getElem?_eq_getElem hk)
      have hxp : x = p := Option.some.inj (hx.symm.trans hp)
      subst hxp
      obtain ⟨_, _, _, r₁, r₂, rest, hseg, _, hids⟩ :=
        projectRun_secondRun hadd henv hpbn hebn (hbg x hrun.1) hrun.2
      refine ⟨r₁, r₂, rest, by rw [List.getElem?_eq_getElem hk, hseg], ?_⟩
      rw [← hseg]
      exact hids

/-- C9 on the small configuration, on a second run: the project `app` is
resolved to 7 by its lookup, the environment `main` to 9 by its own. -/
theorem C9_environment_uses_resolved_ids_witness :
    smallConfig.Projects[0]? = some smallProject ∧
    (projectSegments (Import secondRunClient smallConfig true 3).2.trace)[0]? =
      some appSecondRun ∧
    ResolvesTo appSecondRun 7 ∧
    (environmentSegments appSecondRun)[0]? = some mainSecondRun ∧
    ∃ env r rest, smallProject.Environments[0]? = some env ∧
      mainSecondRun = ⟨Call.AddOrUpdateEnvironment
        { env.Environment.AddEnvironmentInput with ProjectID := 7 }, r⟩ :: rest ∧
      (true = true → errorsIs r.err ErrExist = true →
        ∃ r₂ vars,
          rest = ⟨Call.EnvironmentByName env.Environment.AddEnvironmentInput.Name 7, r₂⟩
            :: vars ∧
          (∀ ev ∈ vars, ev.call.isEnvironmentByName = false) ∧
          (∀ m, r₂.err = none → r₂.out = some m →
            vars.map (fun ev => ev.call) = env.Environment.EnvVariables.map
              (fun kv => Call.AddEnvVariable ⟨kv, EnvVariableType.EnvironmentVar, m⟩))) :=
  ⟨by decide, by decide,
    Or.inr ⟨appCreationConflict, ⟨Call.ProjectByName "app", ⟨none, some 7⟩⟩, _, rfl,
      by decide, rfl, rfl, rfl⟩,
    by decide,
    C9_environment_uses_resolved_ids secondRunClient smallConfig true 3 0 smallProject
      appSecondRun 7 0 mainSecondRun (by decide) (by decide)
      (Or.inr ⟨appCreationConflict, ⟨Call.ProjectByName "app", ⟨none, some 7⟩⟩, _, rfl,
        by decide, rfl, rfl, rfl⟩)
      (by decide)⟩

/-- C10 on the small configuration, against the client of a second run. -/
theorem C10_second_run_resolves_by_lookup_witness :
    (∀ p ∈ smallConfig.Projects, p.BillingGroups.length ≤ 1) ∧
    (∀ history inp,
      errorsIs (secondRunClient.respond history (Call.AddProject inp)).err ErrExist = true) ∧
    (∀ history inp, errorsIs (secondRunClient.respond history
      (Call.AddOrUpdateEnvironment inp)).err ErrExist = true) ∧
    (∀ history name, (secondRunClient.respond history (Call.ProjectByName name)).err = none) ∧
    (∀ history name project,
      (secondRunClient.respond history (Call.EnvironmentByName name project)).err = none) ∧
    ((Import secondRunClient smallConfig true 3).1 = none ∧
    (Import secondRunClient smallConfig true 3).2.trace.countP
      (fun ev => ev.call.isProjectByName) = smallConfig.Projects.length ∧
    (Import secondRunClient smallConfig true 3).2.trace.countP
      (fun ev => ev.call.isEnvironmentByName)
      = (smallConfig.Projects.map (fun p => p.Environments.length)).sum ∧
    ∀ (k : Nat) (p : ProjectConfig), smallConfig.Projects[k]? = some p →
      ∃ (r₁ r₂ : Response) (rest : List Event),
        (projectSegments (Import secondRunClient smallConfig true 3).2.trace)[k]? = some
          (⟨Call.AddProject (p.withOpenshift 3).AddProjectInput, r₁⟩ ::
            ⟨Call.ProjectByName p.AddProjectInput.Name, r₂⟩ :: rest) ∧
        ∀ n, r₂.out = some n →
          (∀ ev ∈ rest,
            (∀ inp, ev.call = Call.AddEnvVariable inp →
              inp.Type_ = EnvVariableType.ProjectVar → inp.TypeID = n) ∧
            (∀ inp, ev.call = Call.AddOrUpdateEnvironment inp → inp.ProjectID = n)) ∧
          ∀ (j : Nat) (env : EnvironmentConfig), p.Environments[j]? = some env →
            ∃ (e₁ e₂ : Response) (vars : List Event),
              (environmentSegments
                (⟨Call.AddProject (p.withOpenshift 3).AddProjectInput, r₁⟩ ::
                  ⟨Call.ProjectByName p.AddProjectInput.Name, r₂⟩ :: rest))[j]? = some
                (⟨Call.AddOrUpdateEnvironment
                    { env.Environment.AddEnvironmentInput with ProjectID := n }, e₁⟩ ::
                  ⟨Call.EnvironmentByName env.Environment.AddEnvironmentInput.Name n, e₂⟩ ::
                  vars) ∧
              ∀ m, e₂.out = some m →
                vars.map (fun ev => ev.call) = env.Environment.EnvVariables.map
                  (fun kv => Call.AddEnvVariable ⟨kv, EnvVariableType.EnvironmentVar, m⟩)) :=
  ⟨by decide,
    fun _ _ => (by decide : errorsIs (some conflictError) ErrExist = true),
    fun _ _ => (by decide : errorsIs (some conflictError) ErrExist = true),
    fun _ _ => rfl, fun _ _ _ => rfl,
    C10_second_run_resolves_by_lookup secondRunClient smallConfig 3 (by decide)
      (fun _ _ => (by decide : errorsIs (some conflictError) ErrExist = true))
      (fun _ _ => (by decide : errorsIs (some conflictError) ErrExist = true))
      (fun _ _ => rfl) (fun _ _ _ => rfl)⟩

/-! ## C15: what `wrapErr` wraps -/

/-- An error is found in itself by `errors.Is` exactly when its dynamic type is
comparable. -/
theorem Is_self (e : GoError) : e.Is e = e.comparable := by
  cases e <;> simp [GoError.Is, GoError.comparable]

/-- The error that `wrapErr` returns for a duplicate entry does not wrap the
response error: `errors.Is` does not find the response error in it. -/
theorem wrapErr_not_Is_original (e : GoError) (h : duplicate e.Error = true) :
    ∃ w, wrapErr (some e) = some w ∧ w.Unwrap = some lagoonErrExist ∧ w.Is e = false := by
  refine ⟨_, wrapErr_of_duplicate e h, rfl, ?_⟩
  have hne₁ : GoError.wrapError
      ("couldn't create object: " ++ lagoonErrExist.Error ++ ": " ++ e.Error)
      lagoonErrExist ≠ e := by
    intro heq
    have hlen := congrArg (fun g => g.Error.length) heq
    simp [GoError.Error] at hlen
    exact absurd hlen.2 (by decide)
  have hne₂ : lagoonErrExist ≠ e := by
    intro heq
    rw [← heq] at h
    exact absurd h (by decide)
  have h₂ : lagoonErrExist.Is e = false := by
    show (e.comparable && decide (lagoonErrExist = e)) = false
    simp [hne₂]
  show ((e.comparable && decide (GoError.wrapError
      ("couldn't create object: " ++ lagoonErrExist.Error ++ ": " ++ e.Error)
      lagoonErrExist = e)) || lagoonErrExist.Is e) = false
  rw [h₂]
  simp [hne₁]

/-- C15, `wrapErr` at the response error
`errors.New("graphql: Duplicate entry 'demo'")`: the comment of
mutation.go:14-15 says that the response error is wrapped, and the claim that
`errors.Is` finds it in what `wrapErr` returns; the error that `wrapErr`
returns unwraps to `ErrExist` and no further, `errors.Is` does not find the
response error in it, which is only printed into its message. -/
theorem C15_wrapErr_at_duplicate_entry :
    duplicate (GoError.errorString 2 "graphql: Duplicate entry 'demo'").Error = true ∧
    wrapErr (some (GoError.errorString 2 "graphql: Duplicate entry 'demo'")) =
      some (GoError.wrapError
        "couldn't create object: object already exists: graphql: Duplicate entry 'demo'"
        lagoonErrExist) ∧
    errorsIs (wrapErr (some (GoError.errorString 2 "graphql: Duplicate entry 'demo'")))
      (GoError.errorString 2 "graphql: Duplicate entry 'demo'") = false ∧
    errorsIs (wrapErr (some (GoError.errorString 2 "graphql: Duplicate entry 'demo'")))
      lagoonErrExist = true := by
  decide

/-! ## C18: the target platform of every project -/

/-- C18: the input of every `AddProject` call that `Import` issues is the
declared input of a project of the configuration with its `Openshift` field
replaced by the `openshiftID` argument, whatever the configuration declared
there; the other fields are passed as declared.  The calls come in the order of
the projects: the `k`-th project processed is the `k`-th declared. -/
theorem C18_openshift_is_the_argument (i : Importer) (config : Config) (keepGoing : Bool)
    (openshiftID : Nat) :
    (∀ ev ∈ (Import i config keepGoing openshiftID).2.trace, ∀ inp,
      ev.call = Call.AddProject inp →
        inp.Openshift = openshiftID ∧
        ∃ p ∈ config.Projects,
          inp = { p.AddProjectInput with Openshift := openshiftID }) ∧
    (∀ (k : Nat) (seg : List Event),
      (projectSegments (Import i config keepGoing openshiftID).2.trace)[k]? = some seg →
      ∃ (p : ProjectConfig) (r : Response), config.Projects[k]? = some p ∧
        seg.head? = some
          ⟨Call.AddProject { p.AddProjectInput with Openshift := openshiftID }, r⟩) := by
  obtain ⟨globals, segs, htrace, hglobals, _, hsegs, hcases⟩ :=
    Import_runs i config keepGoing openshiftID
  rw [hsegs, htrace]
  have hg : ∀ ev ∈ globals, ∀ inp, ev.call ≠ Call.AddProject inp := by
    intro ev hev inp hc
    have := (hglobals ev hev).1
    rw [hc] at this
    cases this
  rcases hcases with ⟨_, _, hnil, _⟩ | ⟨_, hruns⟩
  · subst hnil
    refine ⟨?_, ?_⟩
    · intro ev hev inp hc
      simp only [List.flatten_nil, List.append_nil] at hev
      exact absurd hc (hg ev hev inp)
    · intro k seg hk
      simp at hk
  · refine ⟨?_, ?_⟩
    · intro ev hev inp hc
      rcases List.mem_append.1 hev with hev | hev
      · exact absurd hc (hg ev hev inp)
      · obtain ⟨seg, hseg, hev'⟩ := List.mem_flatten.1 hev
        obtain ⟨p, r, hp, hrun⟩ := runsOf_forall hruns seg hseg
        obtain ⟨head, rest, hseg', _, hrest⟩ := projectRun_isSegment hrun
        obtain ⟨r₁, rest', hseg'', _⟩ := hrun
        rw [hseg''] at hseg'
        simp only [List.cons.injEq] at hseg'
        obtain ⟨hhead, hrest'⟩ := hseg'
        subst hrest'
        rw [hseg''] at hev'
        rcases List.mem_cons.1 hev' with rfl | hev'
        · simp only [Call.AddProject.injEq] at hc
          subst hc
          exact ⟨rfl, p, hp, rfl⟩
        · have hno : ev.call.isAddProject = false := hrest ev hev'
          rw [hc] at hno
          cases hno
    · intro k seg hk
      obtain ⟨p, _, hp, hrun, _, _⟩ := runsOf_get hruns k seg hk
      obtain ⟨r₁, rest, rfl, _⟩ := hrun
      exact ⟨p, r₁, hp, rfl⟩

/-! ## C13: the run of the spec's example -/

theorem issuesAt_andThen {c₁ c₂ : List Call} {b₁ b₂ : Block} {s : St}
    (h₁ : IssuesAt c₁ b₁ s) (h₂ : IssuesAt c₂ b₂ (b₁ s).2) :
    IssuesAt (c₁ ++ c₂) (andThen b₁ b₂) s := by
  have heq : andThen b₁ b₂ s = b₂ (b₁ s).2 := andThen_none (Prod.ext h₁.1 rfl)
  refine ⟨by rw [heq]; exact h₂.1, by rw [heq, h₂.2.1, h₁.2.1], ?_⟩
  rw [heq, h₂.2.2, h₁.2.2, List.append_assoc]

theorem issuesAt_nil {b : Block} {s : St} (h : b s = (none, s)) : IssuesAt [] b s := by
  refine ⟨by rw [h], by rw [h], ?_⟩
  rw [h, List.append_nil]

/-- A loop of `attempt`s on a client that never fails: nothing is returned,
`newProj` is left as it was, and one call per element is issued. -/
theorem attempts_success {α : Type} (i : Importer) (hi : ∀ h c, (i.respond h c).err = none)
    (keepGoing : Bool) (c : α → Nat → Call) (ctx : α → String) :
    ∀ (xs : List α) (s : St),
      IssuesAt (xs.map (fun x => c x s.newProj))
        (forEach xs (fun x s => attempt i keepGoing (c x s.newProj) (ctx x) s)) s
  | [], s => issuesAt_nil (forEach_nil _ s)
  | x :: xs, s => by
    have hres : (attempt i keepGoing (c x s.newProj) (ctx x) s).1 = none := by
      rw [attempt_result, hi]
    have h₁ : IssuesAt [c x s.newProj]
        (fun s => attempt i keepGoing (c x s.newProj) (ctx x) s) s :=
      ⟨hres, attempt_newProj _ _ _ _ _, by
        show (attempt i keepGoing (c x s.newProj) (ctx x) s).2.trace.map _ = _
        rw [attempt_trace]; simp⟩
    have h₂ := attempts_success i hi keepGoing c ctx xs
      (attempt i keepGoing (c x s.newProj) (ctx x) s).2
    rw [attempt_newProj] at h₂
    rw [forEach_cons, List.map_cons]
    exact issuesAt_andThen h₁ h₂

/-- One environment on a client that never fails and yields `m` for the
environment: its creation, carrying `newProj.ID`, then its variables, carrying `m`. -/
theorem issuesAt_importEnvironment (i : Importer) (m : Nat)
    (hi : ∀ h c, (i.respond h c).err = none)
    (hm : ∀ h inp, (i.respond h (Call.AddOrUpdateEnvironment inp)).out = some m)
    (keepGoing : Bool) (p : ProjectConfig) (env : EnvironmentConfig) (s : St) :
    IssuesAt
      (Call.AddOrUpdateEnvironment
          { env.Environment.AddEnvironmentInput with ProjectID := s.newProj } ::
        env.Environment.EnvVariables.map (fun kv =>
          Call.AddEnvVariable ⟨kv, EnvVariableType.EnvironmentVar, m⟩))
      (importEnvironment i keepGoing p env) s := by
  obtain ⟨c, hc⟩ : ∃ c, c = Call.AddOrUpdateEnvironment
      { env.Environment.AddEnvironmentInput with ProjectID := s.newProj } := ⟨_, rfl⟩
  obtain ⟨s₁, hs₁⟩ : ∃ s₁ : St, s₁ = { s with trace := s.trace ++ [⟨c, i.respond s.trace c⟩] } :=
    ⟨_, rfl⟩
  have hv := attempts_success i hi keepGoing
    (fun (kv : EnvKeyValue) (_ : Nat) =>
      Call.AddEnvVariable ⟨kv, EnvVariableType.EnvironmentVar, m⟩)
    (fun _ => "couldn't add Environment EnvVariable") env.Environment.EnvVariables s₁
  have hout : (i.respond s.trace c).out = some m := by rw [hc]; exact hm _ _
  have heq : importEnvironment i keepGoing p env s =
      forEach env.Environment.EnvVariables (fun kv s => attempt i keepGoing
        (Call.AddEnvVariable ⟨kv, EnvVariableType.EnvironmentVar, m⟩)
        "couldn't add Environment EnvVariable" s) s₁ := by
    simp only [importEnvironment, St.invoke, ← hc, hi, hout, Option.getD_some, ← hs₁,
      addEnvironmentEnvVars]
  rw [← hc]
  obtain ⟨h₁, h₂, h₃⟩ := hv
  refine ⟨by rw [heq]; exact h₁, by rw [heq, h₂, hs₁], ?_⟩
  rw [heq, h₃, hs₁]
  simp

/-- The run of `Import` on the example's configuration against a client that
never fails, `AddProject` yielding `n` and `AddOrUpdateEnvironment` yielding `m`. -/
theorem exampleConfig_run (i : Importer) (n m openshiftID : Nat) (v₁ v₂ : EnvKeyValue)
    (evs : List EnvKeyValue) (keepGoing : Bool)
    (hi : ∀ h c, (i.respond h c).err = none)
    (hn : ∀ h inp, (i.respond h (Call.AddProject inp)).out = some n)
    (hm : ∀ h inp, (i.respond h (Call.AddOrUpdateEnvironment inp)).out = some m) :
    (Import i (exampleConfig v₁ v₂ evs) keepGoing openshiftID).1 = none ∧
    (Import i (exampleConfig v₁ v₂ evs) keepGoing openshiftID).2.trace.map (fun ev => ev.call) =
      [Call.AddProject ⟨"demo", "git@example.com:demo.git", openshiftID⟩,
       Call.AddEnvVariable ⟨v₁, EnvVariableType.ProjectVar, n⟩,
       Call.AddEnvVariable ⟨v₂, EnvVariableType.ProjectVar, n⟩,
       Call.AddOrUpdateEnvironment ⟨"main", n, "main"⟩] ++
      evs.map (fun kv => Call.AddEnvVariable ⟨kv, EnvVariableType.EnvironmentVar, m⟩) := by
  obtain ⟨p, hp⟩ : ∃ p : ProjectConfig, p =
      { AddProjectInput := ⟨"demo", "git@example.com:demo.git", openshiftID⟩
        EnvVariables := [v₁, v₂]
        Environments := [⟨⟨⟨"main", 0, "main"⟩, evs⟩⟩]
        Groups := []
        BillingGroups := []
        Users := []
        Notifications := none } := ⟨_, rfl⟩
  obtain ⟨c, hc⟩ : ∃ c, c = Call.AddProject ⟨"demo", "git@example.com:demo.git", openshiftID⟩ :=
    ⟨_, rfl⟩
  obtain ⟨s₁, hs₁⟩ : ∃ s₁ : St, s₁ = ⟨[⟨c, i.respond [] c⟩], [], n⟩ := ⟨_, rfl⟩
  have hout : (i.respond [] c).out = some n := by rw [hc]; exact hn _ _
  have hrun : Import i (exampleConfig v₁ v₂ evs) keepGoing openshiftID =
      importProjectSteps i keepGoing p s₁ := by
    rw [Import_eq]
    have hg : importGlobals i keepGoing (exampleConfig v₁ v₂ evs) St.init = (none, St.init) := by
      simp [importGlobals, exampleConfig, seq, forEach, andThen, skip]
    rw [andThen_none hg]
    show andThen (importProject i keepGoing openshiftID _) skip St.init = _
    rw [andThen_skip]
    have hi₀ : (i.respond [] c).err = none := hi _ _
    simp only [importProject, St.invokeProj, ProjectConfig.withOpenshift, St.init, ← hc, hi₀,
      hout, Option.getD_some, List.nil_append]
    rw [hp, hs₁]
  rw [hrun, importProjectSteps_eq]
  have h₁ : IssuesAt [Call.AddEnvVariable ⟨v₁, EnvVariableType.ProjectVar, n⟩,
      Call.AddEnvVariable ⟨v₂, EnvVariableType.ProjectVar, n⟩]
      (addProjectEnvVars i keepGoing p) s₁ := by
    have := attempts_success i hi keepGoing
      (fun (kv : EnvKeyValue) (k : Nat) => Call.AddEnvVariable ⟨kv, EnvVariableType.ProjectVar, k⟩)
      (fun _ => "couldn't add Project EnvVariable") [v₁, v₂] s₁
    rw [hs₁] at this ⊢
    rw [hp]
    exact this
  have h₂ : IssuesAt
      (Call.AddOrUpdateEnvironment ⟨"main", n, "main"⟩ ::
        evs.map (fun kv => Call.AddEnvVariable ⟨kv, EnvVariableType.EnvironmentVar, m⟩))
      (forEach p.Environments (importEnvironment i keepGoing p))
      (addProjectEnvVars i keepGoing p s₁).2 := by
    have := issuesAt_importEnvironment i m hi hm keepGoing p ⟨⟨⟨"main", 0, "main"⟩, evs⟩⟩
      (addProjectEnvVars i keepGoing p s₁).2
    rw [h₁.2.1] at this
    have hskip := issuesAt_andThen this
      (issuesAt_nil (skip_apply _) : IssuesAt [] skip _)
    rw [List.append_nil] at hskip
    subst hp hs₁
    exact hskip
  have h₃ : IssuesAt [] (addProjectAssociations i keepGoing p)
      (forEach p.Environments (importEnvironment i keepGoing p)
        (addProjectEnvVars i keepGoing p s₁).2).2 := by
    apply issuesAt_nil
    rw [hp]
    simp [addProjectAssociations, seq, forEach, andThen, skip]
  have h := issuesAt_andThen h₁ (issuesAt_andThen h₂ h₃)
  refine ⟨h.1, ?_⟩
  rw [h.2.2, hs₁, hc]
  simp

theorem countP_isEnvVariableOf_map (t : EnvVariableType) (m : Nat) (evs : List EnvKeyValue) :
    (evs.map (fun kv => Call.AddEnvVariable ⟨kv, t, m⟩)).countP (Call.isEnvVariableOf t)
      = evs.length := by
  induction evs with
  | nil => rfl
  | cons kv evs ih => simp [List.countP_cons, ih, Call.isEnvVariableOf]

theorem countP_eq_zero_map {α : Type} (f : α → Call) (q : Call → Bool)
    (h : ∀ x, q (f x) = false) (xs : List α) : (xs.map f).countP q = 0 := by
  induction xs with
  | nil => rfl
  | cons x xs ih => simp [List.countP_cons, ih, h]

/-- C13, as stated, fails: on the configuration of one project `demo` with two
project-level variables and one environment `main`, nothing else declared, the
environment declares no variable, and the run against a client that never
fails (`AddProject` yields 7, `AddOrUpdateEnvironment` yields 9) issues four
calls, none of them an environment-level `AddEnvVariable`, not one. -/
theorem C13_counterexample :
    (Import succeedingClient
      (exampleConfig ⟨"build", "A", "1"⟩ ⟨"runtime", "B", "2"⟩ []) false 3).1 = none ∧
    (Import succeedingClient
      (exampleConfig ⟨"build", "A", "1"⟩ ⟨"runtime", "B", "2"⟩ []) false 3).2.trace.map
        (fun ev => ev.call) =
      [Call.AddProject ⟨"demo", "git@example.com:demo.git", 3⟩,
       Call.AddEnvVariable ⟨⟨"build", "A", "1"⟩, EnvVariableType.ProjectVar, 7⟩,
       Call.AddEnvVariable ⟨⟨"runtime", "B", "2"⟩, EnvVariableType.ProjectVar, 7⟩,
       Call.AddOrUpdateEnvironment ⟨"main", 7, "main"⟩] ∧
    ((Import succeedingClient
      (exampleConfig ⟨"build", "A", "1"⟩ ⟨"runtime", "B", "2"⟩ []) false 3).2.trace.map
        (fun ev => ev.call)).countP (Call.isEnvVariableOf EnvVariableType.EnvironmentVar) = 0 := by
  decide

/-- C13, amended: on the configuration of one project `demo` with the two
project-level variables `v₁`, `v₂` and one environment `main` that declares the
variables `evs`, nothing else declared, run with `keepGoing = false` against a
client on which every operation succeeds, `AddProject` yielding `n` and
`AddOrUpdateEnvironment` yielding `m`, `Import` returns nil and issues exactly:
the `AddProject` call, the two `AddEnvVariable` calls of type `ProjectVar` with
`TypeID = n`, the `AddOrUpdateEnvironment` call with `ProjectID = n`, and one
`AddEnvVariable` call of type `EnvironmentVar` with `TypeID = m` per variable
of the environment, in this order: as many as the environment declares, one
when it declares one, none when it declares none. -/
theorem C13_example_run (i : Importer) (n m openshiftID : Nat) (v₁ v₂ : EnvKeyValue)
    (evs : List EnvKeyValue)
    (hi : ∀ h c, (i.respond h c).err = none)
    (hn : ∀ h inp, (i.respond h (Call.AddProject inp)).out = some n)
    (hm : ∀ h inp, (i.respond h (Call.AddOrUpdateEnvironment inp)).out = some m) :
    (Import i (exampleConfig v₁ v₂ evs) false openshiftID).1 = none ∧
    (Import i (exampleConfig v₁ v₂ evs) false openshiftID).2.trace.map (fun ev => ev.call) =
      [Call.AddProject ⟨"demo", "git@example.com:demo.git", openshiftID⟩,
       Call.AddEnvVariable ⟨v₁, EnvVariableType.ProjectVar, n⟩,
       Call.AddEnvVariable ⟨v₂, EnvVariableType.ProjectVar, n⟩,
       Call.AddOrUpdateEnvironment ⟨"main", n, "main"⟩] ++
      evs.map (fun kv => Call.AddEnvVariable ⟨kv, EnvVariableType.EnvironmentVar, m⟩) ∧
    ((Import i (exampleConfig v₁ v₂ evs) false openshiftID).2.trace.map
      (fun ev => ev.call)).countP Call.isAddProject = 1 ∧
    ((Import i (exampleConfig v₁ v₂ evs) false openshiftID).2.trace.map
      (fun ev => ev.call)).countP Call.isAddOrUpdateEnvironment = 1 ∧
    ((Import i (exampleConfig v₁ v₂ evs) false openshiftID).2.trace.map
      (fun ev => ev.call)).countP (Call.isEnvVariableOf EnvVariableType.ProjectVar) = 2 ∧
    ((Import i (exampleConfig v₁ v₂ evs) false openshiftID).2.trace.map
      (fun ev => ev.call)).countP (Call.isEnvVariableOf EnvVariableType.EnvironmentVar)
        = evs.length := by
  obtain ⟨h₁, h₂⟩ := exampleConfig_run i n m openshiftID v₁ v₂ evs false hi hn hm
  refine ⟨h₁, h₂, ?_, ?_, ?_, ?_⟩
  · rw [h₂, List.countP_append, countP_eq_zero_map _ _ (fun _ => rfl)]
    rfl
  · rw [h₂, List.countP_append, countP_eq_zero_map _ _ (fun _ => rfl)]
    rfl
  · rw [h₂, List.countP_append, countP_eq_zero_map _ _ (fun _ => rfl)]
    rfl
  · rw [h₂, List.countP_append, countP_isEnvVariableOf_map]
    show 0 + evs.length = evs.length
    rw [Nat.zero_add]

/-- C13, amended, on the example whose environment declares one variable. -/
theorem C13_example_run_witness :
    (∀ h c, (succeedingClient.respond h c).err = none) ∧
    (∀ h inp, (succeedingClient.respond h (Call.AddProject inp)).out = some 7) ∧
    (∀ h inp, (succeedingClient.respond h (Call.AddOrUpdateEnvironment inp)).out = some 9) ∧
    (Import succeedingClient
      (exampleConfig ⟨"build", "A", "1"⟩ ⟨"runtime", "B", "2"⟩ [⟨"runtime", "C", "3"⟩])
        false 3).1 = none ∧
    (Import succeedingClient
      (exampleConfig ⟨"build", "A", "1"⟩ ⟨"runtime", "B", "2"⟩ [⟨"runtime", "C", "3"⟩])
        false 3).2.trace.map (fun ev => ev.call) =
      [Call.AddProject ⟨"demo", "git@example.com:demo.git", 3⟩,
       Call.AddEnvVariable ⟨⟨"build", "A", "1"⟩, EnvVariableType.ProjectVar, 7⟩,
       Call.AddEnvVariable ⟨⟨"runtime", "B", "2"⟩, EnvVariableType.ProjectVar, 7⟩,
       Call.AddOrUpdateEnvironment ⟨"main", 7, "main"⟩,
       Call.AddEnvVariable ⟨⟨"runtime", "C", "3"⟩, EnvVariableType.EnvironmentVar, 9⟩] :=
  have h := C13_example_run succeedingClient 7 9 3 ⟨"build", "A", "1"⟩ ⟨"runtime", "B", "2"⟩
    [⟨"runtime", "C", "3"⟩] (fun _ c => by cases c <;> rfl) (fun _ _ => rfl) (fun _ _ => rfl)
  ⟨fun _ c => by cases c <;> rfl, fun _ _ => rfl, fun _ _ => rfl, h.1, h.2.1⟩

/-! ## C12: which identifiers the dependent calls carry -/

/-- A project whose identifier is resolved to `n`: the calls that resolve it,
then the steps run with `newProj.ID = n`. -/
theorem projectRun_resolved_lead {i : Importer} {keepGoing : Bool} {openshiftID : Nat}
    {p : ProjectConfig} {seg : List Event} {res : Option GoError} {n : Nat}
    (h : ProjectRun i keepGoing openshiftID p seg res) (hn : ResolvesTo seg n) :
    ∃ lead evs, seg = lead ++ evs ∧
      (∀ ev ∈ lead, ev.call.isAddProject = true ∨ ev.call.isProjectByName = true) ∧
      StepsShape i keepGoing (p.withOpenshift openshiftID) n evs res := by
  obtain ⟨r₁, rest, rfl, _, hcases⟩ := h
  rcases hn with ⟨ev, rest', heq, hok, hout⟩ | ⟨ev, ev₂, rest', heq, hconf, _, hok, hout⟩
  · simp only [List.cons.injEq] at heq
    obtain ⟨rfl, rfl⟩ := heq
    simp only at hok hout
    rcases hcases with ⟨_, n', hn', hs⟩ | ⟨_, he, _⟩ | ⟨_, _, _, he, _⟩ | ⟨_, he, _⟩
    · have : n' = n := hn' n hout
      subst this
      refine ⟨[_], rest, rfl, ?_, stepsRun_shape hs⟩
      intro ev hev
      simp only [List.mem_singleton] at hev
      subst hev
      exact Or.inl rfl
    · rw [hok] at he; cases he
    · rw [hok] at he; cases he
    · rw [hok] at he; cases he
  · simp only [List.cons.injEq] at heq
    obtain ⟨rfl, rfl⟩ := heq
    have hconf' : errorsIs r₁.err ErrExist = true := hconf
    rcases hcases with ⟨he, _⟩ | ⟨_, _, _, _, hrest, _⟩ |
      ⟨_, r₂, rest₂, _, _, _, hrest, _, hc⟩ | ⟨_, _, _, hrest, _⟩
    · rw [he] at hconf'; cases hconf'
    · cases hrest
    · simp only [List.cons.injEq] at hrest
      obtain ⟨hev₂, hrest₂⟩ := hrest
      subst hev₂
      subst hrest₂
      simp only at hok hout
      rcases hc with ⟨_, he₂, _⟩ | ⟨_, n', hn', hs⟩
      · rw [hok] at he₂; cases he₂
      · have : n' = n := hn' n hout
        subst this
        refine ⟨[_, _], _, rfl, ?_, stepsRun_shape hs⟩
        intro ev hev
        simp only [List.mem_cons, List.mem_singleton, List.not_mem_nil, or_false] at hev
        rcases hev with rfl | rfl
        · exact Or.inl rfl
        · exact Or.inr rfl
    · cases hrest

/-- The calls that resolve a project are no call of the steps that follow. -/
theorem resolving_not_step {c : Call}
    (h : c.isAddProject = true ∨ c.isProjectByName = true) :
    c.isAssociation = false ∧ c.isAddOrUpdateEnvironment = false ∧
      ∀ inp, c ≠ Call.AddEnvVariable inp := by
  cases c <;> simp_all [Call.isAddProject, Call.isProjectByName, Call.isAssociation,
    Call.isAddOrUpdateEnvironment]

/-- The parts of the segment of a project whose identifier is resolved to `n`:
the calls that resolve it, the calls for its variables, one segment per
environment processed, the calls that associate it. -/
theorem projectRun_parts {i : Importer} {keepGoing : Bool} {openshiftID : Nat}
    {p : ProjectConfig} {seg : List Event} {res : Option GoError} {n : Nat}
    (h : ProjectRun i keepGoing openshiftID p seg res) (hn : ResolvesTo seg n) :
    ∃ lead pv esegs tail,
      seg = lead ++ pv ++ esegs.flatten ++ tail ∧
      (∀ ev ∈ lead, ev.call.isAddProject = true ∨ ev.call.isProjectByName = true) ∧
      (∀ ev ∈ pv, ∃ kv ∈ p.EnvVariables,
        ev.call = Call.AddEnvVariable ⟨kv, EnvVariableType.ProjectVar, n⟩) ∧
      environmentSegments seg = esegs ∧
      (∀ eseg ∈ esegs, ∃ env r, env ∈ p.Environments ∧ EnvRun i keepGoing n env eseg r) ∧
      (∀ ev ∈ tail, ev.call.isAssociation = true) := by
  obtain ⟨lead, evs, rfl, hlead, hshape⟩ := projectRun_resolved_lead h hn
  obtain ⟨pv, hpv, _, hcases⟩ := hshape
  have hpv' : ∀ ev ∈ pv, ∃ kv ∈ p.EnvVariables,
      ev.call = Call.AddEnvVariable ⟨kv, EnvVariableType.ProjectVar, n⟩ :=
    fun ev hev => (hpv ev hev).1
  have hlp : ∀ ev ∈ lead ++ pv, ev.call.isAssociation = false ∧
      ev.call.isAddOrUpdateEnvironment = false := by
    intro ev hev
    rcases List.mem_append.1 hev with hev | hev
    · exact ⟨(resolving_not_step (hlead ev hev)).1, (resolving_not_step (hlead ev hev)).2.1⟩
    · obtain ⟨kv, _, hc⟩ := hpv' ev hev
      rw [hc]; exact ⟨rfl, rfl⟩
  rcases hcases with ⟨e, _, _, hevs⟩ | ⟨esegs, tail, res₂, hevs, hruns, _, htail, _, _⟩
  · subst hevs
    refine ⟨lead, evs, [], [], by simp, hlead, hpv', ?_, by simp, by simp⟩
    have := @environmentSegments_eq i keepGoing n [] none (lead ++ evs) [] [] [] rfl hlp
      RunsOf.done (by simp)
    simpa using this
  · subst hevs
    refine ⟨lead, pv, esegs, tail, by simp [List.append_assoc], hlead, hpv', ?_, ?_,
      fun ev hev => (htail ev hev).1⟩
    · have := environmentSegments_eq (lead ++ pv) esegs.flatten tail esegs rfl hlp hruns
        (fun ev hev => (htail ev hev).1)
      have hassoc : lead ++ (pv ++ esegs.flatten ++ tail) =
          lead ++ pv ++ esegs.flatten ++ tail := by simp [List.append_assoc]
      rw [hassoc]
      exact this
    · intro eseg heseg
      obtain ⟨env, r, henv, hrun⟩ := runsOf_forall hruns eseg heseg
      exact ⟨env, r, henv, hrun⟩
/-- The identifier that the variables of an environment carry: the one written
by the environment's own deciding call when it wrote one, the zero value of
the fresh record `newEnv` when no call for the environment wrote one. -/
theorem envRun_written {i : Importer} {keepGoing : Bool} {n : Nat} {env : EnvironmentConfig}
    {eseg : List Event} {res : Option GoError} (h : EnvRun i keepGoing n env eseg res) :
    (∀ m, EnvResolvesTo eseg m → ∀ ev ∈ eseg, ∀ inp, ev.call = Call.AddEnvVariable inp →
      inp.TypeID = m) ∧
    ((∀ ev ∈ eseg, ev.resp.out = none) → ∀ ev ∈ eseg, ∀ inp,
      ev.call = Call.AddEnvVariable inp → inp.TypeID = 0) := by
  obtain ⟨r₁, rest, rfl, _, hcases⟩ := h
  have hvars : ∀ m evs, VarsRun i keepGoing env m evs res → ∀ ev ∈ evs, ∀ inp,
      ev.call = Call.AddEnvVariable inp → inp.TypeID = m := by
    intro m evs hv ev hev inp hinp
    obtain ⟨⟨kv, _, hc⟩, _⟩ := varsRun_events hv ev hev
    rw [hc] at hinp
    cases hinp
    rfl
  -- the identifier with which the variables run, whatever the case
  have hkey : ∀ ev ∈ rest, ∀ inp, ev.call = Call.AddEnvVariable inp →
      (r₁.err = none ∧ inp.TypeID = r₁.out.getD 0) ∨
      (∃ r₂ rest₂, rest = ⟨Call.EnvironmentByName env.Environment.AddEnvironmentInput.Name n,
          r₂⟩ :: rest₂ ∧ r₁.err ≠ none ∧ inp.TypeID = r₂.out.getD (r₁.out.getD 0)) := by
    intro ev hev inp hinp
    rcases hcases with ⟨hok, hv⟩ | ⟨_, _, _, _, hrest, _⟩ |
      ⟨err, r₂, rest₂, herr, _, _, hrest, _, hc⟩ | ⟨_, _, _, hrest, _⟩
    · exact Or.inl ⟨hok, hvars _ _ hv ev hev inp hinp⟩
    · rw [hrest] at hev; exact absurd hev (List.not_mem_nil _)
    · right
      refine ⟨r₂, rest₂, hrest, by rw [herr]; simp, ?_⟩
      rw [hrest] at hev
      rcases List.mem_cons.1 hev with rfl | hev
      · cases hinp
      · rcases hc with ⟨_, _, hr₂, _⟩ | ⟨_, hv⟩
        · rw [hr₂] at hev; exact absurd hev (List.not_mem_nil _)
        · exact hvars _ _ hv ev hev inp hinp
    · rw [hrest] at hev; exact absurd hev (List.not_mem_nil _)
  refine ⟨?_, ?_⟩
  · intro m hm ev hev inp hinp
    rcases List.mem_cons.1 hev with rfl | hev
    · cases hinp
    · rcases hkey ev hev inp hinp with ⟨hok, hid⟩ | ⟨r₂, rest₂, hrest, hfail, hid⟩
      · rcases hm with ⟨ev₁, rest', heq, _, hout⟩ | ⟨ev₁, ev₂, rest', heq, hconf, _, _, _⟩
        · simp only [List.cons.injEq] at heq
          obtain ⟨rfl, _⟩ := heq
          simp only at hout
          rw [hid, hout]
          rfl
        · simp only [List.cons.injEq] at heq
          obtain ⟨rfl, _⟩ := heq
          have hconf' : errorsIs r₁.err ErrExist = true := hconf
          rw [hok] at hconf'
          cases hconf'
      · rcases hm with ⟨ev₁, rest', heq, hok, _⟩ | ⟨ev₁, ev₂, rest', heq, _, _, _, hout⟩
        · simp only [List.cons.injEq] at heq
          obtain ⟨rfl, _⟩ := heq
          exact absurd hok hfail
        · rw [hrest] at heq
          simp only [List.cons.injEq] at heq
          obtain ⟨_, rfl, _⟩ := heq
          simp only at hout
          rw [hid, hout]
          rfl
  · intro hnone ev hev inp hinp
    have h₁ : r₁.out = none := hnone _ (List.mem_cons_self _ _)
    rcases List.mem_cons.1 hev with rfl | hev
    · cases hinp
    · rcases hkey ev hev inp hinp with ⟨_, hid⟩ | ⟨r₂, rest₂, hrest, _, hid⟩
      · rw [hid, h₁]
        rfl
      · have h₂ : r₂.out = none :=
          hnone ⟨_, r₂⟩ (List.mem_cons_of_mem _ (by rw [hrest]; exact List.mem_cons_self _ _))
        rw [hid, h₂, h₁]
        rfl

/-- C12, as stated, fails: an identifier used by a dependent call can be a
default value or one carried over.  Against a client on which every operation
succeeds and writes nothing, the variable and the environment of the project
`app` carry the zero value of `newProj.ID`, and the variable of the environment
the zero value of `newEnv.ID`.  Against a client on which only the creation of
`base` writes an identifier, 7, the project `app`, processed next, uses 7 too:
`newProj` is declared before the loop over the projects (import.go:145). -/
theorem C12_counterexample :
    (Import silentClient smallConfig false 3).2.trace =
      [⟨Call.AddProject ⟨"app", "git@example.com:app.git", 3⟩, ⟨none, none⟩⟩,
       ⟨Call.AddEnvVariable ⟨⟨"build", "A", "1"⟩, EnvVariableType.ProjectVar, 0⟩, ⟨none, none⟩⟩,
       ⟨Call.AddOrUpdateEnvironment ⟨"main", 0, "main"⟩, ⟨none, none⟩⟩,
       ⟨Call.AddEnvVariable ⟨⟨"runtime", "C", "3"⟩, EnvVariableType.EnvironmentVar, 0⟩,
         ⟨none, none⟩⟩] ∧
    (Import baseOnlyClient baseAndAppConfig false 3).2.trace =
      [⟨Call.AddProject ⟨"base", "git@example.com:base.git", 3⟩, ⟨none, some 7⟩⟩,
       ⟨Call.AddProject ⟨"app", "git@example.com:app.git", 3⟩, ⟨none, none⟩⟩,
       ⟨Call.AddEnvVariable ⟨⟨"build", "A", "1"⟩, EnvVariableType.ProjectVar, 7⟩, ⟨none, none⟩⟩,
       ⟨Call.AddOrUpdateEnvironment ⟨"main", 7, "main"⟩, ⟨none, none⟩⟩,
       ⟨Call.AddEnvVariable ⟨⟨"runtime", "C", "3"⟩, EnvVariableType.EnvironmentVar, 0⟩,
         ⟨none, none⟩⟩] := by
  decide

/-- C12, amended: for every project whose identifier is resolved to `n` (its
own successful `AddProject` call or, after a conflict, its own successful
`ProjectByName` call wrote `n` into the output record), every project-level
`AddEnvVariable` call made for it carries `TypeID = n` and every
`AddOrUpdateEnvironment` call made for it carries `ProjectID = n`.  Every
environment-level `AddEnvVariable` call made for it belongs to the calls of one
of its environments, and within the calls of an environment it carries the
identifier `m` that the environment's own successful `AddOrUpdateEnvironment`
call or, after a conflict, its own successful `EnvironmentByName` call wrote;
when no call for the environment wrote an identifier, it carries the zero
value of the fresh record `newEnv`.  (What the calls carry when the project's
own deciding call wrote no identifier is not stated.) -/
theorem C12_ids_are_the_written_ones (i : Importer) (config : Config) (keepGoing : Bool)
    (openshiftID : Nat) (k : Nat) (seg : List Event) (n : Nat)
    (hseg : (projectSegments (Import i config keepGoing openshiftID).2.trace)[k]? = some seg)
    (hn : ResolvesTo seg n) :
    (∀ ev ∈ seg, ∀ inp, ev.call = Call.AddEnvVariable inp →
      inp.Type_ = EnvVariableType.ProjectVar → inp.TypeID = n) ∧
    (∀ ev ∈ seg, ∀ inp, ev.call = Call.AddOrUpdateEnvironment inp → inp.ProjectID = n) ∧
    (∀ ev ∈ seg, ∀ inp, ev.call = Call.AddEnvVariable inp →
      inp.Type_ = EnvVariableType.EnvironmentVar →
      ∃ eseg ∈ environmentSegments seg, ev ∈ eseg) ∧
    (∀ eseg ∈ environmentSegments seg, ∀ m, EnvResolvesTo eseg m →
      ∀ ev ∈ eseg, ∀ inp, ev.call = Call.AddEnvVariable inp →
        inp.Type_ = EnvVariableType.EnvironmentVar ∧ inp.TypeID = m) ∧
    (∀ eseg ∈ environmentSegments seg, (∀ ev ∈ eseg, ev.resp.out = none) →
      ∀ ev ∈ eseg, ∀ inp, ev.call = Call.AddEnvVariable inp →
        inp.Type_ = EnvVariableType.EnvironmentVar ∧ inp.TypeID = 0) := by
  obtain ⟨globals, segs, _, _, _, hsegs, hcases⟩ :=
    Import_runs i config keepGoing openshiftID
  rw [hsegs] at hseg
  rcases hcases with ⟨_, _, hnil, _⟩ | ⟨_, hruns⟩
  · rw [hnil] at hseg
    simp at hseg
  obtain ⟨p, r, _, hrun, _, _⟩ := runsOf_get hruns k seg hseg
  obtain ⟨lead, pv, esegs, tail, hparts, hlead, hpv, hes, hesegs, htail⟩ :=
    projectRun_parts hrun hn
  rw [hes]
  have hmem : ∀ ev ∈ seg, ev ∈ lead ∨ ev ∈ pv ∨ (∃ eseg ∈ esegs, ev ∈ eseg) ∨ ev ∈ tail := by
    intro ev hev
    rw [hparts] at hev
    rcases List.mem_append.1 hev with hev | hev
    · rcases List.mem_append.1 hev with hev | hev
      · rcases List.mem_append.1 hev with hev | hev
        · exact Or.inl hev
        · exact Or.inr (Or.inl hev)
      · obtain ⟨eseg, heseg, hev'⟩ := List.mem_flatten.1 hev
        exact Or.inr (Or.inr (Or.inl ⟨eseg, heseg, hev'⟩))
    · exact Or.inr (Or.inr (Or.inr hev))
  refine ⟨?_, ?_, ?_, ?_, ?_⟩
  · intro ev hev inp hinp hty
    rcases hmem ev hev with h | h | ⟨eseg, heseg, h⟩ | h
    · exact absurd hinp ((resolving_not_step (hlead ev h)).2.2 inp)
    · obtain ⟨kv, _, hc⟩ := hpv ev h
      rw [hc] at hinp
      cases hinp
      rfl
    · obtain ⟨env, r', _, herun⟩ := hesegs eseg heseg
      have := envRun_envVars herun ev h inp hinp
      rw [hty] at this
      cases this
    · have := htail ev h
      rw [hinp] at this
      cases this
  · intro ev hev inp hinp
    rcases hmem ev hev with h | h | ⟨eseg, heseg, h⟩ | h
    · have := (resolving_not_step (hlead ev h)).2.1
      rw [hinp] at this
      cases this
    · obtain ⟨kv, _, hc⟩ := hpv ev h
      rw [hc] at hinp
      cases hinp
    · obtain ⟨env, r', _, herun⟩ := hesegs eseg heseg
      exact (stepCall_ids (envRun_events herun ev h).2.1).2 inp hinp
    · have := htail ev h
      rw [hinp] at this
      cases this
  · intro ev hev inp hinp hty
    rcases hmem ev hev with h | h | ⟨eseg, heseg, h⟩ | h
    · exact absurd hinp ((resolving_not_step (hlead ev h)).2.2 inp)
    · obtain ⟨kv, _, hc⟩ := hpv ev h
      rw [hc] at hinp
      cases hinp
      cases hty
    · exact ⟨eseg, heseg, h⟩
    · have := htail ev h
      rw [hinp] at this
      cases this
  · intro eseg heseg m hm ev hev inp hinp
    obtain ⟨env, r', _, herun⟩ := hesegs eseg heseg
    exact ⟨envRun_envVars herun ev hev inp hinp, (envRun_written herun).1 m hm ev hev inp hinp⟩
  · intro eseg heseg hnone ev hev inp hinp
    obtain ⟨env, r', _, herun⟩ := hesegs eseg heseg
    exact ⟨envRun_envVars herun ev hev inp hinp, (envRun_written herun).2 hnone ev hev inp hinp⟩

/-- C12, amended, on the first run of the small configuration: the project
`app` is resolved to 7 by its creation, the environment `main` to 9 by its own. -/
theorem C12_ids_are_the_written_ones_witness :
    (projectSegments (Import succeedingClient smallConfig false 3).2.trace)[0]? =
      some appFirstRun ∧
    ResolvesTo appFirstRun 7 ∧
    environmentSegments appFirstRun = [mainFirstRun] ∧
    EnvResolvesTo mainFirstRun 9 ∧
    (∀ ev ∈ appFirstRun, ∀ inp, ev.call = Call.AddEnvVariable inp →
      inp.Type_ = EnvVariableType.ProjectVar → inp.TypeID = 7) ∧
    (∀ ev ∈ appFirstRun, ∀ inp, ev.call = Call.AddOrUpdateEnvironment inp →
      inp.ProjectID = 7) ∧
    (∀ ev ∈ mainFirstRun, ∀ inp, ev.call = Call.AddEnvVariable inp →
      inp.Type_ = EnvVariableType.EnvironmentVar ∧ inp.TypeID = 9) :=
  have h := C12_ids_are_the_written_ones succeedingClient smallConfig false 3 0 appFirstRun 7
    (by decide) (Or.inl ⟨_, _, rfl, rfl, rfl⟩)
  ⟨by decide, Or.inl ⟨_, _, rfl, rfl, rfl⟩, by decide, Or.inl ⟨_, _, rfl, rfl, rfl⟩,
    h.1, h.2.1,
    h.2.2.2.1 mainFirstRun (by decide) 9 (Or.inl ⟨_, _, rfl, rfl, rfl⟩)⟩

/-! ## C19: when a run with `keepGoing` returns an error -/

theorem getLast?_append_of_some {α : Type} (l₁ l₂ : List α) (a : α)
    (h : l₂.getLast? = some a) : (l₁ ++ l₂).getLast? = some a := by
  rw [List.getLast?_append, h]
  rfl

theorem getLast?_flatten_of_last {α : Type} (a : α) :
    ∀ (segs : List (List α)) (k : Nat) (seg : List α), segs[k]? = some seg →
      k + 1 = segs.length → seg.getLast? = some a → segs.flatten.getLast? = some a
  | [], k, seg, h, _, _ => by simp at h
  | s :: segs, 0, seg, h, hk, hl => by
    simp only [List.getElem?_cons_zero, Option.some.injEq] at h
    subst h
    have : segs = [] := by
      cases segs with
      | nil => rfl
      | cons _ _ => simp at hk
    subst this
    simpa using hl
  | s :: segs, k + 1, seg, h, hk, hl => by
    simp only [List.getElem?_cons_succ] at h
    have hk' : k + 1 = segs.length := by simpa using hk
    rw [List.flatten_cons]
    exact getLast?_append_of_some _ _ _ (getLast?_flatten_of_last a segs k seg h hk' hl)

/-- A loop that returns an error returned it from its last iteration. -/
theorem runsOf_last {α : Type} {Q : α → List Event → Option GoError → Prop}
    {xs : List α} {segs : List (List Event)} {res : Option GoError}
    (h : RunsOf Q xs segs res) :
    ∀ e, res = some e → ∃ k x seg, xs[k]? = some x ∧ segs[k]? = some seg ∧
      k + 1 = segs.length ∧ Q x seg (some e) := by
  induction h with
  | done => intro e he; cases he
  | stop x xs seg e' hQ =>
    intro e he
    cases he
    exact ⟨0, x, seg, by simp, by simp, by simp, hQ⟩
  | next x xs seg segs res _ _ ih =>
    intro e he
    obtain ⟨k, y, seg', hy, hs, hk, hQ⟩ := ih e he
    exact ⟨k + 1, y, seg', by simpa using hy, by simpa using hs, by simpa using hk, hQ⟩

/-- An iteration that returned an error is the last one, and the loop returns
what it returned. -/
theorem runsOf_get_isSome {α : Type} {Q : α → List Event → Option GoError → Prop}
    {xs : List α} {segs : List (List Event)} {res : Option GoError}
    (h : RunsOf Q xs segs res) (k : Nat) (seg : List Event) (hk : segs[k]? = some seg)
    (hQ : ∀ x r, xs[k]? = some x → Q x seg r → r.isSome = true) :
    k + 1 = segs.length ∧ res.isSome = true := by
  obtain ⟨x, r, hx, hrun, hlt, hlast⟩ := runsOf_get h k seg hk
  have hr := hQ x r hx hrun
  have hklt : k < segs.length := by
    by_contra hcon
    rw [List.getElem?_eq_none (Nat.le_of_not_lt hcon)] at hk
    cases hk
  have hkl : k + 1 = segs.length := by
    by_contra hcon
    have : k + 1 < segs.length := by omega
    rw [hlt this] at hr
    cases hr
  exact ⟨hkl, by rw [← hlast hkl]; exact hr⟩

/-- With `keepGoing`, a failing lookup ends the iteration of its environment
with an error. -/
theorem envRun_lookup_failed {i : Importer} {n : Nat} {env : EnvironmentConfig}
    {eseg : List Event} {res : Option GoError} (h : EnvRun i true n env eseg res)
    (ev : Event) (hev : ev ∈ eseg) (hl : ev.call.isLookup = true)
    (hf : ev.resp.err.isSome = true) :
    res.isSome = true ∧ eseg.getLast? = some ev := by
  obtain ⟨r₁, rest, rfl, _, hcases⟩ := h
  have hvars : ∀ m evs, VarsRun i true env m evs res → ev ∉ evs := by
    intro m evs hv hmem
    obtain ⟨⟨kv, _, hc⟩, _⟩ := varsRun_events hv ev hmem
    rw [hc] at hl
    cases hl
  rcases List.mem_cons.1 hev with rfl | hev
  · cases hl
  · rcases hcases with ⟨_, hv⟩ | ⟨_, _, _, hk, _⟩ | ⟨_, r₂, rest₂, _, _, _, hrest, _, hc⟩ |
      ⟨_, _, _, hrest, _⟩
    · exact absurd hev (hvars _ _ hv)
    · cases hk
    · subst hrest
      rcases hc with ⟨err₂, herr₂, hrest₂, hres⟩ | ⟨hok, hv⟩
      · subst hrest₂
        simp only [List.mem_singleton] at hev
        subst hev
        exact ⟨by rw [hres]; rfl, rfl⟩
      · rcases List.mem_cons.1 hev with rfl | hev
        · simp only at hf
          rw [hok] at hf
          cases hf
        · exact absurd hev (hvars _ _ hv)
    · rw [hrest] at hev
      exact absurd hev (List.not_mem_nil _)

/-- With `keepGoing`, a failing lookup ends the steps of its project with an error. -/
theorem stepsShape_lookup_failed {i : Importer} {p : ProjectConfig} {n : Nat}
    {evs : List Event} {res : Option GoError} (h : StepsShape i true p n evs res)
    (ev : Event) (hev : ev ∈ evs) (hl : ev.call.isLookup = true)
    (hf : ev.resp.err.isSome = true) :
    res.isSome = true ∧ evs.getLast? = some ev := by
  obtain ⟨pv, hpv, _, hcases⟩ := h
  rcases hcases with ⟨_, _, hk, _⟩ | ⟨esegs, tail, res₂, rfl, hruns, hstop, htail, _, _⟩
  · cases hk
  · rcases List.mem_append.1 hev with hev | hev
    · rcases List.mem_append.1 hev with hev | hev
      · obtain ⟨⟨kv, _, hc⟩, _⟩ := hpv ev hev
        rw [hc] at hl
        cases hl
      · obtain ⟨eseg, heseg, hev'⟩ := List.mem_flatten.1 hev
        obtain ⟨k, hk⟩ := List.getElem?_of_mem heseg
        have hkey := runsOf_get_isSome hruns k eseg hk
          (fun x r _ hrun => (envRun_lookup_failed hrun ev hev' hl hf).1)
        obtain ⟨x, r, _, hrun, _, _⟩ := runsOf_get hruns k eseg hk
        have hlast := (envRun_lookup_failed hrun ev hev' hl hf).2
        obtain ⟨e, he⟩ := Option.isSome_iff_exists.1 hkey.2
        obtain ⟨htl, hres⟩ := hstop e he
        subst htl
        refine ⟨by rw [hres]; rfl, ?_⟩
        rw [List.append_nil]
        exact getLast?_append_of_some _ _ _
          (getLast?_flatten_of_last ev esegs k eseg hk hkey.1 hlast)
    · have := (isAssociation_not_lookup (htail ev hev).1)
      simp [Call.isLookup, this.1, this.2] at hl

/-- With `keepGoing`, a failing lookup ends the iteration of its project with
an error; it is the last call of the iteration. -/
theorem projectRun_lookup_failed {i : Importer} {openshiftID : Nat} {p : ProjectConfig}
    {seg : List Event} {res : Option GoError} (h : ProjectRun i true openshiftID p seg res)
    (ev : Event) (hev : ev ∈ seg) (hl : ev.call.isLookup = true)
    (hf : ev.resp.err.isSome = true) :
    res.isSome = true ∧ seg.getLast? = some ev := by
  obtain ⟨r₁, rest, rfl, _, hcases⟩ := h
  have hsteps : ∀ n evs, StepsRun i true (p.withOpenshift openshiftID) n evs res →
      ev ∈ evs → res.isSome = true ∧ evs.getLast? = some ev :=
    fun n evs hs hmem => stepsShape_lookup_failed (stepsRun_shape hs) ev hmem hl hf
  rcases List.mem_cons.1 hev with rfl | hev
  · cases hl
  · rcases hcases with ⟨_, n, _, hs⟩ | ⟨_, _, _, hk, _⟩ |
      ⟨_, r₂, rest₂, _, _, _, hrest, _, hc⟩ | ⟨_, _, _, hrest, _⟩
    · obtain ⟨h₁, h₂⟩ := hsteps n rest hs hev
      exact ⟨h₁, getLast?_append_of_some [_] rest ev h₂⟩
    · cases hk
    · subst hrest
      rcases hc with ⟨err₂, herr₂, hrest₂, hres⟩ | ⟨hok, n, _, hs⟩
      · subst hrest₂
        simp only [List.mem_singleton] at hev
        subst hev
        exact ⟨by rw [hres]; rfl, rfl⟩
      · rcases List.mem_cons.1 hev with rfl | hev
        · simp only at hf
          rw [hok] at hf
          cases hf
        · obtain ⟨h₁, h₂⟩ := hsteps n rest₂ hs hev
          exact ⟨h₁, getLast?_append_of_some [_, _] rest₂ ev h₂⟩
    · rw [hrest] at hev
      exact absurd hev (List.not_mem_nil _)
/-! ### Lookups follow conflicts -/

theorem lfc_of_no_lookup {evs : List Event} (h : ∀ ev ∈ evs, ev.call.isLookup = false) :
    LookupsFollowConflicts evs := by
  intro pre ev post heq hl
  have hmem : ev ∈ evs := by rw [heq]; simp
  rw [h ev hmem] at hl
  cases hl

theorem lfc_append {a b : List Event} (ha : LookupsFollowConflicts a)
    (hb : LookupsFollowConflicts b) : LookupsFollowConflicts (a ++ b) := by
  intro pre ev post heq hl
  rcases List.append_eq_append_iff.1 heq with ⟨a', hpre, hb'⟩ | ⟨c', ha', hc'⟩
  · obtain ⟨pre', ev', hp, hrest⟩ := hb a' ev post hb' hl
    exact ⟨a ++ pre', ev', by rw [hpre, hp, List.append_assoc], hrest⟩
  · cases c' with
    | nil =>
      obtain ⟨pre', ev', hp, _⟩ := hb [] ev post (by simpa using hc'.symm) hl
      simp at hp
    | cons x c'' =>
      simp only [List.cons_append, List.cons.injEq] at hc'
      obtain ⟨rfl, _⟩ := hc'
      exact ha pre ev c'' ha' hl

theorem lfc_flatten : ∀ segs : List (List Event),
    (∀ seg ∈ segs, LookupsFollowConflicts seg) → LookupsFollowConflicts segs.flatten
  | [], _ => lfc_of_no_lookup (by simp)
  | seg :: segs, h => by
    rw [List.flatten_cons]
    exact lfc_append (h seg (List.mem_cons_self _ _))
      (lfc_flatten segs (fun s hs => h s (List.mem_cons_of_mem _ hs)))

/-- A creation that failed with a conflict, followed by its lookup. -/
theorem lfc_pair (ev ev₂ : Event) (hnl : ev.call.isLookup = false) (hc : ev.conflict = true)
    (hpair : (ev₂.call.isProjectByName = true ∧ ev.call.isAddProject = true) ∨
      (ev₂.call.isEnvironmentByName = true ∧ ev.call.isAddOrUpdateEnvironment = true)) :
    LookupsFollowConflicts [ev, ev₂] := by
  intro pre x post heq hl
  cases pre with
  | nil =>
    simp only [List.nil_append, List.cons.injEq] at heq
    obtain ⟨rfl, _⟩ := heq
    rw [hnl] at hl
    cases hl
  | cons y pre =>
    cases pre with
    | nil =>
      simp only [List.cons_append, List.nil_append, List.cons.injEq] at heq
      obtain ⟨rfl, rfl, _⟩ := heq
      exact ⟨[], _, rfl, hc, hpair⟩
    | cons z pre =>
      have := congrArg List.length heq
      simp at this

theorem envRun_lfc {i : Importer} {keepGoing : Bool} {n : Nat} {env : EnvironmentConfig}
    {eseg : List Event} {res : Option GoError} (h : EnvRun i keepGoing n env eseg res) :
    LookupsFollowConflicts eseg := by
  obtain ⟨r₁, rest, rfl, _, hcases⟩ := h
  have hvars : ∀ m evs, VarsRun i keepGoing env m evs res →
      ∀ ev ∈ evs, ev.call.isLookup = false := by
    intro m evs hv ev hmem
    obtain ⟨⟨kv, _, hc⟩, _⟩ := varsRun_events hv ev hmem
    rw [hc]
    rfl
  have hhead : LookupsFollowConflicts [(⟨Call.AddOrUpdateEnvironment
      { env.Environment.AddEnvironmentInput with ProjectID := n }, r₁⟩ : Event)] :=
    lfc_of_no_lookup (by simp [Call.isLookup, Call.isProjectByName, Call.isEnvironmentByName])
  rcases hcases with ⟨_, hv⟩ | ⟨_, _, _, _, hrest, _⟩ |
    ⟨err, r₂, rest₂, herr, his, _, hrest, _, hc⟩ | ⟨_, _, _, hrest, _⟩
  · exact lfc_append hhead (lfc_of_no_lookup (hvars _ _ hv))
  · rw [hrest]; exact hhead
  · rw [hrest]
    have hpair := lfc_pair (⟨Call.AddOrUpdateEnvironment
        { env.Environment.AddEnvironmentInput with ProjectID := n }, r₁⟩ : Event)
      ⟨Call.EnvironmentByName env.Environment.AddEnvironmentInput.Name n, r₂⟩ rfl
      (by simp [Event.conflict, errorsIs, herr, his]) (Or.inr ⟨rfl, rfl⟩)
    have hrest₂ : LookupsFollowConflicts rest₂ := by
      rcases hc with ⟨_, _, hr₂, _⟩ | ⟨_, hv⟩
      · rw [hr₂]; exact lfc_of_no_lookup (by simp)
      · exact lfc_of_no_lookup (hvars _ _ hv)
    exact lfc_append hpair hrest₂
  · rw [hrest]; exact hhead

theorem stepsShape_lfc {i : Importer} {keepGoing : Bool} {p : ProjectConfig} {n : Nat}
    {evs : List Event} {res : Option GoError} (h : StepsShape i keepGoing p n evs res) :
    LookupsFollowConflicts evs := by
  obtain ⟨pv, hpv, _, hcases⟩ := h
  have hpv' : LookupsFollowConflicts pv := by
    apply lfc_of_no_lookup
    intro ev hev
    obtain ⟨⟨kv, _, hc⟩, _⟩ := hpv ev hev
    rw [hc]
    rfl
  rcases hcases with ⟨_, _, _, rfl⟩ | ⟨esegs, tail, res₂, rfl, hruns, _, htail, _, _⟩
  · exact hpv'
  · refine lfc_append (lfc_append hpv' (lfc_flatten esegs ?_)) (lfc_of_no_lookup ?_)
    · intro seg hseg
      obtain ⟨env, r, _, hrun⟩ := runsOf_forall hruns seg hseg
      exact envRun_lfc hrun
    · intro ev hev
      have := isAssociation_not_lookup (htail ev hev).1
      simp [Call.isLookup, this.1, this.2]

theorem projectRun_lfc {i : Importer} {keepGoing : Bool} {openshiftID : Nat}
    {p : ProjectConfig} {seg : List Event} {res : Option GoError}
    (h : ProjectRun i keepGoing openshiftID p seg res) : LookupsFollowConflicts seg := by
  obtain ⟨r₁, rest, rfl, _, hcases⟩ := h
  have hhead : LookupsFollowConflicts [(⟨Call.AddProject
      (p.withOpenshift openshiftID).AddProjectInput, r₁⟩ : Event)] :=
    lfc_of_no_lookup (by simp [Call.isLookup, Call.isProjectByName, Call.isEnvironmentByName])
  rcases hcases with ⟨_, n, _, hs⟩ | ⟨_, _, _, _, hrest, _⟩ |
    ⟨err, r₂, rest₂, herr, his, _, hrest, _, hc⟩ | ⟨_, _, _, hrest, _⟩
  · exact lfc_append hhead (stepsShape_lfc (stepsRun_shape hs))
  · rw [hrest]; exact hhead
  · rw [hrest]
    have hpair := lfc_pair (⟨Call.AddProject
        (p.withOpenshift openshiftID).AddProjectInput, r₁⟩ : Event)
      ⟨Call.ProjectByName p.AddProjectInput.Name, r₂⟩ rfl
      (by simp [Event.conflict, errorsIs, herr, his]) (Or.inl ⟨rfl, rfl⟩)
    have hrest₂ : LookupsFollowConflicts rest₂ := by
      rcases hc with ⟨_, _, hr₂, _⟩ | ⟨_, n, _, hs⟩
      · rw [hr₂]; exact lfc_of_no_lookup (by simp)
      · exact stepsShape_lfc (stepsRun_shape hs)
    exact lfc_append hpair hrest₂
  · rw [hrest]; exact hhead

/-- In every run of `Import`, every lookup directly follows the creation it
resolves, and that creation failed with a conflict. -/
theorem Import_lfc (i : Importer) (config : Config) (keepGoing : Bool) (openshiftID : Nat) :
    LookupsFollowConflicts (Import i config keepGoing openshiftID).2.trace := by
  obtain ⟨globals, segs, htrace, hglobals, _, _, hcases⟩ :=
    Import_runs i config keepGoing openshiftID
  rw [htrace]
  refine lfc_append (lfc_of_no_lookup ?_) (lfc_flatten segs ?_)
  · intro ev hev
    have := isGlobal_not_lookup (hglobals ev hev).1
    simp [Call.isLookup, this.1, this.2]
  · rcases hcases with ⟨_, _, hnil, _⟩ | ⟨_, hruns⟩
    · rw [hnil]; simp
    · intro seg hseg
      obtain ⟨p, r, _, hrun⟩ := runsOf_forall hruns seg hseg
      exact projectRun_lfc hrun
/-- With `keepGoing`, the iteration of a project returns an error only when
the project was created or resolved, or its lookup failed. -/
theorem projectRun_created_or {i : Importer} {openshiftID : Nat} {p : ProjectConfig}
    {seg : List Event} {e : GoError} (h : ProjectRun i true openshiftID p seg (some e)) :
    Created seg ∨ ∃ ev ∈ seg, ev.call.isLookup = true ∧ ev.resp.err.isSome = true := by
  obtain ⟨r₁, rest, rfl, _, hcases⟩ := h
  rcases hcases with ⟨hok, _⟩ | ⟨_, _, _, hk, _⟩ |
    ⟨err, r₂, rest₂, herr, his, _, hrest, _, hc⟩ | ⟨_, _, _, _, hres⟩
  · exact Or.inl (Or.inl ⟨_, _, rfl, hok⟩)
  · cases hk
  · subst hrest
    rcases hc with ⟨err₂, herr₂, _, _⟩ | ⟨hok, _⟩
    · exact Or.inr ⟨⟨Call.ProjectByName p.AddProjectInput.Name, r₂⟩, by simp, rfl,
        by simp [herr₂]⟩
    · exact Or.inl (Or.inr ⟨_, _, _, rfl, by simp [Event.conflict, errorsIs, herr, his],
        rfl, hok⟩)
  · simp at hres

/-- A project whose failing creation is the only call made for it was neither
created nor resolved. -/
theorem not_created_of_skipped {c : Call} {r : Response} {err : GoError}
    (herr : r.err = some err) : ¬ Created [⟨c, r⟩] := by
  rintro (⟨ev, rest, heq, hok⟩ | ⟨ev, ev₂, rest, heq, _⟩)
  · simp only [List.cons.injEq] at heq
    obtain ⟨rfl, _⟩ := heq
    simp only at hok
    rw [herr] at hok
    cases hok
  · simp at heq

/-- C19: `Import` with `keepGoing = true` returns an error if and only if the
trace holds a failing lookup (a `ProjectByName` or an `EnvironmentByName` call)
or the run reached, in the order of the declaration, a project that was created
or resolved by lookup and declares two billing-group names or more.  Every
lookup of the trace directly follows the creation it resolves (`AddProject` for
`ProjectByName`, `AddOrUpdateEnvironment` for `EnvironmentByName`), which
failed with a conflict.  The phases that precede the projects return nothing,
whatever fails in them.  A failing lookup is the last call of the run; a
project that was created or resolved and declares two billing groups or more is
the last one processed, and no call that follows the check of the billing
groups is made for it. -/
theorem C19_keepGoing_failure (i : Importer) (config : Config) (openshiftID : Nat) :
    ((Import i config true openshiftID).1.isSome = true ↔
      (∃ ev ∈ (Import i config true openshiftID).2.trace,
        ev.call.isLookup = true ∧ ev.resp.err.isSome = true) ∨
      (∃ (k : Nat) (p : ProjectConfig) (seg : List Event), config.Projects[k]? = some p ∧
        (projectSegments (Import i config true openshiftID).2.trace)[k]? = some seg ∧
        Created seg ∧ 2 ≤ p.BillingGroups.length)) ∧
    LookupsFollowConflicts (Import i config true openshiftID).2.trace ∧
    (importGlobals i true config St.init).1 = none ∧
    (∀ ev ∈ (Import i config true openshiftID).2.trace,
      ev.call.isLookup = true → ev.resp.err.isSome = true →
        (Import i config true openshiftID).2.trace.getLast? = some ev) ∧
    (∀ (k : Nat) (p : ProjectConfig) (seg : List Event), config.Projects[k]? = some p →
      (projectSegments (Import i config true openshiftID).2.trace)[k]? = some seg →
      Created seg → 2 ≤ p.BillingGroups.length →
        (projectSegments (Import i config true openshiftID).2.trace).length = k + 1 ∧
        ∀ ev ∈ seg, ev.call.isBeforeBillingCheck = true) := by
  obtain ⟨globals, segs, htrace, hglobals, _, hsegs, hcases⟩ :=
    Import_runs i config true openshiftID
  have hg : (importGlobals i true config St.init).1 = none :=
    noReturn_importGlobals i config St.init
  have hruns : RunsOf (ProjectRun i true openshiftID) config.Projects segs
      (Import i config true openshiftID).1 := by
    rcases hcases with ⟨e, _, _, he⟩ | ⟨_, hruns⟩
    · rw [hg] at he; cases he
    · exact hruns
  -- a failing lookup
  have hlookup : ∀ ev ∈ (Import i config true openshiftID).2.trace,
      ev.call.isLookup = true → ev.resp.err.isSome = true →
      (Import i config true openshiftID).1.isSome = true ∧
      (Import i config true openshiftID).2.trace.getLast? = some ev := by
    intro ev hev hl hf
    rw [htrace] at hev ⊢
    rcases List.mem_append.1 hev with hev | hev
    · have := isGlobal_not_lookup (hglobals ev hev).1
      simp [Call.isLookup, this.1, this.2] at hl
    · obtain ⟨seg, hseg, hev'⟩ := List.mem_flatten.1 hev
      obtain ⟨k, hk⟩ := List.getElem?_of_mem hseg
      have hkey := runsOf_get_isSome hruns k seg hk
        (fun x r _ hrun => (projectRun_lookup_failed hrun ev hev' hl hf).1)
      obtain ⟨x, r, _, hrun, _, _⟩ := runsOf_get hruns k seg hk
      have hlast := (projectRun_lookup_failed hrun ev hev' hl hf).2
      exact ⟨hkey.2, getLast?_append_of_some _ _ _
        (getLast?_flatten_of_last ev segs k seg hk hkey.1 hlast)⟩
  -- a project that was created and declares two billing groups or more
  have hinvalid : ∀ (k : Nat) (p : ProjectConfig) (seg : List Event),
      config.Projects[k]? = some p → segs[k]? = some seg →
      Created seg → 2 ≤ p.BillingGroups.length →
      (Import i config true openshiftID).1.isSome = true ∧ segs.length = k + 1 ∧
        ∀ ev ∈ seg, ev.call.isBeforeBillingCheck = true := by
    intro k p seg hp hk hcr hbg
    have hkey := runsOf_get_isSome hruns k seg hk (fun x r hx hrun => by
      rw [hp] at hx
      cases hx
      rcases (projectRun_invalid hrun hbg).2 with h | ⟨_, _, r', err, hseg, herr, _⟩
      · exact h
      · rw [hseg] at hcr
        exact absurd hcr (not_created_of_skipped herr))
    obtain ⟨x, r, hx, hrun, _, _⟩ := runsOf_get hruns k seg hk
    rw [hp] at hx
    cases hx
    exact ⟨hkey.2, hkey.1.symm, (projectRun_invalid hrun hbg).1⟩
  refine ⟨⟨?_, ?_⟩, Import_lfc i config true openshiftID, hg,
    fun ev hev hl hf => (hlookup ev hev hl hf).2, ?_⟩
  · intro hres
    obtain ⟨e, he⟩ := Option.isSome_iff_exists.1 hres
    obtain ⟨k, p, seg, hp, hk, _, hrun⟩ := runsOf_last hruns e he
    have hmem : ∀ ev ∈ seg, ev ∈ (Import i config true openshiftID).2.trace := by
      intro ev hev
      rw [htrace]
      exact List.mem_append_right _
        (List.mem_flatten.2 ⟨seg, List.getElem?_mem hk, hev⟩)
    by_cases hbg : p.BillingGroups.length ≤ 1
    · obtain ⟨ev, hev, h₁, h₂⟩ := projectRun_keepGoing_error hrun hbg
      exact Or.inl ⟨ev, hmem ev hev, h₁, h₂⟩
    · rcases projectRun_created_or hrun with hcr | ⟨ev, hev, h₁, h₂⟩
      · right
        exact ⟨k, p, seg, hp, by rw [hsegs]; exact hk, hcr, by omega⟩
      · exact Or.inl ⟨ev, hmem ev hev, h₁, h₂⟩
  · rintro (⟨ev, hev, hl, hf⟩ | ⟨k, p, seg, hp, hk, hcr, hbg⟩)
    · exact (hlookup ev hev hl hf).1
    · rw [hsegs] at hk
      exact (hinvalid k p seg hp hk hcr hbg).1
  · intro k p seg hp hk hcr hbg
    rw [hsegs] at hk ⊢
    exact (hinvalid k p seg hp hk hcr hbg).2

/-! ## C17: an environment whose creation fails -/

/-- The calls of the first block of a sequence come first. -/
theorem seq_cons_trace (b : Block) (bs : List Block)
    (hbs : ∀ b' ∈ bs, Sat (fun _ _ => True) (fun _ => True) b') (s : St) (evs : List Event)
    (ht : (b s).2.trace = s.trace ++ evs) :
    ∃ more, (seq (b :: bs) s).2.trace = s.trace ++ evs ++ more := by
  rw [seq_cons]
  rcases andThen_cases b (seq bs) s with ⟨_, heq⟩ | ⟨e, _, heq⟩
  · obtain ⟨more, hm, _⟩ := sat_seq (P := fun _ _ => True) (E := fun _ => True) trivial bs hbs
      (b s).2
    exact ⟨more, by rw [heq, hm, ht]⟩
  · exact ⟨[], by rw [heq, ht, List.append_nil]⟩

/-- A sequence that starts with an `attempt` issues its call first. -/
theorem seq_attempt_head (i : Importer) (keepGoing : Bool) (c : Call) (ctx : String)
    (bs : List Block) (hbs : ∀ b' ∈ bs, Sat (fun _ _ => True) (fun _ => True) b') (s : St) :
    ∃ r more, (seq (attempt i keepGoing c ctx :: bs) s).2.trace = s.trace ++ ⟨c, r⟩ :: more := by
  obtain ⟨more, hm⟩ := seq_cons_trace _ bs hbs s _ (attempt_trace i keepGoing c ctx s)
  exact ⟨_, more, by rw [hm, List.append_assoc]; rfl⟩

/-- When the project declares groups, the steps after the environments start
with the `AddGroupsToProject` call. -/
theorem addProjectAssociations_head (i : Importer) (keepGoing : Bool) (p : ProjectConfig)
    (hg : 0 < p.Groups.length) (s : St) :
    ∃ r more, (addProjectAssociations i keepGoing p s).2.trace = s.trace ++
      ⟨Call.AddGroupsToProject ⟨⟨p.AddProjectInput.Name⟩, p.Groups.map GroupInput.mk⟩, r⟩ ::
        more := by
  have hgt : p.Groups.length > 0 := hg
  unfold addProjectAssociations
  simp only [hgt, if_true]
  refine seq_attempt_head i keepGoing _ _ _ ?_ s
  intro b hb
  simp only [List.mem_cons, List.mem_singleton, List.not_mem_nil, or_false] at hb
  rcases hb with rfl | rfl | rfl | rfl
  · exact sat_ite (fun _ => sat_return _ trivial) (fun _ => sat_skip trivial)
  · exact sat_mono (sat_attempts_const i keepGoing _ _ _) (fun _ _ _ => trivial)
      (fun _ h => h)
  · exact sat_mono (sat_attempts_const i keepGoing _ _ _) (fun _ _ _ => trivial)
      (fun _ h => h)
  · cases p.Notifications with
    | none => exact sat_skip trivial
    | some ns =>
      apply sat_seq trivial
      intro b hb
      simp only [List.mem_cons, List.mem_singleton, List.not_mem_nil, or_false] at hb
      rcases hb with rfl | rfl
      · exact sat_mono (sat_attempts_const i keepGoing _ _ _) (fun _ _ _ => trivial)
          (fun _ h => h)
      · exact sat_mono (sat_attempts_const i keepGoing _ _ _) (fun _ _ _ => trivial)
          (fun _ h => h)
/-- With `keepGoing`, the calls of the steps that follow the creation of a
project: one per project variable, one segment per environment processed, then
the calls that associate the project, which start with `AddGroupsToProject`
when the project declares groups and no environment returned. -/
theorem stepsRun_keepGoing_parts {i : Importer} {p : ProjectConfig} {n : Nat}
    {evs : List Event} {res : Option GoError} (h : StepsRun i true p n evs res) :
    ∃ pv esegs tail res₂,
      evs = pv ++ esegs.flatten ++ tail ∧
      (∀ ev ∈ pv, ∃ kv ∈ p.EnvVariables,
        ev.call = Call.AddEnvVariable ⟨kv, EnvVariableType.ProjectVar, n⟩) ∧
      RunsOf (EnvRun i true n) p.Environments esegs res₂ ∧
      (∀ ev ∈ tail, ev.call.isAssociation = true) ∧
      (∀ e, res₂ = some e → tail = []) ∧
      (res₂ = none → 0 < p.Groups.length → ∃ r more, tail =
        ⟨Call.AddGroupsToProject ⟨⟨p.AddProjectInput.Name⟩, p.Groups.map GroupInput.mk⟩, r⟩ ::
          more) := by
  obtain ⟨s, hn, ht, _⟩ := h
  subst hn
  rw [importProjectSteps_eq] at ht
  obtain ⟨pv, hpv₁, hpv₂, hpv₃, _⟩ : SatAt (fun n ev => (∃ kv ∈ p.EnvVariables,
        ev.call = Call.AddEnvVariable ⟨kv, EnvVariableType.ProjectVar, n⟩) ∧ FromClient i ev)
      (fun _ => True) (addProjectEnvVars i true p) s :=
    sat_attempts i true
      (fun (kv : EnvKeyValue) (n : Nat) =>
        Call.AddEnvVariable ⟨kv, EnvVariableType.ProjectVar, n⟩)
      (fun _ => "couldn't add Project EnvVariable") p.EnvVariables s
  have hv : (addProjectEnvVars i true p s).1 = none :=
    @noReturn_forEach EnvKeyValue (fun (ev : EnvKeyValue) (s : St) =>
      attempt i true (Call.AddEnvVariable ⟨ev, EnvVariableType.ProjectVar, s.newProj⟩)
        "couldn't add Project EnvVariable" s)
      (fun ev => noReturn_attempt i _ _) p.EnvVariables s
  rw [andThen_none (Prod.ext hv rfl : addProjectEnvVars i true p s = (none, _))] at ht
  obtain ⟨esegs, hes₁, hes₂, hes₃⟩ := forEach_runs (importEnvironment i true p)
    (fun s' => s'.newProj = s.newProj) (EnvRun i true s.newProj)
    (fun env s' hs' => by
      obtain ⟨seg, h₁, h₂, h₃⟩ := importEnvironment_run i true p env s'
      exact ⟨seg, h₁, h₂.trans hs', hs' ▸ h₃⟩)
    p.Environments (addProjectEnvVars i true p s).2 hpv₂
  rcases andThen_cases (forEach p.Environments (importEnvironment i true p))
    (addProjectAssociations i true p) (addProjectEnvVars i true p s).2
    with ⟨h₂, heq₂⟩ | ⟨e, h₂, heq₂⟩
  · obtain ⟨tail, ht₁, _, ht₃, _⟩ := sat_addProjectAssociations i true p
      (forEach p.Environments (importEnvironment i true p)
        (addProjectEnvVars i true p s).2).2
    rw [heq₂] at ht
    refine ⟨pv, esegs, tail, none, ?_, fun ev hev => (hpv₃ ev hev).1, h₂ ▸ hes₃,
      fun ev hev => (ht₃ ev hev).1, (fun e he => by cases he), ?_⟩
    · refine @List.append_cancel_left _ s.trace _ _ ?_
      rw [← ht, ht₁, hes₁, hpv₁]
      simp [List.append_assoc]
    · intro _ hg
      obtain ⟨r, more, hm⟩ := addProjectAssociations_head i true p hg
        (forEach p.Environments (importEnvironment i true p)
          (addProjectEnvVars i true p s).2).2
      exact ⟨r, more, List.append_cancel_left (ht₁.symm.trans hm)⟩
  · rw [heq₂] at ht
    refine ⟨pv, esegs, [], some e, ?_, fun ev hev => (hpv₃ ev hev).1, h₂ ▸ hes₃,
      by simp, fun _ _ => rfl, fun h => by cases h⟩
    refine @List.append_cancel_left _ s.trace _ _ ?_
    rw [← ht, hes₁, hpv₁]
    simp [List.append_assoc]

/-- With `keepGoing`, the parts of the segment of a project that was created
or resolved by lookup. -/
theorem projectRun_keepGoing_parts {i : Importer} {openshiftID : Nat}
    {p : ProjectConfig} {seg : List Event} {res : Option GoError}
    (h : ProjectRun i true openshiftID p seg res) (hc : Created seg) :
    ∃ n lead pv esegs tail res₂,
      seg = lead ++ pv ++ esegs.flatten ++ tail ∧
      (∀ ev ∈ lead ++ pv, ev.call.isAssociation = false ∧
        ev.call.isAddOrUpdateEnvironment = false) ∧
      environmentSegments seg = esegs ∧
      RunsOf (EnvRun i true n) p.Environments esegs res₂ ∧
      (∀ ev ∈ tail, ev.call.isAssociation = true) ∧
      (∀ e, res₂ = some e → tail = []) ∧
      (res₂ = none → 0 < p.Groups.length → ∃ r more, tail =
        ⟨Call.AddGroupsToProject ⟨⟨p.AddProjectInput.Name⟩, p.Groups.map GroupInput.mk⟩, r⟩ ::
          more) := by
  obtain ⟨r₁, rest, rfl, _, hcases⟩ := h
  -- the calls that resolve the project, and the steps that follow
  obtain ⟨n, lead, evs, hseg, hlead, hs⟩ : ∃ n lead evs,
      (⟨Call.AddProject (p.withOpenshift openshiftID).AddProjectInput, r₁⟩ :: rest : List Event)
        = lead ++ evs ∧
      (∀ ev ∈ lead, ev.call.isAddProject = true ∨ ev.call.isProjectByName = true) ∧
      StepsRun i true (p.withOpenshift openshiftID) n evs res := by
    rcases hcases with ⟨_, n, _, hs⟩ | ⟨_, _, _, hk, _⟩ |
      ⟨err, r₂, rest₂, herr, _, _, hrest, _, hc₂⟩ | ⟨err, herr, _, hrest, _⟩
    · refine ⟨n, [_], rest, rfl, ?_, hs⟩
      intro ev hev
      simp only [List.mem_singleton] at hev
      subst hev
      exact Or.inl rfl
    · cases hk
    · subst hrest
      rcases hc₂ with ⟨err₂, herr₂, _, _⟩ | ⟨_, n, _, hs⟩
      · exfalso
        rcases hc with ⟨ev, rest', heq, hok⟩ | ⟨ev, ev₂, rest', heq, _, _, hok⟩
        · simp only [List.cons.injEq] at heq
          obtain ⟨rfl, _⟩ := heq
          simp only at hok
          rw [herr] at hok
          cases hok
        · simp only [List.cons.injEq] at heq
          obtain ⟨_, rfl, _⟩ := heq
          simp only at hok
          rw [herr₂] at hok
          cases hok
      · refine ⟨n, [_, _], rest₂, rfl, ?_, hs⟩
        intro ev hev
        simp only [List.mem_cons, List.mem_singleton, List.not_mem_nil, or_false] at hev
        rcases hev with rfl | rfl
        · exact Or.inl rfl
        · exact Or.inr rfl
    · subst hrest
      exact absurd hc (not_created_of_skipped herr)
  rw [hseg]
  obtain ⟨pv, esegs, tail, res₂, hevs, hpv, hruns, htail, hstop, hhead⟩ :=
    stepsRun_keepGoing_parts hs
  subst hevs
  have hlp : ∀ ev ∈ lead ++ pv, ev.call.isAssociation = false ∧
      ev.call.isAddOrUpdateEnvironment = false := by
    intro ev hev
    rcases List.mem_append.1 hev with hev | hev
    · exact ⟨(resolving_not_step (hlead ev hev)).1, (resolving_not_step (hlead ev hev)).2.1⟩
    · obtain ⟨kv, _, hc⟩ := hpv ev hev
      rw [hc]; exact ⟨rfl, rfl⟩
  have hassoc : lead ++ (pv ++ esegs.flatten ++ tail) =
      lead ++ pv ++ esegs.flatten ++ tail := by simp [List.append_assoc]
  refine ⟨n, lead, pv, esegs, tail, res₂, hassoc, hlp, ?_, hruns, htail, hstop, hhead⟩
  rw [hassoc]
  exact environmentSegments_eq (lead ++ pv) esegs.flatten tail esegs rfl hlp hruns htail
/-- With `keepGoing`, the iteration of an environment whose creation fails with
an error that is no conflict is that one call, and returns nothing. -/
theorem envRun_failed {i : Importer} {n : Nat} {env : EnvironmentConfig}
    {eseg : List Event} {res : Option GoError} (h : EnvRun i true n env eseg res)
    (ev : Event) (err : GoError) (hhead : eseg.head? = some ev)
    (herr : ev.resp.err = some err) (hnc : err.Is ErrExist = false) :
    eseg = [ev] ∧ res = none ∧ ev.call = Call.AddOrUpdateEnvironment
      { env.Environment.AddEnvironmentInput with ProjectID := n } := by
  obtain ⟨r₁, rest, rfl, _, hcases⟩ := h
  simp only [List.head?_cons, Option.some.injEq] at hhead
  subst hhead
  simp only at herr
  rcases hcases with ⟨hok, _⟩ | ⟨err', herr', his, _⟩ | ⟨err', _, _, herr', his, _⟩ |
    ⟨_, _, _, hrest, hres⟩
  · rw [hok] at herr; cases herr
  · rw [herr'] at herr; cases herr
    rw [his] at hnc; cases hnc
  · rw [herr'] at herr; cases herr
    rw [his] at hnc; cases hnc
  · subst hrest
    exact ⟨rfl, by simpa using hres, rfl⟩

/-- After an iteration that returned nothing, the loop runs the next element. -/
theorem runsOf_succ {α : Type} {Q : α → List Event → Option GoError → Prop}
    {xs : List α} {segs : List (List Event)} {res : Option GoError}
    (h : RunsOf Q xs segs res) :
    ∀ (j : Nat) (seg : List Event), segs[j]? = some seg → (∀ x e, ¬ Q x seg (some e)) →
      ∀ x', xs[j + 1]? = some x' → ∃ seg' r', segs[j + 1]? = some seg' ∧ Q x' seg' r' := by
  induction h with
  | done => intro j seg hj; simp at hj
  | stop x xs seg e hQ =>
    intro j seg' hj hno
    cases j with
    | zero =>
      simp only [List.getElem?_cons_zero, Option.some.injEq] at hj
      subst hj
      exact absurd hQ (hno x e)
    | succ j => simp at hj
  | next x xs seg segs res hQ hrest ih =>
    intro j seg' hj hno x' hx'
    cases j with
    | zero =>
      simp only [List.getElem?_cons_succ] at hx' ⊢
      cases hrest with
      | done => simp at hx'
      | stop y ys s e hQ' =>
        simp only [List.getElem?_cons_zero, Option.some.injEq] at hx'
        subst hx'
        exact ⟨s, some e, by simp, hQ'⟩
      | next y ys s ss r hQ' _ =>
        simp only [List.getElem?_cons_zero, Option.some.injEq] at hx'
        subst hx'
        exact ⟨s, none, by simp, hQ'⟩
    | succ j =>
      simp only [List.getElem?_cons_succ] at hj hx' ⊢
      exact ih j seg' hj hno x' hx'

theorem flatten_of_last {α : Type} :
    ∀ (segs : List (List α)) (j : Nat) (seg : List α), segs[j]? = some seg →
      j + 1 = segs.length → segs.flatten = (segs.take j).flatten ++ seg
  | [], j, seg, h, _ => by simp at h
  | s :: segs, 0, seg, h, hj => by
    simp only [List.getElem?_cons_zero, Option.some.injEq] at h
    subst h
    have : segs = [] := by
      cases segs with
      | nil => rfl
      | cons _ _ => simp at hj
    subst this
    simp
  | s :: segs, j + 1, seg, h, hj => by
    simp only [List.getElem?_cons_succ] at h
    have hj' : j + 1 = segs.length := by simpa using hj
    rw [List.flatten_cons, flatten_of_last segs j seg h hj']
    simp [List.append_assoc]

/-- With `keepGoing`, a project for which an environment was processed was
created or resolved by lookup. -/
theorem created_of_environmentSegments {i : Importer} {openshiftID : Nat}
    {p : ProjectConfig} {seg : List Event} {res : Option GoError}
    (h : ProjectRun i true openshiftID p seg res) (hne : environmentSegments seg ≠ []) :
    Created seg := by
  obtain ⟨r₁, rest, rfl, _, hcases⟩ := h
  have hnil : ∀ lead : List Event, (∀ ev ∈ lead, ev.call.isAddProject = true ∨
      ev.call.isProjectByName = true) → environmentSegments lead = [] := by
    intro lead hlead
    have := @environmentSegments_eq i true 0 [] none lead [] [] [] rfl
      (fun ev hev => ⟨(resolving_not_step (hlead ev hev)).1,
        (resolving_not_step (hlead ev hev)).2.1⟩) RunsOf.done (by simp)
    simpa using this
  rcases hcases with ⟨hok, _⟩ | ⟨_, _, _, hk, _⟩ |
    ⟨err, r₂, rest₂, herr, his, _, hrest, _, hc₂⟩ | ⟨err, herr, _, hrest, _⟩
  · exact Or.inl ⟨_, _, rfl, hok⟩
  · cases hk
  · subst hrest
    rcases hc₂ with ⟨err₂, herr₂, hrest₂, _⟩ | ⟨hok, _⟩
    · subst hrest₂
      exfalso
      apply hne
      apply hnil
      intro ev hev
      simp only [List.mem_cons, List.mem_singleton, List.not_mem_nil, or_false] at hev
      rcases hev with rfl | rfl
      · exact Or.inl rfl
      · exact Or.inr rfl
    · exact Or.inr ⟨_, _, _, rfl, by simp [Event.conflict, errorsIs, herr, his], rfl, hok⟩
  · subst hrest
    exfalso
    apply hne
    apply hnil
    intro ev hev
    simp only [List.mem_singleton] at hev
    subst hev
    exact Or.inl rfl

/-- C17: with `keepGoing = true`, when the `AddOrUpdateEnvironment` call of an
environment fails with an error that does not wrap `ErrExist`, that call is the
only one made for the environment (no `EnvironmentByName`, no `AddEnvVariable`);
it is the call for the `j`-th environment declared, and the run continues: if
the project declares a next environment, the calls for it follow, starting
with its `AddOrUpdateEnvironment` call; after the last environment, the calls
that follow in the project's segment are those that associate the project,
starting with `AddGroupsToProject` when the project declares groups. -/
theorem C17_failed_environment_is_skipped (i : Importer) (config : Config)
    (openshiftID : Nat) (k : Nat) (p : ProjectConfig) (seg : List Event)
    (j : Nat) (eseg : List Event) (ev : Event) (err : GoError)
    (hp : config.Projects[k]? = some p)
    (hseg : (projectSegments (Import i config true openshiftID).2.trace)[k]? = some seg)
    (heseg : (environmentSegments seg)[j]? = some eseg)
    (hhead : eseg.head? = some ev) (herr : ev.resp.err = some err)
    (hnc : err.Is ErrExist = false) :
    eseg = [ev] ∧
    (∃ env n, p.Environments[j]? = some env ∧ ev.call = Call.AddOrUpdateEnvironment
      { env.Environment.AddEnvironmentInput with ProjectID := n }) ∧
    (∀ env', p.Environments[j + 1]? = some env' → ∃ n r' rest',
      (environmentSegments seg)[j + 1]? = some (⟨Call.AddOrUpdateEnvironment
        { env'.Environment.AddEnvironmentInput with ProjectID := n }, r'⟩ :: rest')) ∧
    (p.Environments.length = j + 1 → ∃ front tail, seg = front ++ [ev] ++ tail ∧
      (environmentSegments seg).length = j + 1 ∧
      (∀ ev' ∈ front, ev'.call.isAssociation = false) ∧
      (∀ ev' ∈ tail, ev'.call.isAssociation = true) ∧
      (0 < p.Groups.length → ∃ r more, tail =
        ⟨Call.AddGroupsToProject ⟨⟨p.AddProjectInput.Name⟩, p.Groups.map GroupInput.mk⟩, r⟩ ::
          more)) := by
  obtain ⟨globals, segs, _, _, _, hsegs, hcases⟩ := Import_runs i config true openshiftID
  rw [hsegs] at hseg
  rcases hcases with ⟨_, _, hnil, _⟩ | ⟨_, hruns⟩
  · rw [hnil] at hseg
    simp at hseg
  obtain ⟨x, r, hx, hrun, _, _⟩ := runsOf_get hruns k seg hseg
  rw [hp] at hx
  cases hx
  have hcr : Created seg := created_of_environmentSegments hrun (by
    intro hnil
    rw [hnil] at heseg
    simp at heseg)
  obtain ⟨n, lead, pv, esegs, tail, res₂, hparts, hlp, hes, heruns, htail, _, hheadt⟩ :=
    projectRun_keepGoing_parts hrun hcr
  rw [hes] at heseg ⊢
  obtain ⟨env, r', henv, herun, _, hlast⟩ := runsOf_get heruns j eseg heseg
  obtain ⟨h₁, h₂, h₃⟩ := envRun_failed herun ev err hhead herr hnc
  subst h₂
  have hno : ∀ (x : EnvironmentConfig) (e : GoError), ¬ EnvRun i true n x eseg (some e) := by
    intro x e hx
    have := (envRun_failed hx ev err hhead herr hnc).2.1
    cases this
  refine ⟨h₁, ⟨env, n, henv, h₃⟩, ?_, ?_⟩
  · intro env' henv'
    obtain ⟨seg', r'', hseg', hrun'⟩ := runsOf_succ heruns j eseg heseg hno env' henv'
    obtain ⟨r₁, rest', rfl, _⟩ := hrun'
    exact ⟨n, r₁, rest', hseg'⟩
  · intro hlen
    have hjlt : j < esegs.length := by
      by_contra hcon
      rw [List.getElem?_eq_none (Nat.le_of_not_lt hcon)] at heseg
      cases heseg
    have hle := runsOf_length_le heruns
    have hjl : j + 1 = esegs.length := by omega
    have hres₂ : res₂ = none := (hlast hjl).symm
    refine ⟨lead ++ pv ++ (esegs.take j).flatten, tail, ?_, hjl.symm, ?_, htail,
      hheadt hres₂⟩
    · rw [hparts, flatten_of_last esegs j eseg heseg hjl, h₁]
      simp [List.append_assoc]
    · intro ev' hev'
      rcases List.mem_append.1 hev' with hev' | hev'
      · exact (hlp ev' hev').1
      · obtain ⟨seg', hseg', hmem⟩ := List.mem_flatten.1 hev'
        obtain ⟨env', r'', _, hrun'⟩ := runsOf_forall heruns seg' (List.mem_of_mem_take hseg')
        exact (envRun_events hrun' ev' hmem).2.2.1

/-- C17 on the project `site`, whose two environments are rejected: after
`main` the run goes on with `staging`, after `staging` with the groups. -/
theorem C17_failed_environment_is_skipped_witness :
    siteConfig.Projects[0]? = some siteProject ∧
    (projectSegments (Import environmentRejectingClient siteConfig true 3).2.trace)[0]? =
      some siteRejectedRun ∧
    (environmentSegments siteRejectedRun)[1]? = some
      [⟨Call.AddOrUpdateEnvironment ⟨"staging", 7, "develop"⟩, ⟨some transportError, none⟩⟩] ∧
    transportError.Is ErrExist = false ∧
    (siteProject.Environments.length = 1 + 1 → ∃ front tail,
      siteRejectedRun = front ++
        [⟨Call.AddOrUpdateEnvironment ⟨"staging", 7, "develop"⟩,
          ⟨some transportError, none⟩⟩] ++ tail ∧
      (environmentSegments siteRejectedRun).length = 1 + 1 ∧
      (∀ ev' ∈ front, ev'.call.isAssociation = false) ∧
      (∀ ev' ∈ tail, ev'.call.isAssociation = true) ∧
      (0 < siteProject.Groups.length → ∃ r more, tail =
        ⟨Call.AddGroupsToProject
          ⟨⟨siteProject.AddProjectInput.Name⟩, siteProject.Groups.map GroupInput.mk⟩, r⟩ ::
          more)) :=
  ⟨by decide, by decide, by decide, by decide,
    (C17_failed_environment_is_skipped environmentRejectingClient siteConfig 3 0 siteProject
      siteRejectedRun 1
      [⟨Call.AddOrUpdateEnvironment ⟨"staging", 7, "develop"⟩, ⟨some transportError, none⟩⟩]
      ⟨Call.AddOrUpdateEnvironment ⟨"staging", 7, "develop"⟩, ⟨some transportError, none⟩⟩
      transportError (by decide) (by decide) (by decide) rfl rfl (by decide)).2.2.2⟩

/-! ## C11: failures of calls that resolve no identifier -/

theorem sameResolving_append {a₁ a₂ b₁ b₂ : List Event} (h₁ : SameResolving a₁ b₁)
    (h₂ : SameResolving a₂ b₂) : SameResolving (a₁ ++ a₂) (b₁ ++ b₂) := by
  induction h₁ with
  | nil => exact h₂
  | cons hxy _ ih => exact List.Forall₂.cons hxy ih

theorem sameResolving_calls {a b : List Event} (h : SameResolving a b) :
    a.map (fun ev => ev.call) = b.map (fun ev => ev.call) := by
  induction h with
  | nil => rfl
  | cons hxy _ ih => simp [hxy.1, ih]

/-- One more call, answered alike if it resolves an identifier. -/
theorem sameResolving_snoc {a b : List Event} (h : SameResolving a b) (c : Call)
    (r₁ r₂ : Response) (hr : c.isResolving = true → r₁ = r₂) :
    SameResolving (a ++ [⟨c, r₁⟩]) (b ++ [⟨c, r₂⟩]) :=
  sameResolving_append h (List.Forall₂.cons ⟨rfl, hr⟩ List.Forall₂.nil)

theorem sim_skip : Sim skip skip :=
  fun _ _ ht hn => ⟨ht, hn, rfl⟩

theorem sim_andThen {a₁ a₂ b₁ b₂ : Block} (ha : Sim a₁ a₂) (hb : Sim b₁ b₂) :
    Sim (andThen a₁ b₁) (andThen a₂ b₂) := by
  intro s₁ s₂ ht hn
  obtain ⟨ht', hn', hr⟩ := ha s₁ s₂ ht hn
  rcases andThen_cases a₁ b₁ s₁ with ⟨h₁, heq₁⟩ | ⟨e, h₁, heq₁⟩
  · have h₂ : (a₂ s₂).1 = none := by rw [← hr]; exact h₁
    rw [heq₁, andThen_none (Prod.ext h₂ rfl : a₂ s₂ = (none, _))]
    exact hb _ _ ht' hn'
  · have h₂ : (a₂ s₂).1 = some e := by rw [← hr]; exact h₁
    rw [heq₁, andThen_some (Prod.ext h₂ rfl : a₂ s₂ = (some e, _))]
    exact ⟨ht', hn', rfl⟩

theorem sim_forEach {α : Type} {f₁ f₂ : α → Block} (h : ∀ x, Sim (f₁ x) (f₂ x)) :
    ∀ xs : List α, Sim (forEach xs f₁) (forEach xs f₂)
  | [] => sim_skip
  | x :: xs => by
    rw [forEach_cons, forEach_cons]
    exact sim_andThen (h x) (sim_forEach h xs)

theorem sim_return (e : GoError) : Sim (fun s => (some e, s)) (fun s => (some e, s)) :=
  fun _ _ ht hn => ⟨ht, hn, rfl⟩

theorem sim_ite {c : Prop} [Decidable c] {a₁ a₂ b₁ b₂ : Block} (ha : Sim a₁ a₂)
    (hb : Sim b₁ b₂) : Sim (if c then a₁ else b₁) (if c then a₂ else b₂) := by
  by_cases h : c
  · simpa [h] using ha
  · simpa [h] using hb

/-- With `keepGoing`, an `attempt` of a call that resolves no identifier runs
alike whatever the two clients answer. -/
theorem sim_attempt (i₁ i₂ : Importer) (c : Nat → Call) (ctx : String)
    (hc : ∀ n, (c n).isResolving = false) :
    Sim (fun s => attempt i₁ true (c s.newProj) ctx s)
      (fun s => attempt i₂ true (c s.newProj) ctx s) := by
  intro s₁ s₂ ht hn
  refine ⟨?_, ?_, ?_⟩
  · show SameResolving (attempt i₁ true (c s₁.newProj) ctx s₁).2.trace
      (attempt i₂ true (c s₂.newProj) ctx s₂).2.trace
    rw [attempt_trace, attempt_trace, hn]
    exact sameResolving_snoc ht _ _ _ (fun h => by rw [hc] at h; cases h)
  · show (attempt i₁ true (c s₁.newProj) ctx s₁).2.newProj =
      (attempt i₂ true (c s₂.newProj) ctx s₂).2.newProj
    rw [attempt_newProj, attempt_newProj, hn]
  · exact (noReturn_attempt i₁ (fun s => c s.newProj) ctx s₁).trans
      (noReturn_attempt i₂ (fun s => c s.newProj) ctx s₂).symm

theorem sim_attempt_const (i₁ i₂ : Importer) (c : Call) (ctx : String)
    (hc : c.isResolving = false) :
    Sim (attempt i₁ true c ctx) (attempt i₂ true c ctx) :=
  sim_attempt i₁ i₂ (fun _ => c) ctx (fun _ => hc)

theorem sim_addEnvironmentEnvVars (i₁ i₂ : Importer) (env : EnvironmentConfig) (m : Nat) :
    Sim (addEnvironmentEnvVars i₁ true env m) (addEnvironmentEnvVars i₂ true env m) :=
  sim_forEach (fun kv => sim_attempt_const i₁ i₂
    (Call.AddEnvVariable ⟨kv, EnvVariableType.EnvironmentVar, m⟩)
    "couldn't add Environment EnvVariable" rfl) _

theorem sim_importEnvironment (i₁ i₂ : Importer) (h : AgreeOnResolving i₁ i₂)
    (p : ProjectConfig) (env : EnvironmentConfig) :
    Sim (importEnvironment i₁ true p env) (importEnvironment i₂ true p env) := by
  intro s₁ s₂ ht hn
  obtain ⟨c, hc⟩ : ∃ c, c = Call.AddOrUpdateEnvironment
      { env.Environment.AddEnvironmentInput with ProjectID := s₂.newProj } := ⟨_, rfl⟩
  have hr : i₁.respond s₁.trace c = i₂.respond s₂.trace c :=
    h _ _ c ht (by rw [hc]; rfl)
  obtain ⟨r, hr₂⟩ : ∃ r, r = i₂.respond s₂.trace c := ⟨_, rfl⟩
  have hr₁ : i₁.respond s₁.trace c = r := hr.trans hr₂.symm
  have ht₁ : SameResolving (s₁.trace ++ [⟨c, r⟩]) (s₂.trace ++ [⟨c, r⟩]) :=
    sameResolving_snoc ht c r r (fun _ => rfl)
  obtain ⟨c₂, hc₂⟩ : ∃ c₂, c₂ = Call.EnvironmentByName
      env.Environment.AddEnvironmentInput.Name s₂.newProj := ⟨_, rfl⟩
  have hr' : i₁.respond (s₁.trace ++ [⟨c, r⟩]) c₂ = i₂.respond (s₂.trace ++ [⟨c, r⟩]) c₂ :=
    h _ _ c₂ ht₁ (by rw [hc₂]; rfl)
  obtain ⟨r₂, hr₂'⟩ : ∃ r₂, r₂ = i₂.respond (s₂.trace ++ [⟨c, r⟩]) c₂ := ⟨_, rfl⟩
  have hr₁' : i₁.respond (s₁.trace ++ [⟨c, r⟩]) c₂ = r₂ := hr'.trans hr₂'.symm
  have ht₂ : SameResolving (s₁.trace ++ [⟨c, r⟩] ++ [⟨c₂, r₂⟩])
      (s₂.trace ++ [⟨c, r⟩] ++ [⟨c₂, r₂⟩]) :=
    sameResolving_snoc ht₁ c₂ r₂ r₂ (fun _ => rfl)
  simp only [importEnvironment, St.invoke, St.printf, hn, ← hc, hr₁, ← hr₂, ← hc₂, hr₁',
    ← hr₂']
  cases herr : r.err with
  | none =>
    exact sim_addEnvironmentEnvVars i₁ i₂ env _ _ _ ht₁ rfl
  | some err =>
    by_cases his : err.Is ErrExist = true
    · simp only [his, if_true, Bool.not_true, Bool.false_eq_true, if_false]
      cases herr₂ : r₂.err with
      | none => exact sim_addEnvironmentEnvVars i₁ i₂ env _ _ _ ht₂ rfl
      | some err₂ => exact ⟨ht₂, rfl, rfl⟩
    · simp only [his, Bool.false_eq_true, if_false, Bool.not_true]
      refine ⟨ht₁, ?_, ?_⟩ <;> first | rfl | trivial

theorem sim_seq : ∀ (bs₁ bs₂ : List Block), List.Forall₂ Sim bs₁ bs₂ → Sim (seq bs₁) (seq bs₂)
  | _, _, List.Forall₂.nil => sim_skip
  | _, _, List.Forall₂.cons h hs => by
    rw [seq_cons, seq_cons]
    exact sim_andThen h (sim_seq _ _ hs)

theorem sim_addProjectAssociations (i₁ i₂ : Importer) (p : ProjectConfig) :
    Sim (addProjectAssociations i₁ true p) (addProjectAssociations i₂ true p) := by
  apply sim_seq
  refine List.Forall₂.cons ?_ (List.Forall₂.cons ?_ (List.Forall₂.cons ?_
    (List.Forall₂.cons ?_ (List.Forall₂.cons ?_ List.Forall₂.nil))))
  · exact sim_ite (sim_attempt_const i₁ i₂ _ _ (by rfl)) sim_skip
  · exact sim_ite (sim_return _) sim_skip
  · exact sim_forEach (fun _ => sim_attempt_const i₁ i₂ _ _ (by rfl)) _
  · exact sim_forEach (fun _ => sim_attempt_const i₁ i₂ _ _ (by rfl)) _
  · cases p.Notifications with
    | none => exact sim_skip
    | some ns =>
      apply sim_seq
      exact List.Forall₂.cons (sim_forEach (fun _ => sim_attempt_const i₁ i₂ _ _ (by rfl)) _)
        (List.Forall₂.cons (sim_forEach (fun _ => sim_attempt_const i₁ i₂ _ _ (by rfl)) _)
          List.Forall₂.nil)

theorem sim_importProjectSteps (i₁ i₂ : Importer) (h : AgreeOnResolving i₁ i₂)
    (p : ProjectConfig) :
    Sim (importProjectSteps i₁ true p) (importProjectSteps i₂ true p) := by
  apply sim_seq
  refine List.Forall₂.cons ?_ (List.Forall₂.cons ?_ (List.Forall₂.cons ?_ List.Forall₂.nil))
  · exact sim_forEach (fun kv => sim_attempt i₁ i₂
      (fun n => Call.AddEnvVariable ⟨kv, EnvVariableType.ProjectVar, n⟩)
      "couldn't add Project EnvVariable" (fun _ => rfl)) _
  · exact sim_forEach (fun env => sim_importEnvironment i₁ i₂ h p env) _
  · exact sim_addProjectAssociations i₁ i₂ p

theorem sim_importGlobals (i₁ i₂ : Importer) (config : Config) :
    Sim (importGlobals i₁ true config) (importGlobals i₂ true config) := by
  apply sim_seq
  refine List.Forall₂.cons ?_ (List.Forall₂.cons ?_ (List.Forall₂.cons ?_
    (List.Forall₂.cons ?_ (List.Forall₂.cons ?_ (List.Forall₂.cons ?_ List.Forall₂.nil)))))
  · exact sim_forEach (fun _ => sim_attempt_const i₁ i₂ _ _ (by rfl)) _
  · exact sim_forEach (fun _ => sim_attempt_const i₁ i₂ _ _ (by rfl)) _
  · exact sim_forEach (fun _ => sim_attempt_const i₁ i₂ _ _ (by rfl)) _
  · exact sim_forEach (fun _ => sim_forEach (fun _ => sim_attempt_const i₁ i₂ _ _ (by rfl)) _) _
  · exact sim_forEach (fun _ => sim_forEach (fun _ => sim_attempt_const i₁ i₂ _ _ (by rfl)) _) _
  · cases config.Notifications with
    | none => exact sim_skip
    | some ns =>
      apply sim_seq
      exact List.Forall₂.cons (sim_forEach (fun _ => sim_attempt_const i₁ i₂ _ _ (by rfl)) _)
        (List.Forall₂.cons (sim_forEach (fun _ => sim_attempt_const i₁ i₂ _ _ (by rfl)) _)
          List.Forall₂.nil)

theorem sim_importProject (i₁ i₂ : Importer) (h : AgreeOnResolving i₁ i₂)
    (openshiftID : Nat) (p : ProjectConfig) :
    Sim (importProject i₁ true openshiftID p) (importProject i₂ true openshiftID p) := by
  intro s₁ s₂ ht hn
  obtain ⟨p', hp'⟩ : ∃ p', p' = p.withOpenshift openshiftID := ⟨_, rfl⟩
  obtain ⟨c, hc⟩ : ∃ c, c = Call.AddProject p'.AddProjectInput := ⟨_, rfl⟩
  have hr : i₁.respond s₁.trace c = i₂.respond s₂.trace c :=
    h _ _ c ht (by rw [hc]; rfl)
  obtain ⟨r, hr₂⟩ : ∃ r, r = i₂.respond s₂.trace c := ⟨_, rfl⟩
  have hr₁ : i₁.respond s₁.trace c = r := hr.trans hr₂.symm
  have ht₁ : SameResolving (s₁.trace ++ [⟨c, r⟩]) (s₂.trace ++ [⟨c, r⟩]) :=
    sameResolving_snoc ht c r r (fun _ => rfl)
  obtain ⟨c₂, hc₂⟩ : ∃ c₂, c₂ = Call.ProjectByName p'.AddProjectInput.Name := ⟨_, rfl⟩
  have hr' : i₁.respond (s₁.trace ++ [⟨c, r⟩]) c₂ = i₂.respond (s₂.trace ++ [⟨c, r⟩]) c₂ :=
    h _ _ c₂ ht₁ (by rw [hc₂]; rfl)
  obtain ⟨r₂, hr₂'⟩ : ∃ r₂, r₂ = i₂.respond (s₂.trace ++ [⟨c, r⟩]) c₂ := ⟨_, rfl⟩
  have hr₁' : i₁.respond (s₁.trace ++ [⟨c, r⟩]) c₂ = r₂ := hr'.trans hr₂'.symm
  have ht₂ : SameResolving (s₁.trace ++ [⟨c, r⟩] ++ [⟨c₂, r₂⟩])
      (s₂.trace ++ [⟨c, r⟩] ++ [⟨c₂, r₂⟩]) :=
    sameResolving_snoc ht₁ c₂ r₂ r₂ (fun _ => rfl)
  simp only [importProject, St.invokeProj, St.printf, hn, ← hp', ← hc, hr₁, ← hr₂, ← hc₂,
    hr₁', ← hr₂']
  cases herr : r.err with
  | none =>
    exact sim_importProjectSteps i₁ i₂ h p' _ _ ht₁ rfl
  | some err =>
    by_cases his : err.Is ErrExist = true
    · simp only [his, if_true, Bool.not_true, Bool.false_eq_true, if_false]
      cases herr₂ : r₂.err with
      | none => exact sim_importProjectSteps i₁ i₂ h p' _ _ ht₂ rfl
      | some err₂ => exact ⟨ht₂, rfl, rfl⟩
    · simp only [his, Bool.false_eq_true, if_false, Bool.not_true]
      refine ⟨ht₁, ?_, ?_⟩ <;> first | rfl | trivial

/-- With `keepGoing`, two clients that agree on the outcomes of the calls that
resolve an identifier make `Import` run alike. -/
theorem Import_sim (i₁ i₂ : Importer) (h : AgreeOnResolving i₁ i₂) (config : Config)
    (openshiftID : Nat) :
    SameResolving (Import i₁ config true openshiftID).2.trace
      (Import i₂ config true openshiftID).2.trace ∧
    (Import i₁ config true openshiftID).1 = (Import i₂ config true openshiftID).1 := by
  rw [Import_eq, Import_eq]
  obtain ⟨h₁, _, h₃⟩ := sim_andThen (sim_importGlobals i₁ i₂ config)
    (sim_forEach (fun p => sim_importProject i₁ i₂ h openshiftID p) config.Projects)
    St.init St.init List.Forall₂.nil rfl
  exact ⟨h₁, h₃⟩

/-- Against a client that never fails, on a configuration whose projects
declare at most one billing group each, the calls of the run are the reference
sequence. -/
theorem Import_reference (i : Importer) (config : Config) (keepGoing : Bool)
    (openshiftID : Nat)
    (hbg : ∀ p ∈ config.Projects, p.BillingGroups.length ≤ 1)
    (hok : ∀ history c, (i.respond history c).err = none) :
    (Import i config keepGoing openshiftID).1 = none ∧
    erasedCalls (Import i config keepGoing openshiftID).2.trace =
      reference config openshiftID := by
  have hprojects : ∀ ps : List ProjectConfig, (∀ p ∈ ps, p.BillingGroups.length ≤ 1) →
      Produces (ps.flatMap (projectReference openshiftID))
        (forEach ps (importProject i keepGoing openshiftID)) := by
    intro ps
    induction ps with
    | nil => intro _; exact produces_skip
    | cons p ps ih =>
      intro h
      rw [forEach_cons, List.flatMap_cons]
      exact produces_andThen
        (produces_importProject i hok keepGoing openshiftID p (h p (List.mem_cons_self _ _)))
        (ih (fun q hq => h q (List.mem_cons_of_mem _ hq)))
  have h := produces_andThen (produces_importGlobals i hok keepGoing config)
    (hprojects config.Projects hbg) St.init
  unfold ProducesAt at h
  rw [← Import_eq] at h
  refine ⟨h.1, ?_⟩
  rw [h.2]
  simp [erasedCalls, St.init, reference]

/-- C11: with `keepGoing = true`, when two clients agree on the outcomes of
`AddProject`, `ProjectByName`, `AddOrUpdateEnvironment` and
`EnvironmentByName`, and answer every other call as they please (any of them
may fail with one client and succeed with the other), `Import` issues the same
calls with both, with the same inputs and in the same order, gets the same
answers to the calls that resolve an identifier, and returns the same result.
In particular, when the second client never fails and every project declares
at most one billing group, the run with the first client, whatever fails in it
(an `AddUser` call, say), returns nil and issues the calls of the reference
sequence of an all-success run, the identifiers apart. -/
theorem C11_other_failures_change_nothing (i₁ i₂ : Importer) (config : Config)
    (openshiftID : Nat) (h : AgreeOnResolving i₁ i₂) :
    (Import i₁ config true openshiftID).2.trace.map (fun ev => ev.call) =
      (Import i₂ config true openshiftID).2.trace.map (fun ev => ev.call) ∧
    SameResolving (Import i₁ config true openshiftID).2.trace
      (Import i₂ config true openshiftID).2.trace ∧
    (Import i₁ config true openshiftID).1 = (Import i₂ config true openshiftID).1 ∧
    ((∀ history c, (i₂.respond history c).err = none) →
      (∀ p ∈ config.Projects, p.BillingGroups.length ≤ 1) →
      (Import i₁ config true openshiftID).1 = none ∧
      erasedCalls (Import i₁ config true openshiftID).2.trace =
        reference config openshiftID) := by
  obtain ⟨h₁, h₂⟩ := Import_sim i₁ i₂ h config openshiftID
  have hcalls := sameResolving_calls h₁
  refine ⟨hcalls, h₁, h₂, ?_⟩
  intro hok hbg
  obtain ⟨hres, href⟩ := Import_reference i₂ config true openshiftID hbg hok
  refine ⟨h₂.trans hres, ?_⟩
  rw [← href]
  have hmap : ∀ evs : List Event, erasedCalls evs =
      (evs.map (fun ev => ev.call)).map Call.eraseID := by
    intro evs
    simp [erasedCalls]
  rw [hmap, hmap, hcalls]

/-- C11 on the configuration with one entity of every kind: a client on which
`AddUser` fails and one on which nothing fails agree on the calls that resolve
an identifier, so the run in which `AddUser` fails issues the calls of the
all-success run and returns nil. -/
theorem C11_other_failures_change_nothing_witness :
    AgreeOnResolving userFailingClient succeedingClient ∧
    (Import userFailingClient demoConfig true 3).2.trace.map (fun ev => ev.call) =
      (Import succeedingClient demoConfig true 3).2.trace.map (fun ev => ev.call) ∧
    (Import userFailingClient demoConfig true 3).1 =
      (Import succeedingClient demoConfig true 3).1 ∧
    (Import userFailingClient demoConfig true 3).1 = none ∧
    erasedCalls (Import userFailingClient demoConfig true 3).2.trace =
      reference demoConfig 3 :=
  have hagree : AgreeOnResolving userFailingClient succeedingClient :=
    fun _ _ c _ hc => by cases c <;> first | rfl | cases hc
  have h := C11_other_failures_change_nothing userFailingClient succeedingClient demoConfig 3
    hagree
  have h' := h.2.2.2 (fun _ c => by cases c <;> rfl) (by decide)
  ⟨hagree, h.1, h.2.2.1, h'.1, h'.2⟩

/-! ## C14: the error returned without `keepGoing` -/

/-- The context of a call other than a membership does not depend on where
the call is made. -/
theorem phaseContext_start {c : Call} (h : c.isAddProject = true) (g g' b : Bool) :
    phaseContext g c b = phaseContext g' c b := by
  cases c <;> first | rfl | cases h

theorem wraps_skip (g : Bool) : WrapsFailure g skip :=
  fun s => ⟨[], by simp [skip], Or.inl (by simp)⟩

theorem wraps_andThen {g : Bool} {b₁ b₂ : Block} (h₁ : WrapsFailure g b₁)
    (h₂ : WrapsFailure g b₂) : WrapsFailure g (andThen b₁ b₂) := by
  intro s
  obtain ⟨evs₁, ht₁, hc₁⟩ := h₁ s
  rcases andThen_cases b₁ b₂ s with ⟨hnone, heq⟩ | ⟨e, he, heq⟩
  · rcases hc₁ with hok | ⟨_, _, _, _, _, _, hres⟩
    · obtain ⟨evs₂, ht₂, hc₂⟩ := h₂ (b₁ s).2
      refine ⟨evs₁ ++ evs₂, by rw [heq, ht₂, ht₁, List.append_assoc], ?_⟩
      rcases hc₂ with hok₂ | ⟨init, last, e, hev, hinit, hlast, hres⟩
      · left
        intro ev hev
        rcases List.mem_append.1 hev with h | h
        · exact hok ev h
        · exact hok₂ ev h
      · right
        refine ⟨evs₁ ++ init, last, e, by rw [hev, List.append_assoc], ?_, hlast,
          by rw [heq]; exact hres⟩
        intro ev hev
        rcases List.mem_append.1 hev with h | h
        · exact hok ev h
        · exact hinit ev h
    · rw [hnone] at hres
      cases hres
  · refine ⟨evs₁, by rw [heq]; exact ht₁, ?_⟩
    rcases hc₁ with hok | ⟨init, last, e', hev, hinit, hlast, hres⟩
    · exact Or.inl hok
    · exact Or.inr ⟨init, last, e', hev, hinit, hlast,
        by rw [heq]; exact he.symm.trans hres⟩

theorem wraps_forEach {g : Bool} {α : Type} {body : α → Block}
    (h : ∀ x, WrapsFailure g (body x)) : ∀ xs : List α, WrapsFailure g (forEach xs body)
  | [] => wraps_skip g
  | x :: xs => by
    rw [forEach_cons]
    exact wraps_andThen (h x) (wraps_forEach h xs)

theorem wraps_seq {g : Bool} :
    ∀ bs : List Block, (∀ b ∈ bs, WrapsFailure g b) → WrapsFailure g (seq bs)
  | [], _ => wraps_skip g
  | b :: bs, h => by
    rw [seq_cons]
    exact wraps_andThen (h b (List.mem_cons_self _ _))
      (wraps_seq bs (fun y hy => h y (List.mem_cons_of_mem _ hy)))

/-- An `attempt` without `keepGoing`, whose call may be computed from the state. -/
theorem wraps_attempt (g : Bool) (i : Importer) (c : St → Call) (ctx : String)
    (hctx : ∀ s b, ctx = phaseContext g (c s) b) :
    WrapsFailure g (fun s => attempt i false (c s) ctx s) := by
  intro s
  refine ⟨[⟨c s, i.respond s.trace (c s)⟩], attempt_trace _ _ _ _ _, ?_⟩
  cases h : (i.respond s.trace (c s)).err with
  | none => left; simp [h]
  | some err =>
    right
    refine ⟨[], _, err, rfl, by simp, h, ?_⟩
    show (attempt i false (c s) ctx s).1 = _
    rw [attempt_result, h, ← hctx s]
    simp

theorem wraps_attempt_const (g : Bool) (i : Importer) (c : Call) (ctx : String)
    (hctx : ∀ b, ctx = phaseContext g c b) :
    WrapsFailure g (attempt i false c ctx) :=
  wraps_attempt g i (fun _ => c) ctx (fun _ b => hctx b)

/-- A call issued first, then a block run only if the call succeeded. -/
theorem wraps_after_call (g : Bool) (i : Importer) (s : St) (c : Call) (b : Block) (s₁ : St)
    (hs₁ : s₁.trace = s.trace ++ [⟨c, i.respond s.trace c⟩])
    (res : Option GoError × St)
    (hok : (i.respond s.trace c).err = none → res = b s₁)
    (hfail : ∀ e, (i.respond s.trace c).err = some e →
      res.1 = some (Errorf (phaseContext g c (e.Is ErrExist)) e) ∧
      res.2.trace = s₁.trace)
    (hb : WrapsFailure g b) :
    ∃ evs, res.2.trace = s.trace ++ evs ∧
      ((∀ ev ∈ evs, ev.resp.err = none) ∨
        (∃ init last e, evs = init ++ [last] ∧ (∀ ev ∈ init, ev.resp.err = none) ∧
          last.resp.err = some e ∧
          res.1 = some (Errorf (phaseContext g last.call (e.Is ErrExist)) e))) := by
  cases h : (i.respond s.trace c).err with
  | none =>
    obtain ⟨evs, ht, hc⟩ := hb s₁
    rw [hok h]
    refine ⟨⟨c, i.respond s.trace c⟩ :: evs, by rw [ht, hs₁]; simp, ?_⟩
    rcases hc with hall | ⟨init, last, e, hev, hinit, hlast, hres⟩
    · left
      intro ev hev
      rcases List.mem_cons.1 hev with h' | h'
      · rw [h']; exact h
      · exact hall ev h'
    · right
      refine ⟨⟨c, i.respond s.trace c⟩ :: init, last, e, by rw [hev]; rfl, ?_, hlast, hres⟩
      intro ev hev
      rcases List.mem_cons.1 hev with h' | h'
      · rw [h']; exact h
      · exact hinit ev h'
  | some err =>
    obtain ⟨hres, ht⟩ := hfail err h
    exact ⟨[⟨c, i.respond s.trace c⟩], by rw [ht, hs₁],
      Or.inr ⟨[], _, err, rfl, by simp, h, hres⟩⟩

theorem wraps_importEnvironment (i : Importer) (p : ProjectConfig) (env : EnvironmentConfig) :
    WrapsFailure true (importEnvironment i false p env) := by
  intro s
  apply wraps_after_call true i s
    (Call.AddOrUpdateEnvironment { env.Environment.AddEnvironmentInput with ProjectID := s.newProj })
    (addEnvironmentEnvVars i false env
      ((i.respond s.trace (Call.AddOrUpdateEnvironment
        { env.Environment.AddEnvironmentInput with ProjectID := s.newProj })).out.getD 0))
    { s with trace := s.trace ++ [⟨_, i.respond s.trace (Call.AddOrUpdateEnvironment
        { env.Environment.AddEnvironmentInput with ProjectID := s.newProj })⟩] } rfl
  · intro h
    simp only [importEnvironment, St.invoke, h]
  · intro e h
    simp only [importEnvironment, St.invoke, h]
    by_cases hi : e.Is ErrExist = true
    · simp [hi, phaseContext]
    · simp [hi, phaseContext]
  · exact wraps_forEach (fun _ => wraps_attempt_const true i _ _ (fun _ => rfl)) _

theorem wraps_return (g : Bool) (e : GoError) : WrapsFailure g (fun s => (some e, s)) :=
  fun s => ⟨[], by simp, Or.inl (by simp)⟩

theorem wraps_ite {g : Bool} {c : Prop} [Decidable c] {b₁ b₂ : Block}
    (h₁ : WrapsFailure g b₁) (h₂ : WrapsFailure g b₂) :
    WrapsFailure g (if c then b₁ else b₂) := by
  by_cases h : c
  · simpa [h] using h₁
  · simpa [h] using h₂

theorem wraps_addProjectAssociations (i : Importer) (p : ProjectConfig) :
    WrapsFailure true (addProjectAssociations i false p) := by
  apply wraps_seq
  intro b hb
  simp only [List.mem_cons, List.mem_singleton, List.not_mem_nil, or_false] at hb
  rcases hb with rfl | rfl | rfl | rfl | rfl
  · exact wraps_ite (wraps_attempt_const true i _ _ (fun _ => rfl)) (wraps_skip true)
  · exact wraps_ite (wraps_return true _) (wraps_skip true)
  · exact wraps_forEach (fun _ => wraps_attempt_const true i _ _ (fun _ => rfl)) _
  · exact wraps_forEach (fun _ => wraps_attempt_const true i _ _ (fun _ => rfl)) _
  · cases p.Notifications with
    | none => exact wraps_skip true
    | some ns =>
      apply wraps_seq
      intro b hb
      simp only [List.mem_cons, List.mem_singleton, List.not_mem_nil, or_false] at hb
      rcases hb with rfl | rfl
      · exact wraps_forEach (fun _ => wraps_attempt_const true i _ _ (fun _ => rfl)) _
      · exact wraps_forEach (fun _ => wraps_attempt_const true i _ _ (fun _ => rfl)) _

theorem wraps_importProjectSteps (i : Importer) (p : ProjectConfig) :
    WrapsFailure true (importProjectSteps i false p) := by
  apply wraps_seq
  intro b hb
  simp only [List.mem_cons, List.mem_singleton, List.not_mem_nil, or_false] at hb
  rcases hb with rfl | rfl | rfl
  · exact wraps_forEach (fun ev => wraps_attempt true i _ _ (fun _ _ => rfl)) _
  · exact wraps_forEach (fun env => wraps_importEnvironment i p env) _
  · exact wraps_addProjectAssociations i p

theorem wraps_importProject (i : Importer) (openshiftID : Nat) (p : ProjectConfig) :
    WrapsFailure true (importProject i false openshiftID p) := by
  intro s
  apply wraps_after_call true i s
    (Call.AddProject (p.withOpenshift openshiftID).AddProjectInput)
    (importProjectSteps i false (p.withOpenshift openshiftID))
    (s.invokeProj i (Call.AddProject (p.withOpenshift openshiftID).AddProjectInput)).2 rfl
  · intro h
    simp only [importProject, St.invokeProj, h]
  · intro e h
    simp only [importProject, St.invokeProj, h]
    by_cases hi : e.Is ErrExist = true
    · simp [hi, phaseContext]
    · simp [hi, phaseContext]
  · exact wraps_importProjectSteps i _

theorem wraps_importGlobals (i : Importer) (config : Config) :
    WrapsFailure false (importGlobals i false config) := by
  apply wraps_seq
  intro b hb
  simp only [List.mem_cons, List.mem_singleton, List.not_mem_nil, or_false] at hb
  rcases hb with rfl | rfl | rfl | rfl | rfl | rfl
  · exact wraps_forEach (fun _ => wraps_attempt_const false i _ _ (fun _ => rfl)) _
  · exact wraps_forEach (fun _ => wraps_attempt_const false i _ _ (fun _ => rfl)) _
  · exact wraps_forEach (fun _ => wraps_attempt_const false i _ _ (fun _ => rfl)) _
  · exact wraps_forEach (fun _ => wraps_forEach (fun _ => wraps_attempt_const false i _ _
      (fun _ => rfl)) _) _
  · exact wraps_forEach (fun _ => wraps_forEach (fun _ => wraps_attempt_const false i _ _
      (fun _ => rfl)) _) _
  · cases config.Notifications with
    | none => exact wraps_skip false
    | some ns =>
      apply wraps_seq
      intro b hb
      simp only [List.mem_cons, List.mem_singleton, List.not_mem_nil, or_false] at hb
      rcases hb with rfl | rfl
      · exact wraps_forEach (fun _ => wraps_attempt_const false i _ _ (fun _ => rfl)) _
      · exact wraps_forEach (fun _ => wraps_attempt_const false i _ _ (fun _ => rfl)) _

/-- The loop over the projects issues no call, or `AddProject` first. -/
theorem startsWithProject_projects (i : Importer) (keepGoing : Bool) (openshiftID : Nat) :
    ∀ ps : List ProjectConfig,
      StartsWithProject (forEach ps (importProject i keepGoing openshiftID))
  | [] => fun s => ⟨[], by simp [forEach_nil], Or.inl rfl⟩
  | p :: ps => by
    intro s
    obtain ⟨seg, hseg, hrun⟩ := importProject_run i keepGoing openshiftID p s
    obtain ⟨ev, rest, hev, hstart, _⟩ := projectRun_isSegment hrun
    rw [forEach_cons]
    rcases andThen_cases (importProject i keepGoing openshiftID p)
      (forEach ps (importProject i keepGoing openshiftID)) s with ⟨_, heq⟩ | ⟨e, _, heq⟩
    · obtain ⟨evs₂, ht₂, _⟩ := startsWithProject_projects i keepGoing openshiftID ps
        (importProject i keepGoing openshiftID p s).2
      exact ⟨seg ++ evs₂, by rw [heq, ht₂, hseg, List.append_assoc],
        Or.inr ⟨ev, rest ++ evs₂, by rw [hev]; rfl, hstart⟩⟩
    · exact ⟨seg, by rw [heq]; exact hseg, Or.inr ⟨ev, rest, hev, hstart⟩⟩

/-- A failing call that is not the last among calls of which only the last
may have failed is that last call. -/
theorem failing_is_last {before after init : List Event} {ev last : Event} {e : GoError}
    (hev : before ++ ev :: after = init ++ [last])
    (hinit : ∀ ev' ∈ init, ev'.resp.err = none) (hfail : ev.resp.err = some e) :
    before = init ∧ ev = last ∧ after = [] := by
  rcases List.append_eq_append_iff.1 hev with ⟨a, ha, hb⟩ | ⟨c, hc, hd⟩
  · cases a with
    | nil =>
      simp only [List.nil_append, List.cons.injEq] at hb
      exact ⟨by simpa using ha.symm, hb.1, hb.2⟩
    | cons x a =>
      simp only [List.cons_append, List.cons.injEq] at hb
      have := hinit ev (by rw [ha, ← hb.1]; simp)
      rw [this] at hfail
      cases hfail
  · cases c with
    | nil =>
      simp only [List.nil_append, List.cons.injEq] at hd
      exact ⟨by simpa using hc, hd.1.symm, hd.2.symm⟩
    | cons x c =>
      simp only [List.cons_append, List.cons.injEq] at hd
      have := congrArg List.length hd.2
      simp at this
      omega

/-- Without `keepGoing`, a failing call is the first failing call and the last
call of the run, and `Import` returns its error wrapped under the context of
the call in its phase. -/
theorem Import_wraps_failure (i : Importer) (config : Config) (openshiftID : Nat)
    (before after : List Event) (ev : Event) (e : GoError)
    (htrace : (Import i config false openshiftID).2.trace = before ++ ev :: after)
    (hfail : ev.resp.err = some e) :
    (∀ ev' ∈ before, ev'.resp.err = none) ∧ after = [] ∧
    (Import i config false openshiftID).1 =
      some (Errorf (phaseContext (inProjects before) ev.call (e.Is ErrExist)) e) := by
  obtain ⟨evs₀, ht₀, _, hg, _⟩ := sat_importGlobals i false config St.init
  obtain ⟨evs₁, ht₁, hc₁⟩ := wraps_importGlobals i config St.init
  have h01 : evs₀ = evs₁ := List.append_cancel_left (ht₀.symm.trans ht₁)
  subst h01
  have hglob : ∀ l : List Event, (∀ x ∈ l, x ∈ evs₀) → inProjects l = false := by
    intro l hl
    simp only [inProjects, List.any_eq_false]
    intro x hx
    simpa using isGlobal_not_start (hg x (hl x hx)).1
  rw [Import_eq] at htrace ⊢
  rcases andThen_cases (importGlobals i false config)
    (forEach config.Projects (importProject i false openshiftID)) St.init
    with ⟨hnone, heq⟩ | ⟨e₀, he₀, heq⟩
  · obtain ⟨evs₂, ht₂, hc₂⟩ := wraps_forEach (fun p => wraps_importProject i openshiftID p)
      config.Projects (importGlobals i false config St.init).2
    obtain ⟨evs₃, ht₃, hstart⟩ := startsWithProject_projects i false openshiftID
      config.Projects (importGlobals i false config St.init).2
    have h23 : evs₃ = evs₂ := List.append_cancel_left (ht₃.symm.trans ht₂)
    subst h23
    rw [heq] at htrace ⊢
    have hok₁ : ∀ x ∈ evs₀, x.resp.err = none := by
      rcases hc₁ with hok | ⟨_, _, _, _, _, _, hres⟩
      · exact hok
      · rw [hnone] at hres
        cases hres
    have hall : evs₀ ++ evs₃ = before ++ ev :: after := by
      rw [ht₂, ht₁] at htrace
      simpa [St.init] using htrace
    rcases hc₂ with hok₂ | ⟨init, last, e', hev, hinit, hlast, hres⟩
    · have hmem : ev ∈ evs₀ ++ evs₃ := by rw [hall]; simp
      have : ev.resp.err = none := by
        rcases List.mem_append.1 hmem with h | h
        · exact hok₁ ev h
        · exact hok₂ ev h
      rw [this] at hfail
      cases hfail
    · have hinit' : ∀ x ∈ evs₀ ++ init, x.resp.err = none := by
        intro x hx
        rcases List.mem_append.1 hx with h | h
        · exact hok₁ x h
        · exact hinit x h
      have hall' : before ++ ev :: after = (evs₀ ++ init) ++ [last] := by
        rw [← hall, hev, List.append_assoc]
      obtain ⟨hb, hl, ha⟩ := failing_is_last hall' hinit' hfail
      subst hl
      rw [hlast] at hfail
      cases hfail
      refine ⟨by rw [hb]; exact hinit', ha, ?_⟩
      rw [hres]
      congr 2
      rcases hstart with hnil | ⟨ev₀, rest, hcons, hproj⟩
      · rw [hnil] at hev
        simp at hev
      · rw [hcons] at hev
        cases init with
        | nil =>
          simp only [List.nil_append, List.cons.injEq] at hev
          rw [hev.1] at hproj
          exact phaseContext_start hproj _ _ _
        | cons x init =>
          simp only [List.cons_append, List.cons.injEq] at hev
          have : inProjects before = true := by
            rw [hb, ← hev.1]
            simp [inProjects, hproj]
          rw [this]
  · rw [heq] at htrace ⊢
    have hall : evs₀ = before ++ ev :: after := by
      have : (importGlobals i false config St.init).2.trace = before ++ ev :: after := htrace
      rw [ht₁] at this
      simpa [St.init] using this
    rcases hc₁ with hok | ⟨init, last, e', hev, hinit, hlast, hres⟩
    · have := hok ev (by rw [hall]; simp)
      rw [this] at hfail
      cases hfail
    · have hall' : before ++ ev :: after = init ++ [last] := by rw [← hall, hev]
      obtain ⟨hb, hl, ha⟩ := failing_is_last hall' hinit hfail
      subst hl
      rw [hlast] at hfail
      cases hfail
      refine ⟨by rw [hb]; exact hinit, ha, ?_⟩
      show some e₀ = _
      rw [← he₀, hres, hglob before (fun x hx => by rw [hall]; simp [hx])]

/-- C14, as stated, fails: against a client on which `AddProject` fails with
an error `e` whose dynamic type is not comparable,
`Import` without `keepGoing` returns `e` wrapped under `"couldn't add Project"`,
and `errors.Is` of the returned error and `e` is false, since `errors.Is`
compares nothing with a target that is not comparable. -/
theorem C14_counterexample :
    (Import sliceErrorClient smallConfig false 3).2.trace =
      [⟨Call.AddProject ⟨"app", "git@example.com:app.git", 3⟩, ⟨some sliceError, none⟩⟩] ∧
    (Import sliceErrorClient smallConfig false 3).1 =
      some (GoError.wrapError "couldn't add Project: graphql: Unauthorized" sliceError) ∧
    errorsIs (Import sliceErrorClient smallConfig false 3).1 sliceError = false := by
  decide

/-- C14, amended: with `keepGoing = false`, when a client call of the run fails
with the error `e` (it is then the first and the only failing call, and the
last call of the run), `Import` returns the error `r = fmt.Errorf(ctx + ": %w", e)`
for the context `ctx` that the call has in its phase (before the projects or
in a project) and for the kind of `e` (a conflict or not): unwrapping `r` gives
`e`, the message of `r` is `ctx`, then `": "`, then the message of `e`, and
`errors.Is(r, e)` holds exactly when the dynamic type of `e` is comparable. -/
theorem C14_error_wraps_first_failure (i : Importer) (config : Config) (openshiftID : Nat)
    (before after : List Event) (ev : Event) (e : GoError)
    (htrace : (Import i config false openshiftID).2.trace = before ++ ev :: after)
    (hfail : ev.resp.err = some e) :
    (∀ ev' ∈ before, ev'.resp.err = none) ∧ after = [] ∧
    ∃ r, (Import i config false openshiftID).1 = some r ∧
      r = Errorf (phaseContext (inProjects before) ev.call (e.Is ErrExist)) e ∧
      r.Unwrap = some e ∧
      r.Error = phaseContext (inProjects before) ev.call (e.Is ErrExist) ++ ": " ++ e.Error ∧
      r.Is e = e.comparable := by
  obtain ⟨hbefore, hafter, hres⟩ :=
    Import_wraps_failure i config openshiftID before after ev e htrace hfail
  refine ⟨hbefore, hafter, _, hres, rfl, rfl, rfl, ?_⟩
  show ((e.comparable && decide (Errorf _ e = e)) || e.Is e) = e.comparable
  rw [Is_self]
  cases e.comparable <;> simp

/-- C14 on the small configuration, against a client that rejects the
creation of the project: the error returned wraps the error of the transport
under the context `"couldn't add Project"`. -/
theorem C14_error_wraps_first_failure_witness :
    (Import rejectingClient smallConfig false 3).2.trace =
      [] ++ (⟨Call.AddProject ⟨"app", "git@example.com:app.git", 3⟩,
        ⟨some transportError, none⟩⟩ : Event) :: [] ∧
    (Import rejectingClient smallConfig false 3).1 =
      some (GoError.wrapError "couldn't add Project: graphql: Unauthorized" transportError) ∧
    ∃ r, (Import rejectingClient smallConfig false 3).1 = some r ∧
      r = Errorf (phaseContext (inProjects [])
        (Call.AddProject ⟨"app", "git@example.com:app.git", 3⟩)
        (transportError.Is ErrExist)) transportError ∧
      r.Unwrap = some transportError ∧
      r.Error = phaseContext (inProjects [])
        (Call.AddProject ⟨"app", "git@example.com:app.git", 3⟩)
        (transportError.Is ErrExist) ++ ": " ++ transportError.Error ∧
      r.Is transportError = transportError.comparable :=
  ⟨by decide, by decide,
    (C14_error_wraps_first_failure rejectingClient smallConfig 3 [] []
      ⟨Call.AddProject ⟨"app", "git@example.com:app.git", 3⟩, ⟨some transportError, none⟩⟩
      transportError (by decide) rfl).2.2⟩

/-- The two contexts of a failing membership, without `keepGoing`: the one of
the groups before the projects, and the one of the users of a project. -/
theorem membership_contexts_returned :
    (Import membershipFailingClient groupConfig false 3).1 =
      some (GoError.wrapError "couldn't add user to group: graphql: Unauthorized"
        transportError) ∧
    (Import membershipFailingClient teamConfig false 3).1 =
      some (GoError.wrapError "couldn't add user to project group: graphql: Unauthorized"
        transportError) := by
  decide

/-- The two contexts of a failing membership, with `keepGoing`: nothing is
returned and the failure is logged. -/
theorem membership_contexts_logged :
    Import membershipFailingClient groupConfig true 3 =
      (none,
        ⟨[⟨Call.AddGroup ⟨"devs"⟩, ⟨none, none⟩⟩,
          ⟨Call.AddUserToGroup ⟨"ann@example.com", "devs", "owner"⟩,
            ⟨some transportError, none⟩⟩],
         ["import: couldn't add user to group: graphql: Unauthorized"], 0⟩) ∧
    Import membershipFailingClient teamConfig true 3 =
      (none,
        ⟨[⟨Call.AddProject ⟨"team", "git@example.com:team.git", 3⟩, ⟨none, some 7⟩⟩,
          ⟨Call.AddUserToGroup ⟨"ann@example.com", "project-team", "owner"⟩,
            ⟨some transportError, none⟩⟩],
         ["import: couldn't add user to project group: graphql: Unauthorized"], 7⟩) := by
  decide

/-! ## C16: where a conflict is resolved -/

theorem logs_skip (g : Bool) : LogsFailures g skip :=
  fun s => ⟨[], [], by simp [skip], by simp [skip], by simp⟩

theorem logs_return (g : Bool) (e : GoError) : LogsFailures g (fun s => (some e, s)) :=
  fun s => ⟨[], [], by simp, by simp, by simp⟩

theorem logs_andThen {g : Bool} {b₁ b₂ : Block} (h₁ : LogsFailures g b₁)
    (h₂ : LogsFailures g b₂) : LogsFailures g (andThen b₁ b₂) := by
  intro s
  obtain ⟨evs₁, lines₁, ht₁, hl₁, hc₁⟩ := h₁ s
  rcases andThen_cases b₁ b₂ s with ⟨_, heq⟩ | ⟨e, _, heq⟩
  · obtain ⟨evs₂, lines₂, ht₂, hl₂, hc₂⟩ := h₂ (b₁ s).2
    refine ⟨evs₁ ++ evs₂, lines₁ ++ lines₂, by rw [heq, ht₂, ht₁, List.append_assoc],
      by rw [heq, hl₂, hl₁, List.append_assoc], ?_⟩
    intro ev hev e hother hfail
    rcases List.mem_append.1 hev with h | h
    · exact List.mem_append_left _ (hc₁ ev h e hother hfail)
    · exact List.mem_append_right _ (hc₂ ev h e hother hfail)
  · exact ⟨evs₁, lines₁, by rw [heq]; exact ht₁, by rw [heq]; exact hl₁, hc₁⟩

theorem logs_forEach {g : Bool} {α : Type} {body : α → Block}
    (h : ∀ x, LogsFailures g (body x)) : ∀ xs : List α, LogsFailures g (forEach xs body)
  | [] => logs_skip g
  | x :: xs => by
    rw [forEach_cons]
    exact logs_andThen (h x) (logs_forEach h xs)

theorem logs_seq {g : Bool} :
    ∀ bs : List Block, (∀ b ∈ bs, LogsFailures g b) → LogsFailures g (seq bs)
  | [], _ => logs_skip g
  | b :: bs, h => by
    rw [seq_cons]
    exact logs_andThen (h b (List.mem_cons_self _ _))
      (logs_seq bs (fun y hy => h y (List.mem_cons_of_mem _ hy)))

theorem logs_ite {g : Bool} {c : Prop} [Decidable c] {b₁ b₂ : Block}
    (h₁ : LogsFailures g b₁) (h₂ : LogsFailures g b₂) :
    LogsFailures g (if c then b₁ else b₂) := by
  by_cases h : c
  · simpa [h] using h₁
  · simpa [h] using h₂

/-- An `attempt` with `keepGoing`, whose call may be computed from the state. -/
theorem logs_attempt (g : Bool) (i : Importer) (c : St → Call) (ctx : String)
    (hctx : ∀ s, ctx = phaseContext g (c s) false) :
    LogsFailures g (fun s => attempt i true (c s) ctx s) := by
  intro s
  show ∃ evs lines, (attempt i true (c s) ctx s).2.trace = s.trace ++ evs ∧
    (attempt i true (c s) ctx s).2.log = s.log ++ lines ∧ _
  rw [attempt_apply]
  cases h : (i.respond s.trace (c s)).err with
  | none =>
    refine ⟨[⟨c s, i.respond s.trace (c s)⟩], [], rfl, by simp, ?_⟩
    intro ev hev e _ hfail
    rw [List.mem_singleton.1 hev] at hfail
    rw [h] at hfail
    cases hfail
  | some err =>
    refine ⟨[⟨c s, i.respond s.trace (c s)⟩],
      ["import: " ++ (ctx ++ ": " ++ err.Error)], rfl, rfl, ?_⟩
    intro ev hev e _ hfail
    rw [List.mem_singleton.1 hev] at hfail ⊢
    rw [h] at hfail
    cases hfail
    rw [← hctx s]
    exact List.mem_singleton.2 rfl

theorem logs_attempt_const (g : Bool) (i : Importer) (c : Call) (ctx : String)
    (hctx : ctx = phaseContext g c false) :
    LogsFailures g (attempt i true c ctx) :=
  logs_attempt g i (fun _ => c) ctx (fun _ => hctx)

/-- A block run after calls that resolve an identifier, and after lines logged
for them. -/
theorem logs_after {g : Bool} {b : Block} (hb : LogsFailures g b) (s₁ : St)
    (trace : List Event) (log : List String)
    (ht : ∃ pre, s₁.trace = trace ++ pre ∧ ∀ ev ∈ pre, ev.call.isResolving = true)
    (hl : ∃ l, s₁.log = log ++ l) :
    ∃ evs lines, (b s₁).2.trace = trace ++ evs ∧ (b s₁).2.log = log ++ lines ∧
      ∀ ev ∈ evs, ∀ e, ev.call.isResolving = false → ev.resp.err = some e →
        ("import: " ++ (phaseContext g ev.call false ++ ": " ++ e.Error)) ∈ lines := by
  obtain ⟨pre, ht, hpre⟩ := ht
  obtain ⟨l, hl⟩ := hl
  obtain ⟨evs, lines, ht₁, hl₁, hc⟩ := hb s₁
  refine ⟨pre ++ evs, l ++ lines, by rw [ht₁, ht, List.append_assoc],
    by rw [hl₁, hl, List.append_assoc], ?_⟩
  intro ev hev e hother hfail
  rcases List.mem_append.1 hev with h | h
  · rw [hpre ev h] at hother
    cases hother
  · exact List.mem_append_right _ (hc ev h e hother hfail)

theorem logs_addEnvironmentEnvVars (i : Importer) (env : EnvironmentConfig) (m : Nat) :
    LogsFailures true (addEnvironmentEnvVars i true env m) :=
  logs_forEach (fun _ => logs_attempt_const true i _ _ rfl) _

theorem logs_importEnvironment (i : Importer) (p : ProjectConfig) (env : EnvironmentConfig) :
    LogsFailures true (importEnvironment i true p env) := by
  intro s
  simp only [importEnvironment, St.invoke, St.printf]
  cases h₁ : (i.respond s.trace (Call.AddOrUpdateEnvironment
      { env.Environment.AddEnvironmentInput with ProjectID := s.newProj })).err with
  | none =>
    apply logs_after (logs_addEnvironmentEnvVars i env _)
    · refine ⟨_, rfl, ?_⟩
      simp [Call.isResolving, Call.isAddOrUpdateEnvironment]
    · exact ⟨[], (List.append_nil _).symm⟩
  | some err =>
    by_cases his : err.Is ErrExist = true
    · simp only [his, if_true, Bool.not_true, Bool.false_eq_true, if_false]
      cases h₂ : (i.respond (s.trace ++ [⟨Call.AddOrUpdateEnvironment
          { env.Environment.AddEnvironmentInput with ProjectID := s.newProj }, _⟩])
          (Call.EnvironmentByName env.Environment.AddEnvironmentInput.Name s.newProj)).err with
      | none =>
        apply logs_after (logs_addEnvironmentEnvVars i env _)
        · refine ⟨_, List.append_assoc _ _ _, ?_⟩
          simp [Call.isResolving, Call.isAddOrUpdateEnvironment, Call.isEnvironmentByName]
        · exact ⟨_, rfl⟩
      | some err₂ =>
        refine ⟨_, _, List.append_assoc _ _ _, rfl, ?_⟩
        intro ev hev e hother
        simp only [List.singleton_append, List.mem_cons, List.mem_singleton,
          List.not_mem_nil, or_false] at hev
        rcases hev with rfl | rfl <;> cases hother
    · simp only [his, Bool.false_eq_true, if_false, Bool.not_true]
      refine ⟨_, _, rfl, rfl, ?_⟩
      intro ev hev e hother
      rw [List.mem_singleton.1 hev] at hother
      cases hother

theorem logs_addProjectAssociations (i : Importer) (p : ProjectConfig) :
    LogsFailures true (addProjectAssociations i true p) := by
  apply logs_seq
  intro b hb
  simp only [List.mem_cons, List.mem_singleton, List.not_mem_nil, or_false] at hb
  rcases hb with rfl | rfl | rfl | rfl | rfl
  · exact logs_ite (logs_attempt_const true i _ _ rfl) (logs_skip true)
  · exact logs_ite (logs_return true _) (logs_skip true)
  · exact logs_forEach (fun _ => logs_attempt_const true i _ _ rfl) _
  · exact logs_forEach (fun _ => logs_attempt_const true i _ _ rfl) _
  · cases p.Notifications with
    | none => exact logs_skip true
    | some ns =>
      apply logs_seq
      intro b hb
      simp only [List.mem_cons, List.mem_singleton, List.not_mem_nil, or_false] at hb
      rcases hb with rfl | rfl
      · exact logs_forEach (fun _ => logs_attempt_const true i _ _ rfl) _
      · exact logs_forEach (fun _ => logs_attempt_const true i _ _ rfl) _

theorem logs_importProjectSteps (i : Importer) (p : ProjectConfig) :
    LogsFailures true (importProjectSteps i true p) := by
  apply logs_seq
  intro b hb
  simp only [List.mem_cons, List.mem_singleton, List.not_mem_nil, or_false] at hb
  rcases hb with rfl | rfl | rfl
  · exact logs_forEach (fun ev => logs_attempt true i
      (fun s => Call.AddEnvVariable ⟨ev, EnvVariableType.ProjectVar, s.newProj⟩)
      "couldn't add Project EnvVariable" (fun _ => rfl)) _
  · exact logs_forEach (fun env => logs_importEnvironment i p env) _
  · exact logs_addProjectAssociations i p

theorem logs_importProject (i : Importer) (openshiftID : Nat) (p : ProjectConfig) :
    LogsFailures true (importProject i true openshiftID p) := by
  intro s
  simp only [importProject, St.invokeProj, St.printf]
  cases h₁ : (i.respond s.trace
      (Call.AddProject (p.withOpenshift openshiftID).AddProjectInput)).err with
  | none =>
    apply logs_after (logs_importProjectSteps i _)
    · refine ⟨_, rfl, ?_⟩
      simp [Call.isResolving, Call.isAddProject]
    · exact ⟨[], (List.append_nil _).symm⟩
  | some err =>
    by_cases his : err.Is ErrExist = true
    · simp only [his, if_true, Bool.not_true, Bool.false_eq_true, if_false]
      cases h₂ : (i.respond (s.trace ++
          [⟨Call.AddProject (p.withOpenshift openshiftID).AddProjectInput, _⟩])
          (Call.ProjectByName (p.withOpenshift openshiftID).AddProjectInput.Name)).err with
      | none =>
        apply logs_after (logs_importProjectSteps i _)
        · refine ⟨_, List.append_assoc _ _ _, ?_⟩
          simp [Call.isResolving, Call.isAddProject, Call.isProjectByName]
        · exact ⟨_, rfl⟩
      | some err₂ =>
        refine ⟨_, [], List.append_assoc _ _ _, (List.append_nil _).symm, ?_⟩
        intro ev hev e hother
        simp only [List.singleton_append, List.mem_cons, List.mem_singleton,
          List.not_mem_nil, or_false] at hev
        rcases hev with rfl | rfl <;> cases hother
    · simp only [his, Bool.false_eq_true, if_false, Bool.not_true]
      refine ⟨_, _, rfl, rfl, ?_⟩
      intro ev hev e hother
      rw [List.mem_singleton.1 hev] at hother
      cases hother

theorem logs_importGlobals (i : Importer) (config : Config) :
    LogsFailures false (importGlobals i true config) := by
  apply logs_seq
  intro b hb
  simp only [List.mem_cons, List.mem_singleton, List.not_mem_nil, or_false] at hb
  rcases hb with rfl | rfl | rfl | rfl | rfl | rfl
  · exact logs_forEach (fun _ => logs_attempt_const false i _ _ rfl) _
  · exact logs_forEach (fun _ => logs_attempt_const false i _ _ rfl) _
  · exact logs_forEach (fun _ => logs_attempt_const false i _ _ rfl) _
  · exact logs_forEach (fun _ => logs_forEach (fun _ => logs_attempt_const false i _ _ rfl) _) _
  · exact logs_forEach (fun _ => logs_forEach (fun _ => logs_attempt_const false i _ _ rfl) _) _
  · cases config.Notifications with
    | none => exact logs_skip false
    | some ns =>
      apply logs_seq
      intro b hb
      simp only [List.mem_cons, List.mem_singleton, List.not_mem_nil, or_false] at hb
      rcases hb with rfl | rfl
      · exact logs_forEach (fun _ => logs_attempt_const false i _ _ rfl) _
      · exact logs_forEach (fun _ => logs_attempt_const false i _ _ rfl) _

/-- A call that resolves no identifier is not the creation of a project. -/
theorem not_start_of_not_resolving {c : Call} (h : c.isResolving = false) :
    c.isAddProject = false := by
  cases c <;> first | rfl | cases h

/-- With `keepGoing`, the failure of a call that resolves no identifier is
logged under the context of the call in its phase. -/
theorem Import_logs_failure (i : Importer) (config : Config) (openshiftID : Nat)
    (before after : List Event) (ev : Event) (e : GoError)
    (htrace : (Import i config true openshiftID).2.trace = before ++ ev :: after)
    (hother : ev.call.isResolving = false) (hfail : ev.resp.err = some e) :
    ("import: " ++ (phaseContext (inProjects before) ev.call false ++ ": " ++ e.Error)) ∈
      (Import i config true openshiftID).2.log := by
  obtain ⟨evs₀, ht₀, _, hg, _⟩ := sat_importGlobals i true config St.init
  obtain ⟨evs₁, lines₁, ht₁, hl₁, hc₁⟩ := logs_importGlobals i config St.init
  have h01 : evs₀ = evs₁ := List.append_cancel_left (ht₀.symm.trans ht₁)
  subst h01
  have hglob : ∀ l : List Event, (∀ x ∈ l, x ∈ evs₀) → inProjects l = false := by
    intro l hl
    simp only [inProjects, List.any_eq_false]
    intro x hx
    simpa using isGlobal_not_start (hg x (hl x hx)).1
  rw [Import_eq] at htrace ⊢
  rcases andThen_cases (importGlobals i true config)
    (forEach config.Projects (importProject i true openshiftID)) St.init
    with ⟨_, heq⟩ | ⟨e₀, _, heq⟩
  · obtain ⟨evs₂, lines₂, ht₂, hl₂, hc₂⟩ :=
      logs_forEach (fun p => logs_importProject i openshiftID p)
        config.Projects (importGlobals i true config St.init).2
    obtain ⟨evs₃, ht₃, hstart⟩ := startsWithProject_projects i true openshiftID
      config.Projects (importGlobals i true config St.init).2
    have h23 : evs₃ = evs₂ := List.append_cancel_left (ht₃.symm.trans ht₂)
    subst h23
    rw [heq] at htrace ⊢
    rw [hl₂, hl₁]
    have hall : evs₀ ++ evs₃ = before ++ ev :: after := by
      rw [ht₂, ht₁] at htrace
      simpa [St.init] using htrace
    rcases List.append_eq_append_iff.1 hall with ⟨a, ha, hb⟩ | ⟨c, hc, hd⟩
    · -- the call is one of the loop over the projects
      have hmem : ev ∈ evs₃ := by rw [hb]; simp
      have hline := hc₂ ev hmem e hother hfail
      have hin : inProjects before = true := by
        rcases hstart with hnil | ⟨ev₀, rest, hcons, hproj⟩
        · rw [hnil] at hmem
          cases hmem
        · cases a with
          | nil =>
            rw [hcons] at hb
            simp only [List.nil_append, List.cons.injEq] at hb
            rw [hb.1, not_start_of_not_resolving hother] at hproj
            cases hproj
          | cons x a =>
            rw [hcons] at hb
            simp only [List.cons_append, List.cons.injEq] at hb
            rw [ha, ← hb.1]
            simp [inProjects, hproj]
      rw [hin]
      exact List.mem_append_right _ hline
    · cases c with
      | nil =>
        -- the call is the first of the loop over the projects
        simp only [List.nil_append] at hd
        have hmem : ev ∈ evs₃ := by rw [← hd]; simp
        rcases hstart with hnil | ⟨ev₀, rest, hcons, hproj⟩
        · rw [hnil] at hmem
          cases hmem
        · rw [hcons] at hd
          simp only [List.cons.injEq] at hd
          rw [← hd.1, not_start_of_not_resolving hother] at hproj
          cases hproj
      | cons x c =>
        -- the call is one of the phases before the projects
        simp only [List.cons_append, List.cons.injEq] at hd
        have hmem : ev ∈ evs₀ := by rw [hc, hd.1]; simp
        have hline := hc₁ ev hmem e hother hfail
        rw [hglob before (fun y hy => by rw [hc]; simp [hy])]
        simp only [St.init, List.nil_append]
        exact List.mem_append_left _ hline
  · rw [heq] at htrace ⊢
    have hall : evs₀ = before ++ ev :: after := by
      have : (importGlobals i true config St.init).2.trace = before ++ ev :: after := htrace
      rw [ht₁] at this
      simpa [St.init] using this
    have hline := hc₁ ev (by rw [hall]; simp) e hother hfail
    rw [hglob before (fun y hy => by rw [hall]; simp [hy])]
    show _ ∈ (importGlobals i true config St.init).2.log
    rw [hl₁]
    exact List.mem_append_right _ hline

/-- A call that precedes a lookup is a creation. -/
theorem lfc_before_lookup {evs : List Event} (h : LookupsFollowConflicts evs)
    (before after : List Event) (ev next : Event)
    (hevs : evs = before ++ ev :: next :: after) (hl : next.call.isLookup = true) :
    ev.call.isResolving = true := by
  obtain ⟨pre', ev', hpre, _, hpair⟩ := h (before ++ [ev]) next after
    (by rw [hevs]; simp) hl
  have hev : ev = ev' := by
    have := congrArg List.getLast? hpre
    simpa using this
  subst hev
  rcases hpair with ⟨_, h'⟩ | ⟨_, h'⟩
  · simp [Call.isResolving, h']
  · simp [Call.isResolving, h']

/-- The context of a call that resolves no identifier does not depend on the
kind of its error. -/
theorem phaseContext_other {c : Call} (h : c.isResolving = false) (g b : Bool) :
    phaseContext g c b = phaseContext g c false := by
  cases c <;> first | rfl | cases h

/-- What `wrapErr` returns for a duplicate entry wraps the marker and is not
the response error. -/
theorem wrapErr_duplicate_marker (e : GoError) (hdup : duplicate e.Error = true) :
    errorsIs (wrapErr (some e)) lagoonErrExist = true ∧ wrapErr (some e) ≠ some e := by
  rw [wrapErr_of_duplicate e hdup]
  refine ⟨?_, ?_⟩
  · simp [errorsIs, GoError.Is, GoError.comparable, lagoonErrExist, ErrExist]
  · intro heq
    have hlen := congrArg (fun g => (g.map (fun x => x.Error.length))) heq
    simp [GoError.Error] at hlen
    exact absurd hlen.1.1 (by decide)

/-- C16: conflict resolution is attempted for `AddProject` and
`AddOrUpdateEnvironment` only.  In `Import`, for a call `ev` of any other
operation than these two and their lookups, made after the calls `before`:
without `keepGoing`, when `ev` fails with an error `e`, wrapping `ErrExist` or
not, it is the last call and `Import` returns `e` wrapped under the context
that the operation has in its phase for an error that is no conflict; with
`keepGoing`, when `ev` fails with an error `e`, wrapping `ErrExist` or not,
the logger has the line made of that same context, `": "` and the message of
`e`; with or without `keepGoing`, the call that follows `ev`, if any, is no
lookup; and with `keepGoing`, a client that answers `AddProject`,
`ProjectByName`, `AddOrUpdateEnvironment` and `EnvironmentByName` alike and the
other operations in any other way (with errors that wrap `ErrExist` or do not,
or with none) gives the same calls and the same result.  In the client, the
methods `AddProject` and `AddOrUpdateEnvironment` return the response error
passed through `wrapErr`; each of the thirteen other methods returns it
unchanged, also when its message begins with `"graphql: Duplicate entry "`. -/
theorem C16_conflicts_resolved_for_creations_only (i : Importer) (config : Config)
    (openshiftID : Nat) (t : Transport) :
    (∀ (before after : List Event) (ev : Event) (e : GoError),
      (Import i config false openshiftID).2.trace = before ++ ev :: after →
      ev.call.isResolving = false → ev.resp.err = some e →
      after = [] ∧
      (Import i config false openshiftID).1 =
        some (Errorf (phaseContext (inProjects before) ev.call false) e)) ∧
    (∀ (before after : List Event) (ev : Event) (e : GoError),
      (Import i config true openshiftID).2.trace = before ++ ev :: after →
      ev.call.isResolving = false → ev.resp.err = some e →
      ("import: " ++ (phaseContext (inProjects before) ev.call false ++ ": " ++ e.Error)) ∈
        (Import i config true openshiftID).2.log) ∧
    (∀ (keepGoing : Bool) (before after : List Event) (ev next : Event),
      (Import i config keepGoing openshiftID).2.trace = before ++ ev :: next :: after →
      ev.call.isResolving = false → next.call.isLookup = false) ∧
    (∀ i₂ : Importer, AgreeOnResolving i i₂ →
      (Import i config true openshiftID).2.trace.map (fun ev => ev.call) =
        (Import i₂ config true openshiftID).2.trace.map (fun ev => ev.call) ∧
      (Import i config true openshiftID).1 = (Import i₂ config true openshiftID).1) ∧
    ((∀ inp, ReturnsWrapped t "_lgraphql/addProject.graphql" inp
        (Client.AddProject t inp)) ∧
     (∀ inp, ReturnsWrapped t "_lgraphql/addOrUpdateEnvironment.graphql" inp
        (Client.AddOrUpdateEnvironment t inp)) ∧
     (∀ inp, ReturnsUnchanged t "_lgraphql/addGroup.graphql" inp
        (Client.AddGroup t inp)) ∧
     (∀ inp, ReturnsUnchanged t "_lgraphql/addUser.graphql" inp
        (Client.AddUser t inp)) ∧
     (∀ inp, ReturnsUnchanged t "_lgraphql/addSshKey.graphql" inp
        (Client.AddSSHKey t inp)) ∧
     (∀ inp, ReturnsUnchanged t "_lgraphql/addUserToGroup.graphql" inp
        (Client.AddUserToGroup t inp)) ∧
     (∀ inp, ReturnsUnchanged t "_lgraphql/addNotificationSlack.graphql" inp
        (Client.AddNotificationSlack t inp)) ∧
     (∀ inp, ReturnsUnchanged t "_lgraphql/addNotificationRocketChat.graphql" inp
        (Client.AddNotificationRocketChat t inp)) ∧
     (∀ inp, ReturnsUnchanged t "_lgraphql/addNotificationEmail.graphql" inp
        (Client.AddNotificationEmail t inp)) ∧
     (∀ inp, ReturnsUnchanged t "_lgraphql/addNotificationMicrosoftTeams.graphql" inp
        (Client.AddNotificationMicrosoftTeams t inp)) ∧
     (∀ inp, ReturnsUnchanged t "_lgraphql/addEnvVariable.graphql" inp
        (Client.AddEnvVariable t inp)) ∧
     (∀ inp, ReturnsUnchanged t "_lgraphql/addGroupsToProject.graphql" inp
        (Client.AddGroupsToProject t inp)) ∧
     (∀ inp, ReturnsUnchanged t "_lgraphql/addNotificationToProject.graphql" inp
        (Client.AddNotificationToProject t inp)) ∧
     (∀ inp, ReturnsUnchanged t "_lgraphql/addBillingGroup.graphql" inp
        (Client.AddBillingGroup t inp)) ∧
     (∀ inp, ReturnsUnchanged t "_lgraphql/addProjectToBillingGroup.graphql" inp
        (Client.AddProjectToBillingGroup t inp))) ∧
    (∀ (In : Type) (query : String) (inp : In) (req : t.Request) (result : Option GoError)
        (e : GoError),
      t.newRequest query inp = Except.ok req → t.Run req = some e →
      duplicate e.Error = true →
      (ReturnsUnchanged t query inp result → result = some e) ∧
      (ReturnsWrapped t query inp result →
        errorsIs result lagoonErrExist = true ∧ result ≠ some e)) := by
  refine ⟨?_, ?_, ?_, ?_, ?_, ?_⟩
  · intro before after ev e htrace hother hfail
    obtain ⟨_, hafter, hres⟩ :=
      Import_wraps_failure i config openshiftID before after ev e htrace hfail
    rw [phaseContext_other hother] at hres
    exact ⟨hafter, hres⟩
  · intro before after ev e htrace hother hfail
    exact Import_logs_failure i config openshiftID before after ev e htrace hother hfail
  · intro keepGoing before after ev next htrace hother
    cases hl : next.call.isLookup with
    | false => rfl
    | true =>
      have := lfc_before_lookup (Import_lfc i config keepGoing openshiftID) before after ev
        next htrace hl
      rw [hother] at this
      cases this
  · intro i₂ hagree
    obtain ⟨h₁, h₂⟩ := Import_sim i i₂ hagree config openshiftID
    exact ⟨sameResolving_calls h₁, h₂⟩
  · refine ⟨?_, ?_, ?_, ?_, ?_, ?_, ?_, ?_, ?_, ?_, ?_, ?_, ?_, ?_, ?_⟩ <;> intro inp
    · exact ⟨fun err h => by simp only [Client.AddProject, h],
        fun req h => by simp only [Client.AddProject, h]⟩
    · exact ⟨fun err h => by simp only [Client.AddOrUpdateEnvironment, h],
        fun req h => by simp only [Client.AddOrUpdateEnvironment, h]⟩
    · exact ⟨fun err h => by simp only [Client.AddGroup, h],
        fun req h => by simp only [Client.AddGroup, h]⟩
    · exact ⟨fun err h => by simp only [Client.AddUser, h],
        fun req h => by simp only [Client.AddUser, h]⟩
    · exact ⟨fun err h => by simp only [Client.AddSSHKey, h],
        fun req h => by simp only [Client.AddSSHKey, h]⟩
    · exact ⟨fun err h => by simp only [Client.AddUserToGroup, h],
        fun req h => by simp only [Client.AddUserToGroup, h]⟩
    · exact ⟨fun err h => by simp only [Client.AddNotificationSlack, h],
        fun req h => by simp only [Client.AddNotificationSlack, h]⟩
    · exact ⟨fun err h => by simp only [Client.AddNotificationRocketChat, h],
        fun req h => by simp only [Client.AddNotificationRocketChat, h]⟩
    · exact ⟨fun err h => by simp only [Client.AddNotificationEmail, h],
        fun req h => by simp only [Client.AddNotificationEmail, h]⟩
    · exact ⟨fun err h => by simp only [Client.AddNotificationMicrosoftTeams, h],
        fun req h => by simp only [Client.AddNotificationMicrosoftTeams, h]⟩
    · exact ⟨fun err h => by simp only [Client.AddEnvVariable, h],
        fun req h => by simp only [Client.AddEnvVariable, h]⟩
    · exact ⟨fun err h => by simp only [Client.AddGroupsToProject, h],
        fun req h => by simp only [Client.AddGroupsToProject, h]⟩
    · exact ⟨fun err h => by simp only [Client.AddNotificationToProject, h],
        fun req h => by simp only [Client.AddNotificationToProject, h]⟩
    · exact ⟨fun err h => by simp only [Client.AddBillingGroup, h],
        fun req h => by simp only [Client.AddBillingGroup, h]⟩
    · exact ⟨fun err h => by simp only [Client.AddProjectToBillingGroup, h],
        fun req h => by simp only [Client.AddProjectToBillingGroup, h]⟩
  · intro In query inp req result e hreq hrun hdup
    refine ⟨fun h => by rw [h.2 req hreq, hrun], fun h => ?_⟩
    rw [h.2 req hreq, hrun]
    exact wrapErr_duplicate_marker e hdup

end Lagoon
